import Mathlib

/-!
# NVMain memory controller: scheduling, command queues and refresh

A shallow embedding of `src/MemoryController.cpp`, and of the setters of
`src/TranslationMethod.cpp` (section TranslationMethod, with its own
conventions).

* C++ objects reached through pointers are values; a function that mutates
  its arguments in place returns the new values beside its result. The
  entries of a queue are distinct objects.
* The per-rank/bank/sub-array arrays are total functions of their indices;
  the indices a request carries are those its decoded address gives. An array
  that `SetConfig` allocates and fills is the constant function of the value
  it is filled with.
* `ncounter_t` and `ncycle_t` are `uint64_t`; they are embedded in `Nat`, with
  an explicit `% 2 ^ 64` where the source does arithmetic that can wrap: the
  increments and the decrement of the starvation and delayed-refresh counters
  and the cycle difference of the deadlock watchdog. Sums of indices that the
  geometry bounds (`curRank + 1`, `nextRefreshBank + BanksPerRefresh`, the
  scan positions) and sums of cycle numbers are taken in `Nat`: they stay far
  below `2 ^ 64` for every geometry and run length the simulator can hold.
  For the same reason a run processes fewer than `2 ^ 64` refresh pulses: a
  pulse is re-armed `tREFI` cycles after it is processed.
* `a / b` and `a % b` are those of natural numbers; a zero divisor
  (`RBSize`, `BanksPerRefresh`, `RANKS`, `BANKS`) is outside the defined
  behaviour of the source.
* `assert` is fatal: a call that trips an assertion yields `none`. The
  `exit( 1 )` of the deadlock watchdog is an outcome of its own
  (`CycleOutcome.fatal`), and so is a step whose effect the language leaves
  undefined (`FindAllOutcome.undefinedAfterErase`).
* A `for` loop without `return` is a fold over the values of its counter
  (`forLoop`); a loop that can `return` is a recursion over the values that
  remain.
* Scheduling predicates are pure functions of the request they are asked
  about, and so are the answers of the downstream between two calls on it. A
  call on the downstream (`IssueCommand`, `PowerDown`, `PowerUp`) is recorded
  in `childLog` and may change every answer from then on (`childReaction`).
  An event handed to the event queue is appended to `eventQueue`.
* A function whose body calls itself unconditionally takes the depth of the
  nested calls as fuel and yields `none` when no call has returned within it
  (`FindStarvedRequests.withoutPred`).
* A scenario of the specification is run by composing the embedded functions
  (`drain`, `issueAll`, `hitFirstRun`); its setting is a predicate on the
  controller (`HitScenario`).
* What the controller reads from its collaborators (event queue, decoder,
  downstream child) and from headers that are not part of the sources is
  carried as fields of the controller record, so every theorem holds for
  all their values.
-/

set_option autoImplicit false

namespace NVM

/-- Width in bits of `ncounter_t`, which is `uint64_t`. -/
def ncounterBits : Nat := 64

/-- Operation types of a request (the `OpType` enumeration). -/
inductive OpType where
  | NOP
  | ACTIVATE
  | READ
  | READ_PRECHARGE
  | WRITE
  | WRITE_PRECHARGE
  | PRECHARGE
  | PRECHARGE_ALL
  | POWERDOWN_PDA
  | POWERDOWN_PDPF
  | POWERDOWN_PDPS
  | POWERUP
  | REFRESH
  deriving DecidableEq, Repr

/-- Who destroys a request on completion: `owner == this` or somebody else. -/
inductive Owner where
  | controller
  | host
  deriving DecidableEq, Repr

/-- An address: the translated tuple and the flat physical address. -/
structure NVMAddress where
  row : Nat
  col : Nat
  bank : Nat
  rank : Nat
  channel : Nat
  subarray : Nat
  physicalAddress : Nat
  deriving DecidableEq, Repr

/-- The call `SetTranslatedAddress( row, col, bank, rank, channel, subarray )`. -/
def NVMAddress.SetTranslatedAddress (a : NVMAddress)
    (row col bank rank channel subarray : Nat) : NVMAddress :=
  { a with row := row, col := col, bank := bank, rank := rank,
           channel := channel, subarray := subarray }

/-- The call `SetPhysicalAddress( addr )`. -/
def NVMAddress.SetPhysicalAddress (a : NVMAddress) (addr : Nat) : NVMAddress :=
  { a with physicalAddress := addr }

/-- A request (`NVMainRequest`). -/
structure NVMainRequest where
  type : OpType
  address : NVMAddress
  arrivalCycle : Nat
  issueCycle : Nat
  owner : Owner
  flags : Nat
  deriving DecidableEq, Repr

/-- The configuration values `p->...` that the controller reads. -/
structure Params where
  RANKS : Nat
  BANKS : Nat
  ROWS : Nat
  COLS : Nat
  MATHeight : Nat
  RBSize : Nat
  ClosePage : Nat
  ScheduleScheme : Nat
  DeadlockTimer : Nat
  UseRefresh : Bool
  BanksPerRefresh : Nat
  tREFW : Nat
  RefreshRows : Nat
  DelayedRefreshThreshold : Nat
  UseLowPower : Bool
  InitPD : Bool
  PowerDownMode : String
  WritePausing : Bool

/-- A call by which the controller changes the downstream:
`GetChild( )->IssueCommand( cmd )`, `PowerDown( op, rank )` or `PowerUp( rank )`. -/
inductive ChildCall where
  | IssueCommand (cmd : NVMainRequest)
  | PowerDown (op : OpType) (rank : Nat)
  | PowerUp (rank : Nat)
  deriving DecidableEq, Repr

/-- What the downstream answers in one of its states. -/
structure ChildAnswers where
  IsIssuable : NVMainRequest → Bool
  isWriting : NVMainRequest → Bool
  IsRankIdle : Nat → Bool
  CanPowerDown : OpType → Nat → Bool
  CanPowerUp : Nat → Bool

/-- An event `InsertEvent( EventResponse, this, request, cycle )` left in the
event queue. -/
structure Event where
  cycle : Nat
  request : NVMainRequest
  deriving DecidableEq, Repr

/-- The controller's members, followed by what it reads from outside. -/
structure MemoryController where
  p : Params
  subArrayNum : Nat
  starvationThreshold : Nat
  bankQueues : Nat → Nat → List NVMainRequest
  activateQueued : Nat → Nat → Bool
  /-- Declared `ncounter_t`, but only ever assigned `true` or `false`. -/
  activeSubArray : Nat → Nat → Nat → Bool
  effectiveRow : Nat → Nat → Nat → Nat
  effectiveMuxedRow : Nat → Nat → Nat → Nat
  starvationCounter : Nat → Nat → Nat → Nat
  bankNeedRefresh : Nat → Nat → Bool
  delayedRefreshCounter : Nat → Nat → Nat
  rankPowerDown : Nat → Bool
  m_refreshBankNum : Nat
  m_tREFI : Nat
  curRank : Nat
  curBank : Nat
  nextRefreshRank : Nat
  nextRefreshBank : Nat
  /-- The value of `GetEventQueue()->GetCurrentCycle()`. -/
  currentCycle : Nat
  /-- The decoder: `GetDecoder( )->ReverseTranslate( row, col, bank, rank, channel, subarray )`. -/
  ReverseTranslate : Nat → Nat → Nat → Nat → Nat → Nat → Nat
  /-- The downstream: `GetChild( )->IsIssuable( req )`. -/
  childIsIssuable : NVMainRequest → Bool
  /-- The downstream: `FindChild( req, SubArray )->isWriting`. -/
  isWriting : NVMainRequest → Bool
  /-- The constant `NVMainRequest::FLAG_LAST_REQUEST` (declared in a header outside the sources). -/
  FLAG_LAST_REQUEST : Nat
  /-- The value of `new NVMainRequest( )` (constructor in a header outside the sources). -/
  newRequest : NVMainRequest
  /-- The downstream: `IsRankIdle( rank )`. -/
  IsRankIdle : Nat → Bool
  /-- The downstream: `CanPowerDown( op, rank )`. -/
  CanPowerDown : OpType → Nat → Bool
  /-- The downstream: `CanPowerUp( rank )`. -/
  CanPowerUp : Nat → Bool
  /-- The calls made on the downstream so far, oldest first. -/
  childLog : List ChildCall
  /-- The downstream's answers after a further sequence of calls (it is
  deterministic, so they are a function of the calls). -/
  childReaction : List ChildCall → ChildAnswers
  /-- The events inserted into the event queue so far, oldest first. -/
  eventQueue : List Event
  /-- The value an `OpType` local holds before anything is assigned to it. -/
  uninitializedOp : OpType

/-! ## Array assignments -/

/-- The assignment `a[r][b] = v`. -/
def set2 {α : Type} (a : Nat → Nat → α) (r b : Nat) (v : α) : Nat → Nat → α :=
  fun i j => if i = r ∧ j = b then v else a i j

/-- The assignment `a[r][b][s] = v`. -/
def set3 {α : Type} (a : Nat → Nat → Nat → α) (r b s : Nat) (v : α) :
    Nat → Nat → Nat → α :=
  fun i j k => if i = r ∧ j = b ∧ k = s then v else a i j k

/-- The call `bankQueues[r][b].push_back( cmd )`. -/
def MemoryController.pushBack (m : MemoryController) (r b : Nat)
    (cmd : NVMainRequest) : MemoryController :=
  { m with bankQueues := set2 m.bankQueues r b (m.bankQueues r b ++ [cmd]) }

/-- The assignment `activateQueued[r][b] = v`. -/
def MemoryController.setActivateQueued (m : MemoryController) (r b : Nat) (v : Bool) :
    MemoryController :=
  { m with activateQueued := set2 m.activateQueued r b v }

/-- The assignment `activeSubArray[r][b][s] = v`. -/
def MemoryController.setActiveSubArray (m : MemoryController) (r b s : Nat) (v : Bool) :
    MemoryController :=
  { m with activeSubArray := set3 m.activeSubArray r b s v }

/-- The assignment `effectiveRow[r][b][s] = v`. -/
def MemoryController.setEffectiveRow (m : MemoryController) (r b s v : Nat) :
    MemoryController :=
  { m with effectiveRow := set3 m.effectiveRow r b s v }

/-- The assignment `effectiveMuxedRow[r][b][s] = v`. -/
def MemoryController.setEffectiveMuxedRow (m : MemoryController) (r b s v : Nat) :
    MemoryController :=
  { m with effectiveMuxedRow := set3 m.effectiveMuxedRow r b s v }

/-- The assignment `starvationCounter[r][b][s] = v`. -/
def MemoryController.setStarvationCounter (m : MemoryController) (r b s v : Nat) :
    MemoryController :=
  { m with starvationCounter := set3 m.starvationCounter r b s v }

/-- The assignment `req->issueCycle = c`. -/
@[simp] def NVMainRequest.setIssueCycle (req : NVMainRequest) (c : Nat) : NVMainRequest :=
  { req with issueCycle := c }

/-- The assignment `bankQueues[r][b] = q` (a queue after `erase`). -/
def MemoryController.setBankQueue (m : MemoryController) (r b : Nat)
    (q : List NVMainRequest) : MemoryController :=
  { m with bankQueues := set2 m.bankQueues r b q }

/-- The assignment `bankNeedRefresh[r][b] = v`. -/
def MemoryController.setBankNeedRefresh (m : MemoryController) (r b : Nat) (v : Bool) :
    MemoryController :=
  { m with bankNeedRefresh := set2 m.bankNeedRefresh r b v }

/-- The assignment `delayedRefreshCounter[r][g] = v`. -/
def MemoryController.setDelayedRefreshCounter (m : MemoryController) (r g v : Nat) :
    MemoryController :=
  { m with delayedRefreshCounter := set2 m.delayedRefreshCounter r g v }

/-- The assignment `rankPowerDown[r] = v`. -/
def MemoryController.setRankPowerDown (m : MemoryController) (r : Nat) (v : Bool) :
    MemoryController :=
  { m with rankPowerDown := fun i => if i = r then v else m.rankPowerDown i }

/-- The assignment `curRank = v`. -/
def MemoryController.setCurRank (m : MemoryController) (v : Nat) : MemoryController :=
  { m with curRank := v }

/-- The assignment `curBank = v`. -/
def MemoryController.setCurBank (m : MemoryController) (v : Nat) : MemoryController :=
  { m with curBank := v }

/-- The assignment `nextRefreshRank = v`. -/
def MemoryController.setNextRefreshRank (m : MemoryController) (v : Nat) :
    MemoryController :=
  { m with nextRefreshRank := v }

/-- The assignment `nextRefreshBank = v`. -/
def MemoryController.setNextRefreshBank (m : MemoryController) (v : Nat) :
    MemoryController :=
  { m with nextRefreshBank := v }

/-- A call on the downstream: it is logged, and the downstream answers from
then on as it does after that call. -/
def MemoryController.callChild (m : MemoryController) (c : ChildCall) : MemoryController :=
  { m with
    childLog := m.childLog ++ [c]
    childIsIssuable := (m.childReaction [c]).IsIssuable
    isWriting := (m.childReaction [c]).isWriting
    IsRankIdle := (m.childReaction [c]).IsRankIdle
    CanPowerDown := (m.childReaction [c]).CanPowerDown
    CanPowerUp := (m.childReaction [c]).CanPowerUp
    childReaction := fun cs => m.childReaction (c :: cs) }

/-- The call `GetEventQueue()->InsertEvent( EventResponse, this, request, cycle )`. -/
def MemoryController.InsertEvent (m : MemoryController) (request : NVMainRequest)
    (cycle : Nat) : MemoryController :=
  { m with eventQueue := m.eventQueue ++ [{ cycle := cycle, request := request }] }

/-! ## Request factories -/

/-- `MakeActivateRequest( triggerRequest )`. -/
def MakeActivateRequest (m : MemoryController) (triggerRequest : NVMainRequest) :
    NVMainRequest :=
  { m.newRequest with
    type := OpType.ACTIVATE
    issueCycle := m.currentCycle
    address := triggerRequest.address
    owner := Owner.controller }

/-- `MakePrechargeRequest( row, col, bank, rank, subarray )`. -/
def MakePrechargeRequest (m : MemoryController) (row col bank rank subarray : Nat) :
    NVMainRequest :=
  let preAddr := m.ReverseTranslate row col bank rank 0 subarray
  { m.newRequest with
    type := OpType.PRECHARGE
    address := (m.newRequest.address.SetPhysicalAddress preAddr).SetTranslatedAddress
                 row col bank rank 0 subarray
    issueCycle := m.currentCycle
    owner := Owner.controller }

/-- `MakeImplicitPrechargeRequest( triggerRequest )`: the trigger itself, mutated. -/
def MakeImplicitPrechargeRequest (m : MemoryController) (triggerRequest : NVMainRequest) :
    NVMainRequest :=
  let t :=
    if triggerRequest.type = OpType.READ then OpType.READ_PRECHARGE
    else if triggerRequest.type = OpType.WRITE then OpType.WRITE_PRECHARGE
    else triggerRequest.type
  { triggerRequest with type := t, issueCycle := m.currentCycle }

/-! ## Selection primitives -/

/-- `IsLastRequest( transactionQueue, request )`. -/
def IsLastRequest (m : MemoryController) (transactionQueue : List NVMainRequest)
    (request : NVMainRequest) : Bool :=
  if m.p.ClosePage = 0 then false
  else if m.p.ClosePage = 1 then
    !(transactionQueue.any fun it =>
        decide (it.address.rank = request.address.rank)
        && decide (it.address.bank = request.address.bank)
        && decide (it.address.row = request.address.row)
        && decide (it.address.subarray = request.address.subarray))
  else true

/-- What a singular `Find...` call leaves behind: its return value, the
request written through the out-pointer (if any) and the transaction queue. -/
structure FindResult where
  rv : Bool
  request : Option NVMainRequest
  transactionQueue : List NVMainRequest

/-- The scan `for( it = begin; it != end; it++ ) if( cond ) { ...; erase( it ); break; }`:
the first element that meets `cond`, and the list without it. -/
def scanErase (cond : NVMainRequest → Bool) :
    List NVMainRequest → Option (NVMainRequest × List NVMainRequest)
  | [] => none
  | x :: rest =>
    if cond x then some (x, rest)
    else
      match scanErase cond rest with
      | none => none
      | some (r, q) => some (r, x :: q)

/-- The body shared by the five singular primitives: scan, erase the winner,
then `if( IsLastRequest( queue, winner ) ) winner->flags |= FLAG_LAST_REQUEST`. -/
def selectFirst (m : MemoryController) (cond : NVMainRequest → Bool)
    (transactionQueue : List NVMainRequest) : FindResult :=
  match scanErase cond transactionQueue with
  | none => { rv := false, request := none, transactionQueue := transactionQueue }
  | some (r, q) =>
    let r1 :=
      if IsLastRequest m q r then { r with flags := r.flags ||| m.FLAG_LAST_REQUEST }
      else r
    { rv := true, request := some r1, transactionQueue := q }

/-- The column-mux subset of a request: `col / p->RBSize`. -/
def muxLevel (m : MemoryController) (req : NVMainRequest) : Nat :=
  req.address.col / m.p.RBSize

/-- The test of `FindRowBufferHit`. -/
def rowBufferHitCond (m : MemoryController) (pred : NVMainRequest → Bool)
    (it : NVMainRequest) : Bool :=
  let rank := it.address.rank
  let bank := it.address.bank
  let row := it.address.row
  let subarray := it.address.subarray
  m.activateQueued rank bank
  && m.activeSubArray rank bank subarray
  && decide (m.effectiveRow rank bank subarray = row)
  && decide (m.effectiveMuxedRow rank bank subarray = muxLevel m it)
  && !m.bankNeedRefresh rank bank
  && (m.bankQueues rank bank).isEmpty
  && pred it

/-- The test of `FindStarvedRequest`. -/
def starvedCond (m : MemoryController) (pred : NVMainRequest → Bool)
    (it : NVMainRequest) : Bool :=
  let rank := it.address.rank
  let bank := it.address.bank
  let row := it.address.row
  let subarray := it.address.subarray
  m.activateQueued rank bank
  && (!m.activeSubArray rank bank subarray
      || decide (m.effectiveRow rank bank subarray ≠ row)
      || decide (m.effectiveMuxedRow rank bank subarray ≠ muxLevel m it))
  && !m.bankNeedRefresh rank bank
  && decide (m.starvationCounter rank bank subarray ≥ m.starvationThreshold)
  && (m.bankQueues rank bank).isEmpty
  && pred it

/-- The test of `FindWriteStalledRead`, with its leading `type != READ` skip. -/
def writeStalledReadCond (m : MemoryController) (pred : NVMainRequest → Bool)
    (it : NVMainRequest) : Bool :=
  let rank := it.address.rank
  let bank := it.address.bank
  let row := it.address.row
  let subarray := it.address.subarray
  decide (it.type = OpType.READ)
  && (m.activateQueued rank bank
      && m.activeSubArray rank bank subarray
      && decide (m.effectiveRow rank bank subarray = row)
      && decide (m.effectiveMuxedRow rank bank subarray = muxLevel m it)
      && !m.bankNeedRefresh rank bank
      && m.isWriting it
      && m.childIsIssuable it
      && pred it)

/-- The test of `FindOldestReadyRequest`. -/
def oldestReadyCond (m : MemoryController) (pred : NVMainRequest → Bool)
    (it : NVMainRequest) : Bool :=
  let rank := it.address.rank
  let bank := it.address.bank
  m.activateQueued rank bank
  && !m.bankNeedRefresh rank bank
  && (m.bankQueues rank bank).isEmpty
  && pred it

/-- The test of `FindClosedBankRequest`. -/
def closedBankCond (m : MemoryController) (pred : NVMainRequest → Bool)
    (it : NVMainRequest) : Bool :=
  let rank := it.address.rank
  let bank := it.address.bank
  !m.activateQueued rank bank
  && !m.bankNeedRefresh rank bank
  && (m.bankQueues rank bank).isEmpty
  && pred it

/-- `FindStarvedRequest( transactionQueue, starvedRequest, pred )`. -/
def FindStarvedRequest (m : MemoryController) (transactionQueue : List NVMainRequest)
    (pred : NVMainRequest → Bool) : FindResult :=
  selectFirst m (starvedCond m pred) transactionQueue

/-- `FindWriteStalledRead( transactionQueue, hitRequest, pred )`. -/
def FindWriteStalledRead (m : MemoryController) (transactionQueue : List NVMainRequest)
    (pred : NVMainRequest → Bool) : FindResult :=
  if !m.p.WritePausing then
    { rv := false, request := none, transactionQueue := transactionQueue }
  else selectFirst m (writeStalledReadCond m pred) transactionQueue

/-- `FindRowBufferHit( transactionQueue, hitRequest, pred )`. -/
def FindRowBufferHit (m : MemoryController) (transactionQueue : List NVMainRequest)
    (pred : NVMainRequest → Bool) : FindResult :=
  selectFirst m (rowBufferHitCond m pred) transactionQueue

/-- `FindOldestReadyRequest( transactionQueue, oldestRequest, pred )`. -/
def FindOldestReadyRequest (m : MemoryController) (transactionQueue : List NVMainRequest)
    (pred : NVMainRequest → Bool) : FindResult :=
  selectFirst m (oldestReadyCond m pred) transactionQueue

/-- `FindClosedBankRequest( transactionQueue, closedRequest, pred )`. -/
def FindClosedBankRequest (m : MemoryController) (transactionQueue : List NVMainRequest)
    (pred : NVMainRequest → Bool) : FindResult :=
  selectFirst m (closedBankCond m pred) transactionQueue

/-! ## IssueMemoryCommands -/

/-- The loop `idle = true; for( i < subArrayNum ) if( activeSubArray[rank][bank][i] == true ) { idle = false; break; }`. -/
def bankIdle (m : MemoryController) (rank bank : Nat) : Bool :=
  !((List.range m.subArrayNum).any fun i => m.activeSubArray rank bank i)

/-- `IssueMemoryCommands( req )`. The result is `none` when the assertion
`p->ClosePage != 2` fails, and otherwise the return value, the controller
afterwards and `req` as the call leaves it. -/
def IssueMemoryCommands (m : MemoryController) (req : NVMainRequest) :
    Option (Bool × MemoryController × NVMainRequest) :=
  let rank := req.address.rank
  let bank := req.address.bank
  let row := req.address.row
  let subarray := req.address.subarray
  let muxLevel := req.address.col / m.p.RBSize
  if !m.activateQueued rank bank && (m.bankQueues rank bank).isEmpty then
    let m := m.setActivateQueued rank bank true
    let m := m.setActiveSubArray rank bank subarray true
    let m := m.setEffectiveRow rank bank subarray row
    let m := m.setEffectiveMuxedRow rank bank subarray muxLevel
    let m := m.setStarvationCounter rank bank subarray 0
    let req := req.setIssueCycle m.currentCycle
    let m := m.pushBack rank bank (MakeActivateRequest m req)
    if req.flags &&& m.FLAG_LAST_REQUEST ≠ 0 then
      let req := MakeImplicitPrechargeRequest m req
      let m := m.pushBack rank bank req
      let m := m.setActiveSubArray rank bank subarray false
      let m := m.setEffectiveRow rank bank subarray m.p.ROWS
      let m := m.setEffectiveMuxedRow rank bank subarray m.p.ROWS
      let m := m.setActivateQueued rank bank false
      some (true, m, req)
    else
      let m := m.pushBack rank bank req
      some (true, m, req)
  else if m.activateQueued rank bank
      && (!m.activeSubArray rank bank subarray
          || decide (m.effectiveRow rank bank subarray ≠ row)
          || decide (m.effectiveMuxedRow rank bank subarray ≠ muxLevel))
      && (m.bankQueues rank bank).isEmpty then
    let m := m.setStarvationCounter rank bank subarray 0
    let m := m.setActivateQueued rank bank true
    let req := req.setIssueCycle m.currentCycle
    let m :=
      if m.activeSubArray rank bank subarray then
        m.pushBack rank bank
          (MakePrechargeRequest m (m.effectiveRow rank bank subarray) 0 bank rank subarray)
      else m
    let m := m.pushBack rank bank (MakeActivateRequest m req)
    let m := m.pushBack rank bank req
    let m := m.setActiveSubArray rank bank subarray true
    let m := m.setEffectiveRow rank bank subarray row
    let m := m.setEffectiveMuxedRow rank bank subarray muxLevel
    some (true, m, req)
  else if m.activateQueued rank bank
      && m.activeSubArray rank bank subarray
      && decide (m.effectiveRow rank bank subarray = row)
      && decide (m.effectiveMuxedRow rank bank subarray = muxLevel) then
    let counter := (m.starvationCounter rank bank subarray + 1) % 2 ^ ncounterBits
    let m := m.setStarvationCounter rank bank subarray counter
    let req := req.setIssueCycle m.currentCycle
    if req.flags &&& m.FLAG_LAST_REQUEST ≠ 0 then
      if m.p.ClosePage = 2 then none
      else
        let req := MakeImplicitPrechargeRequest m req
        let m := m.pushBack rank bank req
        let m := m.setActiveSubArray rank bank subarray false
        let m := m.setEffectiveRow rank bank subarray m.p.ROWS
        let m := m.setEffectiveMuxedRow rank bank subarray m.p.ROWS
        let m :=
          if bankIdle m rank bank then m.setActivateQueued rank bank false
          else m
        some (true, m, req)
    else
      let m := m.pushBack rank bank req
      some (true, m, req)
  else
    some (false, m, req)

/-! ## Further request factories -/

/-- `MakePrechargeAllRequest( row, col, bank, rank, subarray )`. -/
def MakePrechargeAllRequest (m : MemoryController) (row col bank rank subarray : Nat) :
    NVMainRequest :=
  let preAddr := m.ReverseTranslate row col bank rank 0 subarray
  { m.newRequest with
    type := OpType.PRECHARGE_ALL
    address := (m.newRequest.address.SetPhysicalAddress preAddr).SetTranslatedAddress
                 row col bank rank 0 subarray
    issueCycle := m.currentCycle
    owner := Owner.controller }

/-- `MakeRefreshRequest( row, col, bank, rank, subarray )`. -/
def MakeRefreshRequest (m : MemoryController) (row col bank rank subarray : Nat) :
    NVMainRequest :=
  let preAddr := m.ReverseTranslate row col bank rank 0 subarray
  { m.newRequest with
    type := OpType.REFRESH
    address := (m.newRequest.address.SetPhysicalAddress preAddr).SetTranslatedAddress
                 row col bank rank 0 subarray
    issueCycle := m.currentCycle
    owner := Owner.controller }

/-! ## Refresh engine -/

/-- The loop `for( i = 0; i < n; i++ ) body( i )` acting on the controller. -/
def forLoop (n : Nat) (body : Nat → MemoryController → MemoryController)
    (m : MemoryController) : MemoryController :=
  (List.range n).foldl (fun m i => body i m) m

/-- `NeedRefresh( bank, rank )`. -/
def NeedRefresh (m : MemoryController) (bank rank : Nat) : Bool :=
  if m.p.UseRefresh then
    decide (m.delayedRefreshCounter rank (bank / m.p.BanksPerRefresh)
              ≥ m.p.DelayedRefreshThreshold)
  else false

/-- `SetRefresh( bank, rank )`. -/
def SetRefresh (m : MemoryController) (bank rank : Nat) : MemoryController :=
  let bankHead := (bank / m.p.BanksPerRefresh) * m.p.BanksPerRefresh
  forLoop m.p.BanksPerRefresh (fun i m => m.setBankNeedRefresh rank (bankHead + i) true) m

/-- `ResetRefresh( bank, rank )`. -/
def ResetRefresh (m : MemoryController) (bank rank : Nat) : MemoryController :=
  let bankHead := (bank / m.p.BanksPerRefresh) * m.p.BanksPerRefresh
  forLoop m.p.BanksPerRefresh (fun i m => m.setBankNeedRefresh rank (bankHead + i) false) m

/-- `IncrementRefreshCounter( bank, rank )`: `delayedRefreshCounter[rank][group]++`. -/
def IncrementRefreshCounter (m : MemoryController) (bank rank : Nat) : MemoryController :=
  let bankGroupID := bank / m.p.BanksPerRefresh
  m.setDelayedRefreshCounter rank bankGroupID
    ((m.delayedRefreshCounter rank bankGroupID + 1) % 2 ^ ncounterBits)

/-- `DecrementRefreshCounter( bank, rank )`: `delayedRefreshCounter[rank][group]--`. -/
def DecrementRefreshCounter (m : MemoryController) (bank rank : Nat) : MemoryController :=
  let bankGroupID := bank / m.p.BanksPerRefresh
  m.setDelayedRefreshCounter rank bankGroupID
    ((m.delayedRefreshCounter rank bankGroupID + (2 ^ ncounterBits - 1)) % 2 ^ ncounterBits)

/-- `IsRefreshBankQueueEmpty( bank, rank )`. -/
def IsRefreshBankQueueEmpty (m : MemoryController) (bank rank : Nat) : Bool :=
  let bankHead := (bank / m.p.BanksPerRefresh) * m.p.BanksPerRefresh
  (List.range m.p.BanksPerRefresh).all fun i => (m.bankQueues rank (bankHead + i)).isEmpty

/-- The body of the loop over `tmpBank` in `HandleRefresh`: an active bank
with an empty command queue gets a PRECHARGE_ALL and is marked closed. -/
def HandleRefresh.prechargeBank (i refBank : Nat) (m : MemoryController) :
    MemoryController :=
  if m.activateQueued i refBank && (m.bankQueues i refBank).isEmpty then
    let m := m.pushBack i refBank (MakePrechargeAllRequest m 0 0 refBank i 0)
    let m := forLoop m.subArrayNum
      (fun sa m =>
        ((m.setActiveSubArray i refBank sa false).setEffectiveRow i refBank sa
          m.p.ROWS).setEffectiveMuxedRow i refBank sa m.p.ROWS) m
    m.setActivateQueued i refBank false
  else m

/-- The round-robin step at the end of `HandleRefresh`. -/
def HandleRefresh.advance (m : MemoryController) : MemoryController :=
  let m := m.setNextRefreshBank (m.nextRefreshBank + m.p.BanksPerRefresh)
  if m.nextRefreshBank ≥ m.p.BANKS then
    let m := m.setNextRefreshBank 0
    let m := m.setNextRefreshRank (m.nextRefreshRank + 1)
    if m.nextRefreshRank = m.p.RANKS then m.setNextRefreshRank 0 else m
  else m

/-- The blocked path of `HandleRefresh` for rank `i` and bank `j`: the loop
over the banks of the group. -/
def HandleRefresh.block (i j : Nat) (m : MemoryController) : MemoryController :=
  forLoop m.p.BanksPerRefresh
    (fun tmpBank m => HandleRefresh.prechargeBank i ((tmpBank + j) % m.p.BANKS) m) m

/-- The REFRESH command `HandleRefresh` hands to the downstream for rank `i`
and bank `j`. -/
def HandleRefresh.command (i j : Nat) (m : MemoryController) : NVMainRequest :=
  (MakeRefreshRequest m 0 0 j i 0).setIssueCycle m.currentCycle

/-- The issue path of `HandleRefresh` for rank `i` and bank `j`. -/
def HandleRefresh.issue (i j : Nat) (m : MemoryController) : MemoryController :=
  let m := m.callChild (ChildCall.IssueCommand (HandleRefresh.command i j m))
  let m := DecrementRefreshCounter m j i
  let m := if !NeedRefresh m j i then ResetRefresh m j i else m
  HandleRefresh.advance m

/-- The body of the inner loop of `HandleRefresh` for rank `i` and bank `j`.
The first component is true when the body ends in `return true`. -/
def HandleRefresh.group (i j : Nat) (m : MemoryController) : Bool × MemoryController :=
  if NeedRefresh m j i && IsRefreshBankQueueEmpty m j i then
    if m.childIsIssuable (MakeRefreshRequest m 0 0 j i 0) = false then
      (false, HandleRefresh.block i j m)
    else (true, HandleRefresh.issue i j m)
  else (false, m)

/-- The inner loop of `HandleRefresh` over the remaining values of `bankIdx`. -/
def HandleRefresh.bankLoop (i : Nat) :
    List Nat → MemoryController → Bool × MemoryController
  | [], m => (false, m)
  | bankIdx :: rest, m =>
    let j := (m.nextRefreshBank + bankIdx * m.p.BanksPerRefresh) % m.p.BANKS
    match HandleRefresh.group i j m with
    | (true, m1) => (true, m1)
    | (false, m1) => HandleRefresh.bankLoop i rest m1

/-- The outer loop of `HandleRefresh` over the remaining values of `rankIdx`. -/
def HandleRefresh.rankLoop : List Nat → MemoryController → Bool × MemoryController
  | [], m => (false, m)
  | rankIdx :: rest, m =>
    let i := (m.nextRefreshRank + rankIdx) % m.p.RANKS
    match HandleRefresh.bankLoop i (List.range m.m_refreshBankNum) m with
    | (true, m1) => (true, m1)
    | (false, m1) => HandleRefresh.rankLoop rest m1

/-- `HandleRefresh( )`: its return value and the controller afterwards. -/
def HandleRefresh (m : MemoryController) : Bool × MemoryController :=
  HandleRefresh.rankLoop (List.range m.p.RANKS) m

/-- The pairs `(i, j)` of rank and bank for which the inner loop of
`HandleRefresh` runs its body, in order, over the remaining values of
`bankIdx`: for each of them the body calls `NeedRefresh( j, i )` and, as far
as it gets, `IsRefreshBankQueueEmpty`, `DecrementRefreshCounter` and
`ResetRefresh` with the same `j`. -/
def HandleRefresh.bankTrace (i : Nat) : List Nat → MemoryController → List (Nat × Nat)
  | [], _ => []
  | bankIdx :: rest, m =>
    let j := (m.nextRefreshBank + bankIdx * m.p.BanksPerRefresh) % m.p.BANKS
    (i, j) ::
      match HandleRefresh.group i j m with
      | (true, _) => []
      | (false, m1) => HandleRefresh.bankTrace i rest m1

/-- The pairs `(i, j)` for which `HandleRefresh` runs the body of its inner
loop, over the remaining values of `rankIdx`. -/
def HandleRefresh.rankTrace : List Nat → MemoryController → List (Nat × Nat)
  | [], _ => []
  | rankIdx :: rest, m =>
    let i := (m.nextRefreshRank + rankIdx) % m.p.RANKS
    HandleRefresh.bankTrace i (List.range m.m_refreshBankNum) m ++
      match HandleRefresh.bankLoop i (List.range m.m_refreshBankNum) m with
      | (true, _) => []
      | (false, m1) => HandleRefresh.rankTrace rest m1

/-- The pairs `(i, j)` of rank and bank that one call of `HandleRefresh`
passes to `NeedRefresh`, in order. -/
def HandleRefresh.trace (m : MemoryController) : List (Nat × Nat) :=
  HandleRefresh.rankTrace (List.range m.p.RANKS) m

/-- `ProcessRefreshPulse( refresh )`; `none` when `assert( refresh->type == REFRESH )`
fails. -/
def ProcessRefreshPulse (m : MemoryController) (refresh : NVMainRequest) :
    Option MemoryController :=
  if refresh.type ≠ OpType.REFRESH then none
  else
    let bank := refresh.address.bank
    let rank := refresh.address.rank
    let m := IncrementRefreshCounter m bank rank
    let m := if NeedRefresh m bank rank then SetRefresh m bank rank else m
    some (m.InsertEvent refresh (m.currentCycle + m.m_tREFI))

/-! ## Low-power manager -/

/-- `RankQueueEmpty( rankId )`. -/
def RankQueueEmpty (m : MemoryController) (rankId : Nat) : Bool :=
  (List.range m.p.BANKS).all fun i => (m.bankQueues rankId i).isEmpty

/-- `PowerDown( rankId )`. For an unknown `PowerDownMode` the source only
prints a message and goes on with `pdOp` unassigned. -/
def PowerDown (m : MemoryController) (rankId : Nat) : MemoryController :=
  let pdOp :=
    if m.p.PowerDownMode = "SLOWEXIT" then OpType.POWERDOWN_PDPS
    else if m.p.PowerDownMode = "FASTEXIT" then OpType.POWERDOWN_PDPF
    else m.uninitializedOp
  let pdOp := if m.IsRankIdle rankId = false then OpType.POWERDOWN_PDA else pdOp
  if m.CanPowerDown pdOp rankId && RankQueueEmpty m rankId then
    let m := m.callChild (ChildCall.PowerDown pdOp rankId)
    m.setRankPowerDown rankId true
  else m

/-- The value of `pdOp` in `PowerDown( rankId )` when the downstream is asked
`CanPowerDown( pdOp, rankId )`. -/
def PowerDown.pdOp (m : MemoryController) (rankId : Nat) : OpType :=
  if m.IsRankIdle rankId = false then OpType.POWERDOWN_PDA
  else if m.p.PowerDownMode = "SLOWEXIT" then OpType.POWERDOWN_PDPS
  else if m.p.PowerDownMode = "FASTEXIT" then OpType.POWERDOWN_PDPF
  else m.uninitializedOp

/-- `PowerUp( rankId )`. -/
def PowerUp (m : MemoryController) (rankId : Nat) : MemoryController :=
  if (RankQueueEmpty m rankId = false) && m.CanPowerUp rankId then
    let m := m.callChild (ChildCall.PowerUp rankId)
    m.setRankPowerDown rankId false
  else m

/-- The body of the loop of `HandleLowPower` for one rank. -/
def HandleLowPower.rank (rankId : Nat) (m : MemoryController) : MemoryController :=
  let needRefresh :=
    (List.range m.m_refreshBankNum).any fun bankId =>
      NeedRefresh m (bankId * m.p.BanksPerRefresh) rankId
  if needRefresh then
    if m.rankPowerDown rankId && m.CanPowerUp rankId then
      let m := m.callChild (ChildCall.PowerUp rankId)
      m.setRankPowerDown rankId false
    else m
  else if m.rankPowerDown rankId then PowerUp m rankId
  else PowerDown m rankId

/-- `HandleLowPower( )`. -/
def HandleLowPower (m : MemoryController) : MemoryController :=
  forLoop m.p.RANKS HandleLowPower.rank m

/-! ## CycleCommandQueues -/

/-- `MoveRankBank( )`. -/
def MoveRankBank (m : MemoryController) : MemoryController :=
  if m.p.ScheduleScheme = 1 then
    let m := m.setCurRank (m.curRank + 1)
    if m.curRank = m.p.RANKS then
      let m := m.setCurRank 0
      m.setCurBank ((m.curBank + 1) % m.p.BANKS)
    else m
  else if m.p.ScheduleScheme = 2 then
    let m := m.setCurBank (m.curBank + 1)
    if m.curBank = m.p.BANKS then
      let m := m.setCurBank 0
      m.setCurRank ((m.curRank + 1) % m.p.RANKS)
    else m
  else m

/-- The difference `a - b` of two `ncycle_t` (unsigned 64-bit) values. -/
def ncycleSub (a b : Nat) : Nat :=
  (a + 2 ^ ncounterBits - b) % 2 ^ ncounterBits

/-- How a call of `CycleCommandQueues` ends: it returns, or the watchdog
ends the run with `exit( 1 )`. -/
inductive CycleOutcome where
  | returned (m : MemoryController)
  | fatal (m : MemoryController)

/-- The body of the scan of `CycleCommandQueues` for the queue of bank
`(i, j)`; `none` when the scan goes on to the next queue. -/
def CycleCommandQueues.bank (i j : Nat) (m : MemoryController) : Option CycleOutcome :=
  match m.bankQueues i j with
  | [] => none
  | head :: tail =>
    if m.childIsIssuable head then
      let m := m.callChild (ChildCall.IssueCommand head)
      let m := m.setBankQueue i j tail
      some (CycleOutcome.returned (MoveRankBank m))
    else if ncycleSub m.currentCycle head.issueCycle > m.p.DeadlockTimer then
      some (CycleOutcome.fatal m)
    else none

/-- The inner loop of the scan over the remaining values of `bankIdx`. -/
def CycleCommandQueues.bankLoop (i : Nat) (m : MemoryController) :
    List Nat → Option CycleOutcome
  | [] => none
  | bankIdx :: rest =>
    match CycleCommandQueues.bank i ((m.curBank + bankIdx) % m.p.BANKS) m with
    | some r => some r
    | none => CycleCommandQueues.bankLoop i m rest

/-- The outer loop of the scan over the remaining values of `rankIdx`. -/
def CycleCommandQueues.rankLoop (m : MemoryController) : List Nat → CycleOutcome
  | [] => CycleOutcome.returned m
  | rankIdx :: rest =>
    match CycleCommandQueues.bankLoop ((m.curRank + rankIdx) % m.p.RANKS) m
        (List.range m.p.BANKS) with
    | some r => r
    | none => CycleCommandQueues.rankLoop m rest

/-- The scan of the bank queues that ends `CycleCommandQueues`. -/
def CycleCommandQueues.scan (m : MemoryController) : CycleOutcome :=
  CycleCommandQueues.rankLoop m (List.range m.p.RANKS)

/-- The controller when the scan of `CycleCommandQueues` starts, and whether
`HandleRefresh` has returned true before. -/
def CycleCommandQueues.prelude (m : MemoryController) : Bool × MemoryController :=
  let m := if m.p.UseLowPower then HandleLowPower m else m
  if m.p.UseRefresh then HandleRefresh m else (false, m)

/-- `CycleCommandQueues( )`. -/
def CycleCommandQueues (m : MemoryController) : CycleOutcome :=
  match CycleCommandQueues.prelude m with
  | (true, m1) => CycleOutcome.returned m1
  | (false, m1) => CycleCommandQueues.scan m1

/-! ## SetConfig -/

/-- The members as the constructor `MemoryController( )` sets them, on a record
that carries the collaborators. -/
def MemoryController.construct (m : MemoryController) : MemoryController :=
  { m with
    starvationThreshold := 4
    subArrayNum := 1
    curRank := 0
    curBank := 0
    nextRefreshRank := 0
    nextRefreshBank := 0 }

/-- The arrays as `SetConfig` allocates and fills them. An array is the
constant function of the value its entries are filled with. -/
def SetConfig.arrays (m : MemoryController) (conf : Params) (hasMATHeight : Bool) :
    MemoryController :=
  { m with
    p := conf
    subArrayNum := if hasMATHeight then conf.ROWS / conf.MATHeight else 1
    bankQueues := fun _ _ => []
    activateQueued := fun _ _ => false
    starvationCounter := fun _ _ _ => 0
    activeSubArray := fun _ _ _ => false
    effectiveRow := fun _ _ _ => conf.ROWS
    effectiveMuxedRow := fun _ _ _ => conf.ROWS
    rankPowerDown := fun _ => if conf.UseLowPower then conf.InitPD else false
    bankNeedRefresh := fun _ _ => false }

/-- The refresh settings of `SetConfig`: `m_refreshBankNum`, `m_tREFI` and the
counters. -/
def SetConfig.refresh (m : MemoryController) : MemoryController :=
  { m with
    m_refreshBankNum := m.p.BANKS / m.p.BanksPerRefresh
    m_tREFI := m.p.tREFW / (m.p.ROWS / m.p.RefreshRows)
    delayedRefreshCounter := fun _ _ => 0 }

/-- The first refresh pulse of bank group `j` of rank `i`, inserted by `SetConfig`. -/
def SetConfig.pulse (i j : Nat) (m : MemoryController) : MemoryController :=
  let m_refreshSlice := m.m_tREFI / (m.p.RANKS * m.m_refreshBankNum)
  let refreshBankHead := j * m.p.BanksPerRefresh
  let refreshPulse := MakeRefreshRequest m 0 0 refreshBankHead i 0
  let offset := (i * m.m_refreshBankNum + j) * m_refreshSlice
  m.InsertEvent refreshPulse (m.currentCycle + m.m_tREFI + offset)

/-- The event that `SetConfig.pulse i j` hands to the event queue. -/
def SetConfig.pulseEvent (i j : Nat) (m : MemoryController) : Event :=
  { cycle := m.currentCycle + m.m_tREFI
      + (i * m.m_refreshBankNum + j) * (m.m_tREFI / (m.p.RANKS * m.m_refreshBankNum))
    request := MakeRefreshRequest m 0 0 (j * m.p.BanksPerRefresh) i 0 }

/-- `SetConfig( conf, createChildren )` on a constructed controller;
`hasMATHeight` is `conf->KeyExists( "MATHeight" )`. The result is `none` when
one of the two assertions on `BanksPerRefresh` fails. -/
def SetConfig (m : MemoryController) (conf : Params) (hasMATHeight : Bool) :
    Option MemoryController :=
  let m := SetConfig.arrays m conf hasMATHeight
  if m.p.UseRefresh then
    if ¬(m.p.BanksPerRefresh ≤ m.p.BANKS) then none
    else if m.p.BanksPerRefresh = 0 then none
    else
      let m := SetConfig.refresh m
      some (forLoop m.p.RANKS
        (fun i m => forLoop m.m_refreshBankNum (fun j m => SetConfig.pulse i j m) m) m)
  else some m

/-! ## Plural selection variants -/

/-- How a call of a plural `Find...s` variant ends. It returns, with its
return value, the output vector and the transaction queue; or, having erased
a matching element through `it`, it goes on to `it++` on that erased
iterator, whose effect the language leaves undefined: then the output vector
and the queue are those at that point. -/
inductive FindAllOutcome where
  | returned (rv : Bool) (requests : List NVMainRequest)
      (transactionQueue : List NVMainRequest)
  | undefinedAfterErase (requests : List NVMainRequest)
      (transactionQueue : List NVMainRequest)
  deriving DecidableEq, Repr

/-- The loop shared by the plural variants:
`for( it = begin; it != end; it++ ) if( cond ) { out.push_back( *it ); erase( it ); rv = true; }`.
`seen` holds the elements already passed, in order. -/
def selectAll (cond : NVMainRequest → Bool) (requests : List NVMainRequest)
    (seen : List NVMainRequest) : List NVMainRequest → FindAllOutcome
  | [] => FindAllOutcome.returned false requests seen
  | x :: rest =>
    if cond x then FindAllOutcome.undefinedAfterErase (requests ++ [x]) (seen ++ rest)
    else selectAll cond requests (seen ++ [x]) rest

/-- `FindStarvedRequests( transactionQueue, starvedRequests, pred )`. -/
def FindStarvedRequests (m : MemoryController) (transactionQueue : List NVMainRequest)
    (starvedRequests : List NVMainRequest) (pred : NVMainRequest → Bool) : FindAllOutcome :=
  selectAll (starvedCond m pred) starvedRequests [] transactionQueue

/-- `FindRowBufferHits( transactionQueue, hitRequests, pred )`. -/
def FindRowBufferHits (m : MemoryController) (transactionQueue : List NVMainRequest)
    (hitRequests : List NVMainRequest) (pred : NVMainRequest → Bool) : FindAllOutcome :=
  selectAll (rowBufferHitCond m pred) hitRequests [] transactionQueue

/-- `FindOldestReadyRequests( transactionQueue, oldestRequests, pred )`. -/
def FindOldestReadyRequests (m : MemoryController) (transactionQueue : List NVMainRequest)
    (oldestRequests : List NVMainRequest) (pred : NVMainRequest → Bool) : FindAllOutcome :=
  selectAll (oldestReadyCond m pred) oldestRequests [] transactionQueue

/-- `FindClosedBankRequests( transactionQueue, closedRequests, pred )`. -/
def FindClosedBankRequests (m : MemoryController) (transactionQueue : List NVMainRequest)
    (closedRequests : List NVMainRequest) (pred : NVMainRequest → Bool) : FindAllOutcome :=
  selectAll (closedBankCond m pred) closedRequests [] transactionQueue

/-- `FindStarvedRequests( transactionQueue, starvedRequests )`, the overload
without a predicate. Its body declares a `DummyPredicate` and then evaluates
`FindStarvedRequests( transactionQueue, starvedRequests )`: a call with two
arguments, which is a call of this overload again, with the same arguments.
`fuel` bounds the depth of the nested calls; the result is `none` when no call
has returned within that depth. -/
def FindStarvedRequests.withoutPred (m : MemoryController) :
    Nat → List NVMainRequest → List NVMainRequest → Option FindAllOutcome
  | 0, _, _ => none
  | fuel + 1, transactionQueue, starvedRequests =>
    FindStarvedRequests.withoutPred m fuel transactionQueue starvedRequests

/-- `DummyPredicate::operator()`: true for every request. -/
def DummyPredicate (_request : NVMainRequest) : Bool := true

/-! ## TranslationMethod

A shallow embedding of `src/TranslationMethod.cpp`. The arrays `bitWidths`,
`order` and `count` are functions of the field they are indexed by. `int` is
embedded in `Int`. A `std::string` is the list of its characters, and what the
functions write to `std::cout` and `std::cerr` is kept, in order, in `output`. -/

/-- The address fields `MEM_ROW` ... `MEM_CHANNEL` that index the arrays of a
translation method. -/
inductive MemoryPartition where
  | MEM_ROW
  | MEM_COL
  | MEM_BANK
  | MEM_RANK
  | MEM_CHANNEL
  deriving DecidableEq, Repr

/-- The messages of `TranslationMethod.cpp`. -/
inductive Message where
  /-- The line "NVMain: Column bits must be greater than or equal to the
  maximum burst length." -/
  | columnBits
  /-- The line "Translation Method: Orders are not unique!" -/
  | ordersNotUnique
  /-- The line "NVMain Error: unrecognized address mapping scheme: " with the scheme. -/
  | unrecognizedScheme (scheme : List Char)
  /-- The line "NVMain Error: invalid address mapping scheme: " with the scheme. -/
  | invalidScheme (scheme : List Char)
  /-- The lines "NVMain: the address mapping order is ..." with the five orders. -/
  | mappingOrder (row col bank rank channel : Int)
  deriving DecidableEq, Repr

/-- The members of a `TranslationMethod`, and what it has written so far. -/
structure TranslationMethod where
  bitWidths : MemoryPartition → Nat
  order : MemoryPartition → Int
  count : MemoryPartition → Nat
  output : List Message

/-- `SetBitWidths( rowBits, colBits, bankBits, rankBits, channelBits )`. -/
def TranslationMethod.SetBitWidths (t : TranslationMethod)
    (rowBits colBits bankBits rankBits channelBits : Nat) : TranslationMethod :=
  { t with
    output := if colBits < 8 then t.output ++ [Message.columnBits] else t.output
    bitWidths := fun f =>
      match f with
      | MemoryPartition.MEM_ROW => rowBits
      | MemoryPartition.MEM_COL => colBits
      | MemoryPartition.MEM_BANK => bankBits
      | MemoryPartition.MEM_RANK => rankBits
      | MemoryPartition.MEM_CHANNEL => channelBits }

/-- `SetOrder( row, col, bank, rank, channel )`. -/
def TranslationMethod.SetOrder (t : TranslationMethod) (row col bank rank channel : Int) :
    TranslationMethod :=
  { t with
    output :=
      if row = col ∨ row = bank ∨ row = rank ∨ row = channel
          ∨ col = bank ∨ col = rank ∨ col = channel
          ∨ bank = rank ∨ bank = channel ∨ rank = channel
      then t.output ++ [Message.ordersNotUnique] else t.output
    order := fun f =>
      match f with
      | MemoryPartition.MEM_ROW => row - 1
      | MemoryPartition.MEM_COL => col - 1
      | MemoryPartition.MEM_BANK => bank - 1
      | MemoryPartition.MEM_RANK => rank - 1
      | MemoryPartition.MEM_CHANNEL => channel - 1 }

/-- `SetCount( rows, cols, banks, ranks, channels )`. -/
def TranslationMethod.SetCount (t : TranslationMethod) (rows cols banks ranks channels : Nat) :
    TranslationMethod :=
  { t with
    count := fun f =>
      match f with
      | MemoryPartition.MEM_ROW => rows
      | MemoryPartition.MEM_COL => cols
      | MemoryPartition.MEM_BANK => banks
      | MemoryPartition.MEM_RANK => ranks
      | MemoryPartition.MEM_CHANNEL => channels }

/-- `GetOrder( &row, &col, &bank, &rank, &channel )`: the five values written. -/
def TranslationMethod.GetOrder (t : TranslationMethod) : Int × Int × Int × Int × Int :=
  (t.order MemoryPartition.MEM_ROW, t.order MemoryPartition.MEM_COL,
    t.order MemoryPartition.MEM_BANK, t.order MemoryPartition.MEM_RANK,
    t.order MemoryPartition.MEM_CHANNEL)

/-- The constructor `TranslationMethod( )`, on a record that carries what has
been written so far and the uninitialised `count`. -/
def TranslationMethod.construct (t : TranslationMethod) : TranslationMethod :=
  (t.SetBitWidths 16 8 3 1 1).SetOrder 3 1 2 4 5

/-- The tokens that `strtok_r( s, delim, &savePtr )` and the calls
`strtok_r( NULL, delim, &savePtr )` after it return, in order: the maximal
runs of characters other than the delimiter. `cur` holds, reversed, the
characters of the token being read. -/
def strtokAll (delim : Char) : List Char → List Char → List (List Char)
  | [], cur => if cur = [] then [] else [cur.reverse]
  | c :: cs, cur =>
    if c = delim then
      if cur = [] then strtokAll delim cs [] else cur.reverse :: strtokAll delim cs []
    else strtokAll delim cs (c :: cur)

/-- The locals of `SetAddressMappingScheme` and what it has written. -/
structure SchemeState where
  row : Int
  col : Int
  bank : Int
  rank : Int
  channel : Int
  currentOrder : Int
  output : List Message

/-- The body of the loop of `SetAddressMappingScheme` for the token `addrParser`. -/
def SetAddressMappingScheme.token (scheme : List Char) (st : SchemeState)
    (addrParser : List Char) : SchemeState :=
  let st :=
    if addrParser = "R".toList then { st with row := st.currentOrder }
    else if addrParser = "C".toList then { st with col := st.currentOrder }
    else if addrParser = "BK".toList then { st with bank := st.currentOrder }
    else if addrParser = "RK".toList then { st with rank := st.currentOrder }
    else if addrParser = "CH".toList then { st with channel := st.currentOrder }
    else { st with output := st.output ++ [Message.unrecognizedScheme scheme] }
  let st := { st with currentOrder := st.currentOrder - 1 }
  if st.currentOrder < 0 then
    { st with output := st.output ++ [Message.invalidScheme scheme] }
  else st

/-- The locals of `SetAddressMappingScheme( scheme )` when its loop has ended;
`output` is what had been written before the call. The result is `none` when
`strcpy` writes past the 15 characters of `addrMappingScheme`. -/
def SetAddressMappingScheme.parse (output : List Message) (scheme : List Char) :
    Option SchemeState :=
  let cstr := scheme.takeWhile fun c => c ≠ Char.ofNat 0
  if 15 ≤ cstr.length then none
  else
    some ((strtokAll ':' cstr []).foldl (SetAddressMappingScheme.token scheme)
      { row := 0, col := 0, bank := 0, rank := 0, channel := 0, currentOrder := 5,
        output := output })

/-- `SetAddressMappingScheme( scheme )`. -/
def TranslationMethod.SetAddressMappingScheme (t : TranslationMethod) (scheme : List Char) :
    Option TranslationMethod :=
  match SetAddressMappingScheme.parse t.output scheme with
  | none => none
  | some st =>
    let t := { t with output := st.output }
    let t := t.SetOrder st.row st.col st.bank st.rank st.channel
    some { t with
      output := t.output ++ [Message.mappingOrder st.row st.col st.bank st.rank st.channel] }

/-! ## Sample values -/

/-- A request of the given type, address tuple, issue cycle and flags. -/
def mkReq (t : OpType) (row col bank rank subarray issue flags : Nat) : NVMainRequest :=
  { type := t
    address := { row := row, col := col, bank := bank, rank := rank, channel := 0,
                 subarray := subarray, physicalAddress := 0 }
    arrivalCycle := 0, issueCycle := issue, owner := Owner.host, flags := flags }

/-- A configuration: 2 ranks of 4 banks, 16 rows in sub-arrays of 8, and the
given close-page policy. -/
def sampleParams (closePage : Nat) : Params :=
  { RANKS := 2, BANKS := 4, ROWS := 16, COLS := 8, MATHeight := 8, RBSize := 4,
    ClosePage := closePage, ScheduleScheme := 0, DeadlockTimer := 1000,
    UseRefresh := false, BanksPerRefresh := 1, tREFW := 64, RefreshRows := 4,
    DelayedRefreshThreshold := 1, UseLowPower := false, InitPD := false,
    PowerDownMode := "FASTEXIT", WritePausing := true }

/-- The controller as `SetConfig` leaves it (all banks closed, all queues
empty), at cycle 7. -/
def closedController (closePage : Nat) : MemoryController :=
  { p := sampleParams closePage
    subArrayNum := 2
    starvationThreshold := 4
    bankQueues := fun _ _ => []
    activateQueued := fun _ _ => false
    activeSubArray := fun _ _ _ => false
    effectiveRow := fun _ _ _ => 16
    effectiveMuxedRow := fun _ _ _ => 16
    starvationCounter := fun _ _ _ => 0
    bankNeedRefresh := fun _ _ => false
    delayedRefreshCounter := fun _ _ => 0
    rankPowerDown := fun _ => false
    m_refreshBankNum := 4
    m_tREFI := 16
    curRank := 0
    curBank := 0
    nextRefreshRank := 0
    nextRefreshBank := 0
    currentCycle := 7
    ReverseTranslate := fun row col bank rank _ subarray =>
      (((rank * 4 + bank) * 2 + subarray) * 16 + row) * 8 + col
    childIsIssuable := fun _ => true
    isWriting := fun _ => true
    FLAG_LAST_REQUEST := 1
    newRequest := mkReq OpType.NOP 0 0 0 0 0 0 0
    IsRankIdle := fun _ => true
    CanPowerDown := fun _ _ => true
    CanPowerUp := fun _ => true
    childLog := []
    childReaction := fun _ =>
      { IsIssuable := fun _ => true, isWriting := fun _ => true, IsRankIdle := fun _ => true,
        CanPowerDown := fun _ _ => true, CanPowerUp := fun _ => true }
    eventQueue := []
    uninitializedOp := OpType.NOP }

/-- The sample controller with row `row` open at mux level `mux` in
sub-array `s` of bank `(r, b)`, after `n` hits on it. -/
def openController (closePage r b s row mux n : Nat) : MemoryController :=
  let m := closedController closePage
  { m with
    activateQueued := set2 m.activateQueued r b true
    activeSubArray := set3 m.activeSubArray r b s true
    effectiveRow := set3 m.effectiveRow r b s row
    effectiveMuxedRow := set3 m.effectiveMuxedRow r b s mux
    starvationCounter := set3 m.starvationCounter r b s n }

/-- The sample configuration with refresh enabled and the given
`DelayedRefreshThreshold`: groups of one bank, `tREFI` of 16 cycles. -/
def refreshParams (threshold : Nat) : Params :=
  { sampleParams 1 with UseRefresh := true, DelayedRefreshThreshold := threshold }

/-- The sample configuration with refresh enabled, `DelayedRefreshThreshold`
1 and groups of three banks, of which the four banks of a rank hold one. -/
def unevenRefreshParams : Params :=
  { refreshParams 1 with BanksPerRefresh := 3 }

/-- A REFRESH pulse for bank 0 of rank 0. -/
def samplePulse : NVMainRequest :=
  { mkReq OpType.REFRESH 0 0 0 0 0 7 0 with owner := Owner.controller }

/-- A controller with refresh enabled in which every group needs a refresh,
bank (0, 0) has row 5 open and an empty command queue, and the downstream
reports nothing issuable. -/
def refreshBlockedController : MemoryController :=
  { openController 1 0 0 0 5 0 0 with
    p := refreshParams 1
    delayedRefreshCounter := fun _ _ => 1
    bankNeedRefresh := fun _ _ => true
    childIsIssuable := fun _ => false }

/-- A controller at cycle 2000 with one command in the queue of bank (0, 0),
stamped with cycle 1990, and one in the queue of bank (0, 1), stamped with
cycle 0; the downstream reports the commands of the banks in `issuable`
issuable. -/
def stalledController (issuable : List Nat) : MemoryController :=
  { closedController 1 with
    currentCycle := 2000
    bankQueues := set2 (set2 (fun _ _ => []) 0 0 [mkReq OpType.READ 3 0 0 0 0 1990 0])
      0 1 [mkReq OpType.READ 3 0 1 0 0 0 0]
    childIsIssuable := fun r => decide (r.address.bank ∈ issuable) }

/-- A controller configured with a `PowerDownMode` that is neither SLOWEXIT
nor FASTEXIT, whose downstream reports no rank idle. -/
def unknownModeController : MemoryController :=
  { closedController 1 with
    p := { sampleParams 1 with PowerDownMode := "DEEP" }
    IsRankIdle := fun _ => false }

/-! ## The conditions in the words of the specification -/

/-- Row-buffer hit: the bank is active, the request's sub-array is open, it
holds the request's row and the request's mux level `col / RBSize`. -/
def RowHit (m : MemoryController) (x : NVMainRequest) : Prop :=
  m.activateQueued x.address.rank x.address.bank = true
  ∧ m.activeSubArray x.address.rank x.address.bank x.address.subarray = true
  ∧ m.effectiveRow x.address.rank x.address.bank x.address.subarray = x.address.row
  ∧ m.effectiveMuxedRow x.address.rank x.address.bank x.address.subarray
      = x.address.col / m.p.RBSize

instance (m : MemoryController) (x : NVMainRequest) : Decidable (RowHit m x) := by
  unfold RowHit
  exact inferInstance

/-- Miss on an active bank: the request's sub-array is closed, or holds another
row, or another mux level. -/
def RowMiss (m : MemoryController) (x : NVMainRequest) : Prop :=
  m.activeSubArray x.address.rank x.address.bank x.address.subarray = false
  ∨ m.effectiveRow x.address.rank x.address.bank x.address.subarray ≠ x.address.row
  ∨ m.effectiveMuxedRow x.address.rank x.address.bank x.address.subarray
      ≠ x.address.col / m.p.RBSize

instance (m : MemoryController) (x : NVMainRequest) : Decidable (RowMiss m x) := by
  unfold RowMiss
  exact inferInstance

/-- The bank is ready for a new transaction: not refresh-gated, and its
command queue is empty. -/
def BankReady (m : MemoryController) (x : NVMainRequest) : Prop :=
  m.bankNeedRefresh x.address.rank x.address.bank = false
  ∧ m.bankQueues x.address.rank x.address.bank = []

instance (m : MemoryController) (x : NVMainRequest) : Decidable (BankReady m x) := by
  unfold BankReady
  exact inferInstance

/-- Two requests share (rank, bank, row, subarray). -/
def SameRow (x y : NVMainRequest) : Prop :=
  x.address.rank = y.address.rank ∧ x.address.bank = y.address.bank
  ∧ x.address.row = y.address.row ∧ x.address.subarray = y.address.subarray

instance (x y : NVMainRequest) : Decidable (SameRow x y) := by
  unfold SameRow
  exact inferInstance

/-- The request carries FLAG_LAST_REQUEST: the test `req->flags & FLAG_LAST_REQUEST`. -/
def CarriesLast (m : MemoryController) (x : NVMainRequest) : Prop :=
  x.flags &&& m.FLAG_LAST_REQUEST ≠ 0

instance (m : MemoryController) (x : NVMainRequest) : Decidable (CarriesLast m x) := by
  unfold CarriesLast
  exact inferInstance

/-- Two requests agree in every field but `flags`. -/
def SameButFlags (x y : NVMainRequest) : Prop :=
  x.type = y.type ∧ x.address = y.address ∧ x.arrivalCycle = y.arrivalCycle
  ∧ x.issueCycle = y.issueCycle ∧ x.owner = y.owner

/-- Two requests agree in every field but `issueCycle`. -/
def SameButIssueCycle (x y : NVMainRequest) : Prop :=
  x.type = y.type ∧ x.address = y.address ∧ x.arrivalCycle = y.arrivalCycle
  ∧ x.owner = y.owner ∧ x.flags = y.flags

/-- The type an implicit precharge gives a request: READ becomes READ_PRECHARGE,
WRITE becomes WRITE_PRECHARGE, anything else stays. -/
def implicitPrechargeType (t : OpType) : OpType :=
  match t with
  | OpType.READ => OpType.READ_PRECHARGE
  | OpType.WRITE => OpType.WRITE_PRECHARGE
  | t => t

/-- What a singular selection primitive promises for a condition `P`: `res`
reports true iff some queued request meets `P`; if so it hands out the first
such request in queue order (up to its flags) and leaves the queue with
exactly that element removed, the others in order; if not it hands out
nothing and leaves the queue as it was. -/
def SelectsFirst (P : NVMainRequest → Prop) (q : List NVMainRequest)
    (res : FindResult) : Prop :=
  (res.rv = true ↔ ∃ x ∈ q, P x)
  ∧ (res.rv = true →
      ∃ pre x post sel, q = pre ++ x :: post ∧ (∀ y ∈ pre, ¬P y) ∧ P x
        ∧ res.request = some sel ∧ SameButFlags sel x
        ∧ res.transactionQueue = pre ++ post)
  ∧ (res.rv = false → res.request = none ∧ res.transactionQueue = q)

/-! ## Frames and invariants -/

/-- The controller `m1` differs from `m` at most in the bank command queues
and the five scheduling arrays (`activateQueued`, `activeSubArray`,
`effectiveRow`, `effectiveMuxedRow`, `starvationCounter`). -/
def SchedulingOnly (m m1 : MemoryController) : Prop :=
  m1.p = m.p
  ∧ m1.subArrayNum = m.subArrayNum
  ∧ m1.starvationThreshold = m.starvationThreshold
  ∧ m1.bankNeedRefresh = m.bankNeedRefresh
  ∧ m1.delayedRefreshCounter = m.delayedRefreshCounter
  ∧ m1.rankPowerDown = m.rankPowerDown
  ∧ m1.m_refreshBankNum = m.m_refreshBankNum
  ∧ m1.m_tREFI = m.m_tREFI
  ∧ m1.curRank = m.curRank
  ∧ m1.curBank = m.curBank
  ∧ m1.nextRefreshRank = m.nextRefreshRank
  ∧ m1.nextRefreshBank = m.nextRefreshBank
  ∧ m1.currentCycle = m.currentCycle
  ∧ m1.ReverseTranslate = m.ReverseTranslate
  ∧ m1.childIsIssuable = m.childIsIssuable
  ∧ m1.isWriting = m.isWriting
  ∧ m1.FLAG_LAST_REQUEST = m.FLAG_LAST_REQUEST
  ∧ m1.newRequest = m.newRequest
  ∧ m1.IsRankIdle = m.IsRankIdle
  ∧ m1.CanPowerDown = m.CanPowerDown
  ∧ m1.CanPowerUp = m.CanPowerUp
  ∧ m1.childLog = m.childLog
  ∧ m1.childReaction = m.childReaction
  ∧ m1.eventQueue = m.eventQueue
  ∧ m1.uninitializedOp = m.uninitializedOp

/-- The output vector a plural variant leaves. -/
def FindAllOutcome.requests : FindAllOutcome → List NVMainRequest
  | FindAllOutcome.returned _ requests _ => requests
  | FindAllOutcome.undefinedAfterErase requests _ => requests

/-- The bank `(r, b)` is in `m1` as it is in `m`: queue, `activateQueued` and
the state of every sub-array. -/
def BankUntouched (m m1 : MemoryController) (r b : Nat) : Prop :=
  m1.bankQueues r b = m.bankQueues r b
  ∧ m1.activateQueued r b = m.activateQueued r b
  ∧ ∀ s, m1.activeSubArray r b s = m.activeSubArray r b s
      ∧ m1.effectiveRow r b s = m.effectiveRow r b s
      ∧ m1.effectiveMuxedRow r b s = m.effectiveMuxedRow r b s

/-- The bank `(r, b)`, active with an empty command queue in `m`, has been
closed for a refresh in `m1`: its queue holds one PRECHARGE_ALL stamped with
the current cycle, `activateQueued` is false and each of its `subArrayNum`
sub-arrays is inactive with both effective rows at `ROWS`. -/
def BankClosedForRefresh (m m1 : MemoryController) (r b : Nat) : Prop :=
  m.bankQueues r b = [] ∧ m.activateQueued r b = true
  ∧ (∃ cmd, m1.bankQueues r b = [cmd] ∧ cmd.type = OpType.PRECHARGE_ALL
      ∧ cmd.issueCycle = m.currentCycle ∧ cmd.address.bank = b ∧ cmd.address.rank = r)
  ∧ m1.activateQueued r b = false
  ∧ ∀ s, (s < m.subArrayNum →
          m1.activeSubArray r b s = false ∧ m1.effectiveRow r b s = m.p.ROWS
          ∧ m1.effectiveMuxedRow r b s = m.p.ROWS)
      ∧ (¬s < m.subArrayNum →
          m1.activeSubArray r b s = m.activeSubArray r b s
          ∧ m1.effectiveRow r b s = m.effectiveRow r b s
          ∧ m1.effectiveMuxedRow r b s = m.effectiveMuxedRow r b s)

/-- What the blocked path of `HandleRefresh` can do to the controller: every
bank is untouched or closed for a refresh, and nothing else changes. -/
def RefreshClosed (m m1 : MemoryController) : Prop :=
  SchedulingOnly m m1
  ∧ m1.starvationCounter = m.starvationCounter
  ∧ ∀ r b, BankUntouched m m1 r b ∨ BankClosedForRefresh m m1 r b

/-- The controller `m1` differs from `m` at most in the refresh state
(`delayedRefreshCounter`, `bankNeedRefresh`, `nextRefreshRank`,
`nextRefreshBank`) and in what concerns the downstream. -/
def SameButRefresh (m m1 : MemoryController) : Prop :=
  m1.p = m.p
  ∧ m1.subArrayNum = m.subArrayNum
  ∧ m1.starvationThreshold = m.starvationThreshold
  ∧ m1.bankQueues = m.bankQueues
  ∧ m1.activateQueued = m.activateQueued
  ∧ m1.activeSubArray = m.activeSubArray
  ∧ m1.effectiveRow = m.effectiveRow
  ∧ m1.effectiveMuxedRow = m.effectiveMuxedRow
  ∧ m1.starvationCounter = m.starvationCounter
  ∧ m1.rankPowerDown = m.rankPowerDown
  ∧ m1.m_refreshBankNum = m.m_refreshBankNum
  ∧ m1.m_tREFI = m.m_tREFI
  ∧ m1.curRank = m.curRank
  ∧ m1.curBank = m.curBank
  ∧ m1.currentCycle = m.currentCycle
  ∧ m1.ReverseTranslate = m.ReverseTranslate
  ∧ m1.FLAG_LAST_REQUEST = m.FLAG_LAST_REQUEST
  ∧ m1.newRequest = m.newRequest
  ∧ m1.eventQueue = m.eventQueue
  ∧ m1.uninitializedOp = m.uninitializedOp

/-- The controller `m1` differs from `m` at most in `rankPowerDown` and in
what concerns the downstream. -/
def SameButPower (m m1 : MemoryController) : Prop :=
  m1.p = m.p
  ∧ m1.subArrayNum = m.subArrayNum
  ∧ m1.starvationThreshold = m.starvationThreshold
  ∧ m1.bankQueues = m.bankQueues
  ∧ m1.activateQueued = m.activateQueued
  ∧ m1.activeSubArray = m.activeSubArray
  ∧ m1.effectiveRow = m.effectiveRow
  ∧ m1.effectiveMuxedRow = m.effectiveMuxedRow
  ∧ m1.starvationCounter = m.starvationCounter
  ∧ m1.bankNeedRefresh = m.bankNeedRefresh
  ∧ m1.delayedRefreshCounter = m.delayedRefreshCounter
  ∧ m1.m_refreshBankNum = m.m_refreshBankNum
  ∧ m1.m_tREFI = m.m_tREFI
  ∧ m1.curRank = m.curRank
  ∧ m1.curBank = m.curBank
  ∧ m1.nextRefreshRank = m.nextRefreshRank
  ∧ m1.nextRefreshBank = m.nextRefreshBank
  ∧ m1.currentCycle = m.currentCycle
  ∧ m1.ReverseTranslate = m.ReverseTranslate
  ∧ m1.FLAG_LAST_REQUEST = m.FLAG_LAST_REQUEST
  ∧ m1.newRequest = m.newRequest
  ∧ m1.eventQueue = m.eventQueue
  ∧ m1.uninitializedOp = m.uninitializedOp

/-- The call is a `GetChild( )->IssueCommand( ... )`. -/
def ChildCall.isIssue : ChildCall → Bool
  | ChildCall.IssueCommand _ => true
  | _ => false

/-- The controller `m1` has the configuration, the sub-array count and the
activation state (`activateQueued`, `activeSubArray`, `effectiveRow`,
`effectiveMuxedRow`) of `m`. -/
def SameActivation (m m1 : MemoryController) : Prop :=
  m1.p = m.p ∧ m1.subArrayNum = m.subArrayNum
  ∧ m1.activateQueued = m.activateQueued ∧ m1.activeSubArray = m.activeSubArray
  ∧ m1.effectiveRow = m.effectiveRow ∧ m1.effectiveMuxedRow = m.effectiveMuxedRow

/-- The states the scheduler can reach from `init`: through calls of
`IssueMemoryCommands` on requests that `allowed` admits, through calls of
`HandleRefresh`, and through anything else that happens in between and leaves
the activation state alone (the clock, the downstream, command queues being
drained, refresh pulses). -/
inductive SchedReachable (allowed : MemoryController → NVMainRequest → Prop)
    (init : MemoryController) : MemoryController → Prop where
  | start : SchedReachable allowed init init
  | issue (m : MemoryController) (req : NVMainRequest) (rv : Bool) (m1 : MemoryController)
      (req1 : NVMainRequest) :
      SchedReachable allowed init m → allowed m req →
      IssueMemoryCommands m req = some (rv, m1, req1) → SchedReachable allowed init m1
  | refresh (m : MemoryController) :
      SchedReachable allowed init m → SchedReachable allowed init (HandleRefresh m).2
  | other (m m1 : MemoryController) :
      SchedReachable allowed init m → SameActivation m m1 → SchedReachable allowed init m1

/-- The states the refresh engine can reach from `init`, with the number of
refresh pulses processed on the way: through calls of `ProcessRefreshPulse`,
through calls of `HandleRefresh`, and through anything else that happens in
between and leaves the configuration and the delayed-refresh counters alone. -/
inductive RefreshReachable (init : MemoryController) : Nat → MemoryController → Prop where
  | start : RefreshReachable init 0 init
  | pulse (n : Nat) (m : MemoryController) (refresh : NVMainRequest) (m1 : MemoryController) :
      RefreshReachable init n m → ProcessRefreshPulse m refresh = some m1 →
      RefreshReachable init (n + 1) m1
  | refresh (n : Nat) (m : MemoryController) :
      RefreshReachable init n m → RefreshReachable init n (HandleRefresh m).2
  | other (n : Nat) (m m1 : MemoryController) :
      RefreshReachable init n m → m1.p = m.p →
      m1.delayedRefreshCounter = m.delayedRefreshCounter → RefreshReachable init n m1

/-- The states the refresh engine can reach from `init`, with the number of
refresh pulses processed on the way: through calls of `ProcessRefreshPulse`,
through calls of `HandleRefresh`, and through anything else that happens in
between and leaves the configuration, the delayed-refresh counters and the
`bankNeedRefresh` flags alone. -/
inductive RefreshFlagReachable (init : MemoryController) :
    Nat → MemoryController → Prop where
  | start : RefreshFlagReachable init 0 init
  | pulse (n : Nat) (m : MemoryController) (refresh : NVMainRequest) (m1 : MemoryController) :
      RefreshFlagReachable init n m → ProcessRefreshPulse m refresh = some m1 →
      RefreshFlagReachable init (n + 1) m1
  | refresh (n : Nat) (m : MemoryController) :
      RefreshFlagReachable init n m → RefreshFlagReachable init n (HandleRefresh m).2
  | other (n : Nat) (m m1 : MemoryController) :
      RefreshFlagReachable init n m → m1.p = m.p →
      m1.delayedRefreshCounter = m.delayedRefreshCounter →
      m1.bankNeedRefresh = m.bankNeedRefresh → RefreshFlagReachable init n m1

/-- The open-row invariant: a sub-array is active exactly when its effective
row is below `ROWS`, which is exactly when it differs from `ROWS`. -/
def OpenRowInvariant (m : MemoryController) : Prop :=
  ∀ r b s, (m.activeSubArray r b s = true ↔ m.effectiveRow r b s < m.p.ROWS)
    ∧ (m.activeSubArray r b s = true ↔ m.effectiveRow r b s ≠ m.p.ROWS)

/-- The controller a call of `CycleCommandQueues` leaves. -/
def CycleOutcome.state : CycleOutcome → MemoryController
  | CycleOutcome.returned m => m
  | CycleOutcome.fatal m => m

/-- The call of `CycleCommandQueues` ended the run with a fatal error. -/
def CycleOutcome.isFatal : CycleOutcome → Bool
  | CycleOutcome.returned _ => false
  | CycleOutcome.fatal _ => true

/-- The scan order of the specification: rank `(curRank + ri) mod RANKS` for
`ri = 0 .. RANKS-1` (outer) and bank `(curBank + bi) mod BANKS` for
`bi = 0 .. BANKS-1` (inner). -/
def scanOrder (m : MemoryController) : List (Nat × Nat) :=
  (List.range m.p.RANKS).flatMap fun ri =>
    (List.range m.p.BANKS).map fun bi =>
      ((m.curRank + ri) % m.p.RANKS, (m.curBank + bi) % m.p.BANKS)

/-- The command queue of bank `q` is non-empty and the downstream reports its
head issuable. -/
def HeadIssuable (m : MemoryController) (q : Nat × Nat) : Prop :=
  ∃ head tail, m.bankQueues q.1 q.2 = head :: tail ∧ m.childIsIssuable head = true

/-- The command queue of bank `q` is non-empty, its head is not issuable and
has been waiting more than `DeadlockTimer` cycles since its `issueCycle`. -/
def HeadExpired (m : MemoryController) (q : Nat × Nat) : Prop :=
  ∃ head tail, m.bankQueues q.1 q.2 = head :: tail ∧ m.childIsIssuable head = false
    ∧ ncycleSub m.currentCycle head.issueCycle > m.p.DeadlockTimer

/-- The controller `m1` differs from `m` at most in `rankPowerDown` and in
what concerns the downstream, on which calls other than `IssueCommand` have
been made. -/
def PowerOnly (m m1 : MemoryController) : Prop :=
  SameButPower m m1
  ∧ ∃ calls, m1.childLog = m.childLog ++ calls ∧ ∀ c ∈ calls, ChildCall.isIssue c = false

/-- The first refresh pulse of bank group `g` of rank `r` as the specification
gives it, for the configuration `conf` and a controller `m` that supplies the
clock and the decoder: a REFRESH addressed to bank `g * BanksPerRefresh` of
rank `r`, due at `now + tREFI + (r * m_refreshBankNum + g) * refreshSlice`. -/
def firstPulseEvent (m : MemoryController) (conf : Params) (r g : Nat) : Event :=
  let refreshBankNum := conf.BANKS / conf.BanksPerRefresh
  let tREFI := conf.tREFW / (conf.ROWS / conf.RefreshRows)
  let refreshSlice := tREFI / (conf.RANKS * refreshBankNum)
  { cycle := m.currentCycle + tREFI + (r * refreshBankNum + g) * refreshSlice
    request := MakeRefreshRequest m 0 0 (g * conf.BanksPerRefresh) r 0 }

/-- The field tags of an address mapping scheme. -/
inductive FieldTag where
  | R
  | C
  | BK
  | RK
  | CH
  deriving DecidableEq, Repr

/-- The characters of a tag. -/
def FieldTag.name : FieldTag → List Char
  | FieldTag.R => "R".toList
  | FieldTag.C => "C".toList
  | FieldTag.BK => "BK".toList
  | FieldTag.RK => "RK".toList
  | FieldTag.CH => "CH".toList

/-- The scheme string of a sequence of tags: their names, most significant
first, separated by colons. -/
def schemeOf : List FieldTag → List Char
  | [] => []
  | [t] => t.name
  | t :: u :: rest => t.name ++ ':' :: schemeOf (u :: rest)

/-- The local of `SetAddressMappingScheme` that holds the order of the field
a tag names. -/
def SchemeState.value (st : SchemeState) : FieldTag → Int
  | FieldTag.R => st.row
  | FieldTag.C => st.col
  | FieldTag.BK => st.bank
  | FieldTag.RK => st.rank
  | FieldTag.CH => st.channel

/-- The entry of the arrays of a translation method that a tag names. -/
def FieldTag.partition : FieldTag → MemoryPartition
  | FieldTag.R => MemoryPartition.MEM_ROW
  | FieldTag.C => MemoryPartition.MEM_COL
  | FieldTag.BK => MemoryPartition.MEM_BANK
  | FieldTag.RK => MemoryPartition.MEM_RANK
  | FieldTag.CH => MemoryPartition.MEM_CHANNEL

/-- The five values that `GetOrder` writes, in the order of its arguments:
row, column, bank, rank, channel. -/
def TranslationMethod.orders (t : TranslationMethod) : List Int :=
  [t.GetOrder.1, t.GetOrder.2.1, t.GetOrder.2.2.1, t.GetOrder.2.2.2.1, t.GetOrder.2.2.2.2]

/-- An empty translation method, before its constructor has run. -/
def blankTranslationMethod : TranslationMethod :=
  { bitWidths := fun _ => 0, order := fun _ => 0, count := fun _ => 0, output := [] }

/-- A run of the controller and, beside the state it reaches, the count that
the specification gives `starvationCounter` as its meaning: for each
sub-array the number of consecutive row-hit issues since the last ACTIVATE
that `IssueMemoryCommands` queued for it. A call of `IssueMemoryCommands`
that returns true on a row-buffer hit adds 1 to the count of the request's
sub-array; one that returns true otherwise queues an ACTIVATE and sets the
count to 0; nothing else changes a count. -/
inductive HitCount (init : MemoryController) :
    MemoryController → (Nat → Nat → Nat → Nat) → Prop where
  | start : HitCount init init (fun _ _ _ => 0)
  | activate (m : MemoryController) (cnt : Nat → Nat → Nat → Nat) (req : NVMainRequest)
      (m1 : MemoryController) (req1 : NVMainRequest) :
      HitCount init m cnt → ¬RowHit m req →
      IssueMemoryCommands m req = some (true, m1, req1) →
      HitCount init m1 (set3 cnt req.address.rank req.address.bank req.address.subarray 0)
  | hit (m : MemoryController) (cnt : Nat → Nat → Nat → Nat) (req : NVMainRequest)
      (m1 : MemoryController) (req1 : NVMainRequest) :
      HitCount init m cnt → RowHit m req →
      IssueMemoryCommands m req = some (true, m1, req1) →
      HitCount init m1 (set3 cnt req.address.rank req.address.bank req.address.subarray
        (cnt req.address.rank req.address.bank req.address.subarray + 1))
  | refused (m : MemoryController) (cnt : Nat → Nat → Nat → Nat) (req : NVMainRequest)
      (m1 : MemoryController) (req1 : NVMainRequest) :
      HitCount init m cnt → IssueMemoryCommands m req = some (false, m1, req1) →
      HitCount init m1 cnt
  | refresh (m : MemoryController) (cnt : Nat → Nat → Nat → Nat) :
      HitCount init m cnt → HitCount init (HandleRefresh m).2 cnt
  | pulse (m : MemoryController) (cnt : Nat → Nat → Nat → Nat) (refresh : NVMainRequest)
      (m1 : MemoryController) :
      HitCount init m cnt → ProcessRefreshPulse m refresh = some m1 → HitCount init m1 cnt
  | lowPower (m : MemoryController) (cnt : Nat → Nat → Nat → Nat) :
      HitCount init m cnt → HitCount init (HandleLowPower m) cnt
  | cycle (m : MemoryController) (cnt : Nat → Nat → Nat → Nat) :
      HitCount init m cnt → HitCount init (CycleCommandQueues m).state cnt

/-! ## Scenario runs -/

/-- The controller after `n` calls of `CycleCommandQueues`. -/
def drain : Nat → MemoryController → MemoryController
  | 0, m => m
  | n + 1, m => drain n (CycleCommandQueues m).state

/-- The controller after `IssueMemoryCommands` has been called on each request
of a list in turn; `none` when an assertion fails on the way. -/
def issueAll : List NVMainRequest → MemoryController → Option MemoryController
  | [], m => some m
  | req :: rest, m =>
    match IssueMemoryCommands m req with
    | some (_, m1, _) => issueAll rest m1
    | none => none

/-- The controller after `n` consecutive calls of `MoveRankBank`. -/
def MoveRankBank.times : Nat → MemoryController → MemoryController
  | 0, m => m
  | n + 1, m => MoveRankBank.times n (MoveRankBank m)

/-- The sample controller with the given `ScheduleScheme`, its round-robin
pointers at rank 1 and bank 2. -/
def roundRobinController (scheme : Nat) : MemoryController :=
  { closedController 1 with
    p := { sampleParams 1 with ScheduleScheme := scheme }
    curRank := 1
    curBank := 2 }

/-- The sample controller under relaxed close-page with a single sub-array
in each bank (sub-arrays of 16 rows). -/
def singleSubArrayController : MemoryController :=
  { closedController 1 with
    p := { sampleParams 1 with MATHeight := 16 }
    subArrayNum := 1 }

/-- One round of the scheduler of the relaxed close-page scenario: it takes
the result of `FindRowBufferHit` if there is one and otherwise that of
`FindClosedBankRequest` (both with the default predicate, which is always
true), passes it to `IssueMemoryCommands`, and lets the bank's command queue
drain, one `CycleCommandQueues` call for each command in it. The result is the
controller and the transaction queue afterwards; `none` when nothing is
selected or an assertion fails. -/
def hitFirstStep (m : MemoryController) (q : List NVMainRequest) :
    Option (MemoryController × List NVMainRequest) :=
  let hit := FindRowBufferHit m q (fun _ => true)
  let res := if hit.rv then hit else FindClosedBankRequest m q (fun _ => true)
  match res.request with
  | none => none
  | some req =>
    match IssueMemoryCommands m req with
    | none => none
    | some (_, m1, _) =>
      some (drain (m1.bankQueues req.address.rank req.address.bank).length m1,
        res.transactionQueue)

/-- The scheduler of the relaxed close-page scenario run for `n` rounds. -/
def hitFirstRun : Nat → MemoryController → List NVMainRequest →
    Option (MemoryController × List NVMainRequest)
  | 0, m, q => some (m, q)
  | n + 1, m, q =>
    match hitFirstStep m q with
    | none => none
    | some (m1, q1) => hitFirstRun n m1 q1

/-- The downstream reports every command issuable, now and after any calls. -/
def AlwaysIssuable (m : MemoryController) : Prop :=
  (∀ x, m.childIsIssuable x = true) ∧ ∀ cs x, (m.childReaction cs).IsIssuable x = true

/-- The controller `m1` has the configuration, the scheduling arrays, the
refresh flags, the clock and the request factory of `m`: what the selection
primitives and `IssueMemoryCommands` read, the bank queues and the downstream
apart. -/
def SameButQueues (m m1 : MemoryController) : Prop :=
  m1.p = m.p
  ∧ m1.subArrayNum = m.subArrayNum
  ∧ m1.starvationThreshold = m.starvationThreshold
  ∧ m1.activateQueued = m.activateQueued
  ∧ m1.activeSubArray = m.activeSubArray
  ∧ m1.effectiveRow = m.effectiveRow
  ∧ m1.effectiveMuxedRow = m.effectiveMuxedRow
  ∧ m1.starvationCounter = m.starvationCounter
  ∧ m1.bankNeedRefresh = m.bankNeedRefresh
  ∧ m1.currentCycle = m.currentCycle
  ∧ m1.ReverseTranslate = m.ReverseTranslate
  ∧ m1.FLAG_LAST_REQUEST = m.FLAG_LAST_REQUEST
  ∧ m1.newRequest = m.newRequest

/-- The setting of the relaxed close-page scenario for bank `(r, b)`:
`ClosePage` is 1, refresh and low power are off, the bank has a single
sub-array and is not refresh-gated, every bank command queue is empty, and
the downstream takes every command. -/
def HitScenario (m : MemoryController) (r b : Nat) : Prop :=
  m.p.ClosePage = 1 ∧ m.p.UseRefresh = false ∧ m.p.UseLowPower = false
  ∧ m.subArrayNum = 1 ∧ r < m.p.RANKS ∧ b < m.p.BANKS
  ∧ m.FLAG_LAST_REQUEST ≠ 0 ∧ m.bankNeedRefresh r b = false
  ∧ (∀ i j, m.bankQueues i j = []) ∧ AlwaysIssuable m

/-- A READ of the scenario: to row `row` of sub-array 0 of bank `(r, b)`, at
mux level `mux`, not marked as last request. -/
def ScenarioRead (m : MemoryController) (r b row mux : Nat) (x : NVMainRequest) : Prop :=
  x.type = OpType.READ ∧ x.address.rank = r ∧ x.address.bank = b ∧ x.address.row = row
  ∧ x.address.subarray = 0 ∧ x.address.col / m.p.RBSize = mux
  ∧ x.flags &&& m.FLAG_LAST_REQUEST = 0

/-! ## Lemmas on array assignments -/

@[simp] theorem set2_same {α : Type} (a : Nat → Nat → α) (r b : Nat) (v : α) :
    set2 a r b v r b = v := by
  simp [set2]

theorem set2_other {α : Type} (a : Nat → Nat → α) (r b i j : Nat) (v : α)
    (h : ¬(i = r ∧ j = b)) : set2 a r b v i j = a i j := by
  simp [set2, h]

@[simp] theorem set3_same {α : Type} (a : Nat → Nat → Nat → α) (r b s : Nat) (v : α) :
    set3 a r b s v r b s = v := by
  simp [set3]

theorem set3_other {α : Type} (a : Nat → Nat → Nat → α) (r b s i j k : Nat) (v : α)
    (h : ¬(i = r ∧ j = b ∧ k = s)) : set3 a r b s v i j k = a i j k := by
  simp [set3, h]

/-! ## What an assignment leaves of the controller -/

@[simp] theorem pushBack_fields (m : MemoryController) (r b : Nat) (cmd : NVMainRequest) :
    (m.pushBack r b cmd).p = m.p
    ∧ (m.pushBack r b cmd).subArrayNum = m.subArrayNum
    ∧ (m.pushBack r b cmd).starvationThreshold = m.starvationThreshold
    ∧ (m.pushBack r b cmd).bankQueues = set2 m.bankQueues r b (m.bankQueues r b ++ [cmd])
    ∧ (m.pushBack r b cmd).activateQueued = m.activateQueued
    ∧ (m.pushBack r b cmd).activeSubArray = m.activeSubArray
    ∧ (m.pushBack r b cmd).effectiveRow = m.effectiveRow
    ∧ (m.pushBack r b cmd).effectiveMuxedRow = m.effectiveMuxedRow
    ∧ (m.pushBack r b cmd).starvationCounter = m.starvationCounter
    ∧ (m.pushBack r b cmd).bankNeedRefresh = m.bankNeedRefresh
    ∧ (m.pushBack r b cmd).delayedRefreshCounter = m.delayedRefreshCounter
    ∧ (m.pushBack r b cmd).rankPowerDown = m.rankPowerDown
    ∧ (m.pushBack r b cmd).m_refreshBankNum = m.m_refreshBankNum
    ∧ (m.pushBack r b cmd).m_tREFI = m.m_tREFI
    ∧ (m.pushBack r b cmd).curRank = m.curRank
    ∧ (m.pushBack r b cmd).curBank = m.curBank
    ∧ (m.pushBack r b cmd).nextRefreshRank = m.nextRefreshRank
    ∧ (m.pushBack r b cmd).nextRefreshBank = m.nextRefreshBank
    ∧ (m.pushBack r b cmd).currentCycle = m.currentCycle
    ∧ (m.pushBack r b cmd).ReverseTranslate = m.ReverseTranslate
    ∧ (m.pushBack r b cmd).childIsIssuable = m.childIsIssuable
    ∧ (m.pushBack r b cmd).isWriting = m.isWriting
    ∧ (m.pushBack r b cmd).FLAG_LAST_REQUEST = m.FLAG_LAST_REQUEST
    ∧ (m.pushBack r b cmd).newRequest = m.newRequest
    ∧ (m.pushBack r b cmd).IsRankIdle = m.IsRankIdle
    ∧ (m.pushBack r b cmd).CanPowerDown = m.CanPowerDown
    ∧ (m.pushBack r b cmd).CanPowerUp = m.CanPowerUp
    ∧ (m.pushBack r b cmd).childLog = m.childLog
    ∧ (m.pushBack r b cmd).childReaction = m.childReaction
    ∧ (m.pushBack r b cmd).eventQueue = m.eventQueue
    ∧ (m.pushBack r b cmd).uninitializedOp = m.uninitializedOp :=
  ⟨rfl, rfl, rfl, rfl, rfl, rfl, rfl, rfl, rfl, rfl, rfl, rfl, rfl, rfl, rfl, rfl, rfl,
    rfl, rfl, rfl, rfl, rfl, rfl, rfl, rfl, rfl, rfl, rfl, rfl, rfl, rfl⟩

@[simp] theorem setActivateQueued_fields (m : MemoryController) (r b : Nat) (v : Bool) :
    (m.setActivateQueued r b v).p = m.p
    ∧ (m.setActivateQueued r b v).subArrayNum = m.subArrayNum
    ∧ (m.setActivateQueued r b v).starvationThreshold = m.starvationThreshold
    ∧ (m.setActivateQueued r b v).bankQueues = m.bankQueues
    ∧ (m.setActivateQueued r b v).activateQueued = set2 m.activateQueued r b v
    ∧ (m.setActivateQueued r b v).activeSubArray = m.activeSubArray
    ∧ (m.setActivateQueued r b v).effectiveRow = m.effectiveRow
    ∧ (m.setActivateQueued r b v).effectiveMuxedRow = m.effectiveMuxedRow
    ∧ (m.setActivateQueued r b v).starvationCounter = m.starvationCounter
    ∧ (m.setActivateQueued r b v).bankNeedRefresh = m.bankNeedRefresh
    ∧ (m.setActivateQueued r b v).delayedRefreshCounter = m.delayedRefreshCounter
    ∧ (m.setActivateQueued r b v).rankPowerDown = m.rankPowerDown
    ∧ (m.setActivateQueued r b v).m_refreshBankNum = m.m_refreshBankNum
    ∧ (m.setActivateQueued r b v).m_tREFI = m.m_tREFI
    ∧ (m.setActivateQueued r b v).curRank = m.curRank
    ∧ (m.setActivateQueued r b v).curBank = m.curBank
    ∧ (m.setActivateQueued r b v).nextRefreshRank = m.nextRefreshRank
    ∧ (m.setActivateQueued r b v).nextRefreshBank = m.nextRefreshBank
    ∧ (m.setActivateQueued r b v).currentCycle = m.currentCycle
    ∧ (m.setActivateQueued r b v).ReverseTranslate = m.ReverseTranslate
    ∧ (m.setActivateQueued r b v).childIsIssuable = m.childIsIssuable
    ∧ (m.setActivateQueued r b v).isWriting = m.isWriting
    ∧ (m.setActivateQueued r b v).FLAG_LAST_REQUEST = m.FLAG_LAST_REQUEST
    ∧ (m.setActivateQueued r b v).newRequest = m.newRequest
    ∧ (m.setActivateQueued r b v).IsRankIdle = m.IsRankIdle
    ∧ (m.setActivateQueued r b v).CanPowerDown = m.CanPowerDown
    ∧ (m.setActivateQueued r b v).CanPowerUp = m.CanPowerUp
    ∧ (m.setActivateQueued r b v).childLog = m.childLog
    ∧ (m.setActivateQueued r b v).childReaction = m.childReaction
    ∧ (m.setActivateQueued r b v).eventQueue = m.eventQueue
    ∧ (m.setActivateQueued r b v).uninitializedOp = m.uninitializedOp :=
  ⟨rfl, rfl, rfl, rfl, rfl, rfl, rfl, rfl, rfl, rfl, rfl, rfl, rfl, rfl, rfl, rfl, rfl,
    rfl, rfl, rfl, rfl, rfl, rfl, rfl, rfl, rfl, rfl, rfl, rfl, rfl, rfl⟩

@[simp] theorem setActiveSubArray_fields (m : MemoryController) (r b s : Nat) (v : Bool) :
    (m.setActiveSubArray r b s v).p = m.p
    ∧ (m.setActiveSubArray r b s v).subArrayNum = m.subArrayNum
    ∧ (m.setActiveSubArray r b s v).starvationThreshold = m.starvationThreshold
    ∧ (m.setActiveSubArray r b s v).bankQueues = m.bankQueues
    ∧ (m.setActiveSubArray r b s v).activateQueued = m.activateQueued
    ∧ (m.setActiveSubArray r b s v).activeSubArray = set3 m.activeSubArray r b s v
    ∧ (m.setActiveSubArray r b s v).effectiveRow = m.effectiveRow
    ∧ (m.setActiveSubArray r b s v).effectiveMuxedRow = m.effectiveMuxedRow
    ∧ (m.setActiveSubArray r b s v).starvationCounter = m.starvationCounter
    ∧ (m.setActiveSubArray r b s v).bankNeedRefresh = m.bankNeedRefresh
    ∧ (m.setActiveSubArray r b s v).delayedRefreshCounter = m.delayedRefreshCounter
    ∧ (m.setActiveSubArray r b s v).rankPowerDown = m.rankPowerDown
    ∧ (m.setActiveSubArray r b s v).m_refreshBankNum = m.m_refreshBankNum
    ∧ (m.setActiveSubArray r b s v).m_tREFI = m.m_tREFI
    ∧ (m.setActiveSubArray r b s v).curRank = m.curRank
    ∧ (m.setActiveSubArray r b s v).curBank = m.curBank
    ∧ (m.setActiveSubArray r b s v).nextRefreshRank = m.nextRefreshRank
    ∧ (m.setActiveSubArray r b s v).nextRefreshBank = m.nextRefreshBank
    ∧ (m.setActiveSubArray r b s v).currentCycle = m.currentCycle
    ∧ (m.setActiveSubArray r b s v).ReverseTranslate = m.ReverseTranslate
    ∧ (m.setActiveSubArray r b s v).childIsIssuable = m.childIsIssuable
    ∧ (m.setActiveSubArray r b s v).isWriting = m.isWriting
    ∧ (m.setActiveSubArray r b s v).FLAG_LAST_REQUEST = m.FLAG_LAST_REQUEST
    ∧ (m.setActiveSubArray r b s v).newRequest = m.newRequest
    ∧ (m.setActiveSubArray r b s v).IsRankIdle = m.IsRankIdle
    ∧ (m.setActiveSubArray r b s v).CanPowerDown = m.CanPowerDown
    ∧ (m.setActiveSubArray r b s v).CanPowerUp = m.CanPowerUp
    ∧ (m.setActiveSubArray r b s v).childLog = m.childLog
    ∧ (m.setActiveSubArray r b s v).childReaction = m.childReaction
    ∧ (m.setActiveSubArray r b s v).eventQueue = m.eventQueue
    ∧ (m.setActiveSubArray r b s v).uninitializedOp = m.uninitializedOp :=
  ⟨rfl, rfl, rfl, rfl, rfl, rfl, rfl, rfl, rfl, rfl, rfl, rfl, rfl, rfl, rfl, rfl, rfl,
    rfl, rfl, rfl, rfl, rfl, rfl, rfl, rfl, rfl, rfl, rfl, rfl, rfl, rfl⟩

@[simp] theorem setEffectiveRow_fields (m : MemoryController) (r b s v : Nat) :
    (m.setEffectiveRow r b s v).p = m.p
    ∧ (m.setEffectiveRow r b s v).subArrayNum = m.subArrayNum
    ∧ (m.setEffectiveRow r b s v).starvationThreshold = m.starvationThreshold
    ∧ (m.setEffectiveRow r b s v).bankQueues = m.bankQueues
    ∧ (m.setEffectiveRow r b s v).activateQueued = m.activateQueued
    ∧ (m.setEffectiveRow r b s v).activeSubArray = m.activeSubArray
    ∧ (m.setEffectiveRow r b s v).effectiveRow = set3 m.effectiveRow r b s v
    ∧ (m.setEffectiveRow r b s v).effectiveMuxedRow = m.effectiveMuxedRow
    ∧ (m.setEffectiveRow r b s v).starvationCounter = m.starvationCounter
    ∧ (m.setEffectiveRow r b s v).bankNeedRefresh = m.bankNeedRefresh
    ∧ (m.setEffectiveRow r b s v).delayedRefreshCounter = m.delayedRefreshCounter
    ∧ (m.setEffectiveRow r b s v).rankPowerDown = m.rankPowerDown
    ∧ (m.setEffectiveRow r b s v).m_refreshBankNum = m.m_refreshBankNum
    ∧ (m.setEffectiveRow r b s v).m_tREFI = m.m_tREFI
    ∧ (m.setEffectiveRow r b s v).curRank = m.curRank
    ∧ (m.setEffectiveRow r b s v).curBank = m.curBank
    ∧ (m.setEffectiveRow r b s v).nextRefreshRank = m.nextRefreshRank
    ∧ (m.setEffectiveRow r b s v).nextRefreshBank = m.nextRefreshBank
    ∧ (m.setEffectiveRow r b s v).currentCycle = m.currentCycle
    ∧ (m.setEffectiveRow r b s v).ReverseTranslate = m.ReverseTranslate
    ∧ (m.setEffectiveRow r b s v).childIsIssuable = m.childIsIssuable
    ∧ (m.setEffectiveRow r b s v).isWriting = m.isWriting
    ∧ (m.setEffectiveRow r b s v).FLAG_LAST_REQUEST = m.FLAG_LAST_REQUEST
    ∧ (m.setEffectiveRow r b s v).newRequest = m.newRequest
    ∧ (m.setEffectiveRow r b s v).IsRankIdle = m.IsRankIdle
    ∧ (m.setEffectiveRow r b s v).CanPowerDown = m.CanPowerDown
    ∧ (m.setEffectiveRow r b s v).CanPowerUp = m.CanPowerUp
    ∧ (m.setEffectiveRow r b s v).childLog = m.childLog
    ∧ (m.setEffectiveRow r b s v).childReaction = m.childReaction
    ∧ (m.setEffectiveRow r b s v).eventQueue = m.eventQueue
    ∧ (m.setEffectiveRow r b s v).uninitializedOp = m.uninitializedOp :=
  ⟨rfl, rfl, rfl, rfl, rfl, rfl, rfl, rfl, rfl, rfl, rfl, rfl, rfl, rfl, rfl, rfl, rfl,
    rfl, rfl, rfl, rfl, rfl, rfl, rfl, rfl, rfl, rfl, rfl, rfl, rfl, rfl⟩

@[simp] theorem setEffectiveMuxedRow_fields (m : MemoryController) (r b s v : Nat) :
    (m.setEffectiveMuxedRow r b s v).p = m.p
    ∧ (m.setEffectiveMuxedRow r b s v).subArrayNum = m.subArrayNum
    ∧ (m.setEffectiveMuxedRow r b s v).starvationThreshold = m.starvationThreshold
    ∧ (m.setEffectiveMuxedRow r b s v).bankQueues = m.bankQueues
    ∧ (m.setEffectiveMuxedRow r b s v).activateQueued = m.activateQueued
    ∧ (m.setEffectiveMuxedRow r b s v).activeSubArray = m.activeSubArray
    ∧ (m.setEffectiveMuxedRow r b s v).effectiveRow = m.effectiveRow
    ∧ (m.setEffectiveMuxedRow r b s v).effectiveMuxedRow = set3 m.effectiveMuxedRow r b s v
    ∧ (m.setEffectiveMuxedRow r b s v).starvationCounter = m.starvationCounter
    ∧ (m.setEffectiveMuxedRow r b s v).bankNeedRefresh = m.bankNeedRefresh
    ∧ (m.setEffectiveMuxedRow r b s v).delayedRefreshCounter = m.delayedRefreshCounter
    ∧ (m.setEffectiveMuxedRow r b s v).rankPowerDown = m.rankPowerDown
    ∧ (m.setEffectiveMuxedRow r b s v).m_refreshBankNum = m.m_refreshBankNum
    ∧ (m.setEffectiveMuxedRow r b s v).m_tREFI = m.m_tREFI
    ∧ (m.setEffectiveMuxedRow r b s v).curRank = m.curRank
    ∧ (m.setEffectiveMuxedRow r b s v).curBank = m.curBank
    ∧ (m.setEffectiveMuxedRow r b s v).nextRefreshRank = m.nextRefreshRank
    ∧ (m.setEffectiveMuxedRow r b s v).nextRefreshBank = m.nextRefreshBank
    ∧ (m.setEffectiveMuxedRow r b s v).currentCycle = m.currentCycle
    ∧ (m.setEffectiveMuxedRow r b s v).ReverseTranslate = m.ReverseTranslate
    ∧ (m.setEffectiveMuxedRow r b s v).childIsIssuable = m.childIsIssuable
    ∧ (m.setEffectiveMuxedRow r b s v).isWriting = m.isWriting
    ∧ (m.setEffectiveMuxedRow r b s v).FLAG_LAST_REQUEST = m.FLAG_LAST_REQUEST
    ∧ (m.setEffectiveMuxedRow r b s v).newRequest = m.newRequest
    ∧ (m.setEffectiveMuxedRow r b s v).IsRankIdle = m.IsRankIdle
    ∧ (m.setEffectiveMuxedRow r b s v).CanPowerDown = m.CanPowerDown
    ∧ (m.setEffectiveMuxedRow r b s v).CanPowerUp = m.CanPowerUp
    ∧ (m.setEffectiveMuxedRow r b s v).childLog = m.childLog
    ∧ (m.setEffectiveMuxedRow r b s v).childReaction = m.childReaction
    ∧ (m.setEffectiveMuxedRow r b s v).eventQueue = m.eventQueue
    ∧ (m.setEffectiveMuxedRow r b s v).uninitializedOp = m.uninitializedOp :=
  ⟨rfl, rfl, rfl, rfl, rfl, rfl, rfl, rfl, rfl, rfl, rfl, rfl, rfl, rfl, rfl, rfl, rfl,
    rfl, rfl, rfl, rfl, rfl, rfl, rfl, rfl, rfl, rfl, rfl, rfl, rfl, rfl⟩

@[simp] theorem setStarvationCounter_fields (m : MemoryController) (r b s v : Nat) :
    (m.setStarvationCounter r b s v).p = m.p
    ∧ (m.setStarvationCounter r b s v).subArrayNum = m.subArrayNum
    ∧ (m.setStarvationCounter r b s v).starvationThreshold = m.starvationThreshold
    ∧ (m.setStarvationCounter r b s v).bankQueues = m.bankQueues
    ∧ (m.setStarvationCounter r b s v).activateQueued = m.activateQueued
    ∧ (m.setStarvationCounter r b s v).activeSubArray = m.activeSubArray
    ∧ (m.setStarvationCounter r b s v).effectiveRow = m.effectiveRow
    ∧ (m.setStarvationCounter r b s v).effectiveMuxedRow = m.effectiveMuxedRow
    ∧ (m.setStarvationCounter r b s v).starvationCounter = set3 m.starvationCounter r b s v
    ∧ (m.setStarvationCounter r b s v).bankNeedRefresh = m.bankNeedRefresh
    ∧ (m.setStarvationCounter r b s v).delayedRefreshCounter = m.delayedRefreshCounter
    ∧ (m.setStarvationCounter r b s v).rankPowerDown = m.rankPowerDown
    ∧ (m.setStarvationCounter r b s v).m_refreshBankNum = m.m_refreshBankNum
    ∧ (m.setStarvationCounter r b s v).m_tREFI = m.m_tREFI
    ∧ (m.setStarvationCounter r b s v).curRank = m.curRank
    ∧ (m.setStarvationCounter r b s v).curBank = m.curBank
    ∧ (m.setStarvationCounter r b s v).nextRefreshRank = m.nextRefreshRank
    ∧ (m.setStarvationCounter r b s v).nextRefreshBank = m.nextRefreshBank
    ∧ (m.setStarvationCounter r b s v).currentCycle = m.currentCycle
    ∧ (m.setStarvationCounter r b s v).ReverseTranslate = m.ReverseTranslate
    ∧ (m.setStarvationCounter r b s v).childIsIssuable = m.childIsIssuable
    ∧ (m.setStarvationCounter r b s v).isWriting = m.isWriting
    ∧ (m.setStarvationCounter r b s v).FLAG_LAST_REQUEST = m.FLAG_LAST_REQUEST
    ∧ (m.setStarvationCounter r b s v).newRequest = m.newRequest
    ∧ (m.setStarvationCounter r b s v).IsRankIdle = m.IsRankIdle
    ∧ (m.setStarvationCounter r b s v).CanPowerDown = m.CanPowerDown
    ∧ (m.setStarvationCounter r b s v).CanPowerUp = m.CanPowerUp
    ∧ (m.setStarvationCounter r b s v).childLog = m.childLog
    ∧ (m.setStarvationCounter r b s v).childReaction = m.childReaction
    ∧ (m.setStarvationCounter r b s v).eventQueue = m.eventQueue
    ∧ (m.setStarvationCounter r b s v).uninitializedOp = m.uninitializedOp :=
  ⟨rfl, rfl, rfl, rfl, rfl, rfl, rfl, rfl, rfl, rfl, rfl, rfl, rfl, rfl, rfl, rfl, rfl,
    rfl, rfl, rfl, rfl, rfl, rfl, rfl, rfl, rfl, rfl, rfl, rfl, rfl, rfl⟩

@[simp] theorem setBankQueue_fields (m : MemoryController) (r b : Nat) (q : List NVMainRequest) :
    (m.setBankQueue r b q).p = m.p
    ∧ (m.setBankQueue r b q).subArrayNum = m.subArrayNum
    ∧ (m.setBankQueue r b q).starvationThreshold = m.starvationThreshold
    ∧ (m.setBankQueue r b q).bankQueues = set2 m.bankQueues r b q
    ∧ (m.setBankQueue r b q).activateQueued = m.activateQueued
    ∧ (m.setBankQueue r b q).activeSubArray = m.activeSubArray
    ∧ (m.setBankQueue r b q).effectiveRow = m.effectiveRow
    ∧ (m.setBankQueue r b q).effectiveMuxedRow = m.effectiveMuxedRow
    ∧ (m.setBankQueue r b q).starvationCounter = m.starvationCounter
    ∧ (m.setBankQueue r b q).bankNeedRefresh = m.bankNeedRefresh
    ∧ (m.setBankQueue r b q).delayedRefreshCounter = m.delayedRefreshCounter
    ∧ (m.setBankQueue r b q).rankPowerDown = m.rankPowerDown
    ∧ (m.setBankQueue r b q).m_refreshBankNum = m.m_refreshBankNum
    ∧ (m.setBankQueue r b q).m_tREFI = m.m_tREFI
    ∧ (m.setBankQueue r b q).curRank = m.curRank
    ∧ (m.setBankQueue r b q).curBank = m.curBank
    ∧ (m.setBankQueue r b q).nextRefreshRank = m.nextRefreshRank
    ∧ (m.setBankQueue r b q).nextRefreshBank = m.nextRefreshBank
    ∧ (m.setBankQueue r b q).currentCycle = m.currentCycle
    ∧ (m.setBankQueue r b q).ReverseTranslate = m.ReverseTranslate
    ∧ (m.setBankQueue r b q).childIsIssuable = m.childIsIssuable
    ∧ (m.setBankQueue r b q).isWriting = m.isWriting
    ∧ (m.setBankQueue r b q).FLAG_LAST_REQUEST = m.FLAG_LAST_REQUEST
    ∧ (m.setBankQueue r b q).newRequest = m.newRequest
    ∧ (m.setBankQueue r b q).IsRankIdle = m.IsRankIdle
    ∧ (m.setBankQueue r b q).CanPowerDown = m.CanPowerDown
    ∧ (m.setBankQueue r b q).CanPowerUp = m.CanPowerUp
    ∧ (m.setBankQueue r b q).childLog = m.childLog
    ∧ (m.setBankQueue r b q).childReaction = m.childReaction
    ∧ (m.setBankQueue r b q).eventQueue = m.eventQueue
    ∧ (m.setBankQueue r b q).uninitializedOp = m.uninitializedOp :=
  ⟨rfl, rfl, rfl, rfl, rfl, rfl, rfl, rfl, rfl, rfl, rfl, rfl, rfl, rfl, rfl, rfl, rfl,
    rfl, rfl, rfl, rfl, rfl, rfl, rfl, rfl, rfl, rfl, rfl, rfl, rfl, rfl⟩

@[simp] theorem setBankNeedRefresh_fields (m : MemoryController) (r b : Nat) (v : Bool) :
    (m.setBankNeedRefresh r b v).p = m.p
    ∧ (m.setBankNeedRefresh r b v).subArrayNum = m.subArrayNum
    ∧ (m.setBankNeedRefresh r b v).starvationThreshold = m.starvationThreshold
    ∧ (m.setBankNeedRefresh r b v).bankQueues = m.bankQueues
    ∧ (m.setBankNeedRefresh r b v).activateQueued = m.activateQueued
    ∧ (m.setBankNeedRefresh r b v).activeSubArray = m.activeSubArray
    ∧ (m.setBankNeedRefresh r b v).effectiveRow = m.effectiveRow
    ∧ (m.setBankNeedRefresh r b v).effectiveMuxedRow = m.effectiveMuxedRow
    ∧ (m.setBankNeedRefresh r b v).starvationCounter = m.starvationCounter
    ∧ (m.setBankNeedRefresh r b v).bankNeedRefresh = set2 m.bankNeedRefresh r b v
    ∧ (m.setBankNeedRefresh r b v).delayedRefreshCounter = m.delayedRefreshCounter
    ∧ (m.setBankNeedRefresh r b v).rankPowerDown = m.rankPowerDown
    ∧ (m.setBankNeedRefresh r b v).m_refreshBankNum = m.m_refreshBankNum
    ∧ (m.setBankNeedRefresh r b v).m_tREFI = m.m_tREFI
    ∧ (m.setBankNeedRefresh r b v).curRank = m.curRank
    ∧ (m.setBankNeedRefresh r b v).curBank = m.curBank
    ∧ (m.setBankNeedRefresh r b v).nextRefreshRank = m.nextRefreshRank
    ∧ (m.setBankNeedRefresh r b v).nextRefreshBank = m.nextRefreshBank
    ∧ (m.setBankNeedRefresh r b v).currentCycle = m.currentCycle
    ∧ (m.setBankNeedRefresh r b v).ReverseTranslate = m.ReverseTranslate
    ∧ (m.setBankNeedRefresh r b v).childIsIssuable = m.childIsIssuable
    ∧ (m.setBankNeedRefresh r b v).isWriting = m.isWriting
    ∧ (m.setBankNeedRefresh r b v).FLAG_LAST_REQUEST = m.FLAG_LAST_REQUEST
    ∧ (m.setBankNeedRefresh r b v).newRequest = m.newRequest
    ∧ (m.setBankNeedRefresh r b v).IsRankIdle = m.IsRankIdle
    ∧ (m.setBankNeedRefresh r b v).CanPowerDown = m.CanPowerDown
    ∧ (m.setBankNeedRefresh r b v).CanPowerUp = m.CanPowerUp
    ∧ (m.setBankNeedRefresh r b v).childLog = m.childLog
    ∧ (m.setBankNeedRefresh r b v).childReaction = m.childReaction
    ∧ (m.setBankNeedRefresh r b v).eventQueue = m.eventQueue
    ∧ (m.setBankNeedRefresh r b v).uninitializedOp = m.uninitializedOp :=
  ⟨rfl, rfl, rfl, rfl, rfl, rfl, rfl, rfl, rfl, rfl, rfl, rfl, rfl, rfl, rfl, rfl, rfl,
    rfl, rfl, rfl, rfl, rfl, rfl, rfl, rfl, rfl, rfl, rfl, rfl, rfl, rfl⟩

@[simp] theorem setDelayedRefreshCounter_fields (m : MemoryController) (r g v : Nat) :
    (m.setDelayedRefreshCounter r g v).p = m.p
    ∧ (m.setDelayedRefreshCounter r g v).subArrayNum = m.subArrayNum
    ∧ (m.setDelayedRefreshCounter r g v).starvationThreshold = m.starvationThreshold
    ∧ (m.setDelayedRefreshCounter r g v).bankQueues = m.bankQueues
    ∧ (m.setDelayedRefreshCounter r g v).activateQueued = m.activateQueued
    ∧ (m.setDelayedRefreshCounter r g v).activeSubArray = m.activeSubArray
    ∧ (m.setDelayedRefreshCounter r g v).effectiveRow = m.effectiveRow
    ∧ (m.setDelayedRefreshCounter r g v).effectiveMuxedRow = m.effectiveMuxedRow
    ∧ (m.setDelayedRefreshCounter r g v).starvationCounter = m.starvationCounter
    ∧ (m.setDelayedRefreshCounter r g v).bankNeedRefresh = m.bankNeedRefresh
    ∧ (m.setDelayedRefreshCounter r g v).delayedRefreshCounter
        = set2 m.delayedRefreshCounter r g v
    ∧ (m.setDelayedRefreshCounter r g v).rankPowerDown = m.rankPowerDown
    ∧ (m.setDelayedRefreshCounter r g v).m_refreshBankNum = m.m_refreshBankNum
    ∧ (m.setDelayedRefreshCounter r g v).m_tREFI = m.m_tREFI
    ∧ (m.setDelayedRefreshCounter r g v).curRank = m.curRank
    ∧ (m.setDelayedRefreshCounter r g v).curBank = m.curBank
    ∧ (m.setDelayedRefreshCounter r g v).nextRefreshRank = m.nextRefreshRank
    ∧ (m.setDelayedRefreshCounter r g v).nextRefreshBank = m.nextRefreshBank
    ∧ (m.setDelayedRefreshCounter r g v).currentCycle = m.currentCycle
    ∧ (m.setDelayedRefreshCounter r g v).ReverseTranslate = m.ReverseTranslate
    ∧ (m.setDelayedRefreshCounter r g v).childIsIssuable = m.childIsIssuable
    ∧ (m.setDelayedRefreshCounter r g v).isWriting = m.isWriting
    ∧ (m.setDelayedRefreshCounter r g v).FLAG_LAST_REQUEST = m.FLAG_LAST_REQUEST
    ∧ (m.setDelayedRefreshCounter r g v).newRequest = m.newRequest
    ∧ (m.setDelayedRefreshCounter r g v).IsRankIdle = m.IsRankIdle
    ∧ (m.setDelayedRefreshCounter r g v).CanPowerDown = m.CanPowerDown
    ∧ (m.setDelayedRefreshCounter r g v).CanPowerUp = m.CanPowerUp
    ∧ (m.setDelayedRefreshCounter r g v).childLog = m.childLog
    ∧ (m.setDelayedRefreshCounter r g v).childReaction = m.childReaction
    ∧ (m.setDelayedRefreshCounter r g v).eventQueue = m.eventQueue
    ∧ (m.setDelayedRefreshCounter r g v).uninitializedOp = m.uninitializedOp :=
  ⟨rfl, rfl, rfl, rfl, rfl, rfl, rfl, rfl, rfl, rfl, rfl, rfl, rfl, rfl, rfl, rfl, rfl,
    rfl, rfl, rfl, rfl, rfl, rfl, rfl, rfl, rfl, rfl, rfl, rfl, rfl, rfl⟩

@[simp] theorem setRankPowerDown_fields (m : MemoryController) (r : Nat) (v : Bool) :
    (m.setRankPowerDown r v).p = m.p
    ∧ (m.setRankPowerDown r v).subArrayNum = m.subArrayNum
    ∧ (m.setRankPowerDown r v).starvationThreshold = m.starvationThreshold
    ∧ (m.setRankPowerDown r v).bankQueues = m.bankQueues
    ∧ (m.setRankPowerDown r v).activateQueued = m.activateQueued
    ∧ (m.setRankPowerDown r v).activeSubArray = m.activeSubArray
    ∧ (m.setRankPowerDown r v).effectiveRow = m.effectiveRow
    ∧ (m.setRankPowerDown r v).effectiveMuxedRow = m.effectiveMuxedRow
    ∧ (m.setRankPowerDown r v).starvationCounter = m.starvationCounter
    ∧ (m.setRankPowerDown r v).bankNeedRefresh = m.bankNeedRefresh
    ∧ (m.setRankPowerDown r v).delayedRefreshCounter = m.delayedRefreshCounter
    ∧ (m.setRankPowerDown r v).rankPowerDown = (fun i => if i = r then v else m.rankPowerDown i)
    ∧ (m.setRankPowerDown r v).m_refreshBankNum = m.m_refreshBankNum
    ∧ (m.setRankPowerDown r v).m_tREFI = m.m_tREFI
    ∧ (m.setRankPowerDown r v).curRank = m.curRank
    ∧ (m.setRankPowerDown r v).curBank = m.curBank
    ∧ (m.setRankPowerDown r v).nextRefreshRank = m.nextRefreshRank
    ∧ (m.setRankPowerDown r v).nextRefreshBank = m.nextRefreshBank
    ∧ (m.setRankPowerDown r v).currentCycle = m.currentCycle
    ∧ (m.setRankPowerDown r v).ReverseTranslate = m.ReverseTranslate
    ∧ (m.setRankPowerDown r v).childIsIssuable = m.childIsIssuable
    ∧ (m.setRankPowerDown r v).isWriting = m.isWriting
    ∧ (m.setRankPowerDown r v).FLAG_LAST_REQUEST = m.FLAG_LAST_REQUEST
    ∧ (m.setRankPowerDown r v).newRequest = m.newRequest
    ∧ (m.setRankPowerDown r v).IsRankIdle = m.IsRankIdle
    ∧ (m.setRankPowerDown r v).CanPowerDown = m.CanPowerDown
    ∧ (m.setRankPowerDown r v).CanPowerUp = m.CanPowerUp
    ∧ (m.setRankPowerDown r v).childLog = m.childLog
    ∧ (m.setRankPowerDown r v).childReaction = m.childReaction
    ∧ (m.setRankPowerDown r v).eventQueue = m.eventQueue
    ∧ (m.setRankPowerDown r v).uninitializedOp = m.uninitializedOp :=
  ⟨rfl, rfl, rfl, rfl, rfl, rfl, rfl, rfl, rfl, rfl, rfl, rfl, rfl, rfl, rfl, rfl, rfl,
    rfl, rfl, rfl, rfl, rfl, rfl, rfl, rfl, rfl, rfl, rfl, rfl, rfl, rfl⟩

@[simp] theorem setCurRank_fields (m : MemoryController) (v : Nat) :
    (m.setCurRank v).p = m.p
    ∧ (m.setCurRank v).subArrayNum = m.subArrayNum
    ∧ (m.setCurRank v).starvationThreshold = m.starvationThreshold
    ∧ (m.setCurRank v).bankQueues = m.bankQueues
    ∧ (m.setCurRank v).activateQueued = m.activateQueued
    ∧ (m.setCurRank v).activeSubArray = m.activeSubArray
    ∧ (m.setCurRank v).effectiveRow = m.effectiveRow
    ∧ (m.setCurRank v).effectiveMuxedRow = m.effectiveMuxedRow
    ∧ (m.setCurRank v).starvationCounter = m.starvationCounter
    ∧ (m.setCurRank v).bankNeedRefresh = m.bankNeedRefresh
    ∧ (m.setCurRank v).delayedRefreshCounter = m.delayedRefreshCounter
    ∧ (m.setCurRank v).rankPowerDown = m.rankPowerDown
    ∧ (m.setCurRank v).m_refreshBankNum = m.m_refreshBankNum
    ∧ (m.setCurRank v).m_tREFI = m.m_tREFI
    ∧ (m.setCurRank v).curRank = v
    ∧ (m.setCurRank v).curBank = m.curBank
    ∧ (m.setCurRank v).nextRefreshRank = m.nextRefreshRank
    ∧ (m.setCurRank v).nextRefreshBank = m.nextRefreshBank
    ∧ (m.setCurRank v).currentCycle = m.currentCycle
    ∧ (m.setCurRank v).ReverseTranslate = m.ReverseTranslate
    ∧ (m.setCurRank v).childIsIssuable = m.childIsIssuable
    ∧ (m.setCurRank v).isWriting = m.isWriting
    ∧ (m.setCurRank v).FLAG_LAST_REQUEST = m.FLAG_LAST_REQUEST
    ∧ (m.setCurRank v).newRequest = m.newRequest
    ∧ (m.setCurRank v).IsRankIdle = m.IsRankIdle
    ∧ (m.setCurRank v).CanPowerDown = m.CanPowerDown
    ∧ (m.setCurRank v).CanPowerUp = m.CanPowerUp
    ∧ (m.setCurRank v).childLog = m.childLog
    ∧ (m.setCurRank v).childReaction = m.childReaction
    ∧ (m.setCurRank v).eventQueue = m.eventQueue
    ∧ (m.setCurRank v).uninitializedOp = m.uninitializedOp :=
  ⟨rfl, rfl, rfl, rfl, rfl, rfl, rfl, rfl, rfl, rfl, rfl, rfl, rfl, rfl, rfl, rfl, rfl,
    rfl, rfl, rfl, rfl, rfl, rfl, rfl, rfl, rfl, rfl, rfl, rfl, rfl, rfl⟩

@[simp] theorem setCurBank_fields (m : MemoryController) (v : Nat) :
    (m.setCurBank v).p = m.p
    ∧ (m.setCurBank v).subArrayNum = m.subArrayNum
    ∧ (m.setCurBank v).starvationThreshold = m.starvationThreshold
    ∧ (m.setCurBank v).bankQueues = m.bankQueues
    ∧ (m.setCurBank v).activateQueued = m.activateQueued
    ∧ (m.setCurBank v).activeSubArray = m.activeSubArray
    ∧ (m.setCurBank v).effectiveRow = m.effectiveRow
    ∧ (m.setCurBank v).effectiveMuxedRow = m.effectiveMuxedRow
    ∧ (m.setCurBank v).starvationCounter = m.starvationCounter
    ∧ (m.setCurBank v).bankNeedRefresh = m.bankNeedRefresh
    ∧ (m.setCurBank v).delayedRefreshCounter = m.delayedRefreshCounter
    ∧ (m.setCurBank v).rankPowerDown = m.rankPowerDown
    ∧ (m.setCurBank v).m_refreshBankNum = m.m_refreshBankNum
    ∧ (m.setCurBank v).m_tREFI = m.m_tREFI
    ∧ (m.setCurBank v).curRank = m.curRank
    ∧ (m.setCurBank v).curBank = v
    ∧ (m.setCurBank v).nextRefreshRank = m.nextRefreshRank
    ∧ (m.setCurBank v).nextRefreshBank = m.nextRefreshBank
    ∧ (m.setCurBank v).currentCycle = m.currentCycle
    ∧ (m.setCurBank v).ReverseTranslate = m.ReverseTranslate
    ∧ (m.setCurBank v).childIsIssuable = m.childIsIssuable
    ∧ (m.setCurBank v).isWriting = m.isWriting
    ∧ (m.setCurBank v).FLAG_LAST_REQUEST = m.FLAG_LAST_REQUEST
    ∧ (m.setCurBank v).newRequest = m.newRequest
    ∧ (m.setCurBank v).IsRankIdle = m.IsRankIdle
    ∧ (m.setCurBank v).CanPowerDown = m.CanPowerDown
    ∧ (m.setCurBank v).CanPowerUp = m.CanPowerUp
    ∧ (m.setCurBank v).childLog = m.childLog
    ∧ (m.setCurBank v).childReaction = m.childReaction
    ∧ (m.setCurBank v).eventQueue = m.eventQueue
    ∧ (m.setCurBank v).uninitializedOp = m.uninitializedOp :=
  ⟨rfl, rfl, rfl, rfl, rfl, rfl, rfl, rfl, rfl, rfl, rfl, rfl, rfl, rfl, rfl, rfl, rfl,
    rfl, rfl, rfl, rfl, rfl, rfl, rfl, rfl, rfl, rfl, rfl, rfl, rfl, rfl⟩

@[simp] theorem setNextRefreshRank_fields (m : MemoryController) (v : Nat) :
    (m.setNextRefreshRank v).p = m.p
    ∧ (m.setNextRefreshRank v).subArrayNum = m.subArrayNum
    ∧ (m.setNextRefreshRank v).starvationThreshold = m.starvationThreshold
    ∧ (m.setNextRefreshRank v).bankQueues = m.bankQueues
    ∧ (m.setNextRefreshRank v).activateQueued = m.activateQueued
    ∧ (m.setNextRefreshRank v).activeSubArray = m.activeSubArray
    ∧ (m.setNextRefreshRank v).effectiveRow = m.effectiveRow
    ∧ (m.setNextRefreshRank v).effectiveMuxedRow = m.effectiveMuxedRow
    ∧ (m.setNextRefreshRank v).starvationCounter = m.starvationCounter
    ∧ (m.setNextRefreshRank v).bankNeedRefresh = m.bankNeedRefresh
    ∧ (m.setNextRefreshRank v).delayedRefreshCounter = m.delayedRefreshCounter
    ∧ (m.setNextRefreshRank v).rankPowerDown = m.rankPowerDown
    ∧ (m.setNextRefreshRank v).m_refreshBankNum = m.m_refreshBankNum
    ∧ (m.setNextRefreshRank v).m_tREFI = m.m_tREFI
    ∧ (m.setNextRefreshRank v).curRank = m.curRank
    ∧ (m.setNextRefreshRank v).curBank = m.curBank
    ∧ (m.setNextRefreshRank v).nextRefreshRank = v
    ∧ (m.setNextRefreshRank v).nextRefreshBank = m.nextRefreshBank
    ∧ (m.setNextRefreshRank v).currentCycle = m.currentCycle
    ∧ (m.setNextRefreshRank v).ReverseTranslate = m.ReverseTranslate
    ∧ (m.setNextRefreshRank v).childIsIssuable = m.childIsIssuable
    ∧ (m.setNextRefreshRank v).isWriting = m.isWriting
    ∧ (m.setNextRefreshRank v).FLAG_LAST_REQUEST = m.FLAG_LAST_REQUEST
    ∧ (m.setNextRefreshRank v).newRequest = m.newRequest
    ∧ (m.setNextRefreshRank v).IsRankIdle = m.IsRankIdle
    ∧ (m.setNextRefreshRank v).CanPowerDown = m.CanPowerDown
    ∧ (m.setNextRefreshRank v).CanPowerUp = m.CanPowerUp
    ∧ (m.setNextRefreshRank v).childLog = m.childLog
    ∧ (m.setNextRefreshRank v).childReaction = m.childReaction
    ∧ (m.setNextRefreshRank v).eventQueue = m.eventQueue
    ∧ (m.setNextRefreshRank v).uninitializedOp = m.uninitializedOp :=
  ⟨rfl, rfl, rfl, rfl, rfl, rfl, rfl, rfl, rfl, rfl, rfl, rfl, rfl, rfl, rfl, rfl, rfl,
    rfl, rfl, rfl, rfl, rfl, rfl, rfl, rfl, rfl, rfl, rfl, rfl, rfl, rfl⟩

@[simp] theorem setNextRefreshBank_fields (m : MemoryController) (v : Nat) :
    (m.setNextRefreshBank v).p = m.p
    ∧ (m.setNextRefreshBank v).subArrayNum = m.subArrayNum
    ∧ (m.setNextRefreshBank v).starvationThreshold = m.starvationThreshold
    ∧ (m.setNextRefreshBank v).bankQueues = m.bankQueues
    ∧ (m.setNextRefreshBank v).activateQueued = m.activateQueued
    ∧ (m.setNextRefreshBank v).activeSubArray = m.activeSubArray
    ∧ (m.setNextRefreshBank v).effectiveRow = m.effectiveRow
    ∧ (m.setNextRefreshBank v).effectiveMuxedRow = m.effectiveMuxedRow
    ∧ (m.setNextRefreshBank v).starvationCounter = m.starvationCounter
    ∧ (m.setNextRefreshBank v).bankNeedRefresh = m.bankNeedRefresh
    ∧ (m.setNextRefreshBank v).delayedRefreshCounter = m.delayedRefreshCounter
    ∧ (m.setNextRefreshBank v).rankPowerDown = m.rankPowerDown
    ∧ (m.setNextRefreshBank v).m_refreshBankNum = m.m_refreshBankNum
    ∧ (m.setNextRefreshBank v).m_tREFI = m.m_tREFI
    ∧ (m.setNextRefreshBank v).curRank = m.curRank
    ∧ (m.setNextRefreshBank v).curBank = m.curBank
    ∧ (m.setNextRefreshBank v).nextRefreshRank = m.nextRefreshRank
    ∧ (m.setNextRefreshBank v).nextRefreshBank = v
    ∧ (m.setNextRefreshBank v).currentCycle = m.currentCycle
    ∧ (m.setNextRefreshBank v).ReverseTranslate = m.ReverseTranslate
    ∧ (m.setNextRefreshBank v).childIsIssuable = m.childIsIssuable
    ∧ (m.setNextRefreshBank v).isWriting = m.isWriting
    ∧ (m.setNextRefreshBank v).FLAG_LAST_REQUEST = m.FLAG_LAST_REQUEST
    ∧ (m.setNextRefreshBank v).newRequest = m.newRequest
    ∧ (m.setNextRefreshBank v).IsRankIdle = m.IsRankIdle
    ∧ (m.setNextRefreshBank v).CanPowerDown = m.CanPowerDown
    ∧ (m.setNextRefreshBank v).CanPowerUp = m.CanPowerUp
    ∧ (m.setNextRefreshBank v).childLog = m.childLog
    ∧ (m.setNextRefreshBank v).childReaction = m.childReaction
    ∧ (m.setNextRefreshBank v).eventQueue = m.eventQueue
    ∧ (m.setNextRefreshBank v).uninitializedOp = m.uninitializedOp :=
  ⟨rfl, rfl, rfl, rfl, rfl, rfl, rfl, rfl, rfl, rfl, rfl, rfl, rfl, rfl, rfl, rfl, rfl,
    rfl, rfl, rfl, rfl, rfl, rfl, rfl, rfl, rfl, rfl, rfl, rfl, rfl, rfl⟩

@[simp] theorem callChild_fields (m : MemoryController) (c : ChildCall) :
    (m.callChild c).p = m.p
    ∧ (m.callChild c).subArrayNum = m.subArrayNum
    ∧ (m.callChild c).starvationThreshold = m.starvationThreshold
    ∧ (m.callChild c).bankQueues = m.bankQueues
    ∧ (m.callChild c).activateQueued = m.activateQueued
    ∧ (m.callChild c).activeSubArray = m.activeSubArray
    ∧ (m.callChild c).effectiveRow = m.effectiveRow
    ∧ (m.callChild c).effectiveMuxedRow = m.effectiveMuxedRow
    ∧ (m.callChild c).starvationCounter = m.starvationCounter
    ∧ (m.callChild c).bankNeedRefresh = m.bankNeedRefresh
    ∧ (m.callChild c).delayedRefreshCounter = m.delayedRefreshCounter
    ∧ (m.callChild c).rankPowerDown = m.rankPowerDown
    ∧ (m.callChild c).m_refreshBankNum = m.m_refreshBankNum
    ∧ (m.callChild c).m_tREFI = m.m_tREFI
    ∧ (m.callChild c).curRank = m.curRank
    ∧ (m.callChild c).curBank = m.curBank
    ∧ (m.callChild c).nextRefreshRank = m.nextRefreshRank
    ∧ (m.callChild c).nextRefreshBank = m.nextRefreshBank
    ∧ (m.callChild c).currentCycle = m.currentCycle
    ∧ (m.callChild c).ReverseTranslate = m.ReverseTranslate
    ∧ (m.callChild c).childIsIssuable = (m.childReaction [c]).IsIssuable
    ∧ (m.callChild c).isWriting = (m.childReaction [c]).isWriting
    ∧ (m.callChild c).FLAG_LAST_REQUEST = m.FLAG_LAST_REQUEST
    ∧ (m.callChild c).newRequest = m.newRequest
    ∧ (m.callChild c).IsRankIdle = (m.childReaction [c]).IsRankIdle
    ∧ (m.callChild c).CanPowerDown = (m.childReaction [c]).CanPowerDown
    ∧ (m.callChild c).CanPowerUp = (m.childReaction [c]).CanPowerUp
    ∧ (m.callChild c).childLog = m.childLog ++ [c]
    ∧ (m.callChild c).childReaction = (fun cs => m.childReaction (c :: cs))
    ∧ (m.callChild c).eventQueue = m.eventQueue
    ∧ (m.callChild c).uninitializedOp = m.uninitializedOp :=
  ⟨rfl, rfl, rfl, rfl, rfl, rfl, rfl, rfl, rfl, rfl, rfl, rfl, rfl, rfl, rfl, rfl, rfl,
    rfl, rfl, rfl, rfl, rfl, rfl, rfl, rfl, rfl, rfl, rfl, rfl, rfl, rfl⟩

@[simp] theorem insertEvent_fields (m : MemoryController) (request : NVMainRequest) (cycle : Nat) :
    (m.InsertEvent request cycle).p = m.p
    ∧ (m.InsertEvent request cycle).subArrayNum = m.subArrayNum
    ∧ (m.InsertEvent request cycle).starvationThreshold = m.starvationThreshold
    ∧ (m.InsertEvent request cycle).bankQueues = m.bankQueues
    ∧ (m.InsertEvent request cycle).activateQueued = m.activateQueued
    ∧ (m.InsertEvent request cycle).activeSubArray = m.activeSubArray
    ∧ (m.InsertEvent request cycle).effectiveRow = m.effectiveRow
    ∧ (m.InsertEvent request cycle).effectiveMuxedRow = m.effectiveMuxedRow
    ∧ (m.InsertEvent request cycle).starvationCounter = m.starvationCounter
    ∧ (m.InsertEvent request cycle).bankNeedRefresh = m.bankNeedRefresh
    ∧ (m.InsertEvent request cycle).delayedRefreshCounter = m.delayedRefreshCounter
    ∧ (m.InsertEvent request cycle).rankPowerDown = m.rankPowerDown
    ∧ (m.InsertEvent request cycle).m_refreshBankNum = m.m_refreshBankNum
    ∧ (m.InsertEvent request cycle).m_tREFI = m.m_tREFI
    ∧ (m.InsertEvent request cycle).curRank = m.curRank
    ∧ (m.InsertEvent request cycle).curBank = m.curBank
    ∧ (m.InsertEvent request cycle).nextRefreshRank = m.nextRefreshRank
    ∧ (m.InsertEvent request cycle).nextRefreshBank = m.nextRefreshBank
    ∧ (m.InsertEvent request cycle).currentCycle = m.currentCycle
    ∧ (m.InsertEvent request cycle).ReverseTranslate = m.ReverseTranslate
    ∧ (m.InsertEvent request cycle).childIsIssuable = m.childIsIssuable
    ∧ (m.InsertEvent request cycle).isWriting = m.isWriting
    ∧ (m.InsertEvent request cycle).FLAG_LAST_REQUEST = m.FLAG_LAST_REQUEST
    ∧ (m.InsertEvent request cycle).newRequest = m.newRequest
    ∧ (m.InsertEvent request cycle).IsRankIdle = m.IsRankIdle
    ∧ (m.InsertEvent request cycle).CanPowerDown = m.CanPowerDown
    ∧ (m.InsertEvent request cycle).CanPowerUp = m.CanPowerUp
    ∧ (m.InsertEvent request cycle).childLog = m.childLog
    ∧ (m.InsertEvent request cycle).childReaction = m.childReaction
    ∧ (m.InsertEvent request cycle).eventQueue
        = m.eventQueue ++ [{ cycle := cycle, request := request }]
    ∧ (m.InsertEvent request cycle).uninitializedOp = m.uninitializedOp :=
  ⟨rfl, rfl, rfl, rfl, rfl, rfl, rfl, rfl, rfl, rfl, rfl, rfl, rfl, rfl, rfl, rfl, rfl,
    rfl, rfl, rfl, rfl, rfl, rfl, rfl, rfl, rfl, rfl, rfl, rfl, rfl, rfl⟩

/-! ## IssueMemoryCommands: the closed-bank case -/

/-- C1. Closed bank (`activateQueued[r][b]` false, `bankQueues[r][b]` empty):
the call returns true and appends to `bankQueues[r][b]` exactly an ACTIVATE
carrying the request's address followed by the request itself, leaving the
other command queues alone. Without FLAG_LAST_REQUEST the request keeps its
type and the bank is left active on the request's row and mux level with a
zero starvation counter; with FLAG_LAST_REQUEST the request is turned into
its implicit-precharge type and the bank is left closed, with both effective
rows at `ROWS`. -/
theorem IssueMemoryCommands_closed_bank (m : MemoryController) (req : NVMainRequest)
    (hq : m.activateQueued req.address.rank req.address.bank = false)
    (he : m.bankQueues req.address.rank req.address.bank = []) :
    ∃ m1 req1 act,
      IssueMemoryCommands m req = some (true, m1, req1)
      ∧ m1.bankQueues req.address.rank req.address.bank
          = m.bankQueues req.address.rank req.address.bank ++ [act, req1]
      ∧ (∀ i j, ¬(i = req.address.rank ∧ j = req.address.bank) →
          m1.bankQueues i j = m.bankQueues i j)
      ∧ act.type = OpType.ACTIVATE ∧ act.address = req.address
      ∧ req1.address = req.address ∧ req1.flags = req.flags
      ∧ (req.flags &&& m.FLAG_LAST_REQUEST = 0 →
          req1.type = req.type
          ∧ m1.activateQueued req.address.rank req.address.bank = true
          ∧ m1.activeSubArray req.address.rank req.address.bank req.address.subarray = true
          ∧ m1.effectiveRow req.address.rank req.address.bank req.address.subarray
              = req.address.row
          ∧ m1.effectiveMuxedRow req.address.rank req.address.bank req.address.subarray
              = req.address.col / m.p.RBSize
          ∧ m1.starvationCounter req.address.rank req.address.bank req.address.subarray = 0)
      ∧ (req.flags &&& m.FLAG_LAST_REQUEST ≠ 0 →
          (req.type = OpType.READ → req1.type = OpType.READ_PRECHARGE)
          ∧ (req.type = OpType.WRITE → req1.type = OpType.WRITE_PRECHARGE)
          ∧ (req.type ≠ OpType.READ → req.type ≠ OpType.WRITE → req1.type = req.type)
          ∧ m1.activateQueued req.address.rank req.address.bank = false
          ∧ m1.activeSubArray req.address.rank req.address.bank req.address.subarray = false
          ∧ m1.effectiveRow req.address.rank req.address.bank req.address.subarray
              = m.p.ROWS
          ∧ m1.effectiveMuxedRow req.address.rank req.address.bank req.address.subarray
              = m.p.ROWS) := by
  by_cases hf : req.flags &&& m.FLAG_LAST_REQUEST = 0
  · rcases h : IssueMemoryCommands m req with _ | ⟨rv, m1, req1⟩
    · simp [IssueMemoryCommands, hq, he, hf, MemoryController.pushBack] at h
    · simp [IssueMemoryCommands, hq, he, hf, MemoryController.pushBack] at h
      obtain ⟨rfl, rfl, rfl⟩ := h
      refine ⟨_, _, MakeActivateRequest m { req with issueCycle := m.currentCycle },
        rfl, ?_, ?_, rfl, rfl, rfl, rfl, ?_, ?_⟩
      · simp [MakeActivateRequest, he]
      · intro i j hij
        simp [set2, hij]
      · intro _
        simp
      · intro hc
        exact absurd hf hc
  · rcases h : IssueMemoryCommands m req with _ | ⟨rv, m1, req1⟩
    · simp [IssueMemoryCommands, hq, he, hf, MemoryController.pushBack] at h
    · simp [IssueMemoryCommands, hq, he, hf, MemoryController.pushBack] at h
      obtain ⟨rfl, rfl, rfl⟩ := h
      refine ⟨_, _, MakeActivateRequest m { req with issueCycle := m.currentCycle },
        rfl, ?_, ?_, rfl, rfl, rfl, rfl, ?_, ?_⟩
      · simp [MakeActivateRequest, MakeImplicitPrechargeRequest, he]
      · intro i j hij
        simp [set2, hij]
      · intro hc
        exact absurd hc hf
      · intro _
        simp only [MakeImplicitPrechargeRequest]
        refine ⟨fun h1 => by simp [h1], fun h1 => by simp [h1], fun h1 h2 => by simp [h1, h2],
          ?_⟩
        simp

/-- C1 at a sample input: a READ to row 5 of the closed bank (0, 1) under relaxed close-page. -/
theorem IssueMemoryCommands_closed_bank_witness :
    (closedController 1).activateQueued 0 1 = false
    ∧ (closedController 1).bankQueues 0 1 = []
    ∧ ∃ m1 req1 act,
        IssueMemoryCommands (closedController 1) (mkReq OpType.READ 5 2 1 0 0 3 0)
          = some (true, m1, req1)
        ∧ m1.bankQueues 0 1 = [act, req1]
        ∧ act.type = OpType.ACTIVATE
        ∧ req1.type = OpType.READ
        ∧ m1.effectiveRow 0 1 0 = 5 := by
  refine ⟨rfl, rfl, ?_⟩
  obtain ⟨m1, req1, act, h, hq, _, ha, _, _, _, hn, _⟩ :=
    IssueMemoryCommands_closed_bank (closedController 1)
      (mkReq OpType.READ 5 2 1 0 0 3 0) rfl rfl
  exact ⟨m1, req1, act, h, hq, ha, (hn (by decide)).1, (hn (by decide)).2.2.2.1⟩

/-! ## IssueMemoryCommands: the miss case -/

/-- C2 (as amended). Active bank with a miss (`activateQueued[r][b]` true,
`bankQueues[r][b]` empty, sub-array closed or on another row or mux level):
the call returns true and appends to `bankQueues[r][b]` a PRECHARGE for
(previous `effectiveRow`, column 0, bank, rank, sub-array) if the sub-array
was open, then an ACTIVATE carrying the request's address, then the request
itself, whose `issueCycle` is set to the current cycle and whose other
fields are unmodified. Afterwards the sub-array is active on the request's
row and mux level, its starvation counter is 0 and `activateQueued[r][b]`
is still true. -/
theorem IssueMemoryCommands_miss (m : MemoryController) (req : NVMainRequest)
    (hq : m.activateQueued req.address.rank req.address.bank = true)
    (he : m.bankQueues req.address.rank req.address.bank = [])
    (hm : RowMiss m req) :
    ∃ m1 req1 act,
      IssueMemoryCommands m req = some (true, m1, req1)
      ∧ (m.activeSubArray req.address.rank req.address.bank req.address.subarray = true →
          ∃ pre,
            m1.bankQueues req.address.rank req.address.bank
              = m.bankQueues req.address.rank req.address.bank ++ [pre, act, req1]
            ∧ pre.type = OpType.PRECHARGE
            ∧ pre.address.row
                = m.effectiveRow req.address.rank req.address.bank req.address.subarray
            ∧ pre.address.col = 0
            ∧ pre.address.bank = req.address.bank
            ∧ pre.address.rank = req.address.rank
            ∧ pre.address.subarray = req.address.subarray)
      ∧ (m.activeSubArray req.address.rank req.address.bank req.address.subarray = false →
          m1.bankQueues req.address.rank req.address.bank
            = m.bankQueues req.address.rank req.address.bank ++ [act, req1])
      ∧ (∀ i j, ¬(i = req.address.rank ∧ j = req.address.bank) →
          m1.bankQueues i j = m.bankQueues i j)
      ∧ act.type = OpType.ACTIVATE ∧ act.address = req.address
      ∧ SameButIssueCycle req1 req ∧ req1.issueCycle = m.currentCycle
      ∧ m1.activeSubArray req.address.rank req.address.bank req.address.subarray = true
      ∧ m1.effectiveRow req.address.rank req.address.bank req.address.subarray
          = req.address.row
      ∧ m1.effectiveMuxedRow req.address.rank req.address.bank req.address.subarray
          = req.address.col / m.p.RBSize
      ∧ m1.starvationCounter req.address.rank req.address.bank req.address.subarray = 0
      ∧ m1.activateQueued req.address.rank req.address.bank = true := by
  have hm1 : (!m.activeSubArray req.address.rank req.address.bank req.address.subarray
      || decide (m.effectiveRow req.address.rank req.address.bank req.address.subarray
            ≠ req.address.row)
      || decide (m.effectiveMuxedRow req.address.rank req.address.bank req.address.subarray
            ≠ req.address.col / m.p.RBSize)) = true := by
    unfold RowMiss at hm
    rcases hm with h | h | h <;> simp [h]
  rcases h : IssueMemoryCommands m req with _ | ⟨rv, m1, req1⟩
  · simp only [IssueMemoryCommands, hq, he, hm1] at h
    simp at h
  · simp only [IssueMemoryCommands, hq, he, hm1] at h
    simp at h
    obtain ⟨rfl, rfl, rfl⟩ := h
    refine ⟨_, _, MakeActivateRequest m { req with issueCycle := m.currentCycle },
      rfl, ?_, ?_, ?_, rfl, rfl, ⟨rfl, rfl, rfl, rfl, rfl⟩, rfl, ?_⟩
    · intro ha
      refine ⟨MakePrechargeRequest m
        (m.effectiveRow req.address.rank req.address.bank req.address.subarray) 0
        req.address.bank req.address.rank req.address.subarray, ?_, rfl, rfl, rfl, rfl, rfl, rfl⟩
      simp [ha, MemoryController.pushBack, MakeActivateRequest, MakePrechargeRequest, he]
    · intro ha
      simp [ha, MemoryController.pushBack, MakeActivateRequest, he]
    · intro i j hij
      by_cases ha : m.activeSubArray req.address.rank req.address.bank req.address.subarray
          = true
      · simp [ha, MemoryController.pushBack, set2, hij]
      · simp [ha, MemoryController.pushBack, set2, hij]
    · by_cases ha : m.activeSubArray req.address.rank req.address.bank req.address.subarray
          = true
      · simp [ha, MemoryController.pushBack]
      · simp [ha, MemoryController.pushBack]

/-- C2 (as amended) at a sample input: a READ to row 3 while row 5 is open in the same sub-array. -/
theorem IssueMemoryCommands_miss_witness :
    (openController 0 0 1 0 5 0 2).activateQueued 0 1 = true
    ∧ (openController 0 0 1 0 5 0 2).bankQueues 0 1 = []
    ∧ RowMiss (openController 0 0 1 0 5 0 2) (mkReq OpType.READ 3 2 1 0 0 7 0)
    ∧ ∃ m1 req1,
        IssueMemoryCommands (openController 0 0 1 0 5 0 2) (mkReq OpType.READ 3 2 1 0 0 7 0)
          = some (true, m1, req1)
        ∧ m1.effectiveRow 0 1 0 = 3 ∧ m1.starvationCounter 0 1 0 = 0 := by
  refine ⟨rfl, rfl, by decide, ?_⟩
  obtain ⟨m1, req1, _, h, _, _, _, _, _, _, _, _, hr, _, hs, _⟩ :=
    IssueMemoryCommands_miss (openController 0 0 1 0 5 0 2)
      (mkReq OpType.READ 3 2 1 0 0 7 0) rfl rfl (by decide)
  exact ⟨m1, req1, h, hr, hs⟩

/-- C2, as stated, fails: with row 5 open in sub-array 0 of bank (0, 1) at
cycle 7, a READ to row 3 whose `issueCycle` was 3 is queued behind PRECHARGE
and ACTIVATE with `issueCycle` 7, so the queued request is not the request
unmodified. -/
theorem IssueMemoryCommands_miss_stamps_issueCycle :
    (openController 0 0 1 0 5 0 2).activateQueued 0 1 = true
    ∧ (openController 0 0 1 0 5 0 2).bankQueues 0 1 = []
    ∧ RowMiss (openController 0 0 1 0 5 0 2) (mkReq OpType.READ 3 2 1 0 0 3 0)
    ∧ ∃ m1 req1 pre act,
        IssueMemoryCommands (openController 0 0 1 0 5 0 2) (mkReq OpType.READ 3 2 1 0 0 3 0)
          = some (true, m1, req1)
        ∧ m1.bankQueues 0 1 = [pre, act, req1]
        ∧ req1.issueCycle = 7
        ∧ req1 ≠ mkReq OpType.READ 3 2 1 0 0 3 0 :=
  ⟨rfl, rfl, by decide, _, _, _, _, rfl, rfl, rfl, by decide⟩

/-! ## IssueMemoryCommands: the hit case -/

theorem bankIdle_iff (m : MemoryController) (rank bank : Nat) :
    bankIdle m rank bank = true
      ↔ ∀ i, i < m.subArrayNum → m.activeSubArray rank bank i = false := by
  simp [bankIdle]

theorem implicitPrechargeType_eq (t : OpType) :
    (if t = OpType.READ then OpType.READ_PRECHARGE
      else if t = OpType.WRITE then OpType.WRITE_PRECHARGE else t)
      = implicitPrechargeType t := by
  cases t <;> rfl

/-- C3 (as amended). Row-buffer hit (bank active, sub-array open on the
request's row and mux level): the call makes `starvationCounter[r][b][s]`
its successor in 64-bit unsigned arithmetic (exactly 1 more unless it was
`2^64 - 1`) and, unless FLAG_LAST_REQUEST meets `ClosePage == 2`, returns true
and appends exactly one command to `bankQueues[r][b]`. Without
FLAG_LAST_REQUEST that command is the request with `issueCycle` set to the
current cycle and every other field unchanged, and no activation state
changes. With FLAG_LAST_REQUEST and `ClosePage != 2` it is the request turned
into its implicit-precharge type, the sub-array becomes inactive with both
effective rows at `ROWS`, and `activateQueued[r][b]` becomes false exactly
when no other sub-array of the bank is active. With FLAG_LAST_REQUEST and
`ClosePage == 2` the assertion fails. -/
theorem IssueMemoryCommands_hit (m : MemoryController) (req : NVMainRequest)
    (hh : RowHit m req) :
    (¬CarriesLast m req →
      ∃ m1 req1,
        IssueMemoryCommands m req = some (true, m1, req1)
        ∧ m1.starvationCounter req.address.rank req.address.bank req.address.subarray
            = (m.starvationCounter req.address.rank req.address.bank req.address.subarray + 1)
                % 2 ^ 64
        ∧ m1.bankQueues req.address.rank req.address.bank
            = m.bankQueues req.address.rank req.address.bank ++ [req1]
        ∧ (∀ i j, ¬(i = req.address.rank ∧ j = req.address.bank) →
            m1.bankQueues i j = m.bankQueues i j)
        ∧ SameButIssueCycle req1 req ∧ req1.issueCycle = m.currentCycle
        ∧ m1.activateQueued = m.activateQueued
        ∧ m1.activeSubArray = m.activeSubArray
        ∧ m1.effectiveRow = m.effectiveRow
        ∧ m1.effectiveMuxedRow = m.effectiveMuxedRow)
    ∧ (CarriesLast m req → m.p.ClosePage ≠ 2 →
      ∃ m1 req1,
        IssueMemoryCommands m req = some (true, m1, req1)
        ∧ m1.starvationCounter req.address.rank req.address.bank req.address.subarray
            = (m.starvationCounter req.address.rank req.address.bank req.address.subarray + 1)
                % 2 ^ 64
        ∧ m1.bankQueues req.address.rank req.address.bank
            = m.bankQueues req.address.rank req.address.bank ++ [req1]
        ∧ (∀ i j, ¬(i = req.address.rank ∧ j = req.address.bank) →
            m1.bankQueues i j = m.bankQueues i j)
        ∧ req1.type = implicitPrechargeType req.type
        ∧ req1.address = req.address ∧ req1.flags = req.flags
        ∧ m1.activeSubArray req.address.rank req.address.bank req.address.subarray = false
        ∧ m1.effectiveRow req.address.rank req.address.bank req.address.subarray = m.p.ROWS
        ∧ m1.effectiveMuxedRow req.address.rank req.address.bank req.address.subarray
            = m.p.ROWS
        ∧ (m1.activateQueued req.address.rank req.address.bank = false
            ↔ ∀ i, i < m.subArrayNum → i ≠ req.address.subarray →
                m.activeSubArray req.address.rank req.address.bank i = false))
    ∧ (CarriesLast m req → m.p.ClosePage = 2 → IssueMemoryCommands m req = none) := by
  obtain ⟨hq, ha, hr, hx⟩ := hh
  refine ⟨?_, ?_, ?_⟩
  · intro hf
    have hf0 : req.flags &&& m.FLAG_LAST_REQUEST = 0 := by
      simpa [CarriesLast] using hf
    rcases h : IssueMemoryCommands m req with _ | ⟨rv, m1, req1⟩
    · simp [IssueMemoryCommands, hq, ha, hr, hx, hf0, MemoryController.pushBack] at h
    · simp [IssueMemoryCommands, hq, ha, hr, hx, hf0, MemoryController.pushBack] at h
      obtain ⟨rfl, rfl, rfl⟩ := h
      refine ⟨_, _, rfl, ?_, ?_, ?_, ⟨rfl, rfl, rfl, rfl, rfl⟩, rfl, rfl, rfl, rfl, rfl⟩
      · simp [ncounterBits]
      · simp
      · intro i j hij
        simp [set2, hij]
  · intro hf hc
    have hf0 : ¬ req.flags &&& m.FLAG_LAST_REQUEST = 0 := hf
    rcases h : IssueMemoryCommands m req with _ | ⟨rv, m1, req1⟩
    · simp [IssueMemoryCommands, hq, ha, hr, hx, hf0, hc, MemoryController.pushBack] at h
    · simp only [IssueMemoryCommands, hq, ha, hr, hx] at h
      simp [hf0, hc, MemoryController.pushBack] at h
      obtain ⟨rfl, rfl, rfl⟩ := h
      refine ⟨_, _, rfl, ?_, ?_, ?_, ?_, rfl, rfl, ?_, ?_, ?_, ?_⟩
      · split <;> simp [ncounterBits]
      · split <;> simp
      · intro i j hij
        split <;> simp [set2, hij]
      · simp [MakeImplicitPrechargeRequest, implicitPrechargeType_eq]
      · split <;> simp
      · split <;> simp
      · split <;> simp
      · split
        next hidle =>
          rw [bankIdle_iff] at hidle
          simp only [setActivateQueued_fields, set2_same, true_iff]
          intro i hi hne
          have := hidle i hi
          simpa [set3, hne] using this
        next hidle =>
          rw [bankIdle_iff] at hidle
          simp only [setEffectiveMuxedRow_fields, setEffectiveRow_fields,
            setActiveSubArray_fields, pushBack_fields, setStarvationCounter_fields, hq,
            Bool.true_eq_false, false_iff]
          intro hall
          apply hidle
          intro i hi
          by_cases hne : i = req.address.subarray
          · simp [set3, hne]
          · simpa [set3, hne] using hall i hi hne
  · intro hf hc
    have hf0 : ¬ req.flags &&& m.FLAG_LAST_REQUEST = 0 := hf
    simp [IssueMemoryCommands, hq, ha, hr, hx, hf0, hc]

/-- C3 (as amended) at a sample input: a READ to the open row 5 after two hits. -/
theorem IssueMemoryCommands_hit_witness :
    RowHit (openController 1 0 1 0 5 0 2) (mkReq OpType.READ 5 2 1 0 0 3 0)
    ∧ ∃ m1 req1,
        IssueMemoryCommands (openController 1 0 1 0 5 0 2) (mkReq OpType.READ 5 2 1 0 0 3 0)
          = some (true, m1, req1)
        ∧ m1.starvationCounter 0 1 0 = 3
        ∧ m1.bankQueues 0 1 = [req1] := by
  refine ⟨by decide, ?_⟩
  obtain ⟨m1, req1, h, hc, hq, _⟩ :=
    (IssueMemoryCommands_hit (openController 1 0 1 0 5 0 2)
      (mkReq OpType.READ 5 2 1 0 0 3 0) (by decide)).1 (by decide)
  exact ⟨m1, req1, h, hc, hq⟩

/-- C3, as stated, fails twice. On a hit at cycle 7 without
FLAG_LAST_REQUEST, a READ whose `issueCycle` was 3 is queued with
`issueCycle` 7, so the queued command is not the request unchanged; and from
a starvation counter of `2^64 - 1` the hit leaves the counter at 0, not 1
higher. -/
theorem IssueMemoryCommands_hit_counterexample :
    (RowHit (openController 1 0 1 0 5 0 2) (mkReq OpType.READ 5 2 1 0 0 3 0)
      ∧ ¬CarriesLast (openController 1 0 1 0 5 0 2) (mkReq OpType.READ 5 2 1 0 0 3 0)
      ∧ ∃ m1 req1,
          IssueMemoryCommands (openController 1 0 1 0 5 0 2) (mkReq OpType.READ 5 2 1 0 0 3 0)
            = some (true, m1, req1)
          ∧ m1.bankQueues 0 1 = [req1]
          ∧ req1.issueCycle = 7
          ∧ req1 ≠ mkReq OpType.READ 5 2 1 0 0 3 0)
    ∧ (RowHit (openController 1 0 1 0 5 0 (2 ^ 64 - 1)) (mkReq OpType.READ 5 2 1 0 0 7 0)
      ∧ (openController 1 0 1 0 5 0 (2 ^ 64 - 1)).starvationCounter 0 1 0 = 2 ^ 64 - 1
      ∧ ∃ m1 req1,
          IssueMemoryCommands (openController 1 0 1 0 5 0 (2 ^ 64 - 1))
              (mkReq OpType.READ 5 2 1 0 0 7 0)
            = some (true, m1, req1)
          ∧ m1.starvationCounter 0 1 0 = 0) :=
  ⟨⟨by decide, by decide, _, _, rfl, rfl, rfl, by decide⟩,
   ⟨by decide, rfl, _, _, rfl, rfl⟩⟩

/-! ## IssueMemoryCommands: which result in which state -/

/-- On a row-buffer hit the call returns true, unless FLAG_LAST_REQUEST meets
`ClosePage == 2`, where the assertion fails. -/
theorem IssueMemoryCommands_result_hit (m : MemoryController) (req : NVMainRequest)
    (hh : RowHit m req) :
    (CarriesLast m req ∧ m.p.ClosePage = 2 ∧ IssueMemoryCommands m req = none)
    ∨ ((¬CarriesLast m req ∨ m.p.ClosePage ≠ 2)
        ∧ ∃ m1 req1, IssueMemoryCommands m req = some (true, m1, req1)) := by
  obtain ⟨hq, ha, hr, hx⟩ := hh
  by_cases hf : req.flags &&& m.FLAG_LAST_REQUEST = 0
  · right
    refine ⟨Or.inl (by simpa [CarriesLast] using hf), ?_⟩
    rcases h : IssueMemoryCommands m req with _ | ⟨rv, m1, req1⟩
    · simp [IssueMemoryCommands, hq, ha, hr, hx, hf] at h
    · simp [IssueMemoryCommands, hq, ha, hr, hx, hf] at h
      exact ⟨m1, req1, by rw [h.1]⟩
  · by_cases hp : m.p.ClosePage = 2
    · left
      exact ⟨hf, hp, by simp [IssueMemoryCommands, hq, ha, hr, hx, hf, hp]⟩
    · right
      refine ⟨Or.inr hp, ?_⟩
      rcases h : IssueMemoryCommands m req with _ | ⟨rv, m1, req1⟩
      · simp [IssueMemoryCommands, hq, ha, hr, hx, hf, hp] at h
      · simp only [IssueMemoryCommands, hq, ha, hr, hx] at h
        simp [hf, hp] at h
        exact ⟨m1, req1, by rw [h.1]⟩

/-- With the bank's command queue empty and no row-buffer hit the call
returns true. -/
theorem IssueMemoryCommands_result_empty (m : MemoryController) (req : NVMainRequest)
    (he : m.bankQueues req.address.rank req.address.bank = []) (hh : ¬RowHit m req) :
    ∃ m1 req1, IssueMemoryCommands m req = some (true, m1, req1) := by
  cases hq : m.activateQueued req.address.rank req.address.bank with
  | false =>
    rcases h : IssueMemoryCommands m req with _ | ⟨rv, m1, req1⟩
    · simp only [IssueMemoryCommands, hq, he] at h
      simp at h
      split at h <;> simp at h
    · simp only [IssueMemoryCommands, hq, he] at h
      simp at h
      split at h <;> simp at h <;> exact ⟨m1, req1, by rw [h.1]⟩
  | true =>
    have hm1 : (!m.activeSubArray req.address.rank req.address.bank req.address.subarray
        || decide (m.effectiveRow req.address.rank req.address.bank req.address.subarray
              ≠ req.address.row)
        || decide (m.effectiveMuxedRow req.address.rank req.address.bank req.address.subarray
              ≠ req.address.col / m.p.RBSize)) = true := by
      by_contra hc
      apply hh
      simp only [Bool.or_eq_true, Bool.not_eq_true', decide_eq_true_eq, not_or,
        Bool.not_eq_false, ne_eq, not_not] at hc
      exact ⟨hq, hc.1.1, hc.1.2, hc.2⟩
    rcases h : IssueMemoryCommands m req with _ | ⟨rv, m1, req1⟩
    · simp only [IssueMemoryCommands, hq, he, hm1] at h
      simp at h
    · simp only [IssueMemoryCommands, hq, he, hm1] at h
      simp at h
      exact ⟨m1, req1, by rw [h.1]⟩

/-! ## IssueMemoryCommands: the remaining states -/

/-- The result of `IssueMemoryCommands` in a state none of its three cases
covers. -/
theorem IssueMemoryCommands_uncovered (m : MemoryController) (req : NVMainRequest)
    (he : m.bankQueues req.address.rank req.address.bank ≠ []) (hh : ¬RowHit m req) :
    IssueMemoryCommands m req = some (false, m, req) := by
  have he1 : (m.bankQueues req.address.rank req.address.bank).isEmpty = false := by
    cases hq : m.bankQueues req.address.rank req.address.bank with
    | nil => exact absurd hq he
    | cons a l => rfl
  have hh1 : (m.activateQueued req.address.rank req.address.bank
      && m.activeSubArray req.address.rank req.address.bank req.address.subarray
      && decide (m.effectiveRow req.address.rank req.address.bank req.address.subarray
            = req.address.row)
      && decide (m.effectiveMuxedRow req.address.rank req.address.bank req.address.subarray
            = req.address.col / m.p.RBSize)) = false := by
    by_contra hc
    apply hh
    simp only [Bool.not_eq_false, Bool.and_eq_true, decide_eq_true_eq] at hc
    exact ⟨hc.1.1.1, hc.1.1.2, hc.1.2, hc.2⟩
  simp only [IssueMemoryCommands, he1, hh1]
  simp

/-- `IssueMemoryCommands` does not return false when the bank's command queue
is empty or the request is a row-buffer hit. -/
theorem IssueMemoryCommands_covered (m : MemoryController) (req : NVMainRequest)
    (h : m.bankQueues req.address.rank req.address.bank = [] ∨ RowHit m req)
    (m1 : MemoryController) (req1 : NVMainRequest) :
    IssueMemoryCommands m req ≠ some (false, m1, req1) := by
  intro hc
  by_cases hh : RowHit m req
  · rcases IssueMemoryCommands_result_hit m req hh with ⟨_, _, h2⟩ | ⟨_, m2, req2, h2⟩
    · rw [h2] at hc
      exact absurd hc (by simp)
    · rw [h2] at hc
      simp at hc
  · have he : m.bankQueues req.address.rank req.address.bank = [] := by
      rcases h with h | h
      · exact h
      · exact absurd h hh
    obtain ⟨m2, req2, h2⟩ := IssueMemoryCommands_result_empty m req he hh
    rw [h2] at hc
    simp at hc

/-- C4. `IssueMemoryCommands` returns false exactly when the target bank's
command queue is non-empty and the request is not a row-buffer hit; and when
it returns false, the controller (every queue and every scheduling array) and
the request are what they were. -/
theorem IssueMemoryCommands_false_iff (m : MemoryController) (req : NVMainRequest) :
    ((∃ m1 req1, IssueMemoryCommands m req = some (false, m1, req1))
      ↔ (m.bankQueues req.address.rank req.address.bank ≠ [] ∧ ¬RowHit m req))
    ∧ (∀ m1 req1, IssueMemoryCommands m req = some (false, m1, req1) →
        m1 = m ∧ req1 = req) := by
  have key : ∀ m1 req1, IssueMemoryCommands m req = some (false, m1, req1) →
      m.bankQueues req.address.rank req.address.bank ≠ [] ∧ ¬RowHit m req := by
    intro m1 req1 h
    refine ⟨fun he => ?_, fun hh => ?_⟩
    · exact IssueMemoryCommands_covered m req (Or.inl he) m1 req1 h
    · exact IssueMemoryCommands_covered m req (Or.inr hh) m1 req1 h
  refine ⟨⟨?_, ?_⟩, ?_⟩
  · rintro ⟨m1, req1, h⟩
    exact key m1 req1 h
  · rintro ⟨he, hh⟩
    exact ⟨m, req, IssueMemoryCommands_uncovered m req he hh⟩
  · intro m1 req1 h
    obtain ⟨he, hh⟩ := key m1 req1 h
    rw [IssueMemoryCommands_uncovered m req he hh] at h
    simp at h
    exact ⟨h.1.symm, h.2.symm⟩

/-! ## The scan of a transaction queue -/

theorem scanErase_eq_none (cond : NVMainRequest → Bool) (q : List NVMainRequest) :
    scanErase cond q = none ↔ ∀ x ∈ q, cond x = false := by
  induction q with
  | nil => simp [scanErase]
  | cons a l ih =>
    cases ha : cond a with
    | true => simp [scanErase, ha]
    | false =>
      cases hl : scanErase cond l with
      | none => simpa [scanErase, ha, hl] using ih.mp hl
      | some v =>
        have hne : ¬∀ x ∈ l, cond x = false := fun hall => by
          rw [ih.mpr hall] at hl
          exact absurd hl (by simp)
        simpa [scanErase, ha, hl] using hne

theorem scanErase_eq_some (cond : NVMainRequest → Bool) (q : List NVMainRequest)
    (r : NVMainRequest) (q1 : List NVMainRequest) (h : scanErase cond q = some (r, q1)) :
    ∃ pre post, q = pre ++ r :: post ∧ (∀ y ∈ pre, cond y = false) ∧ cond r = true
      ∧ q1 = pre ++ post := by
  induction q generalizing q1 with
  | nil => simp [scanErase] at h
  | cons a l ih =>
    cases ha : cond a with
    | true =>
      simp [scanErase, ha] at h
      obtain ⟨rfl, rfl⟩ := h
      exact ⟨[], l, rfl, by simp, ha, rfl⟩
    | false =>
      cases hl : scanErase cond l with
      | none => simp [scanErase, ha, hl] at h
      | some v =>
        obtain ⟨r2, q2⟩ := v
        simp [scanErase, ha, hl] at h
        obtain ⟨rfl, rfl⟩ := h
        obtain ⟨pre, post, h1, h2, h3, h4⟩ := ih q2 hl
        refine ⟨a :: pre, post, by simp [h1], ?_, h3, by simp [h4]⟩
        intro y hy
        rcases List.mem_cons.mp hy with rfl | hy
        · exact ha
        · exact h2 y hy

/-- The winner as a singular primitive hands it out: marked with
FLAG_LAST_REQUEST if `IsLastRequest` says so on the queue it was erased from. -/
theorem selectFirst_spec (m : MemoryController) (cond : NVMainRequest → Bool)
    (q : List NVMainRequest) :
    ((selectFirst m cond q).rv = true ↔ ∃ x ∈ q, cond x = true)
    ∧ ((selectFirst m cond q).rv = false →
        (selectFirst m cond q).request = none ∧ (selectFirst m cond q).transactionQueue = q)
    ∧ ((selectFirst m cond q).rv = true →
        ∃ pre x post, q = pre ++ x :: post ∧ (∀ y ∈ pre, cond y = false) ∧ cond x = true
          ∧ (selectFirst m cond q).transactionQueue = pre ++ post
          ∧ (selectFirst m cond q).request
              = some (if IsLastRequest m (pre ++ post) x
                      then { x with flags := x.flags ||| m.FLAG_LAST_REQUEST } else x))
    ∧ ((selectFirst m cond q).request ≠ none → (selectFirst m cond q).rv = true) := by
  cases hs : scanErase cond q with
  | none =>
    have hall := (scanErase_eq_none cond q).mp hs
    simp only [selectFirst, hs]
    refine ⟨?_, ?_, ?_, ?_⟩
    · simp only [Bool.false_eq_true, false_iff]
      rintro ⟨x, hx, hc⟩
      rw [hall x hx] at hc
      exact absurd hc (by simp)
    · intro _
      simp
    · intro hc
      exact absurd hc (by simp)
    · intro hc
      exact absurd rfl hc
  | some v =>
    obtain ⟨r, q1⟩ := v
    obtain ⟨pre, post, h1, h2, h3, h4⟩ := scanErase_eq_some cond q r q1 hs
    simp only [selectFirst, hs]
    refine ⟨?_, ?_, ?_, ?_⟩
    · simp only [true_iff]
      exact ⟨r, by simp [h1], h3⟩
    · intro hc
      exact absurd hc (by simp)
    · intro _
      exact ⟨pre, r, post, h1, h2, h3, h4, by rw [h4]⟩
    · intro _
      trivial

/-! ## The tests of the selection primitives -/

theorem isEmpty_eq_true_iff (l : List NVMainRequest) : l.isEmpty = true ↔ l = [] := by
  cases l <;> simp

theorem rowBufferHitCond_iff (m : MemoryController) (pred : NVMainRequest → Bool)
    (x : NVMainRequest) :
    rowBufferHitCond m pred x = true ↔ (RowHit m x ∧ BankReady m x ∧ pred x = true) := by
  simp only [rowBufferHitCond, muxLevel, RowHit, BankReady, Bool.and_eq_true,
    decide_eq_true_eq, Bool.not_eq_true', isEmpty_eq_true_iff]
  tauto

theorem starvedCond_iff (m : MemoryController) (pred : NVMainRequest → Bool)
    (x : NVMainRequest) :
    starvedCond m pred x = true ↔
      (m.activateQueued x.address.rank x.address.bank = true ∧ RowMiss m x ∧ BankReady m x
        ∧ m.starvationThreshold
            ≤ m.starvationCounter x.address.rank x.address.bank x.address.subarray
        ∧ pred x = true) := by
  simp only [starvedCond, muxLevel, RowMiss, BankReady, Bool.and_eq_true, Bool.or_eq_true,
    decide_eq_true_eq, Bool.not_eq_true', isEmpty_eq_true_iff, ge_iff_le]
  tauto

theorem writeStalledReadCond_iff (m : MemoryController) (pred : NVMainRequest → Bool)
    (x : NVMainRequest) :
    writeStalledReadCond m pred x = true ↔
      (x.type = OpType.READ ∧ RowHit m x
        ∧ m.bankNeedRefresh x.address.rank x.address.bank = false
        ∧ m.isWriting x = true ∧ m.childIsIssuable x = true ∧ pred x = true) := by
  simp only [writeStalledReadCond, muxLevel, RowHit, Bool.and_eq_true,
    decide_eq_true_eq, Bool.not_eq_true']
  tauto

theorem oldestReadyCond_iff (m : MemoryController) (pred : NVMainRequest → Bool)
    (x : NVMainRequest) :
    oldestReadyCond m pred x = true ↔
      (m.activateQueued x.address.rank x.address.bank = true ∧ BankReady m x
        ∧ pred x = true) := by
  simp only [oldestReadyCond, BankReady, Bool.and_eq_true, Bool.not_eq_true',
    isEmpty_eq_true_iff]
  tauto

theorem closedBankCond_iff (m : MemoryController) (pred : NVMainRequest → Bool)
    (x : NVMainRequest) :
    closedBankCond m pred x = true ↔
      (m.activateQueued x.address.rank x.address.bank = false ∧ BankReady m x
        ∧ pred x = true) := by
  simp only [closedBankCond, BankReady, Bool.and_eq_true, Bool.not_eq_true',
    isEmpty_eq_true_iff]
  tauto

/-- The marking step leaves every field but the flags alone. -/
theorem sameButFlags_mark (m : MemoryController) (q : List NVMainRequest)
    (x : NVMainRequest) :
    SameButFlags
      (if IsLastRequest m q x then { x with flags := x.flags ||| m.FLAG_LAST_REQUEST } else x)
      x := by
  split <;> exact ⟨rfl, rfl, rfl, rfl, rfl⟩

/-- A primitive built on `selectFirst` with a test equivalent to `P` selects
the first request that meets `P`. -/
theorem selectFirst_selects (m : MemoryController) (cond : NVMainRequest → Bool)
    (P : NVMainRequest → Prop) (hP : ∀ x, cond x = true ↔ P x) (q : List NVMainRequest) :
    SelectsFirst P q (selectFirst m cond q) := by
  obtain ⟨h1, h2, h3, _⟩ := selectFirst_spec m cond q
  refine ⟨?_, ?_, h2⟩
  · rw [h1]
    constructor
    · rintro ⟨x, hx, hc⟩
      exact ⟨x, hx, (hP x).mp hc⟩
    · rintro ⟨x, hx, hc⟩
      exact ⟨x, hx, (hP x).mpr hc⟩
  · intro hrv
    obtain ⟨pre, x, post, hq, hpre, hx, htq, hreq⟩ := h3 hrv
    refine ⟨pre, x, post, _, hq, ?_, (hP x).mp hx, hreq, sameButFlags_mark m _ x, htq⟩
    intro y hy hPy
    have := hpre y hy
    rw [(hP y).mpr hPy] at this
    exact absurd this (by simp)

/-! ## The selection primitives -/

/-- C6. `FindRowBufferHit` (predicated) returns true iff some queued request
is a row-buffer hit (bank active, sub-array open on its row and mux level) on
a bank that is not refresh-gated and has an empty command queue, with `pred`
true; it then selects the first such request and removes exactly that element
from the queue, keeping the order of the others; when it returns false the
queue is unchanged. -/
theorem FindRowBufferHit_spec (m : MemoryController) (q : List NVMainRequest)
    (pred : NVMainRequest → Bool) :
    SelectsFirst (fun x => RowHit m x ∧ BankReady m x ∧ pred x = true) q
      (FindRowBufferHit m q pred) :=
  selectFirst_selects m _ _ (rowBufferHitCond_iff m pred) q

/-- What the selected request of a primitive built on `selectFirst` is. -/
theorem selectFirst_request (m : MemoryController) (cond : NVMainRequest → Bool)
    (q : List NVMainRequest) (sel : NVMainRequest)
    (h : (selectFirst m cond q).request = some sel) :
    ∃ x ∈ q, cond x = true ∧ SameButFlags sel x := by
  obtain ⟨_, _, h3, h4⟩ := selectFirst_spec m cond q
  obtain ⟨pre, x, post, hq, _, hx, _, hreq⟩ := h3 (h4 (by rw [h]; simp))
  rw [h] at hreq
  refine ⟨x, by simp [hq], hx, ?_⟩
  rw [Option.some.inj hreq]
  exact sameButFlags_mark m _ x

/-- C7. `FindStarvedRequest` (predicated) selects and removes the first queued
request whose bank is active, whose sub-array is closed or on another row or
mux level, whose bank is not refresh-gated and has an empty command queue,
whose sub-array's starvation counter has reached the threshold, and for which
`pred` holds; it returns true iff there is one and otherwise leaves the queue
unchanged. A selected request never has its sub-array's counter below the
threshold. -/
theorem FindStarvedRequest_spec (m : MemoryController) (q : List NVMainRequest)
    (pred : NVMainRequest → Bool) :
    SelectsFirst
      (fun x => m.activateQueued x.address.rank x.address.bank = true ∧ RowMiss m x
        ∧ BankReady m x
        ∧ m.starvationThreshold
            ≤ m.starvationCounter x.address.rank x.address.bank x.address.subarray
        ∧ pred x = true) q
      (FindStarvedRequest m q pred)
    ∧ ∀ sel, (FindStarvedRequest m q pred).request = some sel →
        ¬(m.starvationCounter sel.address.rank sel.address.bank sel.address.subarray
            < m.starvationThreshold) := by
  refine ⟨selectFirst_selects m _ _ (starvedCond_iff m pred) q, ?_⟩
  intro sel hsel
  obtain ⟨x, _, hx, hs⟩ := selectFirst_request m _ q sel hsel
  rw [starvedCond_iff] at hx
  rw [hs.2.1]
  exact Nat.not_lt.mpr hx.2.2.2.1

/-- C8. `FindOldestReadyRequest` and `FindClosedBankRequest` (predicated) each
select and remove the first queued request whose bank is not refresh-gated,
has an empty command queue and satisfies `pred`, on an active bank for the
former and on a closed bank for the latter; each returns true iff there is
one and otherwise leaves the queue unchanged. In one state the two never
select the same request: their selections lie on different banks. -/
theorem FindOldestReady_FindClosedBank_spec (m : MemoryController)
    (q : List NVMainRequest) (pred : NVMainRequest → Bool) :
    SelectsFirst
      (fun x => m.activateQueued x.address.rank x.address.bank = true ∧ BankReady m x
        ∧ pred x = true) q
      (FindOldestReadyRequest m q pred)
    ∧ SelectsFirst
      (fun x => m.activateQueued x.address.rank x.address.bank = false ∧ BankReady m x
        ∧ pred x = true) q
      (FindClosedBankRequest m q pred)
    ∧ ∀ (q1 q2 : List NVMainRequest) (pred1 pred2 : NVMainRequest → Bool)
        (sel1 sel2 : NVMainRequest),
        (FindOldestReadyRequest m q1 pred1).request = some sel1 →
        (FindClosedBankRequest m q2 pred2).request = some sel2 →
        ¬(sel1.address.rank = sel2.address.rank ∧ sel1.address.bank = sel2.address.bank)
        ∧ sel1 ≠ sel2 := by
  refine ⟨selectFirst_selects m _ _ (oldestReadyCond_iff m pred) q,
    selectFirst_selects m _ _ (closedBankCond_iff m pred) q, ?_⟩
  intro q1 q2 pred1 pred2 sel1 sel2 h1 h2
  obtain ⟨x1, _, hx1, hs1⟩ := selectFirst_request m _ q1 sel1 h1
  obtain ⟨x2, _, hx2, hs2⟩ := selectFirst_request m _ q2 sel2 h2
  rw [oldestReadyCond_iff] at hx1
  rw [closedBankCond_iff] at hx2
  have ha1 : m.activateQueued sel1.address.rank sel1.address.bank = true := by
    rw [hs1.2.1]
    exact hx1.1
  have ha2 : m.activateQueued sel2.address.rank sel2.address.bank = false := by
    rw [hs2.2.1]
    exact hx2.1
  have hne : ¬(sel1.address.rank = sel2.address.rank
      ∧ sel1.address.bank = sel2.address.bank) := by
    rintro ⟨hr, hb⟩
    rw [hr, hb, ha2] at ha1
    exact absurd ha1 (by simp)
  refine ⟨hne, ?_⟩
  intro heq
  exact hne ⟨by rw [heq], by rw [heq]⟩

/-- C9. `FindWriteStalledRead` (predicated): with WritePausing disabled it
returns false, hands out nothing and leaves the queue unchanged. With
WritePausing enabled it selects and removes the first queued request of type
READ that is a row-buffer hit on a bank that is not refresh-gated, whose
target sub-array is writing, that the downstream reports issuable, and for
which `pred` holds. A selected request always has type READ and was reported
issuable as it stood in the queue. -/
theorem FindWriteStalledRead_spec (m : MemoryController) (q : List NVMainRequest)
    (pred : NVMainRequest → Bool) :
    (m.p.WritePausing = false →
      (FindWriteStalledRead m q pred).rv = false
      ∧ (FindWriteStalledRead m q pred).request = none
      ∧ (FindWriteStalledRead m q pred).transactionQueue = q)
    ∧ (m.p.WritePausing = true →
      SelectsFirst
        (fun x => x.type = OpType.READ ∧ RowHit m x
          ∧ m.bankNeedRefresh x.address.rank x.address.bank = false
          ∧ m.isWriting x = true ∧ m.childIsIssuable x = true ∧ pred x = true) q
        (FindWriteStalledRead m q pred))
    ∧ ∀ sel, (FindWriteStalledRead m q pred).request = some sel →
        sel.type = OpType.READ
        ∧ ∃ x ∈ q, SameButFlags sel x ∧ m.childIsIssuable x = true := by
  refine ⟨?_, ?_, ?_⟩
  · intro hw
    simp [FindWriteStalledRead, hw]
  · intro hw
    simp only [FindWriteStalledRead, hw]
    exact selectFirst_selects m _ _ (writeStalledReadCond_iff m pred) q
  · intro sel hsel
    cases hw : m.p.WritePausing with
    | false => simp [FindWriteStalledRead, hw] at hsel
    | true =>
      simp only [FindWriteStalledRead, hw] at hsel
      obtain ⟨x, hxq, hx, hs⟩ := selectFirst_request m _ q sel hsel
      rw [writeStalledReadCond_iff] at hx
      exact ⟨by rw [hs.1]; exact hx.1, x, hxq, hs, hx.2.2.2.2.1⟩

/-! ## Selection followed by issue -/

theorem RowHit_of_address (m : MemoryController) (x y : NVMainRequest)
    (h : x.address = y.address) : RowHit m x ↔ RowHit m y := by
  unfold RowHit
  rw [h]

theorem or_and_flag (a f : Nat) : (a ||| f) &&& f = f := by
  apply Nat.eq_of_testBit_eq
  intro i
  simp only [Nat.testBit_and, Nat.testBit_or]
  cases a.testBit i <;> cases f.testBit i <;> rfl

/-- A request marked by the selection step carries the flag exactly when it
did before or `IsLastRequest` held (for a flag constant that is not 0). -/
theorem carriesLast_mark (m : MemoryController) (q : List NVMainRequest)
    (x : NVMainRequest) (hF : m.FLAG_LAST_REQUEST ≠ 0) :
    CarriesLast m
        (if IsLastRequest m q x then { x with flags := x.flags ||| m.FLAG_LAST_REQUEST } else x)
      ↔ (CarriesLast m x ∨ IsLastRequest m q x = true) := by
  cases hl : IsLastRequest m q x with
  | false => simp
  | true =>
    simp only [if_true, or_true, iff_true]
    unfold CarriesLast
    rw [or_and_flag]
    exact hF

/-- How a request handed out by one of the five singular primitives stands to
the controller state. -/
theorem selected_state (m : MemoryController) (q : List NVMainRequest)
    (pred : NVMainRequest → Bool) (sel : NVMainRequest) :
    ((FindStarvedRequest m q pred).request = some sel →
        m.bankQueues sel.address.rank sel.address.bank = [] ∧ ¬RowHit m sel)
    ∧ ((FindClosedBankRequest m q pred).request = some sel →
        m.bankQueues sel.address.rank sel.address.bank = [] ∧ ¬RowHit m sel)
    ∧ ((FindRowBufferHit m q pred).request = some sel → RowHit m sel)
    ∧ ((FindWriteStalledRead m q pred).request = some sel → RowHit m sel)
    ∧ ((FindOldestReadyRequest m q pred).request = some sel →
        m.bankQueues sel.address.rank sel.address.bank = []) := by
  refine ⟨?_, ?_, ?_, ?_, ?_⟩
  · intro h
    obtain ⟨x, _, hx, hs⟩ := selectFirst_request m _ q sel h
    rw [starvedCond_iff] at hx
    rw [RowHit_of_address m sel x hs.2.1, hs.2.1]
    refine ⟨hx.2.2.1.2, ?_⟩
    rintro ⟨_, h2, h3, h4⟩
    rcases hx.2.1 with h5 | h5 | h5
    · rw [h5] at h2
      exact absurd h2 (by simp)
    · exact h5 h3
    · exact h5 h4
  · intro h
    obtain ⟨x, _, hx, hs⟩ := selectFirst_request m _ q sel h
    rw [closedBankCond_iff] at hx
    rw [RowHit_of_address m sel x hs.2.1, hs.2.1]
    refine ⟨hx.2.1.2, ?_⟩
    rintro ⟨h1, _⟩
    rw [hx.1] at h1
    exact absurd h1 (by simp)
  · intro h
    obtain ⟨x, _, hx, hs⟩ := selectFirst_request m _ q sel h
    rw [rowBufferHitCond_iff] at hx
    rw [RowHit_of_address m sel x hs.2.1]
    exact hx.1
  · intro h
    cases hw : m.p.WritePausing with
    | false => simp [FindWriteStalledRead, hw] at h
    | true =>
      simp only [FindWriteStalledRead, hw] at h
      obtain ⟨x, _, hx, hs⟩ := selectFirst_request m _ q sel h
      rw [writeStalledReadCond_iff] at hx
      rw [RowHit_of_address m sel x hs.2.1]
      exact hx.2.1
  · intro h
    obtain ⟨x, _, hx, hs⟩ := selectFirst_request m _ q sel h
    rw [oldestReadyCond_iff] at hx
    rw [hs.2.1]
    exact hx.2.1.2

/-- In any controller state whatever, if one of the five singular selection
primitives hands out a request, `IssueMemoryCommands` on that request in the
same state never returns false; it returns true whenever `ClosePage != 2`, and
always for a request from `FindStarvedRequest` or `FindClosedBankRequest`. -/
theorem IssueMemoryCommands_selected (m : MemoryController)
    (q : List NVMainRequest) (pred : NVMainRequest → Bool) (sel : NVMainRequest)
    (hsel : (FindRowBufferHit m q pred).request = some sel
      ∨ (FindWriteStalledRead m q pred).request = some sel
      ∨ (FindStarvedRequest m q pred).request = some sel
      ∨ (FindOldestReadyRequest m q pred).request = some sel
      ∨ (FindClosedBankRequest m q pred).request = some sel) :
    (∀ m1 req1, IssueMemoryCommands m sel ≠ some (false, m1, req1))
    ∧ (m.p.ClosePage ≠ 2 → ∃ m1 req1, IssueMemoryCommands m sel = some (true, m1, req1))
    ∧ ((FindStarvedRequest m q pred).request = some sel
        ∨ (FindClosedBankRequest m q pred).request = some sel →
        ∃ m1 req1, IssueMemoryCommands m sel = some (true, m1, req1)) := by
  obtain ⟨hst, hcl, hrb, hws, hor⟩ := selected_state m q pred sel
  have hcov : m.bankQueues sel.address.rank sel.address.bank = [] ∨ RowHit m sel := by
    rcases hsel with h | h | h | h | h
    · exact Or.inr (hrb h)
    · exact Or.inr (hws h)
    · exact Or.inl (hst h).1
    · exact Or.inl (hor h)
    · exact Or.inl (hcl h).1
  refine ⟨IssueMemoryCommands_covered m sel hcov, ?_, ?_⟩
  · intro hp
    by_cases hh : RowHit m sel
    · rcases IssueMemoryCommands_result_hit m sel hh with ⟨_, h2, _⟩ | ⟨_, h2⟩
      · exact absurd h2 hp
      · exact h2
    · rcases hcov with he | he
      · exact IssueMemoryCommands_result_empty m sel he hh
      · exact absurd he hh
  · rintro (h | h)
    · exact IssueMemoryCommands_result_empty m sel (hst h).1 (hst h).2
    · exact IssueMemoryCommands_result_empty m sel (hcl h).1 (hcl h).2

/-! ## FLAG_LAST_REQUEST after selection -/

theorem IsLastRequest_open (m : MemoryController) (q : List NVMainRequest)
    (x : NVMainRequest) (h : m.p.ClosePage = 0) : IsLastRequest m q x = false := by
  simp [IsLastRequest, h]

theorem IsLastRequest_restricted (m : MemoryController) (q : List NVMainRequest)
    (x : NVMainRequest) (h : m.p.ClosePage = 2) : IsLastRequest m q x = true := by
  simp [IsLastRequest, h]

theorem IsLastRequest_relaxed (m : MemoryController) (q : List NVMainRequest)
    (x : NVMainRequest) (h : m.p.ClosePage = 1) :
    IsLastRequest m q x = true ↔ ∀ y ∈ q, ¬SameRow y x := by
  simp only [IsLastRequest, h, SameRow]
  simp only [one_ne_zero, if_false, if_true, Bool.not_eq_true', List.any_eq_false,
    Bool.and_eq_true, decide_eq_true_eq]
  constructor
  · intro hall y hy hs
    exact hall y hy ⟨⟨⟨hs.1, hs.2.1⟩, hs.2.2.1⟩, hs.2.2.2⟩
  · intro hall y hy hs
    exact hall y hy ⟨hs.1.1.1, hs.1.1.2, hs.1.2, hs.2⟩

/-- The marking step touches no bit outside FLAG_LAST_REQUEST. -/
theorem testBit_mark (m : MemoryController) (q : List NVMainRequest) (x : NVMainRequest)
    (i : Nat) (hi : m.FLAG_LAST_REQUEST.testBit i = false) :
    (if IsLastRequest m q x then { x with flags := x.flags ||| m.FLAG_LAST_REQUEST }
      else x).flags.testBit i = x.flags.testBit i := by
  split
  · simp [Nat.testBit_or, hi]
  · rfl

/-- The flag rule for a primitive built on `selectFirst`. -/
theorem selectFirst_flag (m : MemoryController) (cond : NVMainRequest → Bool)
    (q : List NVMainRequest) (hrv : (selectFirst m cond q).rv = true)
    (hF : m.FLAG_LAST_REQUEST ≠ 0) :
    ∃ pre x post sel, q = pre ++ x :: post
      ∧ (selectFirst m cond q).transactionQueue = pre ++ post
      ∧ (selectFirst m cond q).request = some sel ∧ SameButFlags sel x
      ∧ (∀ i, m.FLAG_LAST_REQUEST.testBit i = false →
          sel.flags.testBit i = x.flags.testBit i)
      ∧ (¬CarriesLast m x →
          (m.p.ClosePage = 2 → CarriesLast m sel)
          ∧ (m.p.ClosePage = 1 → (CarriesLast m sel ↔ ∀ y ∈ pre ++ post, ¬SameRow y x))
          ∧ (m.p.ClosePage = 0 → ¬CarriesLast m sel)) := by
  obtain ⟨_, _, h3, _⟩ := selectFirst_spec m cond q
  obtain ⟨pre, x, post, hq, _, _, htq, hreq⟩ := h3 hrv
  refine ⟨pre, x, post, _, hq, htq, hreq, sameButFlags_mark m _ x,
    fun i hi => testBit_mark m _ x i hi, ?_⟩
  intro hx
  have hmark := carriesLast_mark m (pre ++ post) x hF
  refine ⟨?_, ?_, ?_⟩
  · intro hp
    exact hmark.mpr (Or.inr (IsLastRequest_restricted m _ x hp))
  · intro hp
    rw [hmark, ← IsLastRequest_relaxed m _ x hp]
    constructor
    · rintro (h | h)
      · exact absurd h hx
      · exact h
    · intro h
      exact Or.inr h
  · intro hp hc
    rcases hmark.mp hc with h | h
    · exact hx h
    · rw [IsLastRequest_open m _ x hp] at h
      exact absurd h (by simp)

/-- C10. When one of the five singular selection primitives succeeds, the
queue loses exactly the winner and nothing else changes; the selected request
is the winner with no field but `flags` changed and no flag bit outside
FLAG_LAST_REQUEST changed; and for a winner whose flag was clear, the selected
request carries FLAG_LAST_REQUEST always when `ClosePage == 2`, when
`ClosePage == 1` iff no request remaining in the queue shares the winner's
(rank, bank, row, subarray), and never when `ClosePage == 0`. -/
theorem selection_marks_last_request (m : MemoryController) (q : List NVMainRequest)
    (pred : NVMainRequest → Bool) (res : FindResult)
    (hres : res = FindRowBufferHit m q pred ∨ res = FindWriteStalledRead m q pred
      ∨ res = FindStarvedRequest m q pred ∨ res = FindOldestReadyRequest m q pred
      ∨ res = FindClosedBankRequest m q pred)
    (hrv : res.rv = true) (hF : m.FLAG_LAST_REQUEST ≠ 0) :
    ∃ pre x post sel, q = pre ++ x :: post
      ∧ res.transactionQueue = pre ++ post
      ∧ res.request = some sel ∧ SameButFlags sel x
      ∧ (∀ i, m.FLAG_LAST_REQUEST.testBit i = false →
          sel.flags.testBit i = x.flags.testBit i)
      ∧ (¬CarriesLast m x →
          (m.p.ClosePage = 2 → CarriesLast m sel)
          ∧ (m.p.ClosePage = 1 → (CarriesLast m sel ↔ ∀ y ∈ pre ++ post, ¬SameRow y x))
          ∧ (m.p.ClosePage = 0 → ¬CarriesLast m sel)) := by
  rcases hres with rfl | rfl | rfl | rfl | rfl
  · exact selectFirst_flag m _ q hrv hF
  · cases hw : m.p.WritePausing with
    | false => simp [FindWriteStalledRead, hw] at hrv
    | true =>
      simp only [FindWriteStalledRead, hw] at hrv ⊢
      exact selectFirst_flag m _ q hrv hF
  · exact selectFirst_flag m _ q hrv hF
  · exact selectFirst_flag m _ q hrv hF
  · exact selectFirst_flag m _ q hrv hF

/-- C10 at a sample input: `FindRowBufferHit` on a queue of three under relaxed close-page. -/
theorem selection_marks_last_request_witness :
    (FindRowBufferHit (openController 1 0 1 0 5 0 2)
      [mkReq OpType.WRITE 3 0 2 0 0 0 0, mkReq OpType.READ 5 2 1 0 0 3 0,
        mkReq OpType.READ 5 1 1 0 0 4 0] (fun _ => true)).rv = true
    ∧ ∃ pre x post sel,
        [mkReq OpType.WRITE 3 0 2 0 0 0 0, mkReq OpType.READ 5 2 1 0 0 3 0,
          mkReq OpType.READ 5 1 1 0 0 4 0] = pre ++ x :: post
        ∧ (FindRowBufferHit (openController 1 0 1 0 5 0 2)
            [mkReq OpType.WRITE 3 0 2 0 0 0 0, mkReq OpType.READ 5 2 1 0 0 3 0,
              mkReq OpType.READ 5 1 1 0 0 4 0] (fun _ => true)).request = some sel
        ∧ SameButFlags sel x := by
  refine ⟨by decide, ?_⟩
  obtain ⟨pre, x, post, sel, h1, _, h3, h4, _⟩ :=
    selection_marks_last_request (openController 1 0 1 0 5 0 2)
      [mkReq OpType.WRITE 3 0 2 0 0 0 0, mkReq OpType.READ 5 2 1 0 0 3 0,
        mkReq OpType.READ 5 1 1 0 0 4 0] (fun _ => true) _ (Or.inl rfl)
      (by decide) (by decide)
  exact ⟨pre, x, post, sel, h1, h3, h4⟩

/-! ## Plural selection variants -/

/-- The loop of the plural variants returns only when no element matches, and
then with everything as it was. -/
theorem selectAll_returned (cond : NVMainRequest → Bool) (requests seen q : List NVMainRequest)
    (h : ∀ x ∈ q, cond x = false) :
    selectAll cond requests seen q = FindAllOutcome.returned false requests (seen ++ q) := by
  induction q generalizing seen with
  | nil => simp [selectAll]
  | cons a l ih =>
    have ha : cond a = false := h a (by simp)
    have hl : ∀ x ∈ l, cond x = false := fun x hx => h x (by simp [hx])
    simp [selectAll, ha, ih (seen ++ [a]) hl]

/-- At the first matching element the loop of the plural variants has moved
that element to the output vector and erased it, and then increments the
erased iterator. -/
theorem selectAll_undefined (cond : NVMainRequest → Bool)
    (requests seen pre post : List NVMainRequest) (x : NVMainRequest)
    (hpre : ∀ y ∈ pre, cond y = false) (hx : cond x = true) :
    selectAll cond requests seen (pre ++ x :: post)
      = FindAllOutcome.undefinedAfterErase (requests ++ [x]) (seen ++ pre ++ post) := by
  induction pre generalizing seen with
  | nil => simp [selectAll, hx]
  | cons a l ih =>
    have ha : cond a = false := hpre a (by simp)
    have hl : ∀ y ∈ l, cond y = false := fun y hy => hpre y (by simp [hy])
    simp [selectAll, ha, ih (seen ++ [a]) hl]

/-- C11, at a failing input: with row 5 open in bank (0, 1) and one READ to
that row queued, `FindRowBufferHits` moves the READ to the output vector,
erases it from the queue and then increments the erased iterator, which the
language leaves undefined; it does not go on to return true with the queue
drained. In a queue with a matching element every plural variant ends so. -/
theorem FindRowBufferHits_increments_erased_iterator :
    FindRowBufferHits (openController 0 0 1 0 5 0 2) [mkReq OpType.READ 5 2 1 0 0 3 0] []
        (fun _ => true)
      = FindAllOutcome.undefinedAfterErase [mkReq OpType.READ 5 2 1 0 0 3 0] []
    ∧ ∀ (m : MemoryController) (pred : NVMainRequest → Bool)
        (out pre post : List NVMainRequest) (x : NVMainRequest),
        ((∀ y ∈ pre, rowBufferHitCond m pred y = false) → rowBufferHitCond m pred x = true →
          FindRowBufferHits m (pre ++ x :: post) out pred
            = FindAllOutcome.undefinedAfterErase (out ++ [x]) (pre ++ post))
        ∧ ((∀ y ∈ pre, oldestReadyCond m pred y = false) → oldestReadyCond m pred x = true →
          FindOldestReadyRequests m (pre ++ x :: post) out pred
            = FindAllOutcome.undefinedAfterErase (out ++ [x]) (pre ++ post))
        ∧ ((∀ y ∈ pre, closedBankCond m pred y = false) → closedBankCond m pred x = true →
          FindClosedBankRequests m (pre ++ x :: post) out pred
            = FindAllOutcome.undefinedAfterErase (out ++ [x]) (pre ++ post))
        ∧ ((∀ y ∈ pre, starvedCond m pred y = false) → starvedCond m pred x = true →
          FindStarvedRequests m (pre ++ x :: post) out pred
            = FindAllOutcome.undefinedAfterErase (out ++ [x]) (pre ++ post)) := by
  refine ⟨by decide, ?_⟩
  intro m pred out pre post x
  refine ⟨?_, ?_, ?_, ?_⟩
  · intro h1 h2
    simpa [FindRowBufferHits] using selectAll_undefined _ out [] pre post x h1 h2
  · intro h1 h2
    simpa [FindOldestReadyRequests] using selectAll_undefined _ out [] pre post x h1 h2
  · intro h1 h2
    simpa [FindClosedBankRequests] using selectAll_undefined _ out [] pre post x h1 h2
  · intro h1 h2
    simpa [FindStarvedRequests] using selectAll_undefined _ out [] pre post x h1 h2

/-! ## MoveRankBank -/

/-- C19. `MoveRankBank`: with ScheduleScheme 0 `curRank` and `curBank` stay;
with ScheduleScheme 1 `curRank` becomes `curRank + 1`, and when that is
`RANKS` it becomes 0 and `curBank` becomes `(curBank + 1) mod BANKS`, otherwise
`curBank` stays; with ScheduleScheme 2 the same with the roles of rank and
bank exchanged. -/
theorem MoveRankBank_step (m : MemoryController) :
    (m.p.ScheduleScheme = 0 →
      (MoveRankBank m).curRank = m.curRank ∧ (MoveRankBank m).curBank = m.curBank)
    ∧ (m.p.ScheduleScheme = 1 →
      (m.curRank + 1 = m.p.RANKS →
        (MoveRankBank m).curRank = 0
        ∧ (MoveRankBank m).curBank = (m.curBank + 1) % m.p.BANKS)
      ∧ (m.curRank + 1 ≠ m.p.RANKS →
        (MoveRankBank m).curRank = m.curRank + 1 ∧ (MoveRankBank m).curBank = m.curBank))
    ∧ (m.p.ScheduleScheme = 2 →
      (m.curBank + 1 = m.p.BANKS →
        (MoveRankBank m).curBank = 0
        ∧ (MoveRankBank m).curRank = (m.curRank + 1) % m.p.RANKS)
      ∧ (m.curBank + 1 ≠ m.p.BANKS →
        (MoveRankBank m).curBank = m.curBank + 1 ∧ (MoveRankBank m).curRank = m.curRank)) := by
  refine ⟨?_, ?_, ?_⟩
  · intro h
    simp [MoveRankBank, h]
  · intro h
    refine ⟨fun hw => ?_, fun hw => ?_⟩
    · simp [MoveRankBank, h, hw]
    · simp [MoveRankBank, h, hw]
  · intro h
    refine ⟨fun hw => ?_, fun hw => ?_⟩
    · simp [MoveRankBank, h, hw]
    · simp [MoveRankBank, h, hw]

/-! ## The effect of IssueMemoryCommands on the scheduling state -/

theorem schedulingOnly_refl (m : MemoryController) : SchedulingOnly m m := by
  simp [SchedulingOnly]

theorem schedulingOnly_trans {m m1 m2 : MemoryController} (h1 : SchedulingOnly m m1)
    (h2 : SchedulingOnly m1 m2) : SchedulingOnly m m2 := by
  simp only [SchedulingOnly] at h1 h2 ⊢
  simp [h1, h2]

/-- What a call of `IssueMemoryCommands` that returns does to the controller:
outside the request's bank and sub-array nothing moves; there, the sub-array
is activated on the request's row, or closed by a last request, or left as it
was. -/
theorem IssueMemoryCommands_effect (m : MemoryController) (req : NVMainRequest) (rv : Bool)
    (m1 : MemoryController) (req1 : NVMainRequest)
    (h : IssueMemoryCommands m req = some (rv, m1, req1)) :
    SchedulingOnly m m1
    ∧ (∀ i j, ¬(i = req.address.rank ∧ j = req.address.bank) →
        m1.bankQueues i j = m.bankQueues i j)
    ∧ m.bankQueues req.address.rank req.address.bank
        <+: m1.bankQueues req.address.rank req.address.bank
    ∧ (∀ i j k, ¬(i = req.address.rank ∧ j = req.address.bank ∧ k = req.address.subarray) →
        m1.activeSubArray i j k = m.activeSubArray i j k
        ∧ m1.effectiveRow i j k = m.effectiveRow i j k
        ∧ m1.effectiveMuxedRow i j k = m.effectiveMuxedRow i j k
        ∧ m1.starvationCounter i j k = m.starvationCounter i j k)
    ∧ (∀ i j, ¬(i = req.address.rank ∧ j = req.address.bank) →
        m1.activateQueued i j = m.activateQueued i j)
    ∧ ((m1.activateQueued req.address.rank req.address.bank = true
          ∧ m1.activeSubArray req.address.rank req.address.bank req.address.subarray = true
          ∧ m1.effectiveRow req.address.rank req.address.bank req.address.subarray
              = req.address.row
          ∧ m1.effectiveMuxedRow req.address.rank req.address.bank req.address.subarray
              = req.address.col / m.p.RBSize
          ∧ m1.starvationCounter req.address.rank req.address.bank req.address.subarray = 0)
      ∨ (m.activateQueued req.address.rank req.address.bank = false
          ∧ m1.activateQueued req.address.rank req.address.bank = false
          ∧ m1.activeSubArray req.address.rank req.address.bank req.address.subarray = false
          ∧ m1.effectiveRow req.address.rank req.address.bank req.address.subarray = m.p.ROWS
          ∧ m1.effectiveMuxedRow req.address.rank req.address.bank req.address.subarray
              = m.p.ROWS)
      ∨ (m1.activateQueued = m.activateQueued ∧ m1.activeSubArray = m.activeSubArray
          ∧ m1.effectiveRow = m.effectiveRow ∧ m1.effectiveMuxedRow = m.effectiveMuxedRow)
      ∨ (RowHit m req
          ∧ m1.activeSubArray req.address.rank req.address.bank req.address.subarray = false
          ∧ m1.effectiveRow req.address.rank req.address.bank req.address.subarray = m.p.ROWS
          ∧ m1.effectiveMuxedRow req.address.rank req.address.bank req.address.subarray
              = m.p.ROWS
          ∧ ((m1.activateQueued req.address.rank req.address.bank = false
                ∧ ∀ i, i < m.subArrayNum → i ≠ req.address.subarray →
                    m.activeSubArray req.address.rank req.address.bank i = false)
              ∨ (m1.activateQueued req.address.rank req.address.bank = true
                ∧ ∃ i, i < m.subArrayNum ∧ i ≠ req.address.subarray
                    ∧ m.activeSubArray req.address.rank req.address.bank i = true)))) := by
  by_cases hh : RowHit m req
  · obtain ⟨hq, ha, hr, hx⟩ := hh
    by_cases hf : req.flags &&& m.FLAG_LAST_REQUEST = 0
    · simp [IssueMemoryCommands, hq, ha, hr, hx, hf] at h
      obtain ⟨rfl, rfl, rfl⟩ := h
      refine ⟨by simp [SchedulingOnly], ?_, by simp, ?_, ?_, Or.inr (Or.inr (Or.inl ?_))⟩
      · intro i j hij
        simp [set2, hij]
      · intro i j k hijk
        simp [set3, hijk]
      · intro i j _
        simp
      · simp
    · by_cases hp : m.p.ClosePage = 2
      · simp [IssueMemoryCommands, hq, ha, hr, hx, hf, hp] at h
      · simp only [IssueMemoryCommands, hq, ha, hr, hx] at h
        simp [hf, hp] at h
        obtain ⟨rfl, rfl, rfl⟩ := h
        refine ⟨?_, ?_, ?_, ?_, ?_, Or.inr (Or.inr (Or.inr ⟨⟨hq, ha, hr, hx⟩, ?_, ?_, ?_, ?_⟩))⟩
        · split <;> simp [SchedulingOnly]
        · intro i j hij
          split <;> simp [set2, hij]
        · split <;> simp
        · intro i j k hijk
          split <;> simp [set3, hijk]
        · intro i j hij
          split <;> simp [set2, hij]
        · split <;> simp
        · split <;> simp
        · split <;> simp
        · split
          next hidle =>
            rw [bankIdle_iff] at hidle
            left
            refine ⟨by simp, ?_⟩
            intro i hi hne
            have := hidle i (by simpa using hi)
            simpa [set3, hne] using this
          next hidle =>
            rw [bankIdle_iff] at hidle
            right
            refine ⟨by simpa using hq, ?_⟩
            by_contra hcon
            push_neg at hcon
            apply hidle
            intro i hi
            by_cases hne : i = req.address.subarray
            · simp [set3, hne]
            · have := hcon i (by simpa using hi) hne
              simpa [set3, hne] using this
  · by_cases he : m.bankQueues req.address.rank req.address.bank = []
    · cases hq : m.activateQueued req.address.rank req.address.bank with
      | false =>
        by_cases hf : req.flags &&& m.FLAG_LAST_REQUEST = 0
        · simp [IssueMemoryCommands, hq, he, hf] at h
          obtain ⟨rfl, rfl, rfl⟩ := h
          refine ⟨by simp [SchedulingOnly], ?_, by simp [he], ?_, ?_, Or.inl (by simp)⟩
          · intro i j hij
            simp [set2, hij]
          · intro i j k hijk
            simp [set3, hijk]
          · intro i j hij
            simp [set2, hij]
        · simp [IssueMemoryCommands, hq, he, hf] at h
          obtain ⟨rfl, rfl, rfl⟩ := h
          refine ⟨by simp [SchedulingOnly], ?_, by simp [he], ?_, ?_,
            Or.inr (Or.inl (by simp))⟩
          · intro i j hij
            simp [set2, hij]
          · intro i j k hijk
            simp [set3, hijk]
          · intro i j hij
            simp [set2, hij]
      | true =>
        have hm1 : (!m.activeSubArray req.address.rank req.address.bank req.address.subarray
            || decide (m.effectiveRow req.address.rank req.address.bank req.address.subarray
                  ≠ req.address.row)
            || decide (m.effectiveMuxedRow req.address.rank req.address.bank
                  req.address.subarray ≠ req.address.col / m.p.RBSize)) = true := by
          by_contra hc
          apply hh
          simp only [Bool.or_eq_true, Bool.not_eq_true', decide_eq_true_eq, not_or,
            Bool.not_eq_false, ne_eq, not_not] at hc
          exact ⟨hq, hc.1.1, hc.1.2, hc.2⟩
        simp only [IssueMemoryCommands, hq, he, hm1] at h
        simp at h
        obtain ⟨rfl, rfl, rfl⟩ := h
        refine ⟨?_, ?_, ?_, ?_, ?_, Or.inl ?_⟩
        · split <;> simp [SchedulingOnly]
        · intro i j hij
          split <;> simp [set2, hij]
        · split <;> simp [he]
        · intro i j k hijk
          split <;> simp [set3, hijk]
        · intro i j hij
          split <;> simp [set2, hij]
        · split <;> simp
    · rw [IssueMemoryCommands_uncovered m req he hh] at h
      simp at h
      obtain ⟨rfl, rfl, rfl⟩ := h
      refine ⟨schedulingOnly_refl m, fun _ _ _ => rfl, List.prefix_refl _, ?_, ?_,
        Or.inr (Or.inr (Or.inl ?_))⟩
      · intro i j k _
        exact ⟨rfl, rfl, rfl, rfl⟩
      · intro i j _
        rfl
      · exact ⟨rfl, rfl, rfl, rfl⟩

/-! ## Loops over the controller -/

theorem forLoop_zero (body : Nat → MemoryController → MemoryController)
    (m : MemoryController) : forLoop 0 body m = m := by
  simp [forLoop]

theorem forLoop_succ (n : Nat) (body : Nat → MemoryController → MemoryController)
    (m : MemoryController) : forLoop (n + 1) body m = body n (forLoop n body m) := by
  simp [forLoop, List.range_succ, List.foldl_append]

/-- A property that holds before a loop and that every pass turns from one
value of the counter to the next holds, for the bound, after the loop. -/
theorem forLoop_induction (Q : Nat → MemoryController → Prop) (n : Nat)
    (body : Nat → MemoryController → MemoryController) (m : MemoryController)
    (h0 : Q 0 m) (hstep : ∀ k m1, k < n → Q k m1 → Q (k + 1) (body k m1)) :
    Q n (forLoop n body m) := by
  induction n with
  | zero => simpa [forLoop_zero] using h0
  | succ k ih =>
    rw [forLoop_succ]
    exact hstep k _ (Nat.lt_succ_self k)
      (ih (fun j m1 hj hq => hstep j m1 (Nat.lt_succ_of_lt hj) hq))

/-- A reflexive and transitive relation that every pass of a loop respects
holds between the controller before and after the loop. -/
theorem forLoop_rel (R : MemoryController → MemoryController → Prop)
    (hrefl : ∀ m, R m m) (htrans : ∀ a b c, R a b → R b c → R a c) (n : Nat)
    (body : Nat → MemoryController → MemoryController)
    (hbody : ∀ k m1, k < n → R m1 (body k m1)) (m : MemoryController) :
    R m (forLoop n body m) :=
  forLoop_induction (fun _ m1 => R m m1) n body m (hrefl m)
    (fun k m1 hk h => htrans _ _ _ h (hbody k m1 hk))

/-! ## HandleRefresh: the blocked path -/

/-- The loop that closes the sub-arrays of bank `(i, b)`, in closed form. -/
theorem clearSubArrays_spec (i b n : Nat) (m : MemoryController) :
    SchedulingOnly m
      (forLoop n (fun sa m =>
        ((m.setActiveSubArray i b sa false).setEffectiveRow i b sa
          m.p.ROWS).setEffectiveMuxedRow i b sa m.p.ROWS) m)
    ∧ (forLoop n (fun sa m =>
        ((m.setActiveSubArray i b sa false).setEffectiveRow i b sa
          m.p.ROWS).setEffectiveMuxedRow i b sa m.p.ROWS) m).bankQueues = m.bankQueues
    ∧ (forLoop n (fun sa m =>
        ((m.setActiveSubArray i b sa false).setEffectiveRow i b sa
          m.p.ROWS).setEffectiveMuxedRow i b sa m.p.ROWS) m).activateQueued = m.activateQueued
    ∧ (forLoop n (fun sa m =>
        ((m.setActiveSubArray i b sa false).setEffectiveRow i b sa
          m.p.ROWS).setEffectiveMuxedRow i b sa m.p.ROWS) m).starvationCounter
        = m.starvationCounter
    ∧ ∀ r c s,
        (forLoop n (fun sa m =>
          ((m.setActiveSubArray i b sa false).setEffectiveRow i b sa
            m.p.ROWS).setEffectiveMuxedRow i b sa m.p.ROWS) m).activeSubArray r c s
          = (if r = i ∧ c = b ∧ s < n then false else m.activeSubArray r c s)
        ∧ (forLoop n (fun sa m =>
          ((m.setActiveSubArray i b sa false).setEffectiveRow i b sa
            m.p.ROWS).setEffectiveMuxedRow i b sa m.p.ROWS) m).effectiveRow r c s
          = (if r = i ∧ c = b ∧ s < n then m.p.ROWS else m.effectiveRow r c s)
        ∧ (forLoop n (fun sa m =>
          ((m.setActiveSubArray i b sa false).setEffectiveRow i b sa
            m.p.ROWS).setEffectiveMuxedRow i b sa m.p.ROWS) m).effectiveMuxedRow r c s
          = (if r = i ∧ c = b ∧ s < n then m.p.ROWS else m.effectiveMuxedRow r c s) := by
  induction n with
  | zero =>
    simp [forLoop_zero, schedulingOnly_refl]
  | succ k ih =>
    rw [forLoop_succ]
    obtain ⟨h1, h2, h3, h4, h5⟩ := ih
    have hp := h1.1
    refine ⟨?_, ?_, ?_, ?_, ?_⟩
    · simp only [SchedulingOnly] at h1 ⊢
      simp [h1]
    · simp [h2]
    · simp [h3]
    · simp [h4]
    · intro r c s
      obtain ⟨g1, g2, g3⟩ := h5 r c s
      simp only [setEffectiveMuxedRow_fields, setEffectiveRow_fields, setActiveSubArray_fields,
        set3, g1, g2, g3, hp]
      by_cases hr : r = i ∧ c = b
      · obtain ⟨rfl, rfl⟩ := hr
        by_cases hs : s = k
        · subst hs
          simp
        · by_cases hlt : s < k
          · have : s < k + 1 := Nat.lt_succ_of_lt hlt
            simp [hs, hlt, this]
          · have : ¬ s < k + 1 := by omega
            simp [hs, hlt, this]
      · have h1' : ¬(r = i ∧ c = b ∧ s = k) := fun h => hr ⟨h.1, h.2.1⟩
        have h2' : ¬(r = i ∧ c = b ∧ s < k) := fun h => hr ⟨h.1, h.2.1⟩
        have h3' : ¬(r = i ∧ c = b ∧ s < k + 1) := fun h => hr ⟨h.1, h.2.1⟩
        simp [h1', h2', h3']

theorem refreshClosed_refl (m : MemoryController) : RefreshClosed m m :=
  ⟨schedulingOnly_refl m, rfl, fun _ _ => Or.inl ⟨rfl, rfl, fun _ => ⟨rfl, rfl, rfl⟩⟩⟩

theorem refreshClosed_trans {a b c : MemoryController} (h1 : RefreshClosed a b)
    (h2 : RefreshClosed b c) : RefreshClosed a c := by
  obtain ⟨f1, s1, g1⟩ := h1
  obtain ⟨f2, s2, g2⟩ := h2
  refine ⟨schedulingOnly_trans f1 f2, by rw [s2, s1], ?_⟩
  have hp : b.p = a.p := f1.1
  have hn : b.subArrayNum = a.subArrayNum := f1.2.1
  have hc : b.currentCycle = a.currentCycle := by
    simp only [SchedulingOnly] at f1
    simp [f1]
  intro r k
  rcases g1 r k with ⟨q1, a1, u1⟩ | ⟨q1, a1, c1, d1, u1⟩
  · rcases g2 r k with ⟨q2, a2, u2⟩ | ⟨q2, a2, c2, d2, u2⟩
    · left
      refine ⟨by rw [q2, q1], by rw [a2, a1], fun s => ?_⟩
      obtain ⟨x1, x2, x3⟩ := u1 s
      obtain ⟨y1, y2, y3⟩ := u2 s
      exact ⟨by rw [y1, x1], by rw [y2, x2], by rw [y3, x3]⟩
    · right
      refine ⟨by rw [← q1, q2], by rw [← a1, a2], ?_, d2, fun s => ?_⟩
      · obtain ⟨cmd, e1, e2, e3, e4⟩ := c2
        exact ⟨cmd, e1, e2, by rw [e3, hc], e4⟩
      · obtain ⟨x1, x2, x3⟩ := u1 s
        obtain ⟨y1, y2⟩ := u2 s
        rw [hn, hp] at y1
        rw [hn] at y2
        refine ⟨y1, fun hs => ?_⟩
        obtain ⟨z1, z2, z3⟩ := y2 hs
        exact ⟨by rw [z1, x1], by rw [z2, x2], by rw [z3, x3]⟩
  · rcases g2 r k with ⟨q2, a2, u2⟩ | ⟨q2, a2, c2, d2, u2⟩
    · right
      refine ⟨q1, a1, ?_, by rw [a2, d1], fun s => ?_⟩
      · obtain ⟨cmd, e1, e2, e3, e4⟩ := c1
        exact ⟨cmd, by rw [q2, e1], e2, e3, e4⟩
      · obtain ⟨x1, x2⟩ := u1 s
        obtain ⟨y1, y2, y3⟩ := u2 s
        refine ⟨fun hs => ?_, fun hs => ?_⟩
        · obtain ⟨z1, z2, z3⟩ := x1 hs
          exact ⟨by rw [y1, z1], by rw [y2, z2], by rw [y3, z3]⟩
        · obtain ⟨z1, z2, z3⟩ := x2 hs
          exact ⟨by rw [y1, z1], by rw [y2, z2], by rw [y3, z3]⟩
    · exfalso
      obtain ⟨cmd, e1, _⟩ := c1
      rw [e1] at q2
      exact absurd q2 (by simp)

/-- One pass of the loop over the banks of a blocked group. -/
theorem prechargeBank_closed (i b : Nat) (m : MemoryController) :
    RefreshClosed m (HandleRefresh.prechargeBank i b m) := by
  by_cases hc : (m.activateQueued i b && (m.bankQueues i b).isEmpty) = true
  · have hq : m.activateQueued i b = true := by
      simp only [Bool.and_eq_true] at hc
      exact hc.1
    have he : m.bankQueues i b = [] := by
      simp only [Bool.and_eq_true] at hc
      exact (isEmpty_eq_true_iff _).mp hc.2
    unfold HandleRefresh.prechargeBank
    rw [if_pos hc]
    show RefreshClosed m
      ((forLoop m.subArrayNum _
        (m.pushBack i b (MakePrechargeAllRequest m 0 0 b i 0))).setActivateQueued i b false)
    obtain ⟨h1, h2, h3, h4, h5⟩ := clearSubArrays_spec i b m.subArrayNum
      (m.pushBack i b (MakePrechargeAllRequest m 0 0 b i 0))
    refine ⟨?_, ?_, ?_⟩
    · have h1' : SchedulingOnly m (m.pushBack i b (MakePrechargeAllRequest m 0 0 b i 0)) := by
        simp [SchedulingOnly]
      have h1'' := schedulingOnly_trans h1' h1
      simp only [SchedulingOnly, setActivateQueued_fields] at h1'' ⊢
      exact h1''
    · simp only [setActivateQueued_fields, h4, pushBack_fields]
    · intro r k
      by_cases hrk : r = i ∧ k = b
      · obtain ⟨rfl, rfl⟩ := hrk
        right
        refine ⟨he, hq, ⟨MakePrechargeAllRequest m 0 0 k r 0, ?_, rfl, rfl, rfl, rfl⟩, by simp,
          fun s => ?_⟩
        · simp [h2, he]
        · obtain ⟨g1, g2, g3⟩ := h5 r k s
          simp only [setActivateQueued_fields, g1, g2, g3, pushBack_fields]
          refine ⟨fun hs => ?_, fun hs => ?_⟩
          · simp [hs]
          · simp [hs]
      · left
        have hrk3 : ∀ s, ¬(r = i ∧ k = b ∧ s < m.subArrayNum) := fun s h => hrk ⟨h.1, h.2.1⟩
        refine ⟨?_, ?_, fun s => ?_⟩
        · simp [h2, set2, hrk]
        · simp [h3, set2, hrk]
        · obtain ⟨g1, g2, g3⟩ := h5 r k s
          simp only [setActivateQueued_fields, g1, g2, g3, pushBack_fields]
          simp [hrk3 s]
  · simp only [HandleRefresh.prechargeBank, hc]
    exact refreshClosed_refl m

theorem block_closed (i j : Nat) (m : MemoryController) :
    RefreshClosed m (HandleRefresh.block i j m) :=
  forLoop_rel RefreshClosed refreshClosed_refl (fun _ _ _ h1 h2 => refreshClosed_trans h1 h2) _ _
    (fun _ m1 _ => prechargeBank_closed i _ m1) m

/-! ## HandleRefresh: the issue path -/

/-- The loop of `SetRefresh` and `ResetRefresh`, in closed form. -/
theorem needRefreshLoop_spec (rank bankHead n : Nat) (v : Bool) (m : MemoryController) :
    ∃ f, forLoop n (fun i m => m.setBankNeedRefresh rank (bankHead + i) v) m
          = { m with bankNeedRefresh := f }
      ∧ ∀ r b, f r b
          = (if r = rank ∧ bankHead ≤ b ∧ b < bankHead + n then v else m.bankNeedRefresh r b) := by
  induction n with
  | zero =>
    refine ⟨m.bankNeedRefresh, by simp [forLoop_zero], fun r b => ?_⟩
    have : ¬(r = rank ∧ bankHead ≤ b ∧ b < bankHead + 0) := by omega
    rw [if_neg this]
  | succ k ih =>
    obtain ⟨f, hf, hspec⟩ := ih
    rw [forLoop_succ, hf]
    refine ⟨set2 f rank (bankHead + k) v, rfl, fun r b => ?_⟩
    simp only [set2, hspec]
    by_cases hr : r = rank
    · subst hr
      by_cases hb : b = bankHead + k
      · subst hb
        simp
      · by_cases hlt : bankHead ≤ b ∧ b < bankHead + k
        · have : bankHead ≤ b ∧ b < bankHead + (k + 1) := by omega
          simp [hb, hlt, this]
        · have : ¬(bankHead ≤ b ∧ b < bankHead + (k + 1)) := by omega
          simp [hb, hlt, this]
    · simp [hr]

/-- The round-robin step of `HandleRefresh`, in closed form. -/
theorem advance_spec (m : MemoryController) :
    ∃ nb nr, HandleRefresh.advance m = { m with nextRefreshBank := nb, nextRefreshRank := nr }
      ∧ (m.p.BANKS ≤ m.nextRefreshBank + m.p.BanksPerRefresh →
          nb = 0 ∧ nr = (if m.nextRefreshRank + 1 = m.p.RANKS then 0 else m.nextRefreshRank + 1))
      ∧ (m.nextRefreshBank + m.p.BanksPerRefresh < m.p.BANKS →
          nb = m.nextRefreshBank + m.p.BanksPerRefresh ∧ nr = m.nextRefreshRank) := by
  by_cases h : m.p.BANKS ≤ m.nextRefreshBank + m.p.BanksPerRefresh
  · by_cases h2 : m.nextRefreshRank + 1 = m.p.RANKS
    · refine ⟨0, 0, ?_, fun _ => ⟨rfl, by simp [h2]⟩, fun h3 => by omega⟩
      simp [HandleRefresh.advance, h, h2, MemoryController.setNextRefreshBank,
        MemoryController.setNextRefreshRank]
    · refine ⟨0, m.nextRefreshRank + 1, ?_, fun _ => ⟨rfl, by simp [h2]⟩, fun h3 => by omega⟩
      simp [HandleRefresh.advance, h, h2, MemoryController.setNextRefreshBank,
        MemoryController.setNextRefreshRank]
  · refine ⟨m.nextRefreshBank + m.p.BanksPerRefresh, m.nextRefreshRank, ?_,
      fun h3 => absurd h3 h, fun _ => ⟨rfl, rfl⟩⟩
    simp [HandleRefresh.advance, h, MemoryController.setNextRefreshBank]

/-- The issue path of `HandleRefresh`: one command to the downstream, one
counter decremented, the flags of the group reset if the counter has fallen
below the threshold, the round-robin position advanced, nothing else. -/
theorem issue_spec (i j : Nat) (m : MemoryController) :
    SameButRefresh m (HandleRefresh.issue i j m)
    ∧ (HandleRefresh.issue i j m).childLog
        = m.childLog ++ [ChildCall.IssueCommand (HandleRefresh.command i j m)]
    ∧ (HandleRefresh.issue i j m).delayedRefreshCounter
        = set2 m.delayedRefreshCounter i (j / m.p.BanksPerRefresh)
            ((m.delayedRefreshCounter i (j / m.p.BanksPerRefresh) + (2 ^ 64 - 1)) % 2 ^ 64)
    ∧ (¬(m.p.UseRefresh = true ∧ m.p.DelayedRefreshThreshold
          ≤ (m.delayedRefreshCounter i (j / m.p.BanksPerRefresh) + (2 ^ 64 - 1)) % 2 ^ 64) →
        ∀ r b, (HandleRefresh.issue i j m).bankNeedRefresh r b
          = (if r = i ∧ j / m.p.BanksPerRefresh * m.p.BanksPerRefresh ≤ b
                ∧ b < j / m.p.BanksPerRefresh * m.p.BanksPerRefresh + m.p.BanksPerRefresh
              then false else m.bankNeedRefresh r b))
    ∧ ((m.p.UseRefresh = true ∧ m.p.DelayedRefreshThreshold
          ≤ (m.delayedRefreshCounter i (j / m.p.BanksPerRefresh) + (2 ^ 64 - 1)) % 2 ^ 64) →
        (HandleRefresh.issue i j m).bankNeedRefresh = m.bankNeedRefresh)
    ∧ (m.p.BANKS ≤ m.nextRefreshBank + m.p.BanksPerRefresh →
        (HandleRefresh.issue i j m).nextRefreshBank = 0
        ∧ (HandleRefresh.issue i j m).nextRefreshRank
            = (if m.nextRefreshRank + 1 = m.p.RANKS then 0 else m.nextRefreshRank + 1))
    ∧ (m.nextRefreshBank + m.p.BanksPerRefresh < m.p.BANKS →
        (HandleRefresh.issue i j m).nextRefreshBank = m.nextRefreshBank + m.p.BanksPerRefresh
        ∧ (HandleRefresh.issue i j m).nextRefreshRank = m.nextRefreshRank) := by
  generalize hm1 : (m.callChild (ChildCall.IssueCommand
      (HandleRefresh.command i j m))).setDelayedRefreshCounter i (j / m.p.BanksPerRefresh)
      ((m.delayedRefreshCounter i (j / m.p.BanksPerRefresh) + (2 ^ 64 - 1)) % 2 ^ 64) = m1
  have hissue : HandleRefresh.issue i j m
      = HandleRefresh.advance (if !NeedRefresh m1 j i then ResetRefresh m1 j i else m1) := by
    rw [← hm1]
    rfl
  have hp : m1.p = m.p := by rw [← hm1]; simp
  have hN : NeedRefresh m1 j i = true ↔ (m.p.UseRefresh = true ∧ m.p.DelayedRefreshThreshold
      ≤ (m.delayedRefreshCounter i (j / m.p.BanksPerRefresh) + (2 ^ 64 - 1)) % 2 ^ 64) := by
    rw [← hm1]
    simp [NeedRefresh]
  by_cases hc : (m.p.UseRefresh = true ∧ m.p.DelayedRefreshThreshold
      ≤ (m.delayedRefreshCounter i (j / m.p.BanksPerRefresh) + (2 ^ 64 - 1)) % 2 ^ 64)
  · have hn : NeedRefresh m1 j i = true := hN.mpr hc
    obtain ⟨nb, nr, hadv, ha1, ha2⟩ := advance_spec m1
    rw [hissue, hn]
    simp only [Bool.not_true, Bool.false_eq_true, if_false]
    rw [hadv, ← hm1]
    rw [← hm1] at ha1 ha2
    refine ⟨by simp [SameButRefresh], by simp, by simp, fun h => absurd hc h, fun _ => by simp,
      ?_, ?_⟩
    · simpa using ha1
    · simpa using ha2
  · have hn : NeedRefresh m1 j i = false := by
      cases h : NeedRefresh m1 j i with
      | false => rfl
      | true => exact absurd (hN.mp h) hc
    obtain ⟨f, hf, hspec⟩ := needRefreshLoop_spec i
      (j / m1.p.BanksPerRefresh * m1.p.BanksPerRefresh) m1.p.BanksPerRefresh false m1
    have hreset : ResetRefresh m1 j i = { m1 with bankNeedRefresh := f } := by
      rw [← hf]
      rfl
    obtain ⟨nb, nr, hadv, ha1, ha2⟩ := advance_spec { m1 with bankNeedRefresh := f }
    rw [hissue, hn]
    simp only [Bool.not_false, if_true]
    rw [hreset, hadv]
    rw [hp] at hspec
    have hb : m1.bankNeedRefresh = m.bankNeedRefresh := by rw [← hm1]; simp
    rw [hb] at hspec
    rw [← hm1]
    rw [← hm1] at ha1 ha2
    refine ⟨by simp [SameButRefresh], by simp, by simp, fun _ r b => by simpa using hspec r b,
      fun h => absurd h hc, ?_, ?_⟩
    · simpa using ha1
    · simpa using ha2

/-! ## HandleRefresh: the loops -/

theorem group_cases (i j : Nat) (m : MemoryController) :
    ((HandleRefresh.group i j m).1 = false → RefreshClosed m (HandleRefresh.group i j m).2)
    ∧ ((HandleRefresh.group i j m).1 = true →
        NeedRefresh m j i = true ∧ IsRefreshBankQueueEmpty m j i = true
        ∧ m.childIsIssuable (MakeRefreshRequest m 0 0 j i 0) = true
        ∧ (HandleRefresh.group i j m).2 = HandleRefresh.issue i j m) := by
  unfold HandleRefresh.group
  by_cases h1 : (NeedRefresh m j i && IsRefreshBankQueueEmpty m j i) = true
  · rw [if_pos h1]
    cases h2 : m.childIsIssuable (MakeRefreshRequest m 0 0 j i 0) with
    | false =>
      simp only [if_true]
      exact ⟨fun _ => block_closed i j m, fun h => absurd h (by simp)⟩
    | true =>
      simp only [Bool.true_eq_false, if_false]
      simp only [Bool.and_eq_true] at h1
      exact ⟨fun h => absurd h (by simp), fun _ => ⟨h1.1, h1.2, trivial, trivial⟩⟩
  · rw [if_neg h1]
    exact ⟨fun _ => refreshClosed_refl m, fun h => absurd h (by simp)⟩

theorem bankLoop_cases (i : Nat) (l : List Nat) (m : MemoryController) :
    ((HandleRefresh.bankLoop i l m).1 = false →
        RefreshClosed m (HandleRefresh.bankLoop i l m).2)
    ∧ ((HandleRefresh.bankLoop i l m).1 = true →
        ∃ j m0, RefreshClosed m m0 ∧ NeedRefresh m0 j i = true
          ∧ IsRefreshBankQueueEmpty m0 j i = true
          ∧ m0.childIsIssuable (MakeRefreshRequest m0 0 0 j i 0) = true
          ∧ (HandleRefresh.bankLoop i l m).2 = HandleRefresh.issue i j m0) := by
  induction l generalizing m with
  | nil =>
    simp only [HandleRefresh.bankLoop]
    exact ⟨fun _ => refreshClosed_refl m, fun h => absurd h (by simp)⟩
  | cons bankIdx rest ih =>
    obtain ⟨g1, g2⟩ := group_cases i
      ((m.nextRefreshBank + bankIdx * m.p.BanksPerRefresh) % m.p.BANKS) m
    rcases hg : HandleRefresh.group i
        ((m.nextRefreshBank + bankIdx * m.p.BanksPerRefresh) % m.p.BANKS) m with ⟨rv, m1⟩
    rw [hg] at g1 g2
    cases rv with
    | true =>
      simp only [HandleRefresh.bankLoop, hg]
      obtain ⟨a1, a2, a3, a4⟩ := g2 rfl
      exact ⟨fun h => absurd h (by simp),
        fun _ => ⟨_, m, refreshClosed_refl m, a1, a2, a3, a4⟩⟩
    | false =>
      simp only [HandleRefresh.bankLoop, hg]
      have hc : RefreshClosed m m1 := g1 rfl
      obtain ⟨k1, k2⟩ := ih m1
      refine ⟨fun h => refreshClosed_trans hc (k1 h), fun h => ?_⟩
      obtain ⟨j, m0, b1, b2, b3, b4, b5⟩ := k2 h
      exact ⟨j, m0, refreshClosed_trans hc b1, b2, b3, b4, b5⟩

theorem rankLoop_cases (l : List Nat) (m : MemoryController) :
    ((HandleRefresh.rankLoop l m).1 = false → RefreshClosed m (HandleRefresh.rankLoop l m).2)
    ∧ ((HandleRefresh.rankLoop l m).1 = true →
        ∃ i j m0, RefreshClosed m m0 ∧ NeedRefresh m0 j i = true
          ∧ IsRefreshBankQueueEmpty m0 j i = true
          ∧ m0.childIsIssuable (MakeRefreshRequest m0 0 0 j i 0) = true
          ∧ (HandleRefresh.rankLoop l m).2 = HandleRefresh.issue i j m0) := by
  induction l generalizing m with
  | nil =>
    simp only [HandleRefresh.rankLoop]
    exact ⟨fun _ => refreshClosed_refl m, fun h => absurd h (by simp)⟩
  | cons rankIdx rest ih =>
    obtain ⟨g1, g2⟩ := bankLoop_cases ((m.nextRefreshRank + rankIdx) % m.p.RANKS)
      (List.range m.m_refreshBankNum) m
    rcases hg : HandleRefresh.bankLoop ((m.nextRefreshRank + rankIdx) % m.p.RANKS)
        (List.range m.m_refreshBankNum) m with ⟨rv, m1⟩
    rw [hg] at g1 g2
    cases rv with
    | true =>
      simp only [HandleRefresh.rankLoop, hg]
      obtain ⟨j, m0, a0, a1, a2, a3, a4⟩ := g2 rfl
      exact ⟨fun h => absurd h (by simp), fun _ => ⟨_, j, m0, a0, a1, a2, a3, a4⟩⟩
    | false =>
      simp only [HandleRefresh.rankLoop, hg]
      have hc : RefreshClosed m m1 := g1 rfl
      obtain ⟨k1, k2⟩ := ih m1
      refine ⟨fun h => refreshClosed_trans hc (k1 h), fun h => ?_⟩
      obtain ⟨i, j, m0, b1, b2, b3, b4, b5⟩ := k2 h
      exact ⟨i, j, m0, refreshClosed_trans hc b1, b2, b3, b4, b5⟩

/-- How `HandleRefresh` ends. Returning false, it has at most closed banks for
a refresh. Returning true, it has done so and then taken the issue path for
one rank and bank whose group needed a refresh, had empty command queues and
was reported issuable. -/
theorem HandleRefresh_cases (m : MemoryController) :
    ((HandleRefresh m).1 = false → RefreshClosed m (HandleRefresh m).2)
    ∧ ((HandleRefresh m).1 = true →
        ∃ i j m0, RefreshClosed m m0 ∧ NeedRefresh m0 j i = true
          ∧ IsRefreshBankQueueEmpty m0 j i = true
          ∧ m0.childIsIssuable (MakeRefreshRequest m0 0 0 j i 0) = true
          ∧ (HandleRefresh m).2 = HandleRefresh.issue i j m0) :=
  rankLoop_cases (List.range m.p.RANKS) m

/-! ## HandleRefresh: frame -/

theorem sameButRefresh_refl (m : MemoryController) : SameButRefresh m m := by
  simp [SameButRefresh]

/-- Whatever `HandleRefresh` returns, the controller it leaves is one that
closing banks for a refresh has produced, changed at most in the refresh
state and in what concerns the downstream. -/
theorem HandleRefresh_frame (m : MemoryController) :
    ∃ m0, RefreshClosed m m0 ∧ SameButRefresh m0 (HandleRefresh m).2 := by
  rcases hb : (HandleRefresh m).1 with _ | _
  · exact ⟨_, (HandleRefresh_cases m).1 hb, sameButRefresh_refl _⟩
  · obtain ⟨i, j, m0, h0, _, _, _, he⟩ := (HandleRefresh_cases m).2 hb
    exact ⟨m0, h0, by rw [he]; exact (issue_spec i j m0).1⟩

/-- Closing banks for a refresh appends to a bank queue nothing, or one
PRECHARGE_ALL stamped with the current cycle. -/
theorem RefreshClosed.queues {m m1 : MemoryController} (h : RefreshClosed m m1) (r b : Nat) :
    ∃ added, m1.bankQueues r b = m.bankQueues r b ++ added
      ∧ ∀ c ∈ added, c.type = OpType.PRECHARGE_ALL ∧ c.issueCycle = m.currentCycle := by
  rcases h.2.2 r b with hu | hc
  · exact ⟨[], by simp [hu.1], by simp⟩
  · obtain ⟨hq, _, ⟨cmd, h1, h2, h3, _⟩, _⟩ := hc
    exact ⟨[cmd], by simp [hq, h1], by simp [h2, h3]⟩

/-- A call of `HandleRefresh` appends to a bank queue nothing, or one
PRECHARGE_ALL stamped with the current cycle. -/
theorem HandleRefresh_queues (m : MemoryController) (r b : Nat) :
    ∃ added, (HandleRefresh m).2.bankQueues r b = m.bankQueues r b ++ added
      ∧ ∀ c ∈ added, c.type = OpType.PRECHARGE_ALL ∧ c.issueCycle = m.currentCycle := by
  obtain ⟨m0, h0, h1⟩ := HandleRefresh_frame m
  obtain ⟨added, ha, hb⟩ := h0.queues r b
  exact ⟨added, by rw [h1.2.2.2.1, ha], hb⟩

/-- The output vector of a plural variant grows by requests that pass the test. -/
theorem selectAll_requests (cond : NVMainRequest → Bool) (requests seen q : List NVMainRequest) :
    ∃ added, (selectAll cond requests seen q).requests = requests ++ added
      ∧ ∀ x ∈ added, x ∈ q ∧ cond x = true := by
  induction q generalizing seen with
  | nil => exact ⟨[], by simp [selectAll, FindAllOutcome.requests], by simp⟩
  | cons a l ih =>
    rcases ha : cond a with _ | _
    · obtain ⟨added, h1, h2⟩ := ih (seen ++ [a])
      refine ⟨added, by simp [selectAll, ha, h1], fun x hx => ?_⟩
      exact ⟨by simp [(h2 x hx).1], (h2 x hx).2⟩
    · exact ⟨[a], by simp [selectAll, ha, FindAllOutcome.requests], by simp [ha]⟩

/-- Scheduling a request of a bank that is not refresh-gated leaves the
command queue of every refresh-gated bank as it is. -/
theorem IssueMemoryCommands_gated (m : MemoryController) (req : NVMainRequest)
    (hreq : m.bankNeedRefresh req.address.rank req.address.bank = false)
    (rv : Bool) (m1 : MemoryController) (req1 : NVMainRequest)
    (h : IssueMemoryCommands m req = some (rv, m1, req1)) (r b : Nat)
    (hg : m.bankNeedRefresh r b = true) : m1.bankQueues r b = m.bankQueues r b := by
  refine (IssueMemoryCommands_effect m req rv m1 req1 h).2.1 r b ?_
  rintro ⟨rfl, rfl⟩
  rw [hreq] at hg
  exact Bool.noConfusion hg

/-- A request that a singular primitive returns is of a bank that is not
refresh-gated. -/
theorem selected_not_gated (m : MemoryController) (q : List NVMainRequest)
    (pred : NVMainRequest → Bool) (sel : NVMainRequest)
    (h : (FindStarvedRequest m q pred).request = some sel
      ∨ (FindWriteStalledRead m q pred).request = some sel
      ∨ (FindRowBufferHit m q pred).request = some sel
      ∨ (FindOldestReadyRequest m q pred).request = some sel
      ∨ (FindClosedBankRequest m q pred).request = some sel) :
    m.bankNeedRefresh sel.address.rank sel.address.bank = false := by
  rcases h with h | h | h | h | h
  · obtain ⟨x, _, hx, hs⟩ := selectFirst_request m _ q sel h
    rw [hs.2.1]; exact ((starvedCond_iff m pred x).1 hx).2.2.1.1
  · unfold FindWriteStalledRead at h
    split at h
    · simp at h
    · obtain ⟨x, _, hx, hs⟩ := selectFirst_request m _ q sel h
      rw [hs.2.1]; exact ((writeStalledReadCond_iff m pred x).1 hx).2.2.1
  · obtain ⟨x, _, hx, hs⟩ := selectFirst_request m _ q sel h
    rw [hs.2.1]; exact ((rowBufferHitCond_iff m pred x).1 hx).2.1.1
  · obtain ⟨x, _, hx, hs⟩ := selectFirst_request m _ q sel h
    rw [hs.2.1]; exact ((oldestReadyCond_iff m pred x).1 hx).2.1.1
  · obtain ⟨x, _, hx, hs⟩ := selectFirst_request m _ q sel h
    rw [hs.2.1]; exact ((closedBankCond_iff m pred x).1 hx).2.1.1

/-- C14. Refresh gating. A request that one of the five singular selection
primitives returns, and a request that one of the four plural variants adds
to its output vector, is of a bank whose `bankNeedRefresh` is false; when
`IssueMemoryCommands` is applied to such a request in the state of the
selection, the command queue of every refresh-gated bank stays as it is; and
a call of `HandleRefresh` appends to a command queue nothing, or commands
none of which is an ACTIVATE. -/
theorem refresh_gating (m : MemoryController) (q : List NVMainRequest)
    (pred : NVMainRequest → Bool) :
    (∀ sel, ((FindStarvedRequest m q pred).request = some sel
          ∨ (FindWriteStalledRead m q pred).request = some sel
          ∨ (FindRowBufferHit m q pred).request = some sel
          ∨ (FindOldestReadyRequest m q pred).request = some sel
          ∨ (FindClosedBankRequest m q pred).request = some sel) →
        m.bankNeedRefresh sel.address.rank sel.address.bank = false
        ∧ ∀ rv m1 req1, IssueMemoryCommands m sel = some (rv, m1, req1) →
            ∀ r b, m.bankNeedRefresh r b = true → m1.bankQueues r b = m.bankQueues r b)
    ∧ (∀ out res, (res = FindStarvedRequests m q out pred
          ∨ res = FindRowBufferHits m q out pred
          ∨ res = FindOldestReadyRequests m q out pred
          ∨ res = FindClosedBankRequests m q out pred) →
        ∃ added, res.requests = out ++ added
          ∧ ∀ x ∈ added, m.bankNeedRefresh x.address.rank x.address.bank = false
              ∧ ∀ rv m1 req1, IssueMemoryCommands m x = some (rv, m1, req1) →
                  ∀ r b, m.bankNeedRefresh r b = true → m1.bankQueues r b = m.bankQueues r b)
    ∧ (∀ r b, ∃ added, (HandleRefresh m).2.bankQueues r b = m.bankQueues r b ++ added
          ∧ ∀ c ∈ added, c.type ≠ OpType.ACTIVATE) := by
  refine ⟨fun sel h => ?_, fun out res h => ?_, fun r b => ?_⟩
  · have hs := selected_not_gated m q pred sel h
    exact ⟨hs, fun rv m1 req1 h1 r b hg => IssueMemoryCommands_gated m sel hs rv m1 req1 h1 r b hg⟩
  · have key : ∀ cond : NVMainRequest → Bool,
        (∀ x, cond x = true → m.bankNeedRefresh x.address.rank x.address.bank = false) →
        ∃ added, (selectAll cond out [] q).requests = out ++ added
          ∧ ∀ x ∈ added, m.bankNeedRefresh x.address.rank x.address.bank = false
              ∧ ∀ rv m1 req1, IssueMemoryCommands m x = some (rv, m1, req1) →
                  ∀ r b, m.bankNeedRefresh r b = true →
                    m1.bankQueues r b = m.bankQueues r b := by
      intro cond hc
      obtain ⟨added, h1, h2⟩ := selectAll_requests cond out [] q
      refine ⟨added, h1, fun x hx => ?_⟩
      have hs := hc x (h2 x hx).2
      exact ⟨hs, fun rv m1 req1 h1 r b hg =>
        IssueMemoryCommands_gated m x hs rv m1 req1 h1 r b hg⟩
    rcases h with rfl | rfl | rfl | rfl
    · exact key _ fun x hx => ((starvedCond_iff m pred x).1 hx).2.2.1.1
    · exact key _ fun x hx => ((rowBufferHitCond_iff m pred x).1 hx).2.1.1
    · exact key _ fun x hx => ((oldestReadyCond_iff m pred x).1 hx).2.1.1
    · exact key _ fun x hx => ((closedBankCond_iff m pred x).1 hx).2.1.1
  · obtain ⟨added, h1, h2⟩ := HandleRefresh_queues m r b
    refine ⟨added, h1, fun c hc => ?_⟩
    rw [(h2 c hc).1]
    decide

/-! ## SetConfig: the initial state -/

theorem pulses_inner (i n : Nat) (m : MemoryController) :
    ∃ evs, forLoop n (fun j m => SetConfig.pulse i j m) m = { m with eventQueue := evs } := by
  refine forLoop_induction (fun _ m1 => ∃ evs, m1 = { m with eventQueue := evs }) n _ m
    ⟨m.eventQueue, rfl⟩ ?_
  rintro k m1 _ ⟨evs, rfl⟩
  exact ⟨_, rfl⟩

theorem pulses_outer (n : Nat) (m : MemoryController) :
    ∃ evs, forLoop n (fun i m => forLoop m.m_refreshBankNum
        (fun j m => SetConfig.pulse i j m) m) m = { m with eventQueue := evs } := by
  refine forLoop_induction (fun _ m1 => ∃ evs, m1 = { m with eventQueue := evs }) n _ m
    ⟨m.eventQueue, rfl⟩ ?_
  rintro k m1 _ ⟨evs, rfl⟩
  obtain ⟨evs1, h⟩ := pulses_inner k m.m_refreshBankNum { m with eventQueue := evs }
  exact ⟨evs1, h⟩

/-- The state `SetConfig` sets up: the configuration is stored, every bank
queue is empty, every bank and sub-array is closed with both effective rows at
`ROWS`, no bank is refresh-gated; with refresh enabled a refresh group has
between one and `BANKS` banks and every delayed-refresh counter is 0. -/
theorem SetConfig_spec (m : MemoryController) (conf : Params) (hasMATHeight : Bool)
    (init : MemoryController) (h : SetConfig m conf hasMATHeight = some init) :
    init.p = conf
    ∧ init.subArrayNum = (if hasMATHeight then conf.ROWS / conf.MATHeight else 1)
    ∧ (∀ r b, init.bankQueues r b = [])
    ∧ (∀ r b, init.activateQueued r b = false)
    ∧ (∀ r b s, init.activeSubArray r b s = false ∧ init.effectiveRow r b s = conf.ROWS
        ∧ init.effectiveMuxedRow r b s = conf.ROWS ∧ init.starvationCounter r b s = 0)
    ∧ (∀ r b, init.bankNeedRefresh r b = false)
    ∧ init.curRank = m.curRank ∧ init.curBank = m.curBank
    ∧ (conf.UseRefresh = true →
        (∀ r g, init.delayedRefreshCounter r g = 0)
        ∧ conf.BanksPerRefresh ≠ 0 ∧ conf.BanksPerRefresh ≤ conf.BANKS
        ∧ init.m_refreshBankNum = conf.BANKS / conf.BanksPerRefresh
        ∧ init.m_tREFI = conf.tREFW / (conf.ROWS / conf.RefreshRows)) := by
  unfold SetConfig at h
  by_cases hu : conf.UseRefresh = true
  · have hu1 : (SetConfig.arrays m conf hasMATHeight).p.UseRefresh = true := hu
    simp only [hu1, if_true] at h
    by_cases h1 : conf.BanksPerRefresh ≤ conf.BANKS
    · have h1a : (SetConfig.arrays m conf hasMATHeight).p.BanksPerRefresh
          ≤ (SetConfig.arrays m conf hasMATHeight).p.BANKS := h1
      simp only [h1a, not_true_eq_false, if_false] at h
      by_cases h2 : conf.BanksPerRefresh = 0
      · have h2a : (SetConfig.arrays m conf hasMATHeight).p.BanksPerRefresh = 0 := h2
        simp [h2a] at h
      · have h2a : ¬(SetConfig.arrays m conf hasMATHeight).p.BanksPerRefresh = 0 := h2
        simp only [h2a, if_false] at h
        obtain ⟨evs, he⟩ := pulses_outer (SetConfig.refresh (SetConfig.arrays m conf
          hasMATHeight)).p.RANKS (SetConfig.refresh (SetConfig.arrays m conf hasMATHeight))
        rw [he] at h
        have h3 := Option.some.inj h
        subst h3
        simp [SetConfig.refresh, SetConfig.arrays, h1, h2]
    · have h1a : ¬(SetConfig.arrays m conf hasMATHeight).p.BanksPerRefresh
          ≤ (SetConfig.arrays m conf hasMATHeight).p.BANKS := h1
      simp [h1a] at h
  · have hu1 : ¬(SetConfig.arrays m conf hasMATHeight).p.UseRefresh = true := hu
    simp only [hu1, if_false] at h
    have h3 := Option.some.inj h
    subst h3
    simp [SetConfig.arrays, hu]

/-! ## Invariants of the activation state -/

theorem openRowInvariant_iff (m : MemoryController) :
    OpenRowInvariant m ↔
      ∀ r b s, (m.activeSubArray r b s = true → m.effectiveRow r b s < m.p.ROWS)
        ∧ (m.activeSubArray r b s = false → m.effectiveRow r b s = m.p.ROWS) := by
  constructor
  · intro h r b s
    refine ⟨(h r b s).1.1, fun hf => ?_⟩
    by_contra hne
    have := (h r b s).2.2 hne
    rw [hf] at this
    exact Bool.noConfusion this
  · intro h r b s
    rcases ha : m.activeSubArray r b s with _ | _
    · have := (h r b s).2 ha
      simp [this]
    · have := (h r b s).1 ha
      simp [this, Nat.ne_of_lt this]

theorem OpenRowInvariant.issue {m : MemoryController} (hinv : OpenRowInvariant m)
    (req : NVMainRequest) (hrow : req.address.row < m.p.ROWS) (rv : Bool)
    (m1 : MemoryController) (req1 : NVMainRequest)
    (h : IssueMemoryCommands m req = some (rv, m1, req1)) : OpenRowInvariant m1 := by
  rw [openRowInvariant_iff] at hinv ⊢
  obtain ⟨hs, _, _, hsub, _, hcase⟩ := IssueMemoryCommands_effect m req rv m1 req1 h
  have hp : m1.p = m.p := hs.1
  intro r b s
  by_cases hw : r = req.address.rank ∧ b = req.address.bank ∧ s = req.address.subarray
  · obtain ⟨rfl, rfl, rfl⟩ := hw
    rw [hp]
    rcases hcase with ⟨_, h2, h3, _⟩ | ⟨_, _, h3, h4, _⟩ | ⟨_, h2, h3, _⟩ | ⟨_, h2, h3, _⟩
    · simp [h2, h3, hrow]
    · simp [h3, h4]
    · rw [h2, h3]; exact hinv _ _ _
    · simp [h2, h3]
  · obtain ⟨h1, h2, _⟩ := hsub r b s hw
    rw [hp, h1, h2]
    exact hinv r b s

theorem OpenRowInvariant.refreshClosed {m m1 : MemoryController} (hinv : OpenRowInvariant m)
    (h : RefreshClosed m m1) : OpenRowInvariant m1 := by
  rw [openRowInvariant_iff] at hinv ⊢
  have hp : m1.p = m.p := h.1.1
  intro r b s
  rw [hp]
  rcases h.2.2 r b with hu | hc
  · obtain ⟨h1, h2, _⟩ := hu.2.2 s
    rw [h1, h2]
    exact hinv r b s
  · by_cases hs : s < m.subArrayNum
    · obtain ⟨h1, h2, _⟩ := (hc.2.2.2.2 s).1 hs
      simp [h1, h2]
    · obtain ⟨h1, h2, _⟩ := (hc.2.2.2.2 s).2 hs
      rw [h1, h2]
      exact hinv r b s

theorem openRowInvariant_sameActivation {m m1 : MemoryController} (hinv : OpenRowInvariant m)
    (h : SameActivation m m1) : OpenRowInvariant m1 := by
  obtain ⟨h1, _, _, h4, h5, _⟩ := h
  intro r b s
  rw [h1, h4, h5]
  exact hinv r b s

theorem sameButRefresh_sameActivation {m m1 : MemoryController} (h : SameButRefresh m m1) :
    SameActivation m m1 :=
  ⟨h.1, h.2.1, h.2.2.2.2.1, h.2.2.2.2.2.1, h.2.2.2.2.2.2.1, h.2.2.2.2.2.2.2.1⟩

theorem OpenRowInvariant.handleRefresh {m : MemoryController} (hinv : OpenRowInvariant m) :
    OpenRowInvariant (HandleRefresh m).2 := by
  obtain ⟨m0, h0, h1⟩ := HandleRefresh_frame m
  exact openRowInvariant_sameActivation (hinv.refreshClosed h0)
    (sameButRefresh_sameActivation h1)

/-- C12. Open-row invariant. In every state reached from the state that
`SetConfig` sets up, through calls of `IssueMemoryCommands` on requests
whose row is below `ROWS`, through calls of `HandleRefresh` and through
anything else that leaves the activation state alone, a sub-array is active
if and only if its effective row is below `ROWS`, and if and only if its
effective row differs from `ROWS`. -/
theorem open_row_invariant (m0 : MemoryController) (conf : Params) (hasMATHeight : Bool)
    (init : MemoryController) (hinit : SetConfig m0 conf hasMATHeight = some init)
    (m : MemoryController)
    (hr : SchedReachable (fun m req => req.address.row < m.p.ROWS) init m) :
    OpenRowInvariant m := by
  induction hr with
  | start =>
    obtain ⟨hp, _, _, _, harr, _⟩ := SetConfig_spec m0 conf hasMATHeight init hinit
    rw [openRowInvariant_iff]
    intro r b s
    obtain ⟨h1, h2, _⟩ := harr r b s
    simp [h1, h2, hp]
  | issue m req rv m1 req1 _ hall hissue ih => exact ih.issue req hall rv m1 req1 hissue
  | refresh m _ ih => exact ih.handleRefresh
  | other m m1 _ hsame ih => exact openRowInvariant_sameActivation ih hsame

theorem open_row_invariant_witness :
    ∃ init m1 req1,
      SetConfig (closedController 1).construct (sampleParams 1) true = some init
      ∧ IssueMemoryCommands init (mkReq OpType.READ 5 2 1 0 0 7 0) = some (true, m1, req1)
      ∧ m1.activeSubArray 0 1 0 = true ∧ m1.effectiveRow 0 1 0 = 5
      ∧ OpenRowInvariant (HandleRefresh m1).2 :=
  ⟨_, _, _, rfl, rfl, rfl, rfl,
    open_row_invariant (closedController 1).construct (sampleParams 1) true _ rfl _
      (SchedReachable.refresh _
        (SchedReachable.issue _ (mkReq OpType.READ 5 2 1 0 0 7 0) true _ _
          SchedReachable.start (by decide) rfl))⟩

/-- In every state reached from a state with no bank active, a bank with
`activateQueued` set has an active sub-array that satisfies `Q`, if the
sub-array of every scheduled request satisfies `Q` and every sub-array below
`subArrayNum` does. -/
theorem activateQueued_reachable (Q : MemoryController → Nat → Prop)
    (hQ1 : ∀ m m1 s, m1.subArrayNum = m.subArrayNum → Q m s → Q m1 s)
    (hQ2 : ∀ m s, s < m.subArrayNum → Q m s)
    (init : MemoryController) (h0 : ∀ r b, init.activateQueued r b = false)
    (m : MemoryController)
    (hr : SchedReachable (fun m req => Q m req.address.subarray) init m) :
    ∀ r b, m.activateQueued r b = true → ∃ s, Q m s ∧ m.activeSubArray r b s = true := by
  induction hr with
  | start =>
    intro r b h
    rw [h0 r b] at h
    exact Bool.noConfusion h
  | issue m req rv m1 req1 _ hall hissue ih =>
    obtain ⟨hs, _, _, hsub, haq, hcase⟩ := IssueMemoryCommands_effect m req rv m1 req1 hissue
    have hn : m1.subArrayNum = m.subArrayNum := hs.2.1
    intro r b h
    by_cases hw : r = req.address.rank ∧ b = req.address.bank
    · obtain ⟨rfl, rfl⟩ := hw
      rcases hcase with ⟨_, h2, _⟩ | ⟨_, h2, _⟩ | ⟨h1, h2, _⟩ | ⟨_, _, _, _, h5⟩
      · exact ⟨_, hQ1 m m1 _ hn hall, h2⟩
      · rw [h2] at h
        exact Bool.noConfusion h
      · rw [h1] at h
        obtain ⟨s, hq, ha⟩ := ih _ _ h
        exact ⟨s, hQ1 m m1 s hn hq, by rw [h2]; exact ha⟩
      · rcases h5 with ⟨h6, _⟩ | ⟨_, i, hi, hne, ha⟩
        · rw [h6] at h
          exact Bool.noConfusion h
        · refine ⟨i, hQ1 m m1 i hn (hQ2 m i hi), ?_⟩
          rw [(hsub _ _ i (fun hc => hne hc.2.2)).1]
          exact ha
    · rw [haq r b hw] at h
      obtain ⟨s, hq, ha⟩ := ih r b h
      refine ⟨s, hQ1 m m1 s hn hq, ?_⟩
      rw [(hsub r b s (fun hc => hw ⟨hc.1, hc.2.1⟩)).1]
      exact ha
  | refresh m _ ih =>
    obtain ⟨m0, hc, hsame⟩ := HandleRefresh_frame m
    obtain ⟨_, h2, h3, h4, _⟩ := sameButRefresh_sameActivation hsame
    intro r b h
    rw [h3] at h
    rcases hc.2.2 r b with hu | hcl
    · rw [hu.2.1] at h
      obtain ⟨s, hq, ha⟩ := ih r b h
      refine ⟨s, hQ1 m _ s (by rw [h2]; exact hc.1.2.1) hq, ?_⟩
      rw [h4, (hu.2.2 s).1]
      exact ha
    · rw [hcl.2.2.2.1] at h
      exact Bool.noConfusion h
  | other m m1 _ hsame ih =>
    obtain ⟨_, h2, h3, h4, _⟩ := hsame
    intro r b h
    rw [h3] at h
    obtain ⟨s, hq, ha⟩ := ih r b h
    exact ⟨s, hQ1 m m1 s h2 hq, by rw [h4]; exact ha⟩

/-- C13. Invariant 1. In every state reached from the state that `SetConfig`
sets up, through calls of `IssueMemoryCommands`, through calls of
`HandleRefresh` and through anything else that leaves the activation state
alone, a bank with `activateQueued` set has a sub-array with `activeSubArray`
set; and if the sub-array of every scheduled request is below `subArrayNum`,
so is that sub-array. -/
theorem activateQueued_invariant (m0 : MemoryController) (conf : Params)
    (hasMATHeight : Bool) (init : MemoryController)
    (hinit : SetConfig m0 conf hasMATHeight = some init) :
    (∀ m, SchedReachable (fun _ _ => True) init m →
      ∀ r b, m.activateQueued r b = true → ∃ s, m.activeSubArray r b s = true)
    ∧ (∀ m, SchedReachable (fun m req => req.address.subarray < m.subArrayNum) init m →
      ∀ r b, m.activateQueued r b = true →
        ∃ s, s < m.subArrayNum ∧ m.activeSubArray r b s = true) := by
  have h0 := (SetConfig_spec m0 conf hasMATHeight init hinit).2.2.2.1
  constructor
  · intro m hr r b h
    obtain ⟨s, _, hs⟩ := activateQueued_reachable (fun _ _ => True)
      (fun _ _ _ _ _ => trivial) (fun _ _ _ => trivial) init h0 m hr r b h
    exact ⟨s, hs⟩
  · intro m hr r b h
    exact activateQueued_reachable (fun m s => s < m.subArrayNum)
      (fun m m1 s hn hq => by show s < m1.subArrayNum; rw [hn]; exact hq) (fun _ _ hs => hs) init h0 m hr r b h

theorem activateQueued_invariant_witness :
    ∃ init m1 req1,
      SetConfig (closedController 1).construct (sampleParams 1) true = some init
      ∧ IssueMemoryCommands init (mkReq OpType.READ 5 2 1 0 0 7 0) = some (true, m1, req1)
      ∧ m1.activateQueued 0 1 = true
      ∧ ∃ s, s < m1.subArrayNum ∧ m1.activeSubArray 0 1 s = true :=
  ⟨_, _, _, rfl, rfl, rfl,
    (activateQueued_invariant (closedController 1).construct (sampleParams 1) true _ rfl).2 _
      (SchedReachable.issue _ (mkReq OpType.READ 5 2 1 0 0 7 0) true _ _
        SchedReachable.start (by decide) rfl) 0 1 rfl⟩

/-! ## HandleRefresh: the issue path -/

theorem NeedRefresh_iff (m : MemoryController) (bank rank : Nat) :
    NeedRefresh m bank rank = true ↔
      (m.p.UseRefresh = true
        ∧ m.p.DelayedRefreshThreshold ≤ m.delayedRefreshCounter rank (bank / m.p.BanksPerRefresh)) := by
  unfold NeedRefresh
  by_cases h : m.p.UseRefresh = true <;> simp [h]

theorem IsRefreshBankQueueEmpty_iff (m : MemoryController) (bank rank : Nat) :
    IsRefreshBankQueueEmpty m bank rank = true ↔
      ∀ k, k < m.p.BanksPerRefresh →
        m.bankQueues rank (bank / m.p.BanksPerRefresh * m.p.BanksPerRefresh + k) = [] := by
  simp [IsRefreshBankQueueEmpty, List.all_eq_true]

theorem command_eq {m m0 : MemoryController} (h : SchedulingOnly m m0) (i j : Nat) :
    HandleRefresh.command i j m0 = HandleRefresh.command i j m := by
  obtain ⟨_, _, _, _, _, _, _, _, _, _, _, _, h1, h2, _, _, _, h3, _⟩ := h
  simp [HandleRefresh.command, MakeRefreshRequest, h1, h2, h3]

theorem command_fields (i j : Nat) (m : MemoryController) :
    (HandleRefresh.command i j m).type = OpType.REFRESH
    ∧ (HandleRefresh.command i j m).issueCycle = m.currentCycle
    ∧ (HandleRefresh.command i j m).address.rank = i
    ∧ (HandleRefresh.command i j m).address.bank = j := by
  simp [HandleRefresh.command, MakeRefreshRequest, NVMainRequest.setIssueCycle,
    NVMAddress.SetTranslatedAddress, NVMAddress.SetPhysicalAddress]

/-- C20. The issue path of `HandleRefresh`. Whenever `HandleRefresh` returns
true, one REFRESH command, stamped with the current cycle, was handed to the
downstream, for a rank `i` and a bank `j` whose group had its delayed-refresh
counter at or above `DelayedRefreshThreshold` and every bank queue empty; the
counter of that group is the old one minus 1 in 64-bit arithmetic, which is
lower by exactly 1 when the old one was at least 1, and no other counter
changed; the `bankNeedRefresh` flags of the group are cleared if the new
counter is below the threshold and all flags are left unchanged otherwise;
and `nextRefreshBank`, `nextRefreshRank` have advanced by one bank group in
round-robin order. Whenever it returns false, no call went to the downstream
and no counter and no flag changed. -/
theorem HandleRefresh_issue_path (m : MemoryController) :
    ((HandleRefresh m).1 = true →
      ∃ i j,
        (HandleRefresh m).2.childLog
          = m.childLog ++ [ChildCall.IssueCommand (HandleRefresh.command i j m)]
        ∧ (HandleRefresh.command i j m).type = OpType.REFRESH
        ∧ (HandleRefresh.command i j m).issueCycle = m.currentCycle
        ∧ (HandleRefresh.command i j m).address.rank = i
        ∧ (HandleRefresh.command i j m).address.bank = j
        ∧ m.p.UseRefresh = true
        ∧ m.p.DelayedRefreshThreshold ≤ m.delayedRefreshCounter i (j / m.p.BanksPerRefresh)
        ∧ (∀ k, k < m.p.BanksPerRefresh →
            m.bankQueues i (j / m.p.BanksPerRefresh * m.p.BanksPerRefresh + k) = [])
        ∧ (HandleRefresh m).2.delayedRefreshCounter i (j / m.p.BanksPerRefresh)
            = (m.delayedRefreshCounter i (j / m.p.BanksPerRefresh) + (2 ^ 64 - 1)) % 2 ^ 64
        ∧ (1 ≤ m.delayedRefreshCounter i (j / m.p.BanksPerRefresh) →
            m.delayedRefreshCounter i (j / m.p.BanksPerRefresh) < 2 ^ 64 →
            (HandleRefresh m).2.delayedRefreshCounter i (j / m.p.BanksPerRefresh) + 1
              = m.delayedRefreshCounter i (j / m.p.BanksPerRefresh))
        ∧ (∀ r g, ¬(r = i ∧ g = j / m.p.BanksPerRefresh) →
            (HandleRefresh m).2.delayedRefreshCounter r g = m.delayedRefreshCounter r g)
        ∧ ((HandleRefresh m).2.delayedRefreshCounter i (j / m.p.BanksPerRefresh)
              < m.p.DelayedRefreshThreshold →
            ∀ r b, (HandleRefresh m).2.bankNeedRefresh r b
              = (if r = i ∧ j / m.p.BanksPerRefresh * m.p.BanksPerRefresh ≤ b
                    ∧ b < j / m.p.BanksPerRefresh * m.p.BanksPerRefresh + m.p.BanksPerRefresh
                  then false else m.bankNeedRefresh r b))
        ∧ (m.p.DelayedRefreshThreshold
              ≤ (HandleRefresh m).2.delayedRefreshCounter i (j / m.p.BanksPerRefresh) →
            (HandleRefresh m).2.bankNeedRefresh = m.bankNeedRefresh)
        ∧ (m.p.BANKS ≤ m.nextRefreshBank + m.p.BanksPerRefresh →
            (HandleRefresh m).2.nextRefreshBank = 0
            ∧ (HandleRefresh m).2.nextRefreshRank
                = (if m.nextRefreshRank + 1 = m.p.RANKS then 0 else m.nextRefreshRank + 1))
        ∧ (m.nextRefreshBank + m.p.BanksPerRefresh < m.p.BANKS →
            (HandleRefresh m).2.nextRefreshBank = m.nextRefreshBank + m.p.BanksPerRefresh
            ∧ (HandleRefresh m).2.nextRefreshRank = m.nextRefreshRank))
    ∧ ((HandleRefresh m).1 = false →
        (HandleRefresh m).2.childLog = m.childLog
        ∧ (HandleRefresh m).2.delayedRefreshCounter = m.delayedRefreshCounter
        ∧ (HandleRefresh m).2.bankNeedRefresh = m.bankNeedRefresh) := by
  constructor
  · intro hb
    obtain ⟨i, j, m0, hc, hneed, hempty, _, he⟩ := (HandleRefresh_cases m).2 hb
    have hs := hc.1
    obtain ⟨hp, _, _, hbnr, hdrc, _, _, _, _, _, hnr, hnb, _, _, _, _, _, _, _, _, _, hlog, _⟩ := hs
    obtain ⟨_, hl, hd, hf1, hf2, ha1, ha2⟩ := issue_spec i j m0
    rw [← he] at hl hd hf1 hf2 ha1 ha2
    rw [hp, hdrc] at hd hf1 hf2
    rw [hp, hnb] at ha1 ha2
    rw [hnr] at ha1 ha2
    rw [hbnr] at hf1 hf2
    rw [hlog, command_eq hc.1] at hl
    obtain ⟨hu, hthr⟩ := (NeedRefresh_iff m0 j i).1 hneed
    rw [hp] at hu
    rw [hp, hdrc] at hthr
    have hq := (IsRefreshBankQueueEmpty_iff m0 j i).1 hempty
    rw [hp] at hq
    obtain ⟨c1, c2, c3, c4⟩ := command_fields i j m
    have hnew : (HandleRefresh m).2.delayedRefreshCounter i (j / m.p.BanksPerRefresh)
        = (m.delayedRefreshCounter i (j / m.p.BanksPerRefresh) + (2 ^ 64 - 1)) % 2 ^ 64 := by
      rw [hd, set2_same]
    refine ⟨i, j, hl, c1, c2, c3, c4, hu, hthr, fun k hk => ?_, hnew, fun h1 h2 => ?_,
      fun r g hne => ?_, fun hlt => ?_, fun hle => ?_, ha1, ha2⟩
    · obtain ⟨added, h1, _⟩ := hc.queues i (j / m.p.BanksPerRefresh * m.p.BanksPerRefresh + k)
      rw [hq k hk] at h1
      exact (List.append_eq_nil.1 h1.symm).1
    · rw [hnew]
      omega
    · rw [hd, set2_other _ _ _ _ _ _ hne]
    · rw [hnew] at hlt
      exact hf1 (fun h => absurd h.2 (Nat.not_le.2 hlt))
    · rw [hnew] at hle
      exact hf2 ⟨hu, hle⟩
  · intro hb
    have hc := (HandleRefresh_cases m).1 hb
    obtain ⟨_, _, _, hbnr, hdrc, _, _, _, _, _, _, _, _, _, _, _, _, _, _, _, _, hlog, _⟩ := hc.1
    exact ⟨hlog, hdrc, hbnr⟩

/-- C20, counterexample: set up with `DelayedRefreshThreshold` 0, the
controller has every counter at 0; `HandleRefresh` returns true and leaves
the counter of group 0 of rank 0 at `2 ^ 64 - 1`, not lower by 1. -/
theorem HandleRefresh_wraps_zero_counter :
    ∃ m, SetConfig (closedController 1).construct (refreshParams 0) true = some m
      ∧ m.delayedRefreshCounter 0 0 = 0
      ∧ (HandleRefresh m).1 = true
      ∧ (HandleRefresh m).2.delayedRefreshCounter 0 0 = 2 ^ 64 - 1 :=
  ⟨_, rfl, rfl, rfl, rfl⟩

theorem HandleRefresh_issue_path_witness :
    ∃ m m1, SetConfig (closedController 1).construct (refreshParams 1) true = some m
      ∧ ProcessRefreshPulse m samplePulse = some m1
      ∧ (HandleRefresh m1).1 = true
      ∧ m1.delayedRefreshCounter 0 0 = 1
      ∧ (HandleRefresh m1).2.delayedRefreshCounter 0 0 = 0
      ∧ ∃ i j, (HandleRefresh m1).2.childLog
          = m1.childLog ++ [ChildCall.IssueCommand (HandleRefresh.command i j m1)] := by
  refine ⟨_, _, rfl, rfl, rfl, rfl, rfl, ?_⟩
  refine Exists.imp (fun i h => Exists.imp (fun j h2 => h2.1) h)
    ((HandleRefresh_issue_path _).1 ?_)
  rfl

/-! ## The delayed-refresh counters -/

/-- What `ProcessRefreshPulse` does: the counter of the pulse's group goes up
by 1 in 64-bit arithmetic, the flags of the group are set if the group needs
a refresh then, and the pulse is scheduled again `tREFI` cycles ahead. -/
theorem ProcessRefreshPulse_spec (m : MemoryController) (refresh : NVMainRequest)
    (m1 : MemoryController) (h : ProcessRefreshPulse m refresh = some m1) :
    refresh.type = OpType.REFRESH
    ∧ ∃ f, m1 = { m with
          delayedRefreshCounter := set2 m.delayedRefreshCounter refresh.address.rank
            (refresh.address.bank / m.p.BanksPerRefresh)
            ((m.delayedRefreshCounter refresh.address.rank
              (refresh.address.bank / m.p.BanksPerRefresh) + 1) % 2 ^ 64)
          bankNeedRefresh := f
          eventQueue := m.eventQueue
            ++ [{ cycle := m.currentCycle + m.m_tREFI, request := refresh }] }
      ∧ ∀ r b, f r b
          = (if (m.p.UseRefresh = true ∧ m.p.DelayedRefreshThreshold
                  ≤ (m.delayedRefreshCounter refresh.address.rank
                      (refresh.address.bank / m.p.BanksPerRefresh) + 1) % 2 ^ 64)
                ∧ r = refresh.address.rank
                ∧ refresh.address.bank / m.p.BanksPerRefresh * m.p.BanksPerRefresh ≤ b
                ∧ b < refresh.address.bank / m.p.BanksPerRefresh * m.p.BanksPerRefresh
                    + m.p.BanksPerRefresh
              then true else m.bankNeedRefresh r b) := by
  unfold ProcessRefreshPulse at h
  by_cases ht : refresh.type = OpType.REFRESH
  · refine ⟨ht, ?_⟩
    simp only [ht, ne_eq, not_true_eq_false, if_false] at h
    have h1 := Option.some.inj h
    clear h
    generalize hm2 : IncrementRefreshCounter m refresh.address.bank refresh.address.rank = m2
      at h1
    have hm2e : m2 = { m with
        delayedRefreshCounter := set2 m.delayedRefreshCounter refresh.address.rank
          (refresh.address.bank / m.p.BanksPerRefresh)
          ((m.delayedRefreshCounter refresh.address.rank
            (refresh.address.bank / m.p.BanksPerRefresh) + 1) % 2 ^ 64) } := by
      rw [← hm2]; rfl
    have hN : NeedRefresh m2 refresh.address.bank refresh.address.rank = true ↔
        (m.p.UseRefresh = true ∧ m.p.DelayedRefreshThreshold
          ≤ (m.delayedRefreshCounter refresh.address.rank
              (refresh.address.bank / m.p.BanksPerRefresh) + 1) % 2 ^ 64) := by
      rw [NeedRefresh_iff, hm2e]
      simp [set2_same]
    by_cases hn : NeedRefresh m2 refresh.address.bank refresh.address.rank = true
    · rw [if_pos hn] at h1
      obtain ⟨f, hf, hspec⟩ := needRefreshLoop_spec refresh.address.rank
        (refresh.address.bank / m2.p.BanksPerRefresh * m2.p.BanksPerRefresh)
        m2.p.BanksPerRefresh true m2
      refine ⟨f, ?_, fun r b => ?_⟩
      · rw [← h1]
        unfold SetRefresh
        rw [hf, hm2e]
        rfl
      · have hA := hN.1 hn
        have hp2 : m2.p = m.p := by rw [hm2e]
        have hb2 : m2.bankNeedRefresh = m.bankNeedRefresh := by rw [hm2e]
        rw [hspec r b, hp2, hb2]
        simp only [hA.1, hA.2, true_and, and_self]
    · rw [if_neg hn] at h1
      refine ⟨m.bankNeedRefresh, ?_, fun r b => ?_⟩
      · rw [← h1, hm2e]
        rfl
      · rw [if_neg (fun hc => hn (hN.2 hc.1))]
  · simp [ht] at h

/-- What a call of `HandleRefresh` does to the delayed-refresh counters: each
stays as it is, or, having been at or above the threshold with refresh
enabled, goes down by 1 in 64-bit arithmetic. -/
theorem HandleRefresh_counters (m : MemoryController) :
    (HandleRefresh m).2.p = m.p
    ∧ ∀ r g, (HandleRefresh m).2.delayedRefreshCounter r g = m.delayedRefreshCounter r g
        ∨ (m.p.UseRefresh = true ∧ m.p.DelayedRefreshThreshold ≤ m.delayedRefreshCounter r g
            ∧ (HandleRefresh m).2.delayedRefreshCounter r g
                = (m.delayedRefreshCounter r g + (2 ^ 64 - 1)) % 2 ^ 64) := by
  rcases hb : (HandleRefresh m).1 with _ | _
  · have hc := (HandleRefresh_cases m).1 hb
    exact ⟨hc.1.1, fun r g => Or.inl (by rw [hc.1.2.2.2.2.1])⟩
  · obtain ⟨i, j, m0, hc, hneed, _, _, he⟩ := (HandleRefresh_cases m).2 hb
    have hp : m0.p = m.p := hc.1.1
    have hdrc : m0.delayedRefreshCounter = m.delayedRefreshCounter := hc.1.2.2.2.2.1
    obtain ⟨hsame, _, hd, _⟩ := issue_spec i j m0
    rw [← he] at hd hsame
    rw [hp, hdrc] at hd
    obtain ⟨hu, hthr⟩ := (NeedRefresh_iff m0 j i).1 hneed
    rw [hp] at hu
    rw [hp, hdrc] at hthr
    refine ⟨by rw [hsame.1, hp], fun r g => ?_⟩
    by_cases hw : r = i ∧ g = j / m.p.BanksPerRefresh
    · obtain ⟨rfl, rfl⟩ := hw
      exact Or.inr ⟨hu, hthr, by rw [hd, set2_same]⟩
    · exact Or.inl (by rw [hd, set2_other _ _ _ _ _ _ hw])

/-- C15. Bounds of the delayed-refresh counters. With refresh enabled and
`DelayedRefreshThreshold` at least 1, in every state reached from the state
that `SetConfig` sets up, through calls of `ProcessRefreshPulse`, through
calls of `HandleRefresh` and through anything else that leaves the counters
alone, every counter is at most the number of pulses processed so far and
fits in 64 bits; and a call of `HandleRefresh` in such a state leaves each
counter as it is or, the counter being at least 1, lowers it by exactly 1:
it never decrements a counter that is 0. -/
theorem delayedRefreshCounter_bounds (m0 : MemoryController) (conf : Params)
    (hasMATHeight : Bool) (init : MemoryController)
    (hinit : SetConfig m0 conf hasMATHeight = some init)
    (hu : conf.UseRefresh = true) (ht : 1 ≤ conf.DelayedRefreshThreshold)
    (n : Nat) (m : MemoryController) (hr : RefreshReachable init n m) :
    (∀ r g, m.delayedRefreshCounter r g ≤ n ∧ m.delayedRefreshCounter r g < 2 ^ 64)
    ∧ (∀ r g, (HandleRefresh m).2.delayedRefreshCounter r g = m.delayedRefreshCounter r g
        ∨ (1 ≤ m.delayedRefreshCounter r g
            ∧ (HandleRefresh m).2.delayedRefreshCounter r g + 1
                = m.delayedRefreshCounter r g)) := by
  have key : m.p = conf
      ∧ ∀ r g, m.delayedRefreshCounter r g ≤ n ∧ m.delayedRefreshCounter r g < 2 ^ 64 := by
    induction hr with
    | start =>
      obtain ⟨hp, _, _, _, _, _, _, _, href⟩ := SetConfig_spec m0 conf hasMATHeight init hinit
      refine ⟨hp, fun r g => ?_⟩
      rw [(href hu).1 r g]
      exact ⟨Nat.le_refl 0, by norm_num⟩
    | pulse n m refresh m1 _ hpulse ih =>
      obtain ⟨_, f, hm1, _⟩ := ProcessRefreshPulse_spec m refresh m1 hpulse
      subst hm1
      refine ⟨ih.1, fun r g => ?_⟩
      show set2 m.delayedRefreshCounter _ _ _ r g ≤ n + 1
        ∧ set2 m.delayedRefreshCounter _ _ _ r g < 2 ^ 64
      by_cases hw : r = refresh.address.rank ∧ g = refresh.address.bank / m.p.BanksPerRefresh
      · obtain ⟨rfl, rfl⟩ := hw
        rw [set2_same]
        have := (ih.2 refresh.address.rank (refresh.address.bank / m.p.BanksPerRefresh)).1
        omega
      · rw [set2_other _ _ _ _ _ _ hw]
        have := ih.2 r g
        omega
    | refresh n m _ ih =>
      obtain ⟨hp, hc⟩ := HandleRefresh_counters m
      refine ⟨by rw [hp]; exact ih.1, fun r g => ?_⟩
      have hb := ih.2 r g
      rcases hc r g with h | ⟨_, hthr, h⟩
      · rw [h]; exact hb
      · rw [h]
        rw [ih.1] at hthr
        omega
    | other n m m1 _ hp hd ih =>
      exact ⟨by rw [hp]; exact ih.1, fun r g => by rw [hd]; exact ih.2 r g⟩
  refine ⟨key.2, fun r g => ?_⟩
  obtain ⟨_, hc⟩ := HandleRefresh_counters m
  have hb := key.2 r g
  rcases hc r g with h | ⟨_, hthr, h⟩
  · exact Or.inl h
  · rw [key.1] at hthr
    refine Or.inr ⟨by omega, ?_⟩
    rw [h]
    omega

/-- C15, counterexample: with `DelayedRefreshThreshold` 1, three pulses for
group 0 of rank 0 take its counter from 0 to 3, above the threshold plus 1;
and set up with `DelayedRefreshThreshold` 0, `HandleRefresh` decrements the
counter of that group at 0, which leaves it at `2 ^ 64 - 1`. -/
theorem pulses_exceed_threshold :
    (∃ m m1 m2 m3,
      SetConfig (closedController 1).construct (refreshParams 1) true = some m
      ∧ ProcessRefreshPulse m samplePulse = some m1
      ∧ ProcessRefreshPulse m1 samplePulse = some m2
      ∧ ProcessRefreshPulse m2 samplePulse = some m3
      ∧ RefreshReachable m 3 m3
      ∧ m3.p.DelayedRefreshThreshold = 1
      ∧ m3.delayedRefreshCounter 0 0 = 3)
    ∧ (∃ m, SetConfig (closedController 1).construct (refreshParams 0) true = some m
      ∧ RefreshReachable m 0 (HandleRefresh m).2
      ∧ m.p.DelayedRefreshThreshold = 0
      ∧ m.delayedRefreshCounter 0 0 = 0
      ∧ (HandleRefresh m).2.delayedRefreshCounter 0 0 = 2 ^ 64 - 1) :=
  ⟨⟨_, _, _, _, rfl, rfl, rfl, rfl,
      RefreshReachable.pulse _ _ samplePulse _
        (RefreshReachable.pulse _ _ samplePulse _
          (RefreshReachable.pulse _ _ samplePulse _ RefreshReachable.start rfl) rfl) rfl,
      rfl, rfl⟩,
    ⟨_, rfl, RefreshReachable.refresh _ _ RefreshReachable.start, rfl, rfl, rfl⟩⟩

theorem delayedRefreshCounter_bounds_witness :
    ∃ m m1, SetConfig (closedController 1).construct (refreshParams 1) true = some m
      ∧ ProcessRefreshPulse m samplePulse = some m1
      ∧ m1.delayedRefreshCounter 0 0 = 1
      ∧ (HandleRefresh m1).2.delayedRefreshCounter 0 0 = 0
      ∧ ∀ r g, m1.delayedRefreshCounter r g ≤ 1 ∧ m1.delayedRefreshCounter r g < 2 ^ 64 :=
  ⟨_, _, rfl, rfl, rfl, rfl,
    (delayedRefreshCounter_bounds (closedController 1).construct (refreshParams 1) true _ rfl
      rfl (by decide) 1 _
      (RefreshReachable.pulse _ _ samplePulse _ RefreshReachable.start rfl)).1⟩

/-! ## CycleCommandQueues: the scan -/

theorem bankLoop_eq_findSome (i : Nat) (m : MemoryController) (l : List Nat) :
    CycleCommandQueues.bankLoop i m l
      = l.findSome? fun bi => CycleCommandQueues.bank i ((m.curBank + bi) % m.p.BANKS) m := by
  induction l with
  | nil => rfl
  | cons a l ih =>
    rcases h : CycleCommandQueues.bank i ((m.curBank + a) % m.p.BANKS) m with _ | r
    · simp [CycleCommandQueues.bankLoop, List.findSome?, h, ih]
    · simp [CycleCommandQueues.bankLoop, List.findSome?, h]

theorem rankLoop_eq_findSome (m : MemoryController) (l : List Nat) :
    CycleCommandQueues.rankLoop m l
      = ((l.findSome? fun ri =>
          CycleCommandQueues.bankLoop ((m.curRank + ri) % m.p.RANKS) m
            (List.range m.p.BANKS)).getD (CycleOutcome.returned m)) := by
  induction l with
  | nil => rfl
  | cons a l ih =>
    rcases h : CycleCommandQueues.bankLoop ((m.curRank + a) % m.p.RANKS) m
        (List.range m.p.BANKS) with _ | r
    · simp [CycleCommandQueues.rankLoop, List.findSome?, h, ih]
    · simp [CycleCommandQueues.rankLoop, List.findSome?, h]

theorem findSome_flatMap {α β γ : Type} (f : β → Option γ) (g : α → List β) (l : List α) :
    (l.flatMap g).findSome? f = l.findSome? fun a => (g a).findSome? f := by
  induction l with
  | nil => rfl
  | cons a l ih =>
    rw [List.flatMap_cons, List.findSome?_append, ih]
    rcases h : (g a).findSome? f with _ | r <;> simp [List.findSome?, h]

/-- The scan of `CycleCommandQueues` ends at the first bank in the scan order
at which the loop body ends the call, and returns with nothing done if
there is none. -/
theorem scan_eq_findSome (m : MemoryController) :
    CycleCommandQueues.scan m
      = (((scanOrder m).findSome? fun q => CycleCommandQueues.bank q.1 q.2 m).getD
          (CycleOutcome.returned m)) := by
  unfold CycleCommandQueues.scan scanOrder
  rw [rankLoop_eq_findSome, findSome_flatMap]
  congr 2
  funext ri
  rw [bankLoop_eq_findSome, List.findSome?_map]
  rfl

theorem bank_eq_none_iff (m : MemoryController) (q : Nat × Nat) :
    CycleCommandQueues.bank q.1 q.2 m = none ↔ (¬HeadIssuable m q ∧ ¬HeadExpired m q) := by
  unfold CycleCommandQueues.bank HeadIssuable HeadExpired
  rcases hq : m.bankQueues q.1 q.2 with _ | ⟨head, tail⟩
  · simp
  · rcases hi : m.childIsIssuable head with _ | _
    · by_cases he : ncycleSub m.currentCycle head.issueCycle > m.p.DeadlockTimer
      · simp [hi, he]
      · simp [hi, he]
    · simp [hi]

theorem bank_eq_some_iff (m : MemoryController) (q : Nat × Nat) (r : CycleOutcome) :
    CycleCommandQueues.bank q.1 q.2 m = some r ↔
      ∃ head tail, m.bankQueues q.1 q.2 = head :: tail
        ∧ ((m.childIsIssuable head = true
            ∧ r = CycleOutcome.returned (MoveRankBank
                ((m.callChild (ChildCall.IssueCommand head)).setBankQueue q.1 q.2 tail)))
          ∨ (m.childIsIssuable head = false
            ∧ ncycleSub m.currentCycle head.issueCycle > m.p.DeadlockTimer
            ∧ r = CycleOutcome.fatal m)) := by
  unfold CycleCommandQueues.bank
  rcases hq : m.bankQueues q.1 q.2 with _ | ⟨head, tail⟩
  · simp
  · simp only [List.cons.injEq]
    constructor
    · intro h
      refine ⟨head, tail, ⟨rfl, rfl⟩, ?_⟩
      rcases hi : m.childIsIssuable head with _ | _
      · rw [hi] at h
        by_cases he : ncycleSub m.currentCycle head.issueCycle > m.p.DeadlockTimer
        · rw [if_neg (by simp), if_pos he] at h
          exact Or.inr ⟨rfl, he, (Option.some.inj h).symm⟩
        · rw [if_neg (by simp), if_neg he] at h
          exact Option.noConfusion h
      · rw [hi, if_pos rfl] at h
        exact Or.inl ⟨rfl, (Option.some.inj h).symm⟩
    · rintro ⟨head1, tail1, ⟨rfl, rfl⟩, ⟨hi, hr⟩ | ⟨hi, he, hr⟩⟩
      · rw [hi, if_pos rfl, hr]
      · rw [hi, if_neg (by simp), if_pos he, hr]

/-! ## HandleLowPower: frame -/

theorem powerOnly_refl (m : MemoryController) : PowerOnly m m :=
  ⟨by simp [SameButPower], [], by simp, by simp⟩

theorem powerOnly_trans {a b c : MemoryController} (h1 : PowerOnly a b) (h2 : PowerOnly b c) :
    PowerOnly a c := by
  obtain ⟨s1, l1, e1, n1⟩ := h1
  obtain ⟨s2, l2, e2, n2⟩ := h2
  refine ⟨?_, l1 ++ l2, by rw [e2, e1, List.append_assoc], fun x hx => ?_⟩
  · simp only [SameButPower] at s1 s2 ⊢
    simp [s1, s2]
  · rcases List.mem_append.1 hx with h | h
    · exact n1 x h
    · exact n2 x h

/-- A call on the downstream other than `IssueCommand`, followed by an
assignment to `rankPowerDown`. -/
theorem powerOnly_call (m : MemoryController) (c : ChildCall) (hc : ChildCall.isIssue c = false)
    (r : Nat) (v : Bool) : PowerOnly m ((m.callChild c).setRankPowerDown r v) :=
  ⟨by simp [SameButPower], [c], by simp, by simpa using hc⟩

theorem powerOnly_ite (m a : MemoryController) (c : Prop) [Decidable c] (h : PowerOnly m a) :
    PowerOnly m (if c then a else m) := by
  split
  · exact h
  · exact powerOnly_refl m

theorem PowerDown_powerOnly (m : MemoryController) (r : Nat) : PowerOnly m (PowerDown m r) :=
  powerOnly_ite m _ _ (powerOnly_call m _ (by rfl) r true)

theorem PowerUp_powerOnly (m : MemoryController) (r : Nat) : PowerOnly m (PowerUp m r) :=
  powerOnly_ite m _ _ (powerOnly_call m _ (by rfl) r false)

/-- `HandleLowPower` changes at most `rankPowerDown` and the downstream, on
which it makes no `IssueCommand` call. -/
theorem HandleLowPower_powerOnly (m : MemoryController) : PowerOnly m (HandleLowPower m) := by
  unfold HandleLowPower
  refine forLoop_rel PowerOnly powerOnly_refl (fun _ _ _ h1 h2 => powerOnly_trans h1 h2) _ _
    (fun k m1 _ => ?_) m
  unfold HandleLowPower.rank
  simp only []
  split
  · exact powerOnly_ite m1 _ _ (powerOnly_call m1 _ (by rfl) k false)
  · split
    · exact PowerUp_powerOnly m1 k
    · exact PowerDown_powerOnly m1 k

/-! ## CycleCommandQueues -/

/-- How the scan ends: at the first bank in the scan order whose queue has a
head that is issuable or has expired, by issuing that head or with the fatal
error; or, when there is no such bank, with nothing done. -/
theorem scan_spec (m : MemoryController) :
    (∃ pre q post head tail, scanOrder m = pre ++ q :: post
        ∧ (∀ x ∈ pre, ¬HeadIssuable m x ∧ ¬HeadExpired m x)
        ∧ m.bankQueues q.1 q.2 = head :: tail
        ∧ ((m.childIsIssuable head = true
            ∧ CycleCommandQueues.scan m = CycleOutcome.returned (MoveRankBank
                ((m.callChild (ChildCall.IssueCommand head)).setBankQueue q.1 q.2 tail)))
          ∨ (m.childIsIssuable head = false
            ∧ ncycleSub m.currentCycle head.issueCycle > m.p.DeadlockTimer
            ∧ CycleCommandQueues.scan m = CycleOutcome.fatal m)))
    ∨ ((∀ x ∈ scanOrder m, ¬HeadIssuable m x ∧ ¬HeadExpired m x)
        ∧ CycleCommandQueues.scan m = CycleOutcome.returned m) := by
  have hg := scan_eq_findSome m
  rcases h : (scanOrder m).findSome? (fun q => CycleCommandQueues.bank q.1 q.2 m) with _ | r
    <;> rw [h] at hg
  · right
    rw [List.findSome?_eq_none_iff] at h
    exact ⟨fun x hx => (bank_eq_none_iff m x).1 (h x hx), hg⟩
  · left
    rw [List.findSome?_eq_some_iff] at h
    obtain ⟨pre, q, post, hs, hq, hpre⟩ := h
    obtain ⟨head, tail, hb, hcase⟩ := (bank_eq_some_iff m q r).1 hq
    refine ⟨pre, q, post, head, tail, hs, fun x hx => (bank_eq_none_iff m x).1 (hpre x hx),
      hb, ?_⟩
    rcases hcase with ⟨h1, h2⟩ | ⟨h1, h2, h3⟩
    · exact Or.inl ⟨h1, by rw [hg, ← h2]; rfl⟩
    · exact Or.inr ⟨h1, h2, by rw [hg, ← h3]; rfl⟩

/-- `MoveRankBank` changes `curRank` and `curBank` only, and what it sets
them to depends on them and on the configuration only. -/
theorem MoveRankBank_frame (m : MemoryController) :
    ∃ r b, MoveRankBank m = { m with curRank := r, curBank := b }
      ∧ ∀ m1 : MemoryController, m1.p = m.p → m1.curRank = m.curRank → m1.curBank = m.curBank →
          (MoveRankBank m1).curRank = r ∧ (MoveRankBank m1).curBank = b := by
  refine ⟨(MoveRankBank m).curRank, (MoveRankBank m).curBank, ?_, fun m1 hp hr hb => ?_⟩
  · unfold MoveRankBank
    split
    · simp only []
      split <;> rfl
    · split
      · simp only []
        split <;> rfl
      · rfl
  · unfold MoveRankBank
    rw [hp]
    split
    · simp only [setCurRank_fields, setCurBank_fields, hp, hr, hb]
      split <;> simp [hb, hr]
    · split
      · simp only [setCurRank_fields, setCurBank_fields, hp, hr, hb]
        split <;> simp [hb, hr]
      · exact ⟨hr, hb⟩

/-- What comes before the scan in `CycleCommandQueues`: `HandleLowPower`, if
enabled, then `HandleRefresh`, if enabled, which closes banks for a refresh
and then either returns false or takes its issue path for some rank and bank. -/
theorem prelude_spec (m : MemoryController) :
    ∃ ma m0, PowerOnly m ma ∧ RefreshClosed ma m0 ∧ (m.p.UseRefresh = false → m0 = ma)
      ∧ (((CycleCommandQueues.prelude m).1 = false ∧ (CycleCommandQueues.prelude m).2 = m0)
        ∨ ((CycleCommandQueues.prelude m).1 = true
            ∧ ∃ i j, (CycleCommandQueues.prelude m).2 = HandleRefresh.issue i j m0)) := by
  have hma : PowerOnly m (if m.p.UseLowPower = true then HandleLowPower m else m) :=
    powerOnly_ite m _ _ (HandleLowPower_powerOnly m)
  generalize hg : (if m.p.UseLowPower = true then HandleLowPower m else m) = ma at hma
  have hp : ma.p = m.p := hma.1.1
  have hpre : CycleCommandQueues.prelude m
      = (if ma.p.UseRefresh = true then HandleRefresh ma else (false, ma)) := by
    rw [← hg]; rfl
  rw [hpre]
  by_cases hu : ma.p.UseRefresh = true
  · rw [if_pos hu]
    have hne : ¬(m.p.UseRefresh = false) := by rw [← hp, hu]; simp
    rcases hb : (HandleRefresh ma).1 with _ | _
    · exact ⟨ma, _, hma, (HandleRefresh_cases ma).1 hb, fun h => absurd h hne,
        Or.inl ⟨rfl, rfl⟩⟩
    · obtain ⟨i, j, m0, hc, _, _, _, he⟩ := (HandleRefresh_cases ma).2 hb
      exact ⟨ma, m0, hma, hc, fun h => absurd h hne, Or.inr ⟨rfl, i, j, he⟩⟩
  · rw [if_neg hu]
    exact ⟨ma, ma, hma, refreshClosed_refl ma, fun _ => rfl, Or.inl ⟨rfl, rfl⟩⟩

/-- What comes before the scan leaves the configuration, the round-robin
indices and the clock alone; it makes one `IssueCommand` call on the downstream
if `HandleRefresh` returns true and none otherwise; and it appends to a bank
queue nothing, or one PRECHARGE_ALL stamped with the current cycle, and
nothing if refresh is disabled. -/
theorem prelude_frame (m : MemoryController) :
    (CycleCommandQueues.prelude m).2.p = m.p
    ∧ (CycleCommandQueues.prelude m).2.curRank = m.curRank
    ∧ (CycleCommandQueues.prelude m).2.curBank = m.curBank
    ∧ (CycleCommandQueues.prelude m).2.currentCycle = m.currentCycle
    ∧ (∃ calls, (CycleCommandQueues.prelude m).2.childLog = m.childLog ++ calls
        ∧ calls.countP ChildCall.isIssue = (if (CycleCommandQueues.prelude m).1 then 1 else 0))
    ∧ (∀ r b, ∃ added,
        (CycleCommandQueues.prelude m).2.bankQueues r b = m.bankQueues r b ++ added
        ∧ (∀ c ∈ added, c.type = OpType.PRECHARGE_ALL ∧ c.issueCycle = m.currentCycle)
        ∧ (m.p.UseRefresh = false → added = [])) := by
  obtain ⟨ma, m0, ⟨hs, calls, hl, hn⟩, hc, hoff, hcase⟩ := prelude_spec m
  have hcount : calls.countP ChildCall.isIssue = 0 := by
    rw [List.countP_eq_zero]
    intro c hcm
    rw [hn c hcm]
    simp
  have hq0 : ∀ r b, ∃ added, m0.bankQueues r b = m.bankQueues r b ++ added
      ∧ (∀ c ∈ added, c.type = OpType.PRECHARGE_ALL ∧ c.issueCycle = m.currentCycle)
      ∧ (m.p.UseRefresh = false → added = []) := by
    intro r b
    obtain ⟨added, h1, h2⟩ := hc.queues r b
    have hbq : ma.bankQueues = m.bankQueues := hs.2.2.2.1
    have hcy : ma.currentCycle = m.currentCycle := by
      simp only [SameButPower] at hs
      simp [hs]
    refine ⟨added, by rw [h1, hbq], fun c hcm => by rw [← hcy]; exact h2 c hcm, fun hu => ?_⟩
    rw [hoff hu] at h1
    simpa using h1
  have hs0 : SchedulingOnly ma m0 := hc.1
  simp only [SameButPower] at hs
  simp only [SchedulingOnly] at hs0
  rcases hcase with ⟨hb, he⟩ | ⟨hb, i, j, he⟩
  · rw [hb, he]
    refine ⟨by simp [hs, hs0], by simp [hs, hs0], by simp [hs, hs0], by simp [hs, hs0],
      ⟨calls, by simp [hs0, hl], by simp [hcount]⟩, hq0⟩
  · obtain ⟨hsame, hlog, _⟩ := issue_spec i j m0
    simp only [SameButRefresh] at hsame
    rw [hb, he]
    refine ⟨by simp [hs, hs0, hsame], by simp [hs, hs0, hsame], by simp [hs, hs0, hsame],
      by simp [hs, hs0, hsame],
      ⟨calls ++ [ChildCall.IssueCommand (HandleRefresh.command i j m0)],
        by simp [hlog, hs0, hl], by simp [List.countP_append, hcount, ChildCall.isIssue]⟩,
      fun r b => ?_⟩
    rw [hsame.2.2.2.1]
    exact hq0 r b

theorem CycleCommandQueues_cases (m : MemoryController) :
    ((CycleCommandQueues.prelude m).1 = true
      ∧ CycleCommandQueues m = CycleOutcome.returned (CycleCommandQueues.prelude m).2)
    ∨ ((CycleCommandQueues.prelude m).1 = false
      ∧ CycleCommandQueues m = CycleCommandQueues.scan (CycleCommandQueues.prelude m).2) := by
  unfold CycleCommandQueues
  rcases h : CycleCommandQueues.prelude m with ⟨_ | _, m1⟩
  · exact Or.inr ⟨rfl, rfl⟩
  · exact Or.inl ⟨rfl, rfl⟩

/-- C16. `CycleCommandQueues` issues at most one device command per
invocation: whatever the state and the answers of the downstream, the calls
one invocation makes on the downstream hold at most one `IssueCommand`; and if
`HandleRefresh` returned true in it, the call returns normally, that
`IssueCommand` is its last call on the downstream and carries a REFRESH, no
bank command queue has been popped (each still starts with what it held) and
`curRank`, `curBank` are unchanged. -/
theorem CycleCommandQueues_one_issue (m : MemoryController) :
    (∃ calls, (CycleCommandQueues m).state.childLog = m.childLog ++ calls
        ∧ calls.countP ChildCall.isIssue ≤ 1)
    ∧ ((CycleCommandQueues.prelude m).1 = true →
        (CycleCommandQueues m).isFatal = false
        ∧ (∃ calls cmd, (CycleCommandQueues m).state.childLog
              = m.childLog ++ calls ++ [ChildCall.IssueCommand cmd]
            ∧ cmd.type = OpType.REFRESH ∧ calls.countP ChildCall.isIssue = 0)
        ∧ (∀ r b, m.bankQueues r b <+: (CycleCommandQueues m).state.bankQueues r b)
        ∧ (CycleCommandQueues m).state.curRank = m.curRank
        ∧ (CycleCommandQueues m).state.curBank = m.curBank) := by
  obtain ⟨_, hcr, hcb, _, ⟨calls, hlog, hcount⟩, hq⟩ := prelude_frame m
  constructor
  · rcases CycleCommandQueues_cases m with ⟨hb, he⟩ | ⟨hb, he⟩
    · rw [he]
      exact ⟨calls, hlog, by rw [hcount, hb]; simp⟩
    · rw [hb] at hcount
      rw [he]
      rcases scan_spec (CycleCommandQueues.prelude m).2 with
        ⟨pre, q, post, head, tail, _, _, _, ⟨_, hs⟩ | ⟨_, _, hs⟩⟩ | ⟨_, hs⟩
      · obtain ⟨r, b, hmv, _⟩ := MoveRankBank_frame
          (((CycleCommandQueues.prelude m).2.callChild (ChildCall.IssueCommand head)).setBankQueue
            q.1 q.2 tail)
        rw [hs, hmv]
        refine ⟨calls ++ [ChildCall.IssueCommand head], ?_, ?_⟩
        · show (((CycleCommandQueues.prelude m).2.callChild
            (ChildCall.IssueCommand head)).setBankQueue q.1 q.2 tail).childLog = _
          simp [hlog]
        · simp [List.countP_append, hcount, ChildCall.isIssue]
      · rw [hs]
        exact ⟨calls, hlog, by simp [hcount]⟩
      · rw [hs]
        exact ⟨calls, hlog, by simp [hcount]⟩
  · intro hb
    rcases CycleCommandQueues_cases m with ⟨_, he⟩ | ⟨hb1, _⟩
    · rw [he]
      refine ⟨rfl, ?_, fun r b => ?_, hcr, hcb⟩
      · obtain ⟨ma, m0, ⟨hs, calls1, hl1, hn1⟩, hc, _, hcase⟩ := prelude_spec m
        rcases hcase with ⟨hf, _⟩ | ⟨_, i, j, hi⟩
        · rw [hb] at hf
          exact Bool.noConfusion hf
        · refine ⟨calls1, HandleRefresh.command i j m0, ?_, (command_fields i j m0).1, ?_⟩
          · show (CycleCommandQueues.prelude m).2.childLog = _
            rw [hi, (issue_spec i j m0).2.1]
            have : m0.childLog = ma.childLog := by
              have h0 := hc.1
              simp only [SchedulingOnly] at h0
              simp [h0]
            rw [this, hl1]
          · rw [List.countP_eq_zero]
            intro c hcm
            rw [hn1 c hcm]
            simp
      · obtain ⟨added, h1, _⟩ := hq r b
        show m.bankQueues r b <+: (CycleCommandQueues.prelude m).2.bankQueues r b
        rw [h1]
        exact List.prefix_append _ _
    · rw [hb] at hb1
      exact Bool.noConfusion hb1

theorem scanOrder_congr {m m1 : MemoryController} (hp : m1.p = m.p)
    (hr : m1.curRank = m.curRank) (hb : m1.curBank = m.curBank) :
    scanOrder m1 = scanOrder m := by
  unfold scanOrder
  rw [hp, hr, hb]

theorem mem_scanOrder (m : MemoryController) (x : Nat × Nat) (h : x ∈ scanOrder m) :
    x.1 < m.p.RANKS ∧ x.2 < m.p.BANKS := by
  unfold scanOrder at h
  rw [List.mem_flatMap] at h
  obtain ⟨ri, hri, hx⟩ := h
  rw [List.mem_map] at hx
  obtain ⟨bi, hbi, rfl⟩ := hx
  rw [List.mem_range] at hri hbi
  exact ⟨Nat.mod_lt _ (by omega), Nat.mod_lt _ (by omega)⟩

theorem ncycleSub_self (c : Nat) : ncycleSub c c = 0 := by
  unfold ncycleSub
  rw [Nat.add_sub_cancel_left]
  exact Nat.mod_self _

/-- The scan ends with the fatal error exactly when the first bank in the
scan order whose queue has a head that is issuable or has expired is one
whose head has expired. -/
theorem scan_fatal_iff (m : MemoryController) :
    (CycleCommandQueues.scan m).isFatal = true ↔
      ∃ pre q post, scanOrder m = pre ++ q :: post
        ∧ (∀ x ∈ pre, ¬HeadIssuable m x ∧ ¬HeadExpired m x) ∧ HeadExpired m q := by
  constructor
  · intro hf
    rcases scan_spec m with
      ⟨pre, q, post, head, tail, h1, h2, h3, ⟨_, hs⟩ | ⟨h4, h5, _⟩⟩ | ⟨_, hs⟩
    · rw [hs] at hf
      exact Bool.noConfusion hf
    · exact ⟨pre, q, post, h1, h2, head, tail, h3, h4, h5⟩
    · rw [hs] at hf
      exact Bool.noConfusion hf
  · rintro ⟨pre, q, post, h1, h2, head, tail, h3, h4, h5⟩
    have hfind : (scanOrder m).findSome? (fun q => CycleCommandQueues.bank q.1 q.2 m)
        = some (CycleOutcome.fatal m) := by
      rw [List.findSome?_eq_some_iff]
      exact ⟨pre, q, post, h1,
        (bank_eq_some_iff m q _).2 ⟨head, tail, h3, Or.inr ⟨h4, h5, rfl⟩⟩,
        fun x hx => (bank_eq_none_iff m x).2 (h2 x hx)⟩
    rw [scan_eq_findSome, hfind]
    rfl

/-- What comes before the scan appends something to a bank queue only if the
bank was active with an empty queue, and then one command. -/
theorem prelude_added (m : MemoryController) (r b : Nat) (added : List NVMainRequest)
    (h : (CycleCommandQueues.prelude m).2.bankQueues r b = m.bankQueues r b ++ added) :
    added = [] ∨ (m.bankQueues r b = [] ∧ m.activateQueued r b = true ∧ added.length = 1) := by
  obtain ⟨ma, m0, ⟨hs, _⟩, hc, _, hcase⟩ := prelude_spec m
  have hbq : ma.bankQueues = m.bankQueues := hs.2.2.2.1
  have haq : ma.activateQueued = m.activateQueued := hs.2.2.2.2.1
  have h1 : (CycleCommandQueues.prelude m).2.bankQueues = m0.bankQueues := by
    rcases hcase with ⟨_, he⟩ | ⟨_, i, j, he⟩
    · rw [he]
    · rw [he, (issue_spec i j m0).1.2.2.2.1]
  rw [h1] at h
  rcases hc.2.2 r b with hu | hcl
  · left
    rw [hu.1, hbq] at h
    exact (List.self_eq_append_right.1 h)
  · right
    obtain ⟨hq, ha, ⟨cmd, hcmd, _⟩, _⟩ := hcl
    rw [hbq] at hq
    rw [haq] at ha
    rw [hcmd, hq, List.nil_append] at h
    exact ⟨hq, ha, by rw [← h]; rfl⟩

/-- C17. Round-robin issue of `CycleCommandQueues`. When `HandleRefresh`
issues no REFRESH and the call returns normally, then, with the bank queues
and the downstream as `HandleLowPower` and `HandleRefresh` leave them before
the scan (the round-robin indices are those at entry; each queue is the one
at entry, or, for an active bank whose queue was empty, one PRECHARGE_ALL that
the blocked path of `HandleRefresh` has put there, and is the one at entry if
refresh is disabled; no `IssueCommand` call has been made): either the one command issued is the head
of the first bank queue in the scan order that is non-empty with an issuable
head, that queue is afterwards its former tail, every other queue is
unchanged, and `curRank`, `curBank` are what `MoveRankBank` makes of them; or
no queue in the scan order has an issuable head, and the scan changes
nothing. -/
theorem CycleCommandQueues_round_robin (m : MemoryController)
    (hno : (CycleCommandQueues.prelude m).1 = false) (m2 : MemoryController)
    (hret : CycleCommandQueues m = CycleOutcome.returned m2) :
    scanOrder (CycleCommandQueues.prelude m).2 = scanOrder m
    ∧ (∃ calls, (CycleCommandQueues.prelude m).2.childLog = m.childLog ++ calls
        ∧ calls.countP ChildCall.isIssue = 0)
    ∧ (∀ r b, ∃ added,
        (CycleCommandQueues.prelude m).2.bankQueues r b = m.bankQueues r b ++ added
        ∧ (∀ c ∈ added, c.type = OpType.PRECHARGE_ALL ∧ c.issueCycle = m.currentCycle)
        ∧ (m.p.UseRefresh = false → added = [])
        ∧ (added = [] ∨ (m.bankQueues r b = [] ∧ m.activateQueued r b = true
            ∧ added.length = 1)))
    ∧ ((∃ pre q post head tail, scanOrder m = pre ++ q :: post
          ∧ (∀ x ∈ pre, ¬HeadIssuable (CycleCommandQueues.prelude m).2 x)
          ∧ (CycleCommandQueues.prelude m).2.bankQueues q.1 q.2 = head :: tail
          ∧ (CycleCommandQueues.prelude m).2.childIsIssuable head = true
          ∧ m2.childLog
              = (CycleCommandQueues.prelude m).2.childLog ++ [ChildCall.IssueCommand head]
          ∧ m2.bankQueues q.1 q.2 = tail
          ∧ (∀ r b, ¬(r = q.1 ∧ b = q.2) →
              m2.bankQueues r b = (CycleCommandQueues.prelude m).2.bankQueues r b)
          ∧ m2.curRank = (MoveRankBank m).curRank
          ∧ m2.curBank = (MoveRankBank m).curBank)
      ∨ ((∀ x ∈ scanOrder m, ¬HeadIssuable (CycleCommandQueues.prelude m).2 x)
          ∧ m2 = (CycleCommandQueues.prelude m).2)) := by
  obtain ⟨hp, hcr, hcb, _, ⟨calls, hlog, hcount⟩, hq⟩ := prelude_frame m
  have hso := scanOrder_congr hp hcr hcb
  rw [hno] at hcount
  refine ⟨hso, ⟨calls, hlog, by simpa using hcount⟩, fun r b => ?_, ?_⟩
  · obtain ⟨added, h1, h2, h3⟩ := hq r b
    exact ⟨added, h1, h2, h3, prelude_added m r b added h1⟩
  rcases CycleCommandQueues_cases m with ⟨hb, _⟩ | ⟨_, he⟩
  · rw [hno] at hb
    exact Bool.noConfusion hb
  · rw [he] at hret
    rcases scan_spec (CycleCommandQueues.prelude m).2 with
      ⟨pre, q, post, head, tail, h1, h2, h3, ⟨h4, hs⟩ | ⟨_, _, hs⟩⟩ | ⟨h1, hs⟩
    · left
      rw [hs] at hret
      have hm2 := CycleOutcome.returned.inj hret
      obtain ⟨r, b, hmv, hidx⟩ := MoveRankBank_frame
        (((CycleCommandQueues.prelude m).2.callChild (ChildCall.IssueCommand head)).setBankQueue
          q.1 q.2 tail)
      obtain ⟨hr1, hb1⟩ := hidx m (by simp [hp]) (by simp [hcr]) (by simp [hcb])
      rw [hmv] at hm2
      subst hm2
      rw [hso] at h1
      refine ⟨pre, q, post, head, tail, h1, fun x hx => (h2 x hx).1, h3, h4, ?_, ?_,
        fun r1 b1 hne => ?_, hr1.symm, hb1.symm⟩
      · show (((CycleCommandQueues.prelude m).2.callChild
          (ChildCall.IssueCommand head)).setBankQueue q.1 q.2 tail).childLog = _
        simp
      · show (((CycleCommandQueues.prelude m).2.callChild
          (ChildCall.IssueCommand head)).setBankQueue q.1 q.2 tail).bankQueues q.1 q.2 = _
        simp [set2_same]
      · show (((CycleCommandQueues.prelude m).2.callChild
          (ChildCall.IssueCommand head)).setBankQueue q.1 q.2 tail).bankQueues r1 b1 = _
        simp [set2_other _ _ _ _ _ _ hne]
    · rw [hs] at hret
      exact CycleOutcome.noConfusion hret
    · right
      rw [hs] at hret
      rw [hso] at h1
      exact ⟨fun x hx => (h1 x hx).1, (CycleOutcome.returned.inj hret).symm⟩

/-- C17, counterexample: with refresh enabled, every group in need of a
refresh, row 5 open in bank (0, 0), every command queue empty and nothing
issuable, `CycleCommandQueues` issues no REFRESH and no other command and
returns normally, and yet the queue of bank (0, 0), empty before, holds a
PRECHARGE_ALL afterwards. -/
theorem CycleCommandQueues_blocked_refresh_fills_queue :
    (CycleCommandQueues.prelude refreshBlockedController).1 = false
    ∧ (CycleCommandQueues refreshBlockedController).isFatal = false
    ∧ (∀ x ∈ scanOrder refreshBlockedController,
        refreshBlockedController.bankQueues x.1 x.2 = [])
    ∧ (CycleCommandQueues refreshBlockedController).state.childLog
        = refreshBlockedController.childLog
    ∧ refreshBlockedController.bankQueues 0 0 = []
    ∧ ((CycleCommandQueues refreshBlockedController).state.bankQueues 0 0).map (fun c => c.type)
        = [OpType.PRECHARGE_ALL] := by
  decide

theorem CycleCommandQueues_round_robin_witness :
    ∃ m2, CycleCommandQueues (stalledController [0]) = CycleOutcome.returned m2
      ∧ m2.childLog = [ChildCall.IssueCommand (mkReq OpType.READ 3 0 0 0 0 1990 0)]
      ∧ m2.bankQueues 0 0 = []
      ∧ m2.bankQueues 0 1 = [mkReq OpType.READ 3 0 1 0 0 0 0]
      ∧ scanOrder (CycleCommandQueues.prelude (stalledController [0])).2
          = scanOrder (stalledController [0]) :=
  ⟨_, rfl, rfl, rfl, rfl,
    (CycleCommandQueues_round_robin (stalledController [0]) rfl _ rfl).1⟩

/-- C18. Deadlock watchdog. `CycleCommandQueues` ends the run with the fatal
error exactly when `HandleRefresh` issues no REFRESH and, with the queues and
the downstream as they are when the scan starts, the first bank in the scan
order whose queue has a head that is issuable or has expired (not issuable
and waiting more than `DeadlockTimer` cycles since its `issueCycle`) is one
whose head has expired: an expired head ends the run if the scan reaches it.
And the run is never ended when, at entry, the head of every non-empty queue
of a bank of the device has waited at most `DeadlockTimer` cycles. -/
theorem CycleCommandQueues_watchdog (m : MemoryController) :
    ((CycleCommandQueues m).isFatal = true ↔
      ((CycleCommandQueues.prelude m).1 = false
        ∧ ∃ pre q post, scanOrder m = pre ++ q :: post
            ∧ (∀ x ∈ pre, ¬HeadIssuable (CycleCommandQueues.prelude m).2 x
                ∧ ¬HeadExpired (CycleCommandQueues.prelude m).2 x)
            ∧ HeadExpired (CycleCommandQueues.prelude m).2 q))
    ∧ ((∀ r b, r < m.p.RANKS → b < m.p.BANKS → ∀ head tail, m.bankQueues r b = head :: tail →
          ncycleSub m.currentCycle head.issueCycle ≤ m.p.DeadlockTimer) →
        (CycleCommandQueues m).isFatal = false)
    ∧ (m.p.UseLowPower = false → m.p.UseRefresh = false →
        CycleCommandQueues.prelude m = (false, m)) := by
  obtain ⟨hp, hcr, hcb, hcy, _, hq⟩ := prelude_frame m
  have hso := scanOrder_congr hp hcr hcb
  have hiff : (CycleCommandQueues m).isFatal = true ↔
      ((CycleCommandQueues.prelude m).1 = false
        ∧ ∃ pre q post, scanOrder m = pre ++ q :: post
            ∧ (∀ x ∈ pre, ¬HeadIssuable (CycleCommandQueues.prelude m).2 x
                ∧ ¬HeadExpired (CycleCommandQueues.prelude m).2 x)
            ∧ HeadExpired (CycleCommandQueues.prelude m).2 q) := by
    rw [← hso, ← scan_fatal_iff]
    rcases CycleCommandQueues_cases m with ⟨hb, he⟩ | ⟨hb, he⟩
    · rw [he, hb]
      simp [CycleOutcome.isFatal]
    · rw [he, hb]
      simp
  refine ⟨hiff, fun hall => ?_, fun hl hu => ?_⟩
  · rcases hfat : (CycleCommandQueues m).isFatal with _ | _
    · rfl
    · exfalso
      obtain ⟨_, pre, q, post, hs, _, head, tail, h1, _, h3⟩ := hiff.1 hfat
      have hmem : q ∈ scanOrder m := by rw [hs]; simp
      obtain ⟨hr, hb⟩ := mem_scanOrder m q hmem
      obtain ⟨added, ha, hadd, _⟩ := hq q.1 q.2
      rw [hp, hcy] at h3
      rcases hm : m.bankQueues q.1 q.2 with _ | ⟨head0, tail0⟩
      · rw [hm, List.nil_append] at ha
        have hmem2 : head ∈ added := by rw [← ha, h1]; simp
        rw [(hadd head hmem2).2, ncycleSub_self] at h3
        exact Nat.not_lt_zero _ h3
      · rw [hm, h1, List.cons_append] at ha
        have hh : head = head0 := (List.cons.inj ha).1
        have := hall q.1 q.2 hr hb head0 tail0 hm
        rw [hh] at h3
        omega
  · unfold CycleCommandQueues.prelude
    simp [hl, hu]

/-- C18, counterexample: the head of the queue of bank (0, 1) is not issuable
and has waited 2000 cycles, with a `DeadlockTimer` of 1000; the head of the
queue of bank (0, 0) is issuable; `CycleCommandQueues` issues that one and
returns normally. -/
theorem CycleCommandQueues_expired_head_not_reached :
    HeadExpired (stalledController [0]) (0, 1)
    ∧ (CycleCommandQueues (stalledController [0])).isFatal = false
    ∧ (CycleCommandQueues (stalledController [0])).state.childLog
        = [ChildCall.IssueCommand (mkReq OpType.READ 3 0 0 0 0 1990 0)] :=
  ⟨⟨_, _, rfl, rfl, by decide⟩, rfl, rfl⟩

theorem CycleCommandQueues_watchdog_witness :
    (CycleCommandQueues (stalledController [])).isFatal = true
    ∧ (∃ pre q post, scanOrder (stalledController []) = pre ++ q :: post
        ∧ HeadExpired (CycleCommandQueues.prelude (stalledController [])).2 q)
    ∧ (CycleCommandQueues refreshBlockedController).isFatal = false := by
  refine ⟨rfl, ?_, ?_⟩
  · obtain ⟨_, pre, q, post, h1, _, h3⟩ :=
      (CycleCommandQueues_watchdog (stalledController [])).1.1 rfl
    exact ⟨pre, q, post, h1, h3⟩
  · exact (CycleCommandQueues_watchdog refreshBlockedController).2.1
      (fun r b _ _ head tail h => List.noConfusion h)

/-! ## MakeImplicitPrechargeRequest -/

/-- C29. `MakeImplicitPrechargeRequest` returns the request it was given with
type READ turned into READ_PRECHARGE, type WRITE turned into WRITE_PRECHARGE
and every other type left as it is, `issueCycle` set to the current cycle,
and address, owner, flags and `arrivalCycle` unchanged; applying it twice at
the same cycle gives what applying it once gives. -/
theorem MakeImplicitPrechargeRequest_spec (m : MemoryController) (req : NVMainRequest) :
    (req.type = OpType.READ →
      (MakeImplicitPrechargeRequest m req).type = OpType.READ_PRECHARGE)
    ∧ (req.type = OpType.WRITE →
      (MakeImplicitPrechargeRequest m req).type = OpType.WRITE_PRECHARGE)
    ∧ (req.type ≠ OpType.READ → req.type ≠ OpType.WRITE →
      (MakeImplicitPrechargeRequest m req).type = req.type)
    ∧ (MakeImplicitPrechargeRequest m req).issueCycle = m.currentCycle
    ∧ (MakeImplicitPrechargeRequest m req).address = req.address
    ∧ (MakeImplicitPrechargeRequest m req).owner = req.owner
    ∧ (MakeImplicitPrechargeRequest m req).flags = req.flags
    ∧ (MakeImplicitPrechargeRequest m req).arrivalCycle = req.arrivalCycle
    ∧ MakeImplicitPrechargeRequest m (MakeImplicitPrechargeRequest m req)
        = MakeImplicitPrechargeRequest m req := by
  refine ⟨fun h => ?_, fun h => ?_, fun h1 h2 => ?_, rfl, rfl, rfl, rfl, rfl, ?_⟩
  · simp [MakeImplicitPrechargeRequest, h]
  · simp [MakeImplicitPrechargeRequest, h]
  · simp [MakeImplicitPrechargeRequest, h1, h2]
  · cases req with
    | mk t a ac ic o f =>
      cases t <;> simp [MakeImplicitPrechargeRequest]

/-! ## Low power -/

theorem RankQueueEmpty_iff (m : MemoryController) (rankId : Nat) :
    RankQueueEmpty m rankId = true ↔ ∀ b, b < m.p.BANKS → m.bankQueues rankId b = [] := by
  simp [RankQueueEmpty, List.all_eq_true]

theorem PowerDown_eq (m : MemoryController) (rankId : Nat) :
    PowerDown m rankId
      = (if (m.CanPowerDown (PowerDown.pdOp m rankId) rankId && RankQueueEmpty m rankId) = true
          then (m.callChild (ChildCall.PowerDown (PowerDown.pdOp m rankId) rankId)).setRankPowerDown
            rankId true
          else m) := by
  unfold PowerDown PowerDown.pdOp
  by_cases h : m.IsRankIdle rankId = false <;> simp [h]

/-- C26. The operation `PowerDown` chooses: POWERDOWN_PDA if the downstream
reports the rank as not idle, and otherwise POWERDOWN_PDPS when
`PowerDownMode` is SLOWEXIT and POWERDOWN_PDPF when it is FASTEXIT. With `op`
the operation so chosen, `PowerDown` calls the downstream's `PowerDown` with
`op` and sets `rankPowerDown[rank]` if the downstream's
`CanPowerDown( op, rank )` holds and every bank queue of the rank is empty,
and otherwise changes nothing. -/
theorem PowerDown_choice (m : MemoryController) (rankId : Nat) (op : OpType)
    (hop : (m.IsRankIdle rankId = false ∧ op = OpType.POWERDOWN_PDA)
      ∨ (m.IsRankIdle rankId = true ∧ m.p.PowerDownMode = "SLOWEXIT"
          ∧ op = OpType.POWERDOWN_PDPS)
      ∨ (m.IsRankIdle rankId = true ∧ m.p.PowerDownMode = "FASTEXIT"
          ∧ op = OpType.POWERDOWN_PDPF)) :
    ((m.CanPowerDown op rankId = true ∧ ∀ b, b < m.p.BANKS → m.bankQueues rankId b = []) →
      PowerDown m rankId
        = (m.callChild (ChildCall.PowerDown op rankId)).setRankPowerDown rankId true
      ∧ (PowerDown m rankId).childLog = m.childLog ++ [ChildCall.PowerDown op rankId]
      ∧ (PowerDown m rankId).rankPowerDown rankId = true)
    ∧ (¬(m.CanPowerDown op rankId = true
          ∧ ∀ b, b < m.p.BANKS → m.bankQueues rankId b = []) →
      PowerDown m rankId = m) := by
  have hpd : PowerDown.pdOp m rankId = op := by
    unfold PowerDown.pdOp
    rcases hop with ⟨h1, h2⟩ | ⟨h1, h2, h3⟩ | ⟨h1, h2, h3⟩
    · simp [h1, h2]
    · simp [h1, h2, h3]
    · have hne : ¬("FASTEXIT" = "SLOWEXIT") := by decide
      rw [h3, h1, h2, if_neg (by simp), if_neg hne, if_pos rfl]
  rw [PowerDown_eq, hpd]
  constructor
  · rintro ⟨h1, h2⟩
    have : (m.CanPowerDown op rankId && RankQueueEmpty m rankId) = true := by
      rw [h1, (RankQueueEmpty_iff m rankId).2 h2]
      rfl
    rw [if_pos this]
    exact ⟨rfl, by simp, by simp⟩
  · intro hn
    have : ¬(m.CanPowerDown op rankId && RankQueueEmpty m rankId) = true := by
      rw [Bool.and_eq_true, RankQueueEmpty_iff]
      exact hn
    rw [if_neg this]

theorem PowerDown_choice_witness :
    (PowerDown (closedController 1) 0).childLog
        = [ChildCall.PowerDown OpType.POWERDOWN_PDPF 0]
    ∧ (PowerDown (closedController 1) 0).rankPowerDown 0 = true :=
  ((PowerDown_choice (closedController 1) 0 OpType.POWERDOWN_PDPF
    (Or.inr (Or.inr ⟨rfl, by decide, rfl⟩))).1 ⟨rfl, fun _ _ => rfl⟩).2

/-- C27, at a failing input: with `PowerDownMode` DEEP, a rank that the
downstream reports as not idle and that it allows to power down, and empty
bank queues, `PowerDown` calls the downstream's `PowerDown` with
POWERDOWN_PDA and sets `rankPowerDown[0]`. -/
theorem PowerDown_unknown_mode_runs :
    unknownModeController.p.PowerDownMode ≠ "SLOWEXIT"
    ∧ unknownModeController.p.PowerDownMode ≠ "FASTEXIT"
    ∧ unknownModeController.rankPowerDown 0 = false
    ∧ (PowerDown unknownModeController 0).childLog
        = unknownModeController.childLog ++ [ChildCall.PowerDown OpType.POWERDOWN_PDA 0]
    ∧ (PowerDown unknownModeController 0).rankPowerDown 0 = true := by
  decide

theorem PowerUp_eq (m : MemoryController) (rankId : Nat) :
    PowerUp m rankId
      = (if ((RankQueueEmpty m rankId = false) && m.CanPowerUp rankId) = true
          then (m.callChild (ChildCall.PowerUp rankId)).setRankPowerDown rankId false
          else m) := rfl

/-- The pass of `HandleLowPower` for rank `k` leaves the controller as it is,
or makes one call other than `IssueCommand` on the downstream and assigns
`rankPowerDown[k]`. -/
theorem HandleLowPower_rank_cases (k : Nat) (m : MemoryController) :
    HandleLowPower.rank k m = m
    ∨ ∃ c v, ChildCall.isIssue c = false
        ∧ HandleLowPower.rank k m = (m.callChild c).setRankPowerDown k v := by
  unfold HandleLowPower.rank
  simp only []
  split
  · split
    · exact Or.inr ⟨_, _, by rfl, rfl⟩
    · exact Or.inl rfl
  · split
    · rw [PowerUp_eq]
      split
      · exact Or.inr ⟨_, _, by rfl, rfl⟩
      · exact Or.inl rfl
    · rw [PowerDown_eq]
      split
      · exact Or.inr ⟨_, _, by rfl, rfl⟩
      · exact Or.inl rfl

theorem HandleLowPower_rank_other (k r : Nat) (hne : r ≠ k) (m : MemoryController) :
    (HandleLowPower.rank k m).rankPowerDown r = m.rankPowerDown r := by
  rcases HandleLowPower_rank_cases k m with h | ⟨c, v, _, h⟩
  · rw [h]
  · rw [h]
    simp [hne]

theorem HandleLowPower_rank_powerOnly (k : Nat) (m : MemoryController) :
    PowerOnly m (HandleLowPower.rank k m) := by
  rcases HandleLowPower_rank_cases k m with h | ⟨c, v, hc, h⟩
  · rw [h]
    exact powerOnly_refl m
  · rw [h]
    exact powerOnly_call m c hc k v

/-- When the loop of `HandleLowPower` has made `n` passes, the ranks from `n`
on have their `rankPowerDown` as at entry, and each rank below `n` has the
one that its own pass gave it. -/
theorem HandleLowPower_loop (m : MemoryController) (n : Nat) :
    PowerOnly m (forLoop n HandleLowPower.rank m)
    ∧ (∀ r, n ≤ r → (forLoop n HandleLowPower.rank m).rankPowerDown r = m.rankPowerDown r)
    ∧ (∀ r, r < n → (forLoop n HandleLowPower.rank m).rankPowerDown r
        = (HandleLowPower.rank r (forLoop r HandleLowPower.rank m)).rankPowerDown r) := by
  induction n with
  | zero =>
    rw [forLoop_zero]
    exact ⟨powerOnly_refl m, fun _ _ => rfl, fun r hr => absurd hr (by omega)⟩
  | succ k ih =>
    obtain ⟨h1, h2, h3⟩ := ih
    rw [forLoop_succ]
    refine ⟨powerOnly_trans h1 (HandleLowPower_rank_powerOnly k _), fun r hr => ?_,
      fun r hr => ?_⟩
    · rw [HandleLowPower_rank_other k r (by omega)]
      exact h2 r (by omega)
    · by_cases hk : r = k
      · subst hk
        rfl
      · rw [HandleLowPower_rank_other k r hk]
        exact h3 r (by omega)

/-- The decision of the pass of `HandleLowPower` for rank `k`. -/
theorem HandleLowPower_rank_spec (k : Nat) (m : MemoryController) :
    ((∃ g, g < m.m_refreshBankNum ∧ NeedRefresh m (g * m.p.BanksPerRefresh) k = true) →
      ((m.rankPowerDown k = true ∧ m.CanPowerUp k = true) →
        HandleLowPower.rank k m
          = (m.callChild (ChildCall.PowerUp k)).setRankPowerDown k false)
      ∧ (¬(m.rankPowerDown k = true ∧ m.CanPowerUp k = true) → HandleLowPower.rank k m = m))
    ∧ (¬(∃ g, g < m.m_refreshBankNum ∧ NeedRefresh m (g * m.p.BanksPerRefresh) k = true) →
      m.rankPowerDown k = true →
      (((∃ b, b < m.p.BANKS ∧ m.bankQueues k b ≠ []) ∧ m.CanPowerUp k = true) →
        HandleLowPower.rank k m
          = (m.callChild (ChildCall.PowerUp k)).setRankPowerDown k false)
      ∧ (¬((∃ b, b < m.p.BANKS ∧ m.bankQueues k b ≠ []) ∧ m.CanPowerUp k = true) →
        HandleLowPower.rank k m = m))
    ∧ (¬(∃ g, g < m.m_refreshBankNum ∧ NeedRefresh m (g * m.p.BanksPerRefresh) k = true) →
      m.rankPowerDown k = false →
      ((m.CanPowerDown (PowerDown.pdOp m k) k = true
          ∧ ∀ b, b < m.p.BANKS → m.bankQueues k b = []) →
        HandleLowPower.rank k m
          = (m.callChild (ChildCall.PowerDown (PowerDown.pdOp m k) k)).setRankPowerDown k true)
      ∧ (¬(m.CanPowerDown (PowerDown.pdOp m k) k = true
          ∧ ∀ b, b < m.p.BANKS → m.bankQueues k b = []) →
        HandleLowPower.rank k m = m)) := by
  have hneed : ((List.range m.m_refreshBankNum).any fun bankId =>
        NeedRefresh m (bankId * m.p.BanksPerRefresh) k) = true ↔
      ∃ g, g < m.m_refreshBankNum ∧ NeedRefresh m (g * m.p.BanksPerRefresh) k = true := by
    simp [List.any_eq_true]
  have hq : RankQueueEmpty m k = false ↔ ∃ b, b < m.p.BANKS ∧ m.bankQueues k b ≠ [] := by
    rw [← Bool.not_eq_true, RankQueueEmpty_iff]
    push_neg
    rfl
  unfold HandleLowPower.rank
  simp only []
  refine ⟨fun hn => ?_, fun hn hp => ?_, fun hn hp => ?_⟩
  · rw [if_pos (hneed.2 hn)]
    refine ⟨fun ⟨h1, h2⟩ => ?_, fun h => ?_⟩
    · rw [if_pos (by rw [h1, h2]; rfl)]
    · rw [if_neg (by rw [Bool.and_eq_true]; exact h)]
  · rw [if_neg (fun h => hn (hneed.1 h)), if_pos hp, PowerUp_eq]
    refine ⟨fun ⟨h1, h2⟩ => ?_, fun h => ?_⟩
    · rw [if_pos (by rw [Bool.and_eq_true, decide_eq_true_eq]; exact ⟨hq.2 h1, h2⟩)]
    · rw [if_neg (by
        rw [Bool.and_eq_true, decide_eq_true_eq]
        exact fun hc => h ⟨hq.1 hc.1, hc.2⟩)]
  · rw [if_neg (fun h => hn (hneed.1 h)), if_neg (by rw [hp]; simp), PowerDown_eq]
    refine ⟨fun ⟨h1, h2⟩ => ?_, fun h => ?_⟩
    · rw [if_pos (by rw [h1, (RankQueueEmpty_iff m k).2 h2]; rfl)]
    · rw [if_neg (by rw [Bool.and_eq_true, RankQueueEmpty_iff]; exact h)]

/-- C28. The decision of `HandleLowPower` for each rank `r`. When the loop
reaches rank `r` the controller differs from the one at entry at most in the
`rankPowerDown` of other ranks and in the downstream, on which only power
calls for the ranks before have been made. Then: if some bank group of the
rank needs a refresh, the rank is powered up (downstream `PowerUp` called,
`rankPowerDown[r]` cleared) exactly when it was powered down and the
downstream's `CanPowerUp( r )` holds, and otherwise nothing is done; if no
group needs a refresh and the rank was powered down, it is powered up exactly
when some bank queue of the rank is non-empty and `CanPowerUp( r )` holds; if
no group needs a refresh and the rank was powered up, it is powered down
(downstream `PowerDown` called with the operation `PowerDown` chooses,
`rankPowerDown[r]` set) exactly when `CanPowerDown( op, r )` holds and all
bank queues of the rank are empty. In every other case `rankPowerDown[r]` is
unchanged; and what the pass gives `rankPowerDown[r]` is its value after the
call. -/
theorem HandleLowPower_decision (m : MemoryController) (r : Nat) (hr : r < m.p.RANKS) :
    PowerOnly m (forLoop r HandleLowPower.rank m)
    ∧ (forLoop r HandleLowPower.rank m).rankPowerDown r = m.rankPowerDown r
    ∧ (HandleLowPower m).rankPowerDown r
        = (HandleLowPower.rank r (forLoop r HandleLowPower.rank m)).rankPowerDown r
    ∧ ((∃ g, g < m.m_refreshBankNum ∧ NeedRefresh m (g * m.p.BanksPerRefresh) r = true) →
        ((m.rankPowerDown r = true ∧ (forLoop r HandleLowPower.rank m).CanPowerUp r = true) →
          HandleLowPower.rank r (forLoop r HandleLowPower.rank m)
            = ((forLoop r HandleLowPower.rank m).callChild
                (ChildCall.PowerUp r)).setRankPowerDown r false
          ∧ (HandleLowPower m).rankPowerDown r = false)
        ∧ (¬(m.rankPowerDown r = true
              ∧ (forLoop r HandleLowPower.rank m).CanPowerUp r = true) →
          HandleLowPower.rank r (forLoop r HandleLowPower.rank m)
            = forLoop r HandleLowPower.rank m
          ∧ (HandleLowPower m).rankPowerDown r = m.rankPowerDown r))
    ∧ (¬(∃ g, g < m.m_refreshBankNum ∧ NeedRefresh m (g * m.p.BanksPerRefresh) r = true) →
        m.rankPowerDown r = true →
        (((∃ b, b < m.p.BANKS ∧ m.bankQueues r b ≠ [])
            ∧ (forLoop r HandleLowPower.rank m).CanPowerUp r = true) →
          HandleLowPower.rank r (forLoop r HandleLowPower.rank m)
            = ((forLoop r HandleLowPower.rank m).callChild
                (ChildCall.PowerUp r)).setRankPowerDown r false
          ∧ (HandleLowPower m).rankPowerDown r = false)
        ∧ (¬((∃ b, b < m.p.BANKS ∧ m.bankQueues r b ≠ [])
              ∧ (forLoop r HandleLowPower.rank m).CanPowerUp r = true) →
          HandleLowPower.rank r (forLoop r HandleLowPower.rank m)
            = forLoop r HandleLowPower.rank m
          ∧ (HandleLowPower m).rankPowerDown r = true))
    ∧ (¬(∃ g, g < m.m_refreshBankNum ∧ NeedRefresh m (g * m.p.BanksPerRefresh) r = true) →
        m.rankPowerDown r = false →
        (((forLoop r HandleLowPower.rank m).CanPowerDown
              (PowerDown.pdOp (forLoop r HandleLowPower.rank m) r) r = true
            ∧ ∀ b, b < m.p.BANKS → m.bankQueues r b = []) →
          HandleLowPower.rank r (forLoop r HandleLowPower.rank m)
            = ((forLoop r HandleLowPower.rank m).callChild
                (ChildCall.PowerDown (PowerDown.pdOp (forLoop r HandleLowPower.rank m) r)
                  r)).setRankPowerDown r true
          ∧ (HandleLowPower m).rankPowerDown r = true)
        ∧ (¬((forLoop r HandleLowPower.rank m).CanPowerDown
                (PowerDown.pdOp (forLoop r HandleLowPower.rank m) r) r = true
              ∧ ∀ b, b < m.p.BANKS → m.bankQueues r b = []) →
          HandleLowPower.rank r (forLoop r HandleLowPower.rank m)
            = forLoop r HandleLowPower.rank m
          ∧ (HandleLowPower m).rankPowerDown r = false)) := by
  obtain ⟨hpo, hsame, _⟩ := HandleLowPower_loop m r
  have hrpd := hsame r (Nat.le_refl r)
  have hfin : (HandleLowPower m).rankPowerDown r
      = (HandleLowPower.rank r (forLoop r HandleLowPower.rank m)).rankPowerDown r :=
    (HandleLowPower_loop m m.p.RANKS).2.2 r hr
  generalize forLoop r HandleLowPower.rank m = ms at hpo hrpd hfin ⊢
  have hs := hpo.1
  simp only [SameButPower] at hs
  have hp : ms.p = m.p := hs.1
  have hnum : ms.m_refreshBankNum = m.m_refreshBankNum := by simp [hs]
  have hbq : ms.bankQueues = m.bankQueues := by simp [hs]
  have hdrc : ms.delayedRefreshCounter = m.delayedRefreshCounter := by simp [hs]
  have hN : ∀ b, NeedRefresh ms b r = NeedRefresh m b r := by
    intro b
    unfold NeedRefresh
    rw [hp, hdrc]
  obtain ⟨d1, d2, d3⟩ := HandleLowPower_rank_spec r ms
  simp only [hp, hnum, hbq, hN, hrpd] at d1 d2 d3
  refine ⟨hpo, hrpd, hfin, fun hn => ?_, fun hn hpd => ?_, fun hn hpd => ?_⟩
  · refine ⟨fun h => ?_, fun h => ?_⟩
    · have := (d1 hn).1 h
      exact ⟨this, by rw [hfin, this]; simp⟩
    · have := (d1 hn).2 h
      exact ⟨this, by rw [hfin, this, hrpd]⟩
  · refine ⟨fun h => ?_, fun h => ?_⟩
    · have := (d2 hn hpd).1 h
      exact ⟨this, by rw [hfin, this]; simp⟩
    · have := (d2 hn hpd).2 h
      exact ⟨this, by rw [hfin, this, hrpd, hpd]⟩
  · refine ⟨fun h => ?_, fun h => ?_⟩
    · have := (d3 hn hpd).1 h
      exact ⟨this, by rw [hfin, this]; simp⟩
    · have := (d3 hn hpd).2 h
      exact ⟨this, by rw [hfin, this, hrpd, hpd]⟩

theorem HandleLowPower_decision_witness :
    (closedController 1).rankPowerDown 1 = false
    ∧ (HandleLowPower (closedController 1)).rankPowerDown 1
        = (HandleLowPower.rank 1
            (forLoop 1 HandleLowPower.rank (closedController 1))).rankPowerDown 1
    ∧ (HandleLowPower (closedController 1)).rankPowerDown 1 = true :=
  ⟨rfl, (HandleLowPower_decision (closedController 1) 1 (by decide)).2.2.1, by decide⟩

/-! ## HandleRefresh: the blocked path, bank by bank -/

/-- The body of the loop of the blocked path for bank `(i, b)`: the bank is
closed for a refresh if it is active with an empty queue and is untouched
otherwise, and every other bank is untouched. -/
theorem prechargeBank_exact (i b : Nat) (m : MemoryController) :
    (∀ r k, ¬(r = i ∧ k = b) → BankUntouched m (HandleRefresh.prechargeBank i b m) r k)
    ∧ ((m.activateQueued i b = true ∧ m.bankQueues i b = []) →
        BankClosedForRefresh m (HandleRefresh.prechargeBank i b m) i b
        ∧ (HandleRefresh.prechargeBank i b m).bankQueues i b
            = [MakePrechargeAllRequest m 0 0 b i 0])
    ∧ (¬(m.activateQueued i b = true ∧ m.bankQueues i b = []) →
        HandleRefresh.prechargeBank i b m = m) := by
  by_cases hc : (m.activateQueued i b && (m.bankQueues i b).isEmpty) = true
  · have hq : m.activateQueued i b = true := by
      simp only [Bool.and_eq_true] at hc
      exact hc.1
    have he : m.bankQueues i b = [] := by
      simp only [Bool.and_eq_true] at hc
      exact (isEmpty_eq_true_iff _).mp hc.2
    have hcl := prechargeBank_closed i b m
    unfold HandleRefresh.prechargeBank at hcl ⊢
    rw [if_pos hc] at hcl ⊢
    change RefreshClosed m
      ((forLoop m.subArrayNum _
        (m.pushBack i b (MakePrechargeAllRequest m 0 0 b i 0))).setActivateQueued i b false)
      at hcl
    show (∀ r k, ¬(r = i ∧ k = b) → BankUntouched m
        ((forLoop m.subArrayNum _
          (m.pushBack i b (MakePrechargeAllRequest m 0 0 b i 0))).setActivateQueued i b false)
        r k) ∧ _
    obtain ⟨_, h2, h3, _, h5⟩ := clearSubArrays_spec i b m.subArrayNum
      (m.pushBack i b (MakePrechargeAllRequest m 0 0 b i 0))
    have hbq : ((forLoop m.subArrayNum
          (fun sa m =>
            ((m.setActiveSubArray i b sa false).setEffectiveRow i b sa
              m.p.ROWS).setEffectiveMuxedRow i b sa m.p.ROWS)
          (m.pushBack i b (MakePrechargeAllRequest m 0 0 b i 0))).setActivateQueued i b
            false).bankQueues i b = [MakePrechargeAllRequest m 0 0 b i 0] := by
      simp [h2, he]
    refine ⟨fun r k hrk => ?_, fun _ => ⟨?_, hbq⟩, fun hn => absurd ⟨hq, he⟩ hn⟩
    · have hrk3 : ∀ s, ¬(r = i ∧ k = b ∧ s < m.subArrayNum) := fun s h => hrk ⟨h.1, h.2.1⟩
      refine ⟨?_, ?_, fun s => ?_⟩
      · simp [h2, set2, hrk]
      · simp [h3, set2, hrk]
      · obtain ⟨g1, g2, g3⟩ := h5 r k s
        simp only [setActivateQueued_fields, g1, g2, g3, pushBack_fields]
        simp [hrk3 s]
    · rcases hcl.2.2 i b with hu | hcb
      · exfalso
        have := hu.1
        rw [hbq, he] at this
        exact List.noConfusion this
      · exact hcb
  · have hn : ¬(m.activateQueued i b = true ∧ m.bankQueues i b = []) := by
      intro h
      apply hc
      rw [h.1, h.2]
      rfl
    have hm : HandleRefresh.prechargeBank i b m = m := by
      simp only [HandleRefresh.prechargeBank, hc]
      rfl
    rw [hm]
    exact ⟨fun r k _ => ⟨rfl, rfl, fun _ => ⟨rfl, rfl, rfl⟩⟩, fun h => absurd h hn, fun _ => rfl⟩

theorem bankUntouched_trans {a b c : MemoryController} {r k : Nat}
    (h1 : BankUntouched a b r k) (h2 : BankUntouched b c r k) : BankUntouched a c r k :=
  ⟨h2.1.trans h1.1, h2.2.1.trans h1.2.1, fun s =>
    ⟨(h2.2.2 s).1.trans (h1.2.2 s).1, (h2.2.2 s).2.1.trans (h1.2.2 s).2.1,
      (h2.2.2 s).2.2.trans (h1.2.2 s).2.2⟩⟩

/-- The blocked path for rank `i` and bank `j`, when the banks `j` to
`j + BanksPerRefresh - 1` exist: of these banks, those that are active with
an empty queue are closed for a refresh; every other bank is untouched. -/
theorem block_exact (i j : Nat) (m : MemoryController)
    (hfit : j + m.p.BanksPerRefresh ≤ m.p.BANKS) :
    RefreshClosed m (HandleRefresh.block i j m)
    ∧ (∀ r b, ¬(r = i ∧ j ≤ b ∧ b < j + m.p.BanksPerRefresh) →
        BankUntouched m (HandleRefresh.block i j m) r b)
    ∧ (∀ b, j ≤ b → b < j + m.p.BanksPerRefresh → m.activateQueued i b = true →
        m.bankQueues i b = [] → BankClosedForRefresh m (HandleRefresh.block i j m) i b)
    ∧ (∀ r b, (m.activateQueued r b = false ∨ m.bankQueues r b ≠ []) →
        BankUntouched m (HandleRefresh.block i j m) r b) := by
  have hrc := block_closed i j m
  have key : ∀ n, n ≤ m.p.BanksPerRefresh →
      RefreshClosed m (forLoop n
        (fun tmpBank m => HandleRefresh.prechargeBank i ((tmpBank + j) % m.p.BANKS) m) m)
      ∧ (∀ r b, ¬(r = i ∧ j ≤ b ∧ b < j + n) →
          BankUntouched m (forLoop n
            (fun tmpBank m => HandleRefresh.prechargeBank i ((tmpBank + j) % m.p.BANKS) m) m)
            r b)
      ∧ (∀ b, j ≤ b → b < j + n → m.activateQueued i b = true → m.bankQueues i b = [] →
          (forLoop n
            (fun tmpBank m => HandleRefresh.prechargeBank i ((tmpBank + j) % m.p.BANKS) m)
            m).activateQueued i b = false) := by
    intro n
    induction n with
    | zero =>
      intro _
      rw [forLoop_zero]
      exact ⟨refreshClosed_refl m, fun r b _ => ⟨rfl, rfl, fun _ => ⟨rfl, rfl, rfl⟩⟩,
        fun b h1 h2 => absurd h2 (by omega)⟩
    | succ k ih =>
      intro hk
      obtain ⟨c1, c2, c3⟩ := ih (by omega)
      rw [forLoop_succ]
      generalize forLoop k
        (fun tmpBank m => HandleRefresh.prechargeBank i ((tmpBank + j) % m.p.BANKS) m) m = m1
        at c1 c2 c3 ⊢
      have hp : m1.p = m.p := c1.1.1
      have hmod : (k + j) % m1.p.BANKS = j + k := by
        rw [hp, Nat.mod_eq_of_lt (by omega)]
        omega
      show RefreshClosed m (HandleRefresh.prechargeBank i ((k + j) % m1.p.BANKS) m1) ∧ _
      rw [hmod]
      obtain ⟨e1, e2, e3⟩ := prechargeBank_exact i (j + k) m1
      have hu0 : BankUntouched m m1 i (j + k) := c2 i (j + k) (by omega)
      refine ⟨refreshClosed_trans c1 (prechargeBank_closed i (j + k) m1), fun r b hne => ?_,
        fun b hb1 hb2 ha hq => ?_⟩
      · exact bankUntouched_trans (c2 r b (by omega)) (e1 r b (by omega))
      · by_cases hb : b = j + k
        · subst hb
          have h1 : m1.activateQueued i (j + k) = true := by rw [hu0.2.1]; exact ha
          have h2 : m1.bankQueues i (j + k) = [] := by rw [hu0.1]; exact hq
          exact (e2 ⟨h1, h2⟩).1.2.2.2.1
        · rw [(e1 i b (by omega)).2.1]
          exact c3 b hb1 (by omega) ha hq
  obtain ⟨k1, k2, k3⟩ := key m.p.BanksPerRefresh (Nat.le_refl _)
  have hclosed_or : ∀ r b, (m.activateQueued r b = false ∨ m.bankQueues r b ≠ []) →
      BankUntouched m (HandleRefresh.block i j m) r b := by
    intro r b h
    rcases hrc.2.2 r b with hu | hc
    · exact hu
    · rcases h with h | h
      · rw [hc.2.1] at h
        exact Bool.noConfusion h
      · exact absurd hc.1 h
  refine ⟨hrc, fun r b hne => k2 r b hne, fun b hb1 hb2 ha hq => ?_, hclosed_or⟩
  rcases hrc.2.2 i b with hu | hc
  · have h3 : (HandleRefresh.block i j m).activateQueued i b = false := k3 b hb1 hb2 ha hq
    have h2 : (HandleRefresh.block i j m).activateQueued i b = m.activateQueued i b := hu.2.1
    rw [ha, h3] at h2
    exact Bool.noConfusion h2
  · exact hc

/-- The pass of the inner loop of `HandleRefresh` for a rank `i` and the
first bank `j` of a bank group that lies in the device (the group's banks are
`j` to `j + BanksPerRefresh - 1`), when the group needs a refresh and has all
its bank queues empty while the downstream reports the REFRESH as not
issuable: the pass does not return and the inner loop goes on with the next
value of `bankIdx`; each bank of the group that had `activateQueued` set is
closed for the refresh; the banks of the group that were not active, and all
banks outside the group, are untouched; no counter, no `bankNeedRefresh` flag
and no round-robin index changes, and no call goes to the downstream. -/
theorem group_blocked_aligned (i j : Nat) (m : MemoryController)
    (hdiv : m.p.BanksPerRefresh ∣ j) (hfit : j + m.p.BanksPerRefresh ≤ m.p.BANKS)
    (hneed : NeedRefresh m j i = true) (hempty : IsRefreshBankQueueEmpty m j i = true)
    (hblock : m.childIsIssuable (MakeRefreshRequest m 0 0 j i 0) = false) :
    (HandleRefresh.group i j m).1 = false
    ∧ (∀ bankIdx rest, j = (m.nextRefreshBank + bankIdx * m.p.BanksPerRefresh) % m.p.BANKS →
        HandleRefresh.bankLoop i (bankIdx :: rest) m
          = HandleRefresh.bankLoop i rest (HandleRefresh.group i j m).2)
    ∧ (∀ b, j ≤ b → b < j + m.p.BanksPerRefresh → m.activateQueued i b = true →
        BankClosedForRefresh m (HandleRefresh.group i j m).2 i b)
    ∧ (∀ b, j ≤ b → b < j + m.p.BanksPerRefresh → m.activateQueued i b = false →
        BankUntouched m (HandleRefresh.group i j m).2 i b)
    ∧ (∀ r b, ¬(r = i ∧ j ≤ b ∧ b < j + m.p.BanksPerRefresh) →
        BankUntouched m (HandleRefresh.group i j m).2 r b)
    ∧ (HandleRefresh.group i j m).2.delayedRefreshCounter = m.delayedRefreshCounter
    ∧ (HandleRefresh.group i j m).2.bankNeedRefresh = m.bankNeedRefresh
    ∧ (HandleRefresh.group i j m).2.childLog = m.childLog
    ∧ (HandleRefresh.group i j m).2.nextRefreshBank = m.nextRefreshBank
    ∧ (HandleRefresh.group i j m).2.nextRefreshRank = m.nextRefreshRank := by
  have hg : HandleRefresh.group i j m = (false, HandleRefresh.block i j m) := by
    unfold HandleRefresh.group
    rw [if_pos (by rw [hneed, hempty]; rfl), if_pos hblock]
  obtain ⟨hrc, hout, hin, hno⟩ := block_exact i j m hfit
  have hq : ∀ b, j ≤ b → b < j + m.p.BanksPerRefresh → m.bankQueues i b = [] := by
    intro b h1 h2
    have := (IsRefreshBankQueueEmpty_iff m j i).1 hempty (b - j) (by omega)
    rw [Nat.div_mul_cancel hdiv] at this
    rw [← this]
    congr 1
    omega
  have hs := hrc.1
  simp only [SchedulingOnly] at hs
  rw [hg]
  refine ⟨rfl, fun bankIdx rest hj => ?_, fun b h1 h2 ha => hin b h1 h2 ha (hq b h1 h2),
    fun b _ _ ha => hno i b (Or.inl ha), hout, by simp [hs], by simp [hs], by simp [hs],
    by simp [hs], by simp [hs]⟩
  show (match HandleRefresh.group i
      ((m.nextRefreshBank + bankIdx * m.p.BanksPerRefresh) % m.p.BANKS) m with
    | (true, m1) => (true, m1)
    | (false, m1) => HandleRefresh.bankLoop i rest m1) = _
  rw [← hj, hg]

/-- The bank that `HandleRefresh` computes for a group is the first bank of
a group that lies in the device, when `BanksPerRefresh` divides `BANKS` and
`nextRefreshBank`. -/
theorem refreshBank_aligned (m : MemoryController) (bankIdx : Nat)
    (hbanks : 0 < m.p.BANKS)
    (hdiv : m.p.BanksPerRefresh ∣ m.p.BANKS) (hnext : m.p.BanksPerRefresh ∣ m.nextRefreshBank) :
    m.p.BanksPerRefresh ∣ (m.nextRefreshBank + bankIdx * m.p.BanksPerRefresh) % m.p.BANKS
    ∧ (m.nextRefreshBank + bankIdx * m.p.BanksPerRefresh) % m.p.BANKS + m.p.BanksPerRefresh
        ≤ m.p.BANKS := by
  have h1 : m.p.BanksPerRefresh ∣ m.nextRefreshBank + bankIdx * m.p.BanksPerRefresh :=
    Dvd.dvd.add hnext (Dvd.intro_left _ rfl)
  have h2 : m.p.BanksPerRefresh
      ∣ (m.nextRefreshBank + bankIdx * m.p.BanksPerRefresh) % m.p.BANKS :=
    (Nat.dvd_mod_iff hdiv).2 h1
  refine ⟨h2, ?_⟩
  have hlt := Nat.mod_lt (m.nextRefreshBank + bankIdx * m.p.BanksPerRefresh) hbanks
  obtain ⟨a, ha⟩ := h2
  obtain ⟨c, hc⟩ := hdiv
  rw [ha, hc] at hlt ⊢
  have hac : a < c := Nat.lt_of_mul_lt_mul_left hlt
  calc m.p.BanksPerRefresh * a + m.p.BanksPerRefresh
      = m.p.BanksPerRefresh * (a + 1) := by ring
    _ ≤ m.p.BanksPerRefresh * c := Nat.mul_le_mul_left _ hac

/-! ## ProcessRefreshPulse -/

/-- C22. `ProcessRefreshPulse`, with refresh enabled, for a REFRESH pulse
addressed to a rank and a bank: the call returns; the delayed-refresh counter
of the bank's group goes up by 1 in 64-bit arithmetic, which is exactly 1 more
unless the counter was `2 ^ 64 - 1`, and no other counter changes; the
`bankNeedRefresh` flags of the banks of the group are set if the new counter
has reached `DelayedRefreshThreshold` and no flag changes otherwise; and one
event is inserted, carrying the same pulse, at the current cycle plus `tREFI`,
so that the call made when that event comes due inserts the next one exactly
`tREFI` cycles later. -/
theorem ProcessRefreshPulse_effect (m : MemoryController) (refresh : NVMainRequest)
    (ht : refresh.type = OpType.REFRESH) (hu : m.p.UseRefresh = true) :
    ∃ m1, ProcessRefreshPulse m refresh = some m1
      ∧ m1.delayedRefreshCounter refresh.address.rank
            (refresh.address.bank / m.p.BanksPerRefresh)
          = (m.delayedRefreshCounter refresh.address.rank
              (refresh.address.bank / m.p.BanksPerRefresh) + 1) % 2 ^ 64
      ∧ (m.delayedRefreshCounter refresh.address.rank
            (refresh.address.bank / m.p.BanksPerRefresh) + 1 < 2 ^ 64 →
          m1.delayedRefreshCounter refresh.address.rank
              (refresh.address.bank / m.p.BanksPerRefresh)
            = m.delayedRefreshCounter refresh.address.rank
                (refresh.address.bank / m.p.BanksPerRefresh) + 1)
      ∧ (∀ r g, ¬(r = refresh.address.rank ∧ g = refresh.address.bank / m.p.BanksPerRefresh) →
          m1.delayedRefreshCounter r g = m.delayedRefreshCounter r g)
      ∧ (m.p.DelayedRefreshThreshold
            ≤ m1.delayedRefreshCounter refresh.address.rank
                (refresh.address.bank / m.p.BanksPerRefresh) →
          ∀ r b, m1.bankNeedRefresh r b
            = (if r = refresh.address.rank
                  ∧ refresh.address.bank / m.p.BanksPerRefresh * m.p.BanksPerRefresh ≤ b
                  ∧ b < refresh.address.bank / m.p.BanksPerRefresh * m.p.BanksPerRefresh
                      + m.p.BanksPerRefresh
                then true else m.bankNeedRefresh r b))
      ∧ (m1.delayedRefreshCounter refresh.address.rank
              (refresh.address.bank / m.p.BanksPerRefresh) < m.p.DelayedRefreshThreshold →
          m1.bankNeedRefresh = m.bankNeedRefresh)
      ∧ m1.eventQueue
          = m.eventQueue ++ [{ cycle := m.currentCycle + m.m_tREFI, request := refresh }]
      ∧ m1.m_tREFI = m.m_tREFI
      ∧ (∀ m2 : MemoryController, m2.currentCycle = m.currentCycle + m.m_tREFI →
          m2.m_tREFI = m.m_tREFI → m2.p.UseRefresh = true →
          ∃ m3, ProcessRefreshPulse m2 refresh = some m3
            ∧ m3.eventQueue = m2.eventQueue
                ++ [{ cycle := m.currentCycle + m.m_tREFI + m.m_tREFI, request := refresh }]) := by
  have hsome : ∀ m0 : MemoryController, ∃ m1, ProcessRefreshPulse m0 refresh = some m1 := by
    intro m0
    unfold ProcessRefreshPulse
    rw [if_neg (by simp [ht])]
    exact ⟨_, rfl⟩
  obtain ⟨m1, h1⟩ := hsome m
  obtain ⟨_, f, hm1, hf⟩ := ProcessRefreshPulse_spec m refresh m1 h1
  refine ⟨m1, h1, ?_, ?_, ?_, ?_, ?_, ?_, ?_, ?_⟩
  · rw [hm1]
    exact set2_same _ _ _ _
  · intro hlt
    rw [hm1]
    show set2 m.delayedRefreshCounter _ _ _ _ _ = _
    rw [set2_same, Nat.mod_eq_of_lt hlt]
  · intro r g hne
    rw [hm1]
    exact set2_other _ _ _ _ _ _ hne
  · intro hthr r b
    rw [hm1] at hthr ⊢
    have hthr2 : m.p.DelayedRefreshThreshold
        ≤ (m.delayedRefreshCounter refresh.address.rank
            (refresh.address.bank / m.p.BanksPerRefresh) + 1) % 2 ^ 64 := by
      have := hthr
      rw [show ({ m with
          delayedRefreshCounter := set2 m.delayedRefreshCounter refresh.address.rank
            (refresh.address.bank / m.p.BanksPerRefresh)
            ((m.delayedRefreshCounter refresh.address.rank
              (refresh.address.bank / m.p.BanksPerRefresh) + 1) % 2 ^ 64)
          bankNeedRefresh := f
          eventQueue := m.eventQueue
            ++ [{ cycle := m.currentCycle + m.m_tREFI, request := refresh }] }
          : MemoryController).delayedRefreshCounter refresh.address.rank
            (refresh.address.bank / m.p.BanksPerRefresh)
          = (m.delayedRefreshCounter refresh.address.rank
              (refresh.address.bank / m.p.BanksPerRefresh) + 1) % 2 ^ 64
          from set2_same _ _ _ _] at this
      exact this
    show f r b = _
    rw [hf r b]
    simp only [hu, hthr2, and_self, true_and]
  · intro hlt
    rw [hm1] at hlt ⊢
    have hlt2 : (m.delayedRefreshCounter refresh.address.rank
        (refresh.address.bank / m.p.BanksPerRefresh) + 1) % 2 ^ 64
          < m.p.DelayedRefreshThreshold := by
      have := hlt
      rw [show ({ m with
          delayedRefreshCounter := set2 m.delayedRefreshCounter refresh.address.rank
            (refresh.address.bank / m.p.BanksPerRefresh)
            ((m.delayedRefreshCounter refresh.address.rank
              (refresh.address.bank / m.p.BanksPerRefresh) + 1) % 2 ^ 64)
          bankNeedRefresh := f
          eventQueue := m.eventQueue
            ++ [{ cycle := m.currentCycle + m.m_tREFI, request := refresh }] }
          : MemoryController).delayedRefreshCounter refresh.address.rank
            (refresh.address.bank / m.p.BanksPerRefresh)
          = (m.delayedRefreshCounter refresh.address.rank
              (refresh.address.bank / m.p.BanksPerRefresh) + 1) % 2 ^ 64
          from set2_same _ _ _ _] at this
      exact this
    show f = m.bankNeedRefresh
    funext r b
    rw [hf r b, if_neg (fun h => absurd h.1.2 (Nat.not_le.2 hlt2))]
  · rw [hm1]
  · rw [hm1]
  · intro m2 hc2 ht2 _
    obtain ⟨m3, h3⟩ := hsome m2
    obtain ⟨_, f3, hm3, _⟩ := ProcessRefreshPulse_spec m2 refresh m3 h3
    refine ⟨m3, h3, ?_⟩
    rw [hm3]
    show m2.eventQueue ++ [{ cycle := m2.currentCycle + m2.m_tREFI, request := refresh }] = _
    rw [hc2, ht2]

/-- C22, counterexample: set up with `DelayedRefreshThreshold` 0, the first
`HandleRefresh` leaves the counter of group 0 of rank 0 at `2 ^ 64 - 1`; the
pulse for that group then takes it to 0, not to one more. -/
theorem ProcessRefreshPulse_wraps_full_counter :
    ∃ m m1, SetConfig (closedController 1).construct (refreshParams 0) true = some m
      ∧ (HandleRefresh m).2.delayedRefreshCounter 0 0 = 2 ^ 64 - 1
      ∧ ProcessRefreshPulse (HandleRefresh m).2 samplePulse = some m1
      ∧ m1.delayedRefreshCounter 0 0 = 0 :=
  ⟨_, _, rfl, rfl, rfl, rfl⟩

theorem ProcessRefreshPulse_effect_witness :
    ∃ m1, ProcessRefreshPulse refreshBlockedController samplePulse = some m1
      ∧ m1.delayedRefreshCounter 0 0 = 2
      ∧ m1.eventQueue = [{ cycle := 7 + 16, request := samplePulse }] := by
  obtain ⟨m1, h1, _, h3, _, _, _, h7, _⟩ :=
    ProcessRefreshPulse_effect refreshBlockedController samplePulse rfl rfl
  exact ⟨m1, h1, h3 (by decide), h7⟩

/-! ## SetConfig: the refresh pulses -/

theorem pulses_inner_exact (i n : Nat) (m : MemoryController) :
    forLoop n (fun j m => SetConfig.pulse i j m) m
      = { m with eventQueue := m.eventQueue
            ++ (List.range n).map fun j => SetConfig.pulseEvent i j m } := by
  induction n with
  | zero => simp [forLoop_zero]
  | succ k ih =>
    rw [forLoop_succ, ih, List.range_succ, List.map_append, ← List.append_assoc]
    rfl

theorem pulses_outer_exact (n : Nat) (m : MemoryController) :
    forLoop n (fun i m => forLoop m.m_refreshBankNum (fun j m => SetConfig.pulse i j m) m) m
      = { m with eventQueue := m.eventQueue
            ++ (List.range n).flatMap fun i =>
                (List.range m.m_refreshBankNum).map fun j => SetConfig.pulseEvent i j m } := by
  induction n with
  | zero => simp [forLoop_zero]
  | succ k ih =>
    rw [forLoop_succ, ih, pulses_inner_exact, List.range_succ, List.flatMap_append,
      ← List.append_assoc]
    simp only [List.flatMap_cons, List.flatMap_nil, List.append_nil]
    rfl

theorem length_flatMap_const {α β : Type} (f : α → List β) (n : Nat)
    (hf : ∀ a, (f a).length = n) (l : List α) : (l.flatMap f).length = l.length * n := by
  induction l with
  | nil => simp
  | cons a l ih =>
    rw [List.flatMap_cons, List.length_append, ih, hf a, List.length_cons]
    ring

/-- C23. Refresh initialisation. With `UseRefresh` set, a `SetConfig` that
returns has computed, in the arithmetic of natural numbers,
`m_refreshBankNum = BANKS / BanksPerRefresh` and
`tREFI = tREFW / (ROWS / RefreshRows)`, has set every delayed-refresh counter
to 0, and has handed to the event queue, rank by rank and group by group, one
event per rank and bank group, `RANKS * m_refreshBankNum` in all: for rank
`r` and group `g` a REFRESH addressed to bank `g * BanksPerRefresh` of rank
`r`, due at `now + tREFI + (r * m_refreshBankNum + g) * refreshSlice` with
`refreshSlice = tREFI / (RANKS * m_refreshBankNum)`. -/
theorem SetConfig_refresh_init (m : MemoryController) (conf : Params) (hasMATHeight : Bool)
    (init : MemoryController) (h : SetConfig m conf hasMATHeight = some init)
    (hu : conf.UseRefresh = true) :
    init.m_refreshBankNum = conf.BANKS / conf.BanksPerRefresh
    ∧ init.m_tREFI = conf.tREFW / (conf.ROWS / conf.RefreshRows)
    ∧ (∀ r g, init.delayedRefreshCounter r g = 0)
    ∧ init.eventQueue = m.eventQueue
        ++ (List.range conf.RANKS).flatMap (fun r =>
            (List.range (conf.BANKS / conf.BanksPerRefresh)).map (fun g =>
              firstPulseEvent m conf r g))
    ∧ ((List.range conf.RANKS).flatMap (fun r =>
          (List.range (conf.BANKS / conf.BanksPerRefresh)).map (fun g =>
            firstPulseEvent m conf r g))).length
        = conf.RANKS * (conf.BANKS / conf.BanksPerRefresh)
    ∧ (∀ r g, (firstPulseEvent m conf r g).request.type = OpType.REFRESH
        ∧ (firstPulseEvent m conf r g).request.address.rank = r
        ∧ (firstPulseEvent m conf r g).request.address.bank = g * conf.BanksPerRefresh
        ∧ (firstPulseEvent m conf r g).cycle
            = m.currentCycle + conf.tREFW / (conf.ROWS / conf.RefreshRows)
              + (r * (conf.BANKS / conf.BanksPerRefresh) + g)
                * (conf.tREFW / (conf.ROWS / conf.RefreshRows)
                    / (conf.RANKS * (conf.BANKS / conf.BanksPerRefresh)))) := by
  obtain ⟨_, _, _, _, _, _, _, _, href⟩ := SetConfig_spec m conf hasMATHeight init h
  obtain ⟨h0, _, _, hnum, htrefi⟩ := href hu
  have hev : init.eventQueue = m.eventQueue
      ++ (List.range conf.RANKS).flatMap (fun r =>
          (List.range (conf.BANKS / conf.BanksPerRefresh)).map (fun g =>
            firstPulseEvent m conf r g)) := by
    unfold SetConfig at h
    have hu1 : (SetConfig.arrays m conf hasMATHeight).p.UseRefresh = true := hu
    rw [if_pos hu1] at h
    split at h
    · exact Option.noConfusion h
    · split at h
      · exact Option.noConfusion h
      · simp only [] at h
        rw [pulses_outer_exact] at h
        rw [← Option.some.inj h]
        rfl
  refine ⟨hnum, htrefi, h0, hev, ?_, fun r g => ⟨rfl, rfl, rfl, rfl⟩⟩
  rw [length_flatMap_const _ (conf.BANKS / conf.BanksPerRefresh) (fun r => by simp),
    List.length_range]

theorem SetConfig_refresh_init_witness :
    ∃ init, SetConfig (closedController 1).construct (refreshParams 1) true = some init
      ∧ init.m_refreshBankNum = 4 ∧ init.m_tREFI = 16
      ∧ init.eventQueue.map (fun e => (e.cycle, e.request.address.rank, e.request.address.bank))
          = [(23, 0, 0), (25, 0, 1), (27, 0, 2), (29, 0, 3),
              (31, 1, 0), (33, 1, 1), (35, 1, 2), (37, 1, 3)]
      ∧ ∀ r g, init.delayedRefreshCounter r g = 0 :=
  ⟨_, rfl, rfl, rfl, by decide,
    (SetConfig_refresh_init (closedController 1).construct (refreshParams 1) true _ rfl
      rfl).2.2.1⟩

/-! ## SetAddressMappingScheme -/

theorem strtokAll_name (t : FieldTag) (s : List Char) :
    strtokAll ':' (t.name ++ s) [] = strtokAll ':' s t.name.reverse := by
  cases t <;> simp [FieldTag.name, strtokAll]

theorem name_ne_nil (t : FieldTag) : t.name.reverse ≠ [] := by
  cases t <;> simp [FieldTag.name]

theorem strtokAll_schemeOf (ts : List FieldTag) :
    strtokAll ':' (schemeOf ts) [] = ts.map FieldTag.name := by
  induction ts with
  | nil => simp [schemeOf, strtokAll]
  | cons t rest ih =>
    cases rest with
    | nil =>
      have := strtokAll_name t []
      rw [List.append_nil] at this
      have hne : ¬t.name = [] := by cases t <;> simp [FieldTag.name]
      simp [schemeOf, this, strtokAll, hne]
    | cons u rest =>
      rw [schemeOf, strtokAll_name, strtokAll, if_pos rfl, if_neg (name_ne_nil t), ih]
      simp

theorem schemeOf_no_nul (ts : List FieldTag) : ∀ c ∈ schemeOf ts, c ≠ Char.ofNat 0 := by
  induction ts with
  | nil => simp [schemeOf]
  | cons t rest ih =>
    have hn : ∀ c ∈ t.name, c ≠ Char.ofNat 0 := by
      cases t <;> simp [FieldTag.name]
    cases rest with
    | nil => simpa [schemeOf] using hn
    | cons u rest =>
      intro c hc
      rw [schemeOf, List.mem_append, List.mem_cons] at hc
      rcases hc with h | h | h
      · exact hn c h
      · rw [h]; decide
      · exact ih c h

theorem schemeOf_length (ts : List FieldTag) (h : ts ≠ []) :
    (schemeOf ts).length + 1 = (ts.map fun t => t.name.length + 1).sum := by
  induction ts with
  | nil => exact absurd rfl h
  | cons t rest ih =>
    cases rest with
    | nil => simp [schemeOf]
    | cons u rest =>
      have := ih (by simp)
      rw [schemeOf, List.length_append, List.length_cons, List.map_cons, List.sum_cons,
        ← this]
      omega

/-- The body of the loop of `SetAddressMappingScheme` on the name of a tag:
the tag's local takes the current order, the other locals stay, the current
order goes down by 1, and the "invalid" message is written exactly when it
gets below 0. -/
theorem token_name (scheme : List Char) (st : SchemeState) (t : FieldTag) :
    (∀ u, (SetAddressMappingScheme.token scheme st t.name).value u
        = (if u = t then st.currentOrder else st.value u))
    ∧ (SetAddressMappingScheme.token scheme st t.name).currentOrder = st.currentOrder - 1
    ∧ (SetAddressMappingScheme.token scheme st t.name).output
        = (if st.currentOrder - 1 < 0 then st.output ++ [Message.invalidScheme scheme]
            else st.output) := by
  by_cases h : st.currentOrder - 1 < 0
  · refine ⟨fun u => ?_, ?_, ?_⟩
    · cases t <;> cases u <;>
        simp [SetAddressMappingScheme.token, FieldTag.name, SchemeState.value, h]
    · cases t <;> simp [SetAddressMappingScheme.token, FieldTag.name, h]
    · cases t <;> simp [SetAddressMappingScheme.token, FieldTag.name, h]
  · refine ⟨fun u => ?_, ?_, ?_⟩
    · cases t <;> cases u <;>
        simp [SetAddressMappingScheme.token, FieldTag.name, SchemeState.value, h]
    · cases t <;> simp [SetAddressMappingScheme.token, FieldTag.name, h]
    · cases t <;> simp [SetAddressMappingScheme.token, FieldTag.name, h]

/-- The loop of `SetAddressMappingScheme` over the names of distinct tags:
the tag at position `k` (from 0) gets the order the loop started with minus
`k`, the tags that do not occur keep theirs, and nothing is written while the
current order stays at 0 or above. -/
theorem tokens_fold (scheme : List Char) (ts : List FieldTag) (hnd : ts.Nodup) :
    ∀ st : SchemeState,
      ((ts.map FieldTag.name).foldl (SetAddressMappingScheme.token scheme) st).currentOrder
          = st.currentOrder - ts.length
      ∧ (∀ k (hk : k < ts.length),
          ((ts.map FieldTag.name).foldl (SetAddressMappingScheme.token scheme) st).value
              (ts.get ⟨k, hk⟩) = st.currentOrder - k)
      ∧ (∀ u, u ∉ ts →
          ((ts.map FieldTag.name).foldl (SetAddressMappingScheme.token scheme) st).value u
            = st.value u)
      ∧ ((ts.length : Int) ≤ st.currentOrder →
          ((ts.map FieldTag.name).foldl (SetAddressMappingScheme.token scheme) st).output
            = st.output) := by
  induction ts with
  | nil =>
    intro st
    exact ⟨by simp, fun k hk => absurd hk (by simp), fun _ _ => rfl, fun _ => rfl⟩
  | cons t rest ih =>
    intro st
    obtain ⟨hnot, hnd1⟩ := List.nodup_cons.1 hnd
    obtain ⟨v1, c1, o1⟩ := token_name scheme st t
    obtain ⟨a1, a2, a3, a4⟩ := ih hnd1 (SetAddressMappingScheme.token scheme st t.name)
    simp only [List.map_cons, List.foldl_cons]
    refine ⟨?_, fun k hk => ?_, fun u hu => ?_, fun hlen => ?_⟩
    · rw [a1, c1]
      simp only [List.length_cons, Nat.cast_add, Nat.cast_one]
      omega
    · cases k with
      | zero =>
        show (List.foldl (SetAddressMappingScheme.token scheme)
          (SetAddressMappingScheme.token scheme st t.name) (List.map FieldTag.name rest)).value t
            = st.currentOrder - ((0 : Nat) : Int)
        rw [a3 t hnot, v1 t, if_pos rfl]
        simp
      | succ k =>
        show (List.foldl (SetAddressMappingScheme.token scheme)
          (SetAddressMappingScheme.token scheme st t.name) (List.map FieldTag.name rest)).value
            (rest.get ⟨k, by simpa using hk⟩) = st.currentOrder - ((k + 1 : Nat) : Int)
        rw [a2 k (by simpa using hk), c1]
        simp only [Nat.cast_add, Nat.cast_one]
        omega
    · rw [List.mem_cons, not_or] at hu
      rw [a3 u hu.2, v1 u, if_neg hu.1]
    · simp only [List.length_cons, Nat.cast_add, Nat.cast_one] at hlen
      rw [a4 (by rw [c1]; omega), o1, if_neg (by omega)]

/-- C30. The orders `SetAddressMappingScheme` assigns. For a scheme that is
the five tags R, C, BK, RK, CH in some order, separated by colons, the call
returns; the field named by the `k`-th tag in read order (`k = 1` for the
first) has been assigned order `6 - k`; nothing but the final report of the
mapping order has been written; and the five values are those passed to
`SetOrder`. For the scheme R:RK:BK:CH:C this gives row 5, rank 4, bank 3,
channel 2, column 1. -/
theorem SetAddressMappingScheme_orders (t : TranslationMethod) (ts : List FieldTag)
    (hperm : ts.Perm [FieldTag.R, FieldTag.C, FieldTag.BK, FieldTag.RK, FieldTag.CH]) :
    ∃ st, SetAddressMappingScheme.parse t.output (schemeOf ts) = some st
      ∧ (∀ k (hk : k < ts.length), st.value (ts.get ⟨k, hk⟩) = 6 - ((k : Int) + 1))
      ∧ st.output = t.output
      ∧ t.SetAddressMappingScheme (schemeOf ts)
          = some { (t.SetOrder st.row st.col st.bank st.rank st.channel) with
              output := (t.SetOrder st.row st.col st.bank st.rank st.channel).output
                ++ [Message.mappingOrder st.row st.col st.bank st.rank st.channel] }
      ∧ (∃ st0, SetAddressMappingScheme.parse t.output "R:RK:BK:CH:C".toList = some st0
          ∧ st0.row = 5 ∧ st0.rank = 4 ∧ st0.bank = 3 ∧ st0.channel = 2 ∧ st0.col = 1) := by
  have hlen : ts.length = 5 := by
    have := hperm.length_eq
    simpa using this
  have hne : ts ≠ [] := by
    intro h
    rw [h] at hlen
    exact absurd hlen (by decide)
  have hnd : ts.Nodup := hperm.symm.nodup_iff.1 (by decide)
  have hsum : (ts.map fun t => t.name.length + 1).sum = 13 := by
    rw [(hperm.map _).sum_eq]
    rfl
  have hsl : (schemeOf ts).length = 12 := by
    have := schemeOf_length ts hne
    omega
  have htw : (schemeOf ts).takeWhile (fun c => decide (c ≠ Char.ofNat 0)) = schemeOf ts := by
    rw [List.takeWhile_eq_self_iff]
    intro c hc
    simpa using schemeOf_no_nul ts c hc
  have hparse : SetAddressMappingScheme.parse t.output (schemeOf ts)
      = some ((ts.map FieldTag.name).foldl (SetAddressMappingScheme.token (schemeOf ts))
          { row := 0, col := 0, bank := 0, rank := 0, channel := 0, currentOrder := 5,
            output := t.output }) := by
    unfold SetAddressMappingScheme.parse
    simp only []
    rw [htw, if_neg (by rw [hsl]; decide), strtokAll_schemeOf]
  obtain ⟨_, f2, _, f4⟩ := tokens_fold (schemeOf ts) ts hnd
    { row := 0, col := 0, bank := 0, rank := 0, channel := 0, currentOrder := 5,
      output := t.output }
  refine ⟨_, hparse, fun k hk => ?_, f4 (by rw [hlen]; exact le_refl (5 : Int)), ?_, ⟨_, rfl, rfl, rfl, rfl, rfl, rfl⟩⟩
  · rw [f2 k hk]
    show (5 : Int) - (k : Int) = 6 - ((k : Int) + 1)
    omega
  · unfold TranslationMethod.SetAddressMappingScheme
    rw [hparse]
    simp only []
    rw [f4 (by rw [hlen]; exact le_refl (5 : Int))]

theorem SetAddressMappingScheme_orders_witness :
    ∃ st, SetAddressMappingScheme.parse [] "BK:R:CH:C:RK".toList = some st
      ∧ st.bank = 5 ∧ st.row = 4 ∧ st.channel = 3 ∧ st.col = 2 ∧ st.rank = 1
      ∧ st.output = [] := by
  obtain ⟨st, h1, h2, h3, _⟩ := SetAddressMappingScheme_orders
    { bitWidths := fun _ => 0, order := fun _ => 0, count := fun _ => 0, output := [] }
    [FieldTag.BK, FieldTag.R, FieldTag.CH, FieldTag.C, FieldTag.RK] (by decide)
  exact ⟨st, h1, h2 0 (by decide), h2 1 (by decide), h2 2 (by decide), h2 3 (by decide),
    h2 4 (by decide), h3⟩

/-! ## The starvation counter -/

theorem exists_of_any (l : List NVMainRequest)
    (h : (l.any fun c => decide (c.type = OpType.ACTIVATE)) = true) :
    ∃ c ∈ l, c.type = OpType.ACTIVATE := by
  rw [List.any_eq_true] at h
  obtain ⟨c, hc, ht⟩ := h
  exact ⟨c, hc, by simpa using ht⟩

/-- What a call of `IssueMemoryCommands` that returns does to the starvation
counters: on a row-buffer hit it returns true and adds 1, in 64-bit
arithmetic, to the counter of the request's sub-array; when it returns true
otherwise (closed bank, or miss on an active bank) the bank queue was empty,
an ACTIVATE is queued and that counter is set to 0; when it returns false the
controller is unchanged. No other counter changes. -/
theorem IssueMemoryCommands_starvation (m : MemoryController) (req : NVMainRequest) (rv : Bool)
    (m1 : MemoryController) (req1 : NVMainRequest)
    (h : IssueMemoryCommands m req = some (rv, m1, req1)) :
    (RowHit m req → rv = true
      ∧ m1.starvationCounter
          = set3 m.starvationCounter req.address.rank req.address.bank req.address.subarray
              ((m.starvationCounter req.address.rank req.address.bank req.address.subarray + 1)
                % 2 ^ 64))
    ∧ (¬RowHit m req → rv = true →
        m.bankQueues req.address.rank req.address.bank = []
        ∧ (∃ c ∈ m1.bankQueues req.address.rank req.address.bank, c.type = OpType.ACTIVATE)
        ∧ m1.starvationCounter
            = set3 m.starvationCounter req.address.rank req.address.bank req.address.subarray 0)
    ∧ (rv = false → m1 = m) := by
  by_cases hh : RowHit m req
  · refine ⟨fun _ => ?_, fun hn => absurd hh hn, fun hf => ?_⟩
    · obtain ⟨hq, ha, hr, hx⟩ := hh
      by_cases hf : req.flags &&& m.FLAG_LAST_REQUEST = 0
      · simp [IssueMemoryCommands, hq, ha, hr, hx, hf] at h
        obtain ⟨rfl, rfl, rfl⟩ := h
        exact ⟨rfl, by simp [ncounterBits]⟩
      · by_cases hp : m.p.ClosePage = 2
        · simp [IssueMemoryCommands, hq, ha, hr, hx, hf, hp] at h
        · simp only [IssueMemoryCommands, hq, ha, hr, hx] at h
          simp [hf, hp] at h
          obtain ⟨rfl, rfl, rfl⟩ := h
          refine ⟨rfl, ?_⟩
          split <;> simp [ncounterBits]
    · subst hf
      exact absurd h (IssueMemoryCommands_covered m req (Or.inr hh) m1 req1)
  · refine ⟨fun hc => absurd hc hh, fun _ hrv => ?_, fun hf => ?_⟩
    · by_cases he : m.bankQueues req.address.rank req.address.bank = []
      · refine ⟨he, ?_⟩
        cases hq : m.activateQueued req.address.rank req.address.bank with
        | false =>
          by_cases hf : req.flags &&& m.FLAG_LAST_REQUEST = 0
          · simp [IssueMemoryCommands, hq, he, hf] at h
            obtain ⟨rfl, rfl, rfl⟩ := h
            refine ⟨?_, by simp⟩
            apply exists_of_any
            simp [he, MakeActivateRequest]
          · simp [IssueMemoryCommands, hq, he, hf] at h
            obtain ⟨rfl, rfl, rfl⟩ := h
            refine ⟨?_, by simp⟩
            apply exists_of_any
            simp [he, MakeActivateRequest]
        | true =>
          have hm1 : (!m.activeSubArray req.address.rank req.address.bank req.address.subarray
              || decide (m.effectiveRow req.address.rank req.address.bank req.address.subarray
                    ≠ req.address.row)
              || decide (m.effectiveMuxedRow req.address.rank req.address.bank
                    req.address.subarray ≠ req.address.col / m.p.RBSize)) = true := by
            by_contra hc
            apply hh
            simp only [Bool.or_eq_true, Bool.not_eq_true', decide_eq_true_eq, not_or,
              Bool.not_eq_false, ne_eq, not_not] at hc
            exact ⟨hq, hc.1.1, hc.1.2, hc.2⟩
          simp only [IssueMemoryCommands, hq, he, hm1] at h
          simp at h
          obtain ⟨rfl, rfl, rfl⟩ := h
          refine ⟨?_, ?_⟩
          · apply exists_of_any
            split <;> simp [he, MakeActivateRequest]
          · split <;> simp
      · rw [IssueMemoryCommands_uncovered m req he hh] at h
        simp at h
        rw [h.1] at hrv
        exact Bool.noConfusion hrv
    · subst hf
      by_cases he : m.bankQueues req.address.rank req.address.bank = []
      · exact absurd h (IssueMemoryCommands_covered m req (Or.inl he) m1 req1)
      · rw [IssueMemoryCommands_uncovered m req he hh] at h
        simp at h
        exact h.1.symm

theorem scanErase_first (cond : NVMainRequest → Bool) (pre post : List NVMainRequest)
    (x : NVMainRequest) (hpre : ∀ y ∈ pre, cond y = false) (hx : cond x = true) :
    scanErase cond (pre ++ x :: post) = some (x, pre ++ post) := by
  induction pre with
  | nil => simp [scanErase, hx]
  | cons a l ih =>
    have ha : cond a = false := hpre a (by simp)
    have hl : ∀ y ∈ l, cond y = false := fun y hy => hpre y (by simp [hy])
    simp [scanErase, ha, ih hl]

/-- A singular primitive on a queue whose first request that passes the test
is `x`: it hands out `x`, marked if it is the last request, and takes it out
of the queue. -/
theorem selectFirst_first (m : MemoryController) (cond : NVMainRequest → Bool)
    (pre post : List NVMainRequest) (x : NVMainRequest)
    (hpre : ∀ y ∈ pre, cond y = false) (hx : cond x = true) :
    (selectFirst m cond (pre ++ x :: post)).rv = true
    ∧ (selectFirst m cond (pre ++ x :: post)).request
        = some (if IsLastRequest m (pre ++ post) x
            then { x with flags := x.flags ||| m.FLAG_LAST_REQUEST } else x)
    ∧ (selectFirst m cond (pre ++ x :: post)).transactionQueue = pre ++ post := by
  unfold selectFirst
  rw [scanErase_first cond pre post x hpre hx]
  exact ⟨rfl, rfl, rfl⟩

/-- A call of `CycleCommandQueues` leaves the starvation counters alone. -/
theorem CycleCommandQueues_starvation (m : MemoryController) :
    (CycleCommandQueues m).state.starvationCounter = m.starvationCounter := by
  have hpre : (CycleCommandQueues.prelude m).2.starvationCounter = m.starvationCounter := by
    obtain ⟨ma, m0, ⟨hs, _⟩, hc, _, hcase⟩ := prelude_spec m
    have h1 : ma.starvationCounter = m.starvationCounter := by
      simp only [SameButPower] at hs
      simp [hs]
    have h2 : m0.starvationCounter = ma.starvationCounter := hc.2.1
    rcases hcase with ⟨_, he⟩ | ⟨_, i, j, he⟩
    · rw [he, h2, h1]
    · have h3 := (issue_spec i j m0).1
      simp only [SameButRefresh] at h3
      rw [he]
      simp [h3, h2, h1]
  rcases CycleCommandQueues_cases m with ⟨_, he⟩ | ⟨_, he⟩
  · rw [he]
    exact hpre
  · rw [he]
    rcases scan_spec (CycleCommandQueues.prelude m).2 with
      ⟨pre, q, post, head, tail, _, _, _, ⟨_, hs⟩ | ⟨_, _, hs⟩⟩ | ⟨_, hs⟩
    · obtain ⟨r, b, hmv, _⟩ := MoveRankBank_frame
        (((CycleCommandQueues.prelude m).2.callChild (ChildCall.IssueCommand head)).setBankQueue
          q.1 q.2 tail)
      rw [hs, hmv]
      show (((CycleCommandQueues.prelude m).2.callChild
        (ChildCall.IssueCommand head)).setBankQueue q.1 q.2 tail).starvationCounter = _
      simp [hpre]
    · rw [hs]
      exact hpre
    · rw [hs]
      exact hpre

/-- `SetConfig` keeps the `starvationThreshold` of the constructor, which is 4. -/
theorem SetConfig_threshold (m : MemoryController) (conf : Params) (hasMATHeight : Bool)
    (init : MemoryController) (h : SetConfig m.construct conf hasMATHeight = some init) :
    init.starvationThreshold = 4 := by
  unfold SetConfig at h
  simp only [] at h
  split at h
  · split at h
    · exact Option.noConfusion h
    · split at h
      · exact Option.noConfusion h
      · rw [pulses_outer_exact] at h
        rw [← Option.some.inj h]
        rfl
  · rw [← Option.some.inj h]
    rfl

/-- C25. The meaning of the starvation counter. Set up by `SetConfig`, the
controller has every counter at 0 and the threshold at 4. In every run from a
state with all counters at 0, through calls of `IssueMemoryCommands`,
`HandleRefresh`, `ProcessRefreshPulse`, `HandleLowPower` and
`CycleCommandQueues`, the counter of a sub-array is, in 64-bit arithmetic, the
number of consecutive row-hit issues on it since the last ACTIVATE that
`IssueMemoryCommands` queued for it. And in a state in which the bank of a
queued request `x` is still active, `x` misses the row its sub-array holds,
the bank is not refresh-gated and its command queue is empty: if the counter
of the sub-array has reached the threshold, `FindStarvedRequest` selects `x`
when no request before it in the queue meets its condition; if the counter is
below the threshold, `FindStarvedRequest` selects no request of that
sub-array. -/
theorem starvationCounter_meaning :
    (∀ (m0 : MemoryController) (conf : Params) (hasMATHeight : Bool) (init : MemoryController),
      SetConfig m0.construct conf hasMATHeight = some init →
        init.starvationThreshold = 4 ∧ ∀ r b s, init.starvationCounter r b s = 0)
    ∧ (∀ (init m : MemoryController) (cnt : Nat → Nat → Nat → Nat),
        HitCount init m cnt → (∀ r b s, init.starvationCounter r b s = 0) →
        ∀ r b s, m.starvationCounter r b s = cnt r b s % 2 ^ 64)
    ∧ (∀ (m : MemoryController) (x : NVMainRequest) (pred : NVMainRequest → Bool)
        (pre post : List NVMainRequest),
        m.activateQueued x.address.rank x.address.bank = true → RowMiss m x →
        BankReady m x → pred x = true →
        (m.starvationThreshold
            ≤ m.starvationCounter x.address.rank x.address.bank x.address.subarray →
          (∀ y ∈ pre, starvedCond m pred y = false) →
          (FindStarvedRequest m (pre ++ x :: post) pred).rv = true
          ∧ (∃ sel, (FindStarvedRequest m (pre ++ x :: post) pred).request = some sel
              ∧ SameButFlags sel x)
          ∧ (FindStarvedRequest m (pre ++ x :: post) pred).transactionQueue = pre ++ post)
        ∧ (m.starvationCounter x.address.rank x.address.bank x.address.subarray
              < m.starvationThreshold →
          ∀ q sel, (FindStarvedRequest m q pred).request = some sel →
            ¬(sel.address.rank = x.address.rank ∧ sel.address.bank = x.address.bank
              ∧ sel.address.subarray = x.address.subarray))) := by
  refine ⟨fun m0 conf hm init h => ?_, fun init m cnt hrun h0 => ?_,
    fun m x pred pre post haq hmiss hready hpred => ⟨fun hthr hpre => ?_, fun hlt q sel hsel => ?_⟩⟩
  · refine ⟨SetConfig_threshold m0 conf hm init h, fun r b s => ?_⟩
    exact ((SetConfig_spec m0.construct conf hm init h).2.2.2.2.1 r b s).2.2.2
  · induction hrun with
    | start =>
      intro r b s
      rw [h0 r b s]
      rfl
    | activate m cnt req m1 req1 _ hnot hissue ih =>
      intro r b s
      obtain ⟨_, hreset, _⟩ := IssueMemoryCommands_starvation m req true m1 req1 hissue
      rw [(hreset hnot rfl).2.2]
      by_cases hw : r = req.address.rank ∧ b = req.address.bank ∧ s = req.address.subarray
      · obtain ⟨rfl, rfl, rfl⟩ := hw
        rw [set3_same, set3_same]
        rfl
      · rw [set3_other _ _ _ _ _ _ _ _ hw, set3_other _ _ _ _ _ _ _ _ hw]
        exact ih r b s
    | hit m cnt req m1 req1 _ hhit hissue ih =>
      intro r b s
      obtain ⟨hinc, _, _⟩ := IssueMemoryCommands_starvation m req true m1 req1 hissue
      rw [(hinc hhit).2]
      by_cases hw : r = req.address.rank ∧ b = req.address.bank ∧ s = req.address.subarray
      · obtain ⟨rfl, rfl, rfl⟩ := hw
        rw [set3_same, set3_same, ih _ _ _]
        omega
      · rw [set3_other _ _ _ _ _ _ _ _ hw, set3_other _ _ _ _ _ _ _ _ hw]
        exact ih r b s
    | refused m cnt req m1 req1 _ hissue ih =>
      obtain ⟨_, _, hsame⟩ := IssueMemoryCommands_starvation m req false m1 req1 hissue
      rw [hsame rfl]
      exact ih
    | refresh m cnt _ ih =>
      obtain ⟨m0, hc, hs⟩ := HandleRefresh_frame m
      have h1 : m0.starvationCounter = m.starvationCounter := hc.2.1
      simp only [SameButRefresh] at hs
      intro r b s
      have h2 : (HandleRefresh m).2.starvationCounter = m0.starvationCounter := by simp [hs]
      rw [h2, h1]
      exact ih r b s
    | pulse m cnt refresh m1 _ hp ih =>
      obtain ⟨_, f, hm1, _⟩ := ProcessRefreshPulse_spec m refresh m1 hp
      rw [hm1]
      exact ih
    | lowPower m cnt _ ih =>
      have hs := (HandleLowPower_powerOnly m).1
      simp only [SameButPower] at hs
      intro r b s
      have h2 : (HandleLowPower m).starvationCounter = m.starvationCounter := by simp [hs]
      rw [h2]
      exact ih r b s
    | cycle m cnt _ ih =>
      rw [CycleCommandQueues_starvation]
      exact ih
  · have hx : starvedCond m pred x = true :=
      (starvedCond_iff m pred x).2 ⟨haq, hmiss, hready, hthr, hpred⟩
    obtain ⟨h1, h2, h3⟩ := selectFirst_first m (starvedCond m pred) pre post x hpre hx
    exact ⟨h1, ⟨_, h2, sameButFlags_mark m _ x⟩, h3⟩
  · obtain ⟨y, _, hy, hsame⟩ := selectFirst_request m (starvedCond m pred) q sel hsel
    have hthr := ((starvedCond_iff m pred y).1 hy).2.2.2.1
    rw [← hsame.2.1] at hthr
    rintro ⟨e1, e2, e3⟩
    rw [e1, e2, e3] at hthr
    omega

/-- C25, counterexample: under relaxed close-page, row 5 of sub-array 0 of
bank (0, 1) is activated and hit three times; with one more READ to row 5 and
a READ to row 3 queued, `FindRowBufferHit` hands out the READ to row 5 marked
as the last request, and that fourth hit closes the bank. The counter is then
4, the threshold 4, the bank not refresh-gated and its command queue drained,
and yet `FindStarvedRequest` does not select the READ to row 3. -/
theorem starved_request_not_selected_after_closing_hit :
    ∃ m m1,
      (issueAll [mkReq OpType.READ 5 0 1 0 0 7 0, mkReq OpType.READ 5 0 1 0 0 7 0,
          mkReq OpType.READ 5 0 1 0 0 7 0, mkReq OpType.READ 5 0 1 0 0 7 0]
        (closedController 1)).map (drain 5) = some m
      ∧ (FindRowBufferHit m [mkReq OpType.READ 5 0 1 0 0 7 0, mkReq OpType.READ 3 0 1 0 0 7 0]
          (fun _ => true)).request = some (mkReq OpType.READ 5 0 1 0 0 7 1)
      ∧ RowHit m (mkReq OpType.READ 5 0 1 0 0 7 1)
      ∧ (issueAll [mkReq OpType.READ 5 0 1 0 0 7 1] m).map (drain 1) = some m1
      ∧ m1.starvationCounter 0 1 0 = 4 ∧ m1.starvationThreshold = 4
      ∧ m1.bankNeedRefresh 0 1 = false ∧ m1.bankQueues 0 1 = []
      ∧ (FindStarvedRequest m1 [mkReq OpType.READ 3 0 1 0 0 7 0] (fun _ => true)).rv = false :=
  ⟨_, _, rfl, rfl, by decide, rfl, rfl, rfl, rfl, rfl, rfl⟩

theorem starvationCounter_meaning_witness :
    ∃ m,
      (issueAll [mkReq OpType.READ 5 0 1 0 0 7 0, mkReq OpType.READ 5 0 1 0 0 7 0,
          mkReq OpType.READ 5 0 1 0 0 7 0, mkReq OpType.READ 5 0 1 0 0 7 0,
          mkReq OpType.READ 5 0 1 0 0 7 0]
        (closedController 0)).map (drain 6) = some m
      ∧ m.starvationCounter 0 1 0 = 4
      ∧ (FindStarvedRequest m [mkReq OpType.READ 3 0 1 0 0 7 0] (fun _ => true)).rv = true := by
  refine ⟨_, rfl, rfl, ?_⟩
  refine ((starvationCounter_meaning.2.2 _ (mkReq OpType.READ 3 0 1 0 0 7 0) (fun _ => true)
    [] [] ?_ ?_ ?_ rfl).1 ?_ ?_).1
  · rfl
  · decide
  · decide
  · decide
  · intro y hy
    exact absurd hy (List.not_mem_nil y)

theorem exists_offset (c r n : Nat) (h : r < n) : ∃ k, k < n ∧ (c + k) % n = r := by
  have hn : 0 < n := by omega
  have hc : c % n < n := Nat.mod_lt c hn
  refine ⟨(r + (n - c % n)) % n, Nat.mod_lt _ hn, ?_⟩
  have : c % n + (r + (n - c % n)) = r + n := by omega
  rw [Nat.add_mod_mod, ← Nat.mod_add_mod, this, Nat.add_mod_right, Nat.mod_eq_of_lt h]

/-- Every bank of the device is a position of the scan. -/
theorem scanOrder_complete (m : MemoryController) (r b : Nat) (hr : r < m.p.RANKS)
    (hb : b < m.p.BANKS) : (r, b) ∈ scanOrder m := by
  obtain ⟨ri, hri, hre⟩ := exists_offset m.curRank r m.p.RANKS hr
  obtain ⟨bi, hbi, hbe⟩ := exists_offset m.curBank b m.p.BANKS hb
  unfold scanOrder
  rw [List.mem_flatMap]
  refine ⟨ri, List.mem_range.2 hri, ?_⟩
  rw [List.mem_map]
  exact ⟨bi, List.mem_range.2 hbi, by rw [hre, hbe]⟩

theorem findSome_only {α β : Type} (f : α → Option β) (a : α) (v : β) (l : List α)
    (ha : a ∈ l) (hv : f a = some v) (ho : ∀ x ∈ l, x ≠ a → f x = none) :
    l.findSome? f = some v := by
  induction l with
  | nil => simp at ha
  | cons x t ih =>
    by_cases hx : x = a
    · subst hx
      simp [List.findSome?, hv]
    · have hn : f x = none := ho x (by simp) hx
      simp only [List.findSome?, hn]
      rcases List.mem_cons.1 ha with h | h
      · exact absurd h.symm hx
      · exact ih h (fun y hy => ho y (by simp [hy]))

/-- With refresh and low power off, a call of `CycleCommandQueues` on a
controller whose only non-empty command queue is that of bank `(r, b)`, with
an issuable head, hands that head to the downstream and pops it. -/
theorem CycleCommandQueues_single (m : MemoryController) (r b : Nat) (head : NVMainRequest)
    (tail : List NVMainRequest)
    (hu : m.p.UseRefresh = false) (hl : m.p.UseLowPower = false)
    (hr : r < m.p.RANKS) (hb : b < m.p.BANKS)
    (hq : m.bankQueues r b = head :: tail)
    (ho : ∀ i j, (i, j) ≠ (r, b) → m.bankQueues i j = [])
    (hi : m.childIsIssuable head = true) :
    CycleCommandQueues m = CycleOutcome.returned (MoveRankBank
      ((m.callChild (ChildCall.IssueCommand head)).setBankQueue r b tail)) := by
  have hp : CycleCommandQueues.prelude m = (false, m) := by
    simp [CycleCommandQueues.prelude, hu, hl]
  unfold CycleCommandQueues
  rw [hp]
  show CycleCommandQueues.scan m = _
  rw [scan_eq_findSome,
    findSome_only (fun q => CycleCommandQueues.bank q.1 q.2 m) (r, b) _ (scanOrder m)
      (scanOrder_complete m r b hr hb) ?_ ?_]
  · rfl
  · show CycleCommandQueues.bank r b m = _
    unfold CycleCommandQueues.bank
    rw [hq]
    simp [hi]
  · intro x _ hx
    show CycleCommandQueues.bank x.1 x.2 m = none
    unfold CycleCommandQueues.bank
    rw [ho x.1 x.2 hx]

theorem sameButQueues_refl (m : MemoryController) : SameButQueues m m :=
  ⟨rfl, rfl, rfl, rfl, rfl, rfl, rfl, rfl, rfl, rfl, rfl, rfl, rfl⟩

theorem sameButQueues_trans {a b c : MemoryController} (h1 : SameButQueues a b)
    (h2 : SameButQueues b c) : SameButQueues a c := by
  obtain ⟨a1, a2, a3, a4, a5, a6, a7, a8, a9, a10, a11, a12, a13⟩ := h1
  obtain ⟨b1, b2, b3, b4, b5, b6, b7, b8, b9, b10, b11, b12, b13⟩ := h2
  exact ⟨b1.trans a1, b2.trans a2, b3.trans a3, b4.trans a4, b5.trans a5, b6.trans a6,
    b7.trans a7, b8.trans a8, b9.trans a9, b10.trans a10, b11.trans a11, b12.trans a12,
    b13.trans a13⟩

/-- The state one issuing call of `CycleCommandQueues` leaves. -/
theorem issued_state (m : MemoryController) (r b : Nat) (head : NVMainRequest)
    (tail : List NVMainRequest) (hi : AlwaysIssuable m) :
    SameButQueues m (MoveRankBank
        ((m.callChild (ChildCall.IssueCommand head)).setBankQueue r b tail))
    ∧ (MoveRankBank ((m.callChild (ChildCall.IssueCommand head)).setBankQueue r b tail)).bankQueues
        = set2 m.bankQueues r b tail
    ∧ (MoveRankBank ((m.callChild (ChildCall.IssueCommand head)).setBankQueue r b tail)).childLog
        = m.childLog ++ [ChildCall.IssueCommand head]
    ∧ AlwaysIssuable (MoveRankBank
        ((m.callChild (ChildCall.IssueCommand head)).setBankQueue r b tail)) := by
  obtain ⟨cr, cb, heq, _⟩ := MoveRankBank_frame
    ((m.callChild (ChildCall.IssueCommand head)).setBankQueue r b tail)
  rw [heq]
  refine ⟨?_, ?_, ?_, ?_⟩
  · unfold SameButQueues
    simp
  · simp
  · simp
  · unfold AlwaysIssuable
    simp [hi.2]

/-- With refresh and low power off and a downstream that takes every command,
as many calls of `CycleCommandQueues` as the only non-empty command queue has
commands hand them to the downstream in order and leave every queue empty. -/
theorem drain_queue (r b : Nat) (cmds : List NVMainRequest) : ∀ m : MemoryController,
    m.p.UseRefresh = false → m.p.UseLowPower = false → r < m.p.RANKS → b < m.p.BANKS →
    m.bankQueues r b = cmds → (∀ i j, (i, j) ≠ (r, b) → m.bankQueues i j = []) →
    AlwaysIssuable m →
    SameButQueues m (drain cmds.length m)
    ∧ (∀ i j, (drain cmds.length m).bankQueues i j = [])
    ∧ (drain cmds.length m).childLog = m.childLog ++ cmds.map ChildCall.IssueCommand
    ∧ AlwaysIssuable (drain cmds.length m) := by
  induction cmds with
  | nil =>
    intro m _ _ _ _ hq ho hi
    refine ⟨sameButQueues_refl m, fun i j => ?_, by simp [drain], hi⟩
    by_cases h : (i, j) = (r, b)
    · obtain ⟨rfl, rfl⟩ := Prod.mk.inj h
      exact hq
    · exact ho i j h
  | cons head tail ih =>
    intro m hu hl hr hb hq ho hi
    have hc := CycleCommandQueues_single m r b head tail hu hl hr hb hq ho (hi.1 head)
    obtain ⟨hs, hbq, hlog, hai⟩ := issued_state m r b head tail hi
    generalize hm1 : (MoveRankBank
      ((m.callChild (ChildCall.IssueCommand head)).setBankQueue r b tail)) = m1
      at hc hs hbq hlog hai
    have hp : m1.p = m.p := hs.1
    have hd : drain (head :: tail).length m = drain tail.length m1 := by
      show drain tail.length (CycleCommandQueues m).state = _
      rw [hc]
      rfl
    rw [hd]
    have h1 := ih m1 (by rw [hp]; exact hu) (by rw [hp]; exact hl) (by rw [hp]; exact hr)
      (by rw [hp]; exact hb) (by rw [hbq]; simp)
      (fun i j h => by
        rw [hbq, set2_other _ _ _ _ _ _ (fun hh => h (by rw [hh.1, hh.2]))]
        exact ho i j h) hai
    refine ⟨sameButQueues_trans hs h1.1, h1.2.1, ?_, h1.2.2.2⟩
    rw [h1.2.2.1, hlog]
    simp

theorem or_and_self_flag (a f : Nat) : (a ||| f) &&& f = f := by
  apply Nat.eq_of_testBit_eq
  intro i
  simp [Nat.testBit_and, Nat.testBit_or]
  exact fun h => Or.inr h

/-- `IssueMemoryCommands` on a request to a closed bank with an empty command
queue: what it queues and how it leaves the bank. -/
theorem issue_closed (m : MemoryController) (req : NVMainRequest)
    (hq : m.activateQueued req.address.rank req.address.bank = false)
    (he : m.bankQueues req.address.rank req.address.bank = []) :
    ∃ m2 a c, IssueMemoryCommands m req = some (true, m2, c)
      ∧ SchedulingOnly m m2
      ∧ m2.bankQueues req.address.rank req.address.bank = [a, c]
      ∧ (∀ i j, ¬(i = req.address.rank ∧ j = req.address.bank) →
          m2.bankQueues i j = m.bankQueues i j)
      ∧ a.type = OpType.ACTIVATE ∧ a.address = req.address ∧ c.address = req.address
      ∧ (req.flags &&& m.FLAG_LAST_REQUEST = 0 →
          c.type = req.type
          ∧ m2.activateQueued req.address.rank req.address.bank = true
          ∧ m2.activeSubArray req.address.rank req.address.bank req.address.subarray = true
          ∧ m2.effectiveRow req.address.rank req.address.bank req.address.subarray
              = req.address.row
          ∧ m2.effectiveMuxedRow req.address.rank req.address.bank req.address.subarray
              = req.address.col / m.p.RBSize)
      ∧ (req.flags &&& m.FLAG_LAST_REQUEST ≠ 0 →
          c.type = implicitPrechargeType req.type
          ∧ m2.activateQueued req.address.rank req.address.bank = false
          ∧ m2.effectiveRow req.address.rank req.address.bank req.address.subarray
              = m.p.ROWS) := by
  by_cases hf : req.flags &&& m.FLAG_LAST_REQUEST = 0
  · rcases h : IssueMemoryCommands m req with _ | ⟨rv, m1, req1⟩
    · simp [IssueMemoryCommands, hq, he, hf, MemoryController.pushBack] at h
    · simp [IssueMemoryCommands, hq, he, hf, MemoryController.pushBack] at h
      obtain ⟨rfl, rfl, rfl⟩ := h
      refine ⟨_, MakeActivateRequest m { req with issueCycle := m.currentCycle }, _,
        rfl, ?_, ?_, ?_, rfl, rfl, rfl, ?_, ?_⟩
      · simp [SchedulingOnly]
      · simp [MakeActivateRequest, he]
      · intro i j hij
        simp [set2, hij]
      · intro _
        simp
      · intro hc
        exact absurd hf hc
  · rcases h : IssueMemoryCommands m req with _ | ⟨rv, m1, req1⟩
    · simp [IssueMemoryCommands, hq, he, hf, MemoryController.pushBack] at h
    · simp [IssueMemoryCommands, hq, he, hf, MemoryController.pushBack] at h
      obtain ⟨rfl, rfl, rfl⟩ := h
      refine ⟨_, MakeActivateRequest m { req with issueCycle := m.currentCycle }, _,
        rfl, ?_, ?_, ?_, rfl, rfl, rfl, ?_, ?_⟩
      · simp [SchedulingOnly]
      · simp [MakeActivateRequest, MakeImplicitPrechargeRequest, he]
      · intro i j hij
        simp [set2, hij]
      · intro hc
        exact absurd hc hf
      · intro _
        simp [MakeImplicitPrechargeRequest, implicitPrechargeType_eq]

/-- `IssueMemoryCommands` on a row-buffer hit of a bank with a single
sub-array, outside restricted close-page: what it queues and how it leaves
the bank. -/
theorem issue_hit (m : MemoryController) (req : NVMainRequest) (hh : RowHit m req)
    (hc : m.p.ClosePage ≠ 2) (hn : m.subArrayNum = 1) (hs : req.address.subarray = 0) :
    ∃ m2 c, IssueMemoryCommands m req = some (true, m2, c)
      ∧ SchedulingOnly m m2
      ∧ m2.bankQueues req.address.rank req.address.bank
          = m.bankQueues req.address.rank req.address.bank ++ [c]
      ∧ (∀ i j, ¬(i = req.address.rank ∧ j = req.address.bank) →
          m2.bankQueues i j = m.bankQueues i j)
      ∧ c.address = req.address
      ∧ (req.flags &&& m.FLAG_LAST_REQUEST = 0 →
          c.type = req.type
          ∧ m2.activateQueued = m.activateQueued
          ∧ m2.activeSubArray = m.activeSubArray
          ∧ m2.effectiveRow = m.effectiveRow
          ∧ m2.effectiveMuxedRow = m.effectiveMuxedRow)
      ∧ (req.flags &&& m.FLAG_LAST_REQUEST ≠ 0 →
          c.type = implicitPrechargeType req.type
          ∧ m2.activateQueued req.address.rank req.address.bank = false
          ∧ m2.effectiveRow req.address.rank req.address.bank req.address.subarray
              = m.p.ROWS) := by
  obtain ⟨hq, ha, hr, hx⟩ := hh
  by_cases hf : req.flags &&& m.FLAG_LAST_REQUEST = 0
  · rcases h : IssueMemoryCommands m req with _ | ⟨rv, m1, req1⟩
    · simp [IssueMemoryCommands, hq, ha, hr, hx, hf, MemoryController.pushBack] at h
    · simp [IssueMemoryCommands, hq, ha, hr, hx, hf, MemoryController.pushBack] at h
      obtain ⟨rfl, rfl, rfl⟩ := h
      refine ⟨_, _, rfl, ?_, ?_, ?_, rfl, ?_, ?_⟩
      · simp [SchedulingOnly]
      · simp
      · intro i j hij
        simp [set2, hij]
      · intro _
        exact ⟨rfl, rfl, rfl, rfl, rfl⟩
      · intro h
        exact absurd hf h
  · rcases h : IssueMemoryCommands m req with _ | ⟨rv, m1, req1⟩
    · simp [IssueMemoryCommands, hq, ha, hr, hx, hf, hc, MemoryController.pushBack] at h
    · simp only [IssueMemoryCommands, hq, ha, hr, hx] at h
      simp [hf, hc, MemoryController.pushBack] at h
      obtain ⟨rfl, rfl, rfl⟩ := h
      refine ⟨_, _, rfl, ?_, ?_, ?_, rfl, ?_, ?_⟩
      · split <;> simp [SchedulingOnly]
      · split <;> simp
      · intro i j hij
        split <;> simp [set2, hij]
      · intro h
        exact absurd h hf
      · intro _
        refine ⟨?_, ?_, ?_⟩
        · simp [MakeImplicitPrechargeRequest, implicitPrechargeType_eq]
        · split
          next hidle => simp
          next hidle =>
            exfalso
            apply hidle
            rw [bankIdle_iff]
            intro i hi
            simp [hn] at hi
            simp [hi, hs, set3]
        · split <;> simp

/-- After `IssueMemoryCommands` has filled the command queue of bank `(r, b)`
in the scenario, draining it hands the commands to the downstream in order
and leaves the scenario's setting in place. -/
theorem drained_round (m m2 : MemoryController) (r b : Nat) (cmds : List NVMainRequest)
    (hs : HitScenario m r b) (hf : SchedulingOnly m m2)
    (hq : m2.bankQueues r b = cmds)
    (ho : ∀ i j, ¬(i = r ∧ j = b) → m2.bankQueues i j = m.bankQueues i j) :
    HitScenario (drain cmds.length m2) r b
    ∧ SameButQueues m2 (drain cmds.length m2)
    ∧ (drain cmds.length m2).p = m.p
    ∧ (drain cmds.length m2).FLAG_LAST_REQUEST = m.FLAG_LAST_REQUEST
    ∧ (drain cmds.length m2).childLog = m.childLog ++ cmds.map ChildCall.IssueCommand := by
  obtain ⟨h1, h2, h3, h4, h5, h6, h7, h8, h9, h10⟩ := hs
  obtain ⟨fp, fsub, _, fbnr, _, _, _, _, _, _, _, _, _, _, fci, _, ffl, _, _, _, _, flog, fcr,
    _, _⟩ := hf
  have hai : AlwaysIssuable m2 := by
    unfold AlwaysIssuable
    rw [fci, fcr]
    exact h10
  have ho2 : ∀ i j, (i, j) ≠ (r, b) → m2.bankQueues i j = [] := by
    intro i j hij
    rw [ho i j (fun hh => hij (by rw [hh.1, hh.2]))]
    exact h9 i j
  obtain ⟨d1, d2, d3, d4⟩ := drain_queue r b cmds m2 (by rw [fp]; exact h2)
    (by rw [fp]; exact h3) (by rw [fp]; exact h5) (by rw [fp]; exact h6) hq ho2 hai
  have d1c := d1
  obtain ⟨dp, dsub, _, _, _, _, _, _, dbnr, _, _, dfl, _⟩ := d1c
  refine ⟨⟨?_, ?_, ?_, ?_, ?_, ?_, ?_, ?_, d2, d4⟩, d1, dp.trans fp, dfl.trans ffl, ?_⟩
  · rw [dp, fp]; exact h1
  · rw [dp, fp]; exact h2
  · rw [dp, fp]; exact h3
  · rw [dsub, fsub]; exact h4
  · rw [dp, fp]; exact h5
  · rw [dp, fp]; exact h6
  · rw [dfl, ffl]; exact h7
  · rw [dbnr, fbnr]; exact h8
  · rw [d3, flog]

theorem scenarioRead_congr (m m1 : MemoryController) (r b row mux : Nat) (x : NVMainRequest)
    (hp : m1.p = m.p) (hf : m1.FLAG_LAST_REQUEST = m.FLAG_LAST_REQUEST)
    (h : ScenarioRead m r b row mux x) : ScenarioRead m1 r b row mux x := by
  unfold ScenarioRead at h ⊢
  rw [hp, hf]
  exact h

/-- The request a singular primitive hands out under relaxed close-page when
the queue it was taken from holds only requests to its row: marked as last
request exactly when that queue is empty. -/
theorem marked_last (m : MemoryController) (r b row mux : Nat) (x : NVMainRequest)
    (rest : List NVMainRequest) (hc : m.p.ClosePage = 1) (hfl : m.FLAG_LAST_REQUEST ≠ 0)
    (hx : ScenarioRead m r b row mux x) (hrest : ∀ y ∈ rest, ScenarioRead m r b row mux y) :
    ∃ x1, (if IsLastRequest m rest x
        then { x with flags := x.flags ||| m.FLAG_LAST_REQUEST } else x) = x1
      ∧ x1.address = x.address ∧ x1.type = x.type
      ∧ (rest = [] → x1.flags &&& m.FLAG_LAST_REQUEST ≠ 0)
      ∧ (rest ≠ [] → x1.flags &&& m.FLAG_LAST_REQUEST = 0) := by
  obtain ⟨ht, hr, hb, hrow, hsub, hmux, hflag⟩ := hx
  cases rest with
  | nil =>
    have hl : IsLastRequest m [] x = true := by simp [IsLastRequest, hc]
    rw [hl, if_pos rfl]
    refine ⟨_, rfl, rfl, rfl, fun _ => ?_, fun h => absurd rfl h⟩
    show (x.flags ||| m.FLAG_LAST_REQUEST) &&& m.FLAG_LAST_REQUEST ≠ 0
    rw [or_and_self_flag]
    exact hfl
  | cons y t =>
    obtain ⟨_, yr, yb, yrow, ysub, _, _⟩ := hrest y (by simp)
    have hl : IsLastRequest m (y :: t) x = false := by
      simp [IsLastRequest, hc, hr, hb, hrow, hsub, yr, yb, yrow, ysub]
    rw [hl]
    exact ⟨_, rfl, rfl, rfl, fun h => absurd h (by simp), fun _ => hflag⟩

/-- One round of the scenario's scheduler on the closed bank: the first READ
is taken by `FindClosedBankRequest`, and ACTIVATE and the READ reach the
downstream; the READ closes the row if no other request is left. -/
theorem hitFirstStep_closed (m : MemoryController) (r b row mux : Nat) (x : NVMainRequest)
    (rest : List NVMainRequest) (hs : HitScenario m r b)
    (haq : m.activateQueued r b = false)
    (hx : ScenarioRead m r b row mux x) (hrest : ∀ y ∈ rest, ScenarioRead m r b row mux y) :
    ∃ m1 a c, hitFirstStep m (x :: rest) = some (m1, rest) ∧ HitScenario m1 r b
      ∧ m1.p = m.p ∧ m1.FLAG_LAST_REQUEST = m.FLAG_LAST_REQUEST
      ∧ m1.childLog = m.childLog ++ [ChildCall.IssueCommand a, ChildCall.IssueCommand c]
      ∧ a.type = OpType.ACTIVATE ∧ a.address.row = row
      ∧ a.address.rank = r ∧ a.address.bank = b ∧ c.address.rank = r ∧ c.address.bank = b
      ∧ (rest = [] → c.type = OpType.READ_PRECHARGE ∧ m1.activateQueued r b = false
          ∧ m1.effectiveRow r b 0 = m.p.ROWS)
      ∧ (rest ≠ [] → c.type = OpType.READ ∧ m1.activateQueued r b = true
          ∧ m1.activeSubArray r b 0 = true ∧ m1.effectiveRow r b 0 = row
          ∧ m1.effectiveMuxedRow r b 0 = mux) := by
  have hs0 := hs
  obtain ⟨h1, h2, h3, h4, h5, h6, h7, h8, h9, h10⟩ := hs0
  have hx0 := hx
  obtain ⟨ht, hr, hb, hrow, hsub, hmux, hflag⟩ := hx0
  have hhit : (FindRowBufferHit m (x :: rest) (fun _ => true)).rv = false := by
    cases hv : (FindRowBufferHit m (x :: rest) (fun _ => true)).rv with
    | false => rfl
    | true =>
      obtain ⟨y, hy, hcy⟩ := (selectFirst_spec m _ (x :: rest)).1.mp hv
      have hys : ScenarioRead m r b row mux y := by
        rcases List.mem_cons.1 hy with h | h
        · rw [h]; exact hx
        · exact hrest y h
      simp [rowBufferHitCond, hys.2.1, hys.2.2.1, haq] at hcy
  have hcx : closedBankCond m (fun _ => true) x = true := by
    simp [closedBankCond, hr, hb, haq, h8, h9]
  obtain ⟨s1, s2, s3⟩ := selectFirst_first m (closedBankCond m (fun _ => true)) [] rest x
    (by simp) hcx
  obtain ⟨x1, hx1, xa, xt, xl, xn⟩ := marked_last m r b row mux x rest h1 h7 hx hrest
  simp only [List.nil_append] at s1 s2 s3
  rw [hx1] at s2
  have hr1 : x1.address.rank = r := by rw [xa]; exact hr
  have hb1 : x1.address.bank = b := by rw [xa]; exact hb
  obtain ⟨m2, a, c, hi, hf, hq, ho, ha, haa, hca, hplain, hlast⟩ := issue_closed m x1
    (by rw [hr1, hb1]; exact haq) (by rw [hr1, hb1]; exact h9 r b)
  rw [hr1, hb1] at hq ho
  obtain ⟨d1, d2, d3, d4, d5⟩ := drained_round m m2 r b [a, c] hs hf hq ho
  have hstep : hitFirstStep m (x :: rest) = some (drain 2 m2, rest) := by
    unfold hitFirstStep
    simp only [hhit]
    show (match (FindClosedBankRequest m (x :: rest) (fun _ => true)).request with
      | none => none
      | some req =>
        match IssueMemoryCommands m req with
        | none => none
        | some (_, m1, _) =>
          some (drain (m1.bankQueues req.address.rank req.address.bank).length m1,
            (FindClosedBankRequest m (x :: rest) (fun _ => true)).transactionQueue)) = _
    unfold FindClosedBankRequest
    have e2 : (selectFirst m (closedBankCond m fun _ => true) (x :: rest)).request = some x1 := s2
    have e3 : (selectFirst m (closedBankCond m fun _ => true) (x :: rest)).transactionQueue
        = rest := s3
    rw [e2, e3]
    simp only [hi, hr1, hb1, hq]
    rfl
  obtain ⟨_, _, _, q4, q5, q6, q7, _⟩ := d2
  refine ⟨_, a, c, hstep, d1, d3, d4, d5, ha, by rw [haa, xa]; exact hrow,
    by rw [haa]; exact hr1, by rw [haa]; exact hb1, by rw [hca]; exact hr1,
    by rw [hca]; exact hb1, ?_, ?_⟩
  · intro he
    obtain ⟨l1, l2, l3⟩ := hlast (xl he)
    rw [hr1, hb1] at l2
    rw [hr1, hb1, xa, hsub] at l3
    refine ⟨by rw [l1, xt, ht]; rfl, ?_, ?_⟩
    · show (drain [a, c].length m2).activateQueued r b = false
      rw [q4]; exact l2
    · show (drain [a, c].length m2).effectiveRow r b 0 = _
      rw [q6]; exact l3
  · intro he
    obtain ⟨l1, l2, l3, l4, l5⟩ := hplain (xn he)
    rw [hr1, hb1] at l2
    rw [hr1, hb1, xa, hsub] at l3 l4 l5
    refine ⟨by rw [l1, xt, ht], ?_, ?_, ?_, ?_⟩
    · show (drain [a, c].length m2).activateQueued r b = true
      rw [q4]; exact l2
    · show (drain [a, c].length m2).activeSubArray r b 0 = true
      rw [q5]; exact l3
    · show (drain [a, c].length m2).effectiveRow r b 0 = _
      rw [q6, l4]; exact hrow
    · show (drain [a, c].length m2).effectiveMuxedRow r b 0 = _
      rw [q7, l5]; exact hmux

/-- One round of the scenario's scheduler on the bank with the row open: the
first READ is taken by `FindRowBufferHit` and reaches the downstream; it
closes the row if no other request is left. -/
theorem hitFirstStep_open (m : MemoryController) (r b row mux : Nat) (x : NVMainRequest)
    (rest : List NVMainRequest) (hs : HitScenario m r b)
    (hopen : m.activateQueued r b = true ∧ m.activeSubArray r b 0 = true
      ∧ m.effectiveRow r b 0 = row ∧ m.effectiveMuxedRow r b 0 = mux)
    (hx : ScenarioRead m r b row mux x) (hrest : ∀ y ∈ rest, ScenarioRead m r b row mux y) :
    ∃ m1 c, hitFirstStep m (x :: rest) = some (m1, rest) ∧ HitScenario m1 r b
      ∧ m1.p = m.p ∧ m1.FLAG_LAST_REQUEST = m.FLAG_LAST_REQUEST
      ∧ m1.childLog = m.childLog ++ [ChildCall.IssueCommand c]
      ∧ c.address.rank = r ∧ c.address.bank = b
      ∧ (rest = [] → c.type = OpType.READ_PRECHARGE ∧ m1.activateQueued r b = false
          ∧ m1.effectiveRow r b 0 = m.p.ROWS)
      ∧ (rest ≠ [] → c.type = OpType.READ ∧ m1.activateQueued r b = true
          ∧ m1.activeSubArray r b 0 = true ∧ m1.effectiveRow r b 0 = row
          ∧ m1.effectiveMuxedRow r b 0 = mux) := by
  have hs0 := hs
  obtain ⟨h1, h2, h3, h4, h5, h6, h7, h8, h9, h10⟩ := hs0
  have hx0 := hx
  obtain ⟨ht, hr, hb, hrow, hsub, hmux, hflag⟩ := hx0
  obtain ⟨o1, o2, o3, o4⟩ := hopen
  have hcx : rowBufferHitCond m (fun _ => true) x = true := by
    simp [rowBufferHitCond, muxLevel, hr, hb, hsub, hrow, hmux, o1, o2, o3, o4, h8, h9]
  obtain ⟨s1, s2, s3⟩ := selectFirst_first m (rowBufferHitCond m (fun _ => true)) [] rest x
    (by simp) hcx
  simp only [List.nil_append] at s1 s2 s3
  obtain ⟨x1, hx1, xa, xt, xl, xn⟩ := marked_last m r b row mux x rest h1 h7 hx hrest
  rw [hx1] at s2
  have hr1 : x1.address.rank = r := by rw [xa]; exact hr
  have hb1 : x1.address.bank = b := by rw [xa]; exact hb
  have hsub1 : x1.address.subarray = 0 := by rw [xa]; exact hsub
  have hh : RowHit m x1 := by
    unfold RowHit
    rw [hr1, hb1, hsub1, xa, hrow, hmux]
    exact ⟨o1, o2, o3, o4⟩
  obtain ⟨m2, c, hi, hf, hq, ho, hca, hplain, hlast⟩ := issue_hit m x1 hh (by rw [h1]; decide) h4
    hsub1
  rw [hr1, hb1] at hq ho
  rw [h9 r b, List.nil_append] at hq
  obtain ⟨d1, d2, d3, d4, d5⟩ := drained_round m m2 r b [c] hs hf hq ho
  have hstep : hitFirstStep m (x :: rest) = some (drain 1 m2, rest) := by
    unfold hitFirstStep
    have e1 : (FindRowBufferHit m (x :: rest) (fun _ => true)).rv = true := s1
    simp only [e1]
    show (match (FindRowBufferHit m (x :: rest) (fun _ => true)).request with
      | none => none
      | some req =>
        match IssueMemoryCommands m req with
        | none => none
        | some (_, m1, _) =>
          some (drain (m1.bankQueues req.address.rank req.address.bank).length m1,
            (FindRowBufferHit m (x :: rest) (fun _ => true)).transactionQueue)) = _
    unfold FindRowBufferHit
    have e2 : (selectFirst m (rowBufferHitCond m fun _ => true) (x :: rest)).request
        = some x1 := s2
    have e3 : (selectFirst m (rowBufferHitCond m fun _ => true) (x :: rest)).transactionQueue
        = rest := s3
    rw [e2, e3]
    simp only [hi, hr1, hb1, hq]
    rfl
  obtain ⟨_, _, _, q4, q5, q6, q7, _⟩ := d2
  refine ⟨_, c, hstep, d1, d3, d4, d5, by rw [hca]; exact hr1, by rw [hca]; exact hb1,
    ?_, ?_⟩
  · intro he
    obtain ⟨l1, l2, l3⟩ := hlast (xl he)
    rw [hr1, hb1] at l2
    rw [hr1, hb1, hsub1] at l3
    refine ⟨by rw [l1, xt, ht]; rfl, ?_, ?_⟩
    · show (drain [c].length m2).activateQueued r b = false
      rw [q4]; exact l2
    · show (drain [c].length m2).effectiveRow r b 0 = _
      rw [q6]; exact l3
  · intro he
    obtain ⟨l1, l2, l3, l4, l5⟩ := hplain (xn he)
    refine ⟨by rw [l1, xt, ht], ?_, ?_, ?_, ?_⟩
    · show (drain [c].length m2).activateQueued r b = true
      rw [q4, l2]; exact o1
    · show (drain [c].length m2).activeSubArray r b 0 = true
      rw [q5, l3]; exact o2
    · show (drain [c].length m2).effectiveRow r b 0 = _
      rw [q6, l4]; exact o3
    · show (drain [c].length m2).effectiveMuxedRow r b 0 = _
      rw [q7, l5]; exact o4

/-- The scenario's scheduler on the bank with the row open and `n` READs of
that row queued: `n` rounds hand `n - 1` READs and then one READ_PRECHARGE to
the downstream and leave the bank closed. -/
theorem hitFirstRun_open (r b row mux : Nat) (q : List NVMainRequest) :
    ∀ m : MemoryController, q ≠ [] → HitScenario m r b →
    (m.activateQueued r b = true ∧ m.activeSubArray r b 0 = true
      ∧ m.effectiveRow r b 0 = row ∧ m.effectiveMuxedRow r b 0 = mux) →
    (∀ y ∈ q, ScenarioRead m r b row mux y) →
    ∃ (m1 : MemoryController) (cs : List NVMainRequest),
      hitFirstRun q.length m q = some (m1, [])
      ∧ m1.childLog = m.childLog ++ cs.map ChildCall.IssueCommand
      ∧ cs.map (fun c => c.type)
          = List.replicate (q.length - 1) OpType.READ ++ [OpType.READ_PRECHARGE]
      ∧ (∀ c ∈ cs, c.address.rank = r ∧ c.address.bank = b)
      ∧ m1.activateQueued r b = false ∧ m1.effectiveRow r b 0 = m.p.ROWS := by
  induction q with
  | nil => intro m h; exact absurd rfl h
  | cons x rest ih =>
    intro m _ hs hopen hq
    obtain ⟨m1, c, hstep, hs1, hp, hfl, hlog, hcr, hcb, hlast, hplain⟩ :=
      hitFirstStep_open m r b row mux x rest hs hopen (hq x (by simp))
        (fun y hy => hq y (by simp [hy]))
    have hrun : hitFirstRun (x :: rest).length m (x :: rest) = hitFirstRun rest.length m1 rest := by
      show (match hitFirstStep m (x :: rest) with
        | none => none
        | some (m1, q1) => hitFirstRun rest.length m1 q1) = _
      rw [hstep]
    rw [hrun]
    by_cases he : rest = []
    · obtain ⟨l1, l2, l3⟩ := hlast he
      subst he
      refine ⟨m1, [c], rfl, by rw [hlog]; rfl, by simp [l1], ?_, l2, l3⟩
      intro y hy
      rw [List.mem_singleton.1 hy]
      exact ⟨hcr, hcb⟩
    · obtain ⟨l1, l2⟩ := hplain he
      obtain ⟨m2, cs, hr2, hlog2, hty, hadr, haq2, her2⟩ := ih m1 he hs1 l2
        (fun y hy => scenarioRead_congr m m1 r b row mux y hp hfl (hq y (by simp [hy])))
      refine ⟨m2, c :: cs, hr2, by rw [hlog2, hlog]; simp, ?_, ?_, haq2, by rw [her2, hp]⟩
      · have hlen : (x :: rest).length - 1 = (rest.length - 1) + 1 := by
          have : 0 < rest.length := List.length_pos.2 he
          simp only [List.length_cons]
          omega
        rw [hlen, List.replicate_succ, List.map_cons, hty, l1]
        rfl
      · intro y hy
        rcases List.mem_cons.1 hy with h | h
        · rw [h]; exact ⟨hcr, hcb⟩
        · exact hadr y h

/-- C24. Relaxed close-page run of hits. With `ClosePage = 1`, refresh and low
power off and a downstream that takes every command, let bank `(r, b)` have a
single sub-array and be closed, all command queues be empty, and the
transaction queue hold `n >= 1` READs to row `row` of that bank at one mux
level, none marked as last request. The scheduler that takes the result of
`FindRowBufferHit` if any and otherwise that of `FindClosedBankRequest`,
passes it to `IssueMemoryCommands` and lets the bank's command queue drain
before the next selection, run for `n` rounds, empties the transaction queue
and hands the downstream exactly these commands, all on bank `(r, b)`: one
ACTIVATE for row `row`, then `n - 1` READs, then one READ_PRECHARGE.
Afterwards `activateQueued[r][b]` is false and `effectiveRow[r][b][0]` is
`ROWS`. -/
theorem relaxed_close_page_run (m : MemoryController) (r b row mux : Nat)
    (q : List NVMainRequest) (hs : HitScenario m r b)
    (hclosed : m.activateQueued r b = false) (hne : q ≠ [])
    (hq : ∀ y ∈ q, ScenarioRead m r b row mux y) :
    ∃ (m1 : MemoryController) (a : NVMainRequest) (cs : List NVMainRequest),
      hitFirstRun q.length m q = some (m1, [])
      ∧ m1.childLog = m.childLog ++ (a :: cs).map ChildCall.IssueCommand
      ∧ a.type = OpType.ACTIVATE ∧ a.address.row = row
      ∧ cs.map (fun c => c.type)
          = List.replicate (q.length - 1) OpType.READ ++ [OpType.READ_PRECHARGE]
      ∧ (∀ c ∈ a :: cs, c.address.rank = r ∧ c.address.bank = b)
      ∧ m1.activateQueued r b = false ∧ m1.effectiveRow r b 0 = m.p.ROWS := by
  cases q with
  | nil => exact absurd rfl hne
  | cons x rest =>
    obtain ⟨m1, a, c, hstep, hs1, hp, hfl, hlog, hat, har, hak, hab, hcr, hcb, hlast, hplain⟩ :=
      hitFirstStep_closed m r b row mux x rest hs hclosed (hq x (by simp))
        (fun y hy => hq y (by simp [hy]))
    have hrun : hitFirstRun (x :: rest).length m (x :: rest)
        = hitFirstRun rest.length m1 rest := by
      show (match hitFirstStep m (x :: rest) with
        | none => none
        | some (m1, q1) => hitFirstRun rest.length m1 q1) = _
      rw [hstep]
    rw [hrun]
    by_cases he : rest = []
    · obtain ⟨l1, l2, l3⟩ := hlast he
      subst he
      refine ⟨m1, a, [c], rfl, by rw [hlog]; rfl, hat, har, by simp [l1], ?_, l2, l3⟩
      intro y hy
      rcases List.mem_cons.1 hy with h | h
      · rw [h]; exact ⟨hak, hab⟩
      · rw [List.mem_singleton.1 h]; exact ⟨hcr, hcb⟩
    · obtain ⟨l1, l2⟩ := hplain he
      obtain ⟨m2, cs, hr2, hlog2, hty, hadr, haq2, her2⟩ :=
        hitFirstRun_open r b row mux rest m1 he hs1 l2
          (fun y hy => scenarioRead_congr m m1 r b row mux y hp hfl (hq y (by simp [hy])))
      refine ⟨m2, a, c :: cs, hr2, by rw [hlog2, hlog]; simp, hat, har, ?_, ?_, haq2,
        by rw [her2, hp]⟩
      · have hlen : (x :: rest).length - 1 = (rest.length - 1) + 1 := by
          have : 0 < rest.length := List.length_pos.2 he
          simp only [List.length_cons]
          omega
        rw [hlen, List.replicate_succ, List.map_cons, hty, l1]
        rfl
      · intro y hy
        rcases List.mem_cons.1 hy with h | h
        · rw [h]; exact ⟨hak, hab⟩
        · rcases List.mem_cons.1 h with h | h
          · rw [h]; exact ⟨hcr, hcb⟩
          · exact hadr y h

/-- C24 at the sample input of the scenario: three READs to row 5 of the
closed bank (0, 1) give ACTIVATE row 5, READ, READ, READ_PRECHARGE. -/
theorem relaxed_close_page_run_witness :
    HitScenario singleSubArrayController 0 1
    ∧ singleSubArrayController.activateQueued 0 1 = false
    ∧ ∃ (m1 : MemoryController) (a : NVMainRequest) (cs : List NVMainRequest),
        hitFirstRun 3 singleSubArrayController
          [mkReq OpType.READ 5 0 1 0 0 3 0, mkReq OpType.READ 5 1 1 0 0 4 0,
            mkReq OpType.READ 5 2 1 0 0 5 0] = some (m1, [])
        ∧ m1.childLog = (a :: cs).map ChildCall.IssueCommand
        ∧ a.type = OpType.ACTIVATE ∧ a.address.row = 5
        ∧ cs.map (fun c => c.type) = [OpType.READ, OpType.READ, OpType.READ_PRECHARGE]
        ∧ m1.activateQueued 0 1 = false ∧ m1.effectiveRow 0 1 0 = 16 := by
  have hs : HitScenario singleSubArrayController 0 1 :=
    ⟨rfl, rfl, rfl, rfl, by decide, by decide, by decide, rfl, fun _ _ => rfl,
      fun _ => rfl, fun _ _ => rfl⟩
  refine ⟨hs, rfl, ?_⟩
  obtain ⟨m1, a, cs, h1, h2, h3, h4, h5, _, h7, h8⟩ :=
    relaxed_close_page_run singleSubArrayController 0 1 5 0
      [mkReq OpType.READ 5 0 1 0 0 3 0, mkReq OpType.READ 5 1 1 0 0 4 0,
        mkReq OpType.READ 5 2 1 0 0 5 0] hs rfl (by simp)
      (by
        intro y hy
        simp only [List.mem_cons, List.mem_singleton, List.not_mem_nil, or_false] at hy
        rcases hy with h | h | h <;> rw [h] <;>
          exact ⟨rfl, rfl, rfl, rfl, rfl, by decide, by decide⟩)
  exact ⟨m1, a, cs, h1, h2, h3, h4, h5, h7, h8⟩

/-! ## SetOrder and the order array -/

/-- C33. `SetOrder` duplicate detection. For all five integer orders, the
call adds the line "Translation Method: Orders are not unique!" to what has
been written if at least two of the five orders are equal (the list of the
five has a duplicate), and writes nothing if the five are pairwise different;
so the line is the last thing written exactly in the first case. -/
theorem SetOrder_duplicate_detection (t : TranslationMethod)
    (row col bank rank channel : Int) :
    (¬[row, col, bank, rank, channel].Nodup →
      (t.SetOrder row col bank rank channel).output = t.output ++ [Message.ordersNotUnique])
    ∧ ([row, col, bank, rank, channel].Nodup →
      (t.SetOrder row col bank rank channel).output = t.output)
    ∧ ((t.SetOrder row col bank rank channel).output = t.output ++ [Message.ordersNotUnique]
        ↔ ¬[row, col, bank, rank, channel].Nodup) := by
  have hiff : [row, col, bank, rank, channel].Nodup
      ↔ ¬(row = col ∨ row = bank ∨ row = rank ∨ row = channel
          ∨ col = bank ∨ col = rank ∨ col = channel
          ∨ bank = rank ∨ bank = channel ∨ rank = channel) := by
    simp only [List.nodup_cons, List.mem_cons, List.mem_singleton, List.not_mem_nil,
      List.nodup_nil, not_or, and_true, not_false_eq_true]
    tauto
  by_cases h : [row, col, bank, rank, channel].Nodup
  · have hn := hiff.1 h
    have ho : (t.SetOrder row col bank rank channel).output = t.output := by
      unfold TranslationMethod.SetOrder
      simp only [if_neg hn]
    refine ⟨fun hc => absurd h hc, fun _ => ho, ?_⟩
    rw [ho]
    constructor
    · intro he
      have := congrArg List.length he
      simp at this
    · intro hc
      exact absurd h hc
  · have hn : row = col ∨ row = bank ∨ row = rank ∨ row = channel
          ∨ col = bank ∨ col = rank ∨ col = channel
          ∨ bank = rank ∨ bank = channel ∨ rank = channel := by
      by_contra hc
      exact h (hiff.2 hc)
    have ho : (t.SetOrder row col bank rank channel).output
        = t.output ++ [Message.ordersNotUnique] := by
      unfold TranslationMethod.SetOrder
      simp only [if_pos hn]
    exact ⟨fun _ => ho, fun hc => absurd hc h, fun _ => h, fun _ => ho⟩

/-- The locals of `SetAddressMappingScheme` after its loop on the scheme of
the five tags in some order: the tag at position `k` (from 0) holds `5 - k`,
and nothing has been written. -/
theorem parse_schemeOf (output : List Message) (ts : List FieldTag)
    (hperm : ts.Perm [FieldTag.R, FieldTag.C, FieldTag.BK, FieldTag.RK, FieldTag.CH]) :
    ∃ st, SetAddressMappingScheme.parse output (schemeOf ts) = some st
      ∧ (∀ k (hk : k < ts.length), st.value (ts.get ⟨k, hk⟩) = 5 - (k : Int))
      ∧ st.output = output := by
  have hlen : ts.length = 5 := by
    have := hperm.length_eq
    simpa using this
  have hne : ts ≠ [] := by
    intro h
    rw [h] at hlen
    exact absurd hlen (by decide)
  have hnd : ts.Nodup := hperm.symm.nodup_iff.1 (by decide)
  have hsum : (ts.map fun t => t.name.length + 1).sum = 13 := by
    rw [(hperm.map _).sum_eq]
    rfl
  have hsl : (schemeOf ts).length = 12 := by
    have := schemeOf_length ts hne
    omega
  have htw : (schemeOf ts).takeWhile (fun c => decide (c ≠ Char.ofNat 0)) = schemeOf ts := by
    rw [List.takeWhile_eq_self_iff]
    intro c hc
    simpa using schemeOf_no_nul ts c hc
  have hparse : SetAddressMappingScheme.parse output (schemeOf ts)
      = some ((ts.map FieldTag.name).foldl (SetAddressMappingScheme.token (schemeOf ts))
          { row := 0, col := 0, bank := 0, rank := 0, channel := 0, currentOrder := 5,
            output := output }) := by
    unfold SetAddressMappingScheme.parse
    simp only []
    rw [htw, if_neg (by rw [hsl]; decide), strtokAll_schemeOf]
  obtain ⟨_, f2, _, f4⟩ := tokens_fold (schemeOf ts) ts hnd
    { row := 0, col := 0, bank := 0, rank := 0, channel := 0, currentOrder := 5,
      output := output }
  exact ⟨_, hparse, fun k hk => f2 k hk, f4 (by rw [hlen]; exact le_refl (5 : Int))⟩

/-- The order array after `SetAddressMappingScheme`: what `SetOrder` stores
for the locals the loop has left. -/
theorem SetAddressMappingScheme_order (t t1 : TranslationMethod) (scheme : List Char)
    (st : SchemeState) (hp : SetAddressMappingScheme.parse t.output scheme = some st)
    (h : t.SetAddressMappingScheme scheme = some t1) :
    (∀ u : FieldTag, t1.order u.partition = st.value u - 1)
    ∧ t1.output = ({ t with output := st.output }.SetOrder st.row st.col st.bank st.rank
        st.channel).output ++ [Message.mappingOrder st.row st.col st.bank st.rank st.channel] := by
  unfold TranslationMethod.SetAddressMappingScheme at h
  rw [hp] at h
  simp only [Option.some.injEq] at h
  subst h
  refine ⟨fun u => ?_, rfl⟩
  cases u <;> rfl

/-- C31 (as amended). For a scheme that is the five tags R, C, BK, RK, CH in
some order, `SetAddressMappingScheme` returns, and the order array it leaves
holds `order - 1` for each field: the field named by the tag at position `k`
(from 0) has `4 - k`. The five values that `GetOrder` writes are a
permutation of 0, 1, 2, 3, 4. -/
theorem SetAddressMappingScheme_order_array (t : TranslationMethod) (ts : List FieldTag)
    (hperm : ts.Perm [FieldTag.R, FieldTag.C, FieldTag.BK, FieldTag.RK, FieldTag.CH]) :
    ∃ t1, t.SetAddressMappingScheme (schemeOf ts) = some t1
      ∧ (∀ k (hk : k < ts.length), t1.order (ts.get ⟨k, hk⟩).partition = 4 - (k : Int))
      ∧ t1.orders.Perm [0, 1, 2, 3, 4] := by
  obtain ⟨st, hp, hv, _⟩ := parse_schemeOf t.output ts hperm
  have hsome : ∃ t1, t.SetAddressMappingScheme (schemeOf ts) = some t1 := by
    unfold TranslationMethod.SetAddressMappingScheme
    rw [hp]
    exact ⟨_, rfl⟩
  obtain ⟨t1, h1⟩ := hsome
  obtain ⟨ho, _⟩ := SetAddressMappingScheme_order t t1 (schemeOf ts) st hp h1
  have hk : ∀ k (hk : k < ts.length), t1.order (ts.get ⟨k, hk⟩).partition = 4 - (k : Int) := by
    intro k hk
    rw [ho, hv k hk]
    omega
  refine ⟨t1, h1, hk, ?_⟩
  have hlen : ts.length = 5 := by
    have := hperm.length_eq
    simpa using this
  have horders : t1.orders
      = [FieldTag.R, FieldTag.C, FieldTag.BK, FieldTag.RK, FieldTag.CH].map
          (fun u => t1.order u.partition) := rfl
  have hmap : ts.map (fun u => t1.order u.partition) = [4, 3, 2, 1, 0] := by
    match ts, hlen, hk with
    | [a, b, c, d, e], _, hk =>
      have h0 := hk 0 (by simp)
      have h1 := hk 1 (by simp)
      have h2 := hk 2 (by simp)
      have h3 := hk 3 (by simp)
      have h4 := hk 4 (by simp)
      simp only [List.get_eq_getElem, List.getElem_cons_zero, List.getElem_cons_succ] at h0 h1 h2 h3 h4
      simp only [List.map_cons, List.map_nil, h0, h1, h2, h3, h4]
      norm_num
  rw [horders]
  refine ((hperm.map _).symm.trans ?_)
  rw [hmap]
  decide

/-- C31, counterexample: after `SetAddressMappingScheme( "R:RK:BK:CH:C" )` on
a constructed translation method, `GetOrder` writes row 4, column 0, bank 2,
rank 3, channel 1, which is not a permutation of 1, 2, 3, 4, 5. -/
theorem SetAddressMappingScheme_order_array_zero_based :
    ∃ t1, blankTranslationMethod.construct.SetAddressMappingScheme "R:RK:BK:CH:C".toList
        = some t1
      ∧ t1.GetOrder = (4, 0, 2, 3, 1)
      ∧ ¬t1.orders.Perm [1, 2, 3, 4, 5] :=
  ⟨_, rfl, rfl, by decide⟩

theorem SetAddressMappingScheme_order_array_witness :
    ∃ t1, blankTranslationMethod.SetAddressMappingScheme "BK:R:CH:C:RK".toList = some t1
      ∧ t1.order MemoryPartition.MEM_BANK = 4 ∧ t1.order MemoryPartition.MEM_RANK = 0
      ∧ t1.orders.Perm [0, 1, 2, 3, 4] := by
  obtain ⟨t1, h1, h2, h3⟩ := SetAddressMappingScheme_order_array blankTranslationMethod
    [FieldTag.BK, FieldTag.R, FieldTag.CH, FieldTag.C, FieldTag.RK] (by decide)
  exact ⟨t1, h1, h2 0 (by decide), h2 4 (by decide), h3⟩

/-- The body of the loop of `SetAddressMappingScheme` on any token: what had
been written stays, the current order goes down by 1, a token that is no tag
gets the "unrecognized" message, and a current order that gets below 0 gets
the "invalid" message. -/
theorem token_reports (scheme : List Char) (st : SchemeState) (tok : List Char) :
    st.output <+: (SetAddressMappingScheme.token scheme st tok).output
    ∧ (SetAddressMappingScheme.token scheme st tok).currentOrder = st.currentOrder - 1
    ∧ ((∀ u : FieldTag, tok ≠ u.name) →
        Message.unrecognizedScheme scheme ∈ (SetAddressMappingScheme.token scheme st tok).output)
    ∧ (st.currentOrder - 1 < 0 →
        Message.invalidScheme scheme ∈ (SetAddressMappingScheme.token scheme st tok).output) := by
  by_cases hu : ∃ u : FieldTag, tok = u.name
  · obtain ⟨u, rfl⟩ := hu
    obtain ⟨_, c1, o1⟩ := token_name scheme st u
    refine ⟨?_, c1, fun hc => absurd rfl (hc u), fun h => ?_⟩
    · rw [o1]
      split
      · exact List.prefix_append _ _
      · exact List.prefix_refl _
    · rw [o1, if_pos h]
      simp
  · have h1 : ¬tok = "R".toList := fun h => hu ⟨FieldTag.R, h⟩
    have h2 : ¬tok = "C".toList := fun h => hu ⟨FieldTag.C, h⟩
    have h3 : ¬tok = "BK".toList := fun h => hu ⟨FieldTag.BK, h⟩
    have h4 : ¬tok = "RK".toList := fun h => hu ⟨FieldTag.RK, h⟩
    have h5 : ¬tok = "CH".toList := fun h => hu ⟨FieldTag.CH, h⟩
    by_cases h : st.currentOrder - 1 < 0
    · have e : SetAddressMappingScheme.token scheme st tok
          = { st with
              currentOrder := st.currentOrder - 1
              output := st.output ++ [Message.unrecognizedScheme scheme]
                ++ [Message.invalidScheme scheme] } := by
        unfold SetAddressMappingScheme.token
        simp only [if_neg h1, if_neg h2, if_neg h3, if_neg h4, if_neg h5, if_pos h]
      rw [e]
      refine ⟨?_, rfl, fun _ => by simp, fun _ => by simp⟩
      rw [List.append_assoc]
      exact List.prefix_append _ _
    · have e : SetAddressMappingScheme.token scheme st tok
          = { st with
              currentOrder := st.currentOrder - 1
              output := st.output ++ [Message.unrecognizedScheme scheme] } := by
        unfold SetAddressMappingScheme.token
        simp only [if_neg h1, if_neg h2, if_neg h3, if_neg h4, if_neg h5, if_neg h]
      rw [e]
      exact ⟨List.prefix_append _ _, rfl, fun _ => by simp, fun hc => absurd hc h⟩

/-- The loop of `SetAddressMappingScheme` over any tokens: what had been
written stays, the current order goes down by the number of tokens, a token
that is no tag leaves the "unrecognized" message, and more tokens than a
current order of 0 or more leave the "invalid" message. -/
theorem tokens_report (scheme : List Char) (toks : List (List Char)) :
    ∀ st : SchemeState,
      st.output <+: (toks.foldl (SetAddressMappingScheme.token scheme) st).output
      ∧ (toks.foldl (SetAddressMappingScheme.token scheme) st).currentOrder
          = st.currentOrder - toks.length
      ∧ ((∃ tok ∈ toks, ∀ u : FieldTag, tok ≠ u.name) →
          Message.unrecognizedScheme scheme
            ∈ (toks.foldl (SetAddressMappingScheme.token scheme) st).output)
      ∧ (0 ≤ st.currentOrder → st.currentOrder < toks.length →
          Message.invalidScheme scheme
            ∈ (toks.foldl (SetAddressMappingScheme.token scheme) st).output) := by
  induction toks with
  | nil =>
    intro st
    refine ⟨List.prefix_refl _, by simp, ?_, ?_⟩
    · rintro ⟨tok, hm, _⟩
      exact absurd hm (List.not_mem_nil _)
    · intro h0 h
      simp only [List.length_nil, Nat.cast_zero] at h
      omega
  | cons tok rest ih =>
    intro st
    obtain ⟨p1, c1, u1, i1⟩ := token_reports scheme st tok
    obtain ⟨p2, c2, u2, i2⟩ := ih (SetAddressMappingScheme.token scheme st tok)
    simp only [List.foldl_cons]
    refine ⟨p1.trans p2, ?_, ?_, ?_⟩
    · rw [c2, c1]
      simp only [List.length_cons, Nat.cast_add, Nat.cast_one]
      omega
    · rintro ⟨x, hx, hn⟩
      rcases List.mem_cons.1 hx with h | h
      · subst h
        exact p2.subset (u1 hn)
      · exact u2 ⟨x, h, hn⟩
    · intro h0 h
      simp only [List.length_cons, Nat.cast_add, Nat.cast_one] at h
      by_cases hc : st.currentOrder - 1 < 0
      · exact p2.subset (i1 hc)
      · exact i2 (by rw [c1]; omega) (by rw [c1]; omega)

/-- C32, at a failing input and beside what holds. The scheme "R:C:BK:RK" has
four tokens, all of them tags: `SetAddressMappingScheme` on a constructed
translation method returns having written nothing but the report of the
mapping order (row 5, column 4, bank 3, rank 2, channel 0), and leaves -1 as
the order of the channel field. What the code does report: a scheme that fits
the buffer and has a token that is no tag gets the "unrecognized" message, and
one with more than five tokens gets the "invalid" message. -/
theorem SetAddressMappingScheme_short_scheme_unreported :
    (∃ t1, blankTranslationMethod.construct.SetAddressMappingScheme "R:C:BK:RK".toList
          = some t1
        ∧ t1.output = [Message.mappingOrder 5 4 3 2 0]
        ∧ t1.order MemoryPartition.MEM_CHANNEL = -1)
    ∧ (∀ (output : List Message) (scheme : List Char) (st : SchemeState),
        SetAddressMappingScheme.parse output scheme = some st →
        ((∃ tok ∈ strtokAll ':' (scheme.takeWhile fun c => c ≠ Char.ofNat 0) [],
            ∀ u : FieldTag, tok ≠ u.name) →
          Message.unrecognizedScheme scheme ∈ st.output)
        ∧ (5 < (strtokAll ':' (scheme.takeWhile fun c => c ≠ Char.ofNat 0) []).length →
          Message.invalidScheme scheme ∈ st.output)) := by
  refine ⟨⟨_, rfl, rfl, rfl⟩, fun output scheme st h => ?_⟩
  unfold SetAddressMappingScheme.parse at h
  simp only [] at h
  split at h
  · exact Option.noConfusion h
  · rw [← Option.some.inj h]
    obtain ⟨_, _, hu, hi⟩ := tokens_report scheme
      (strtokAll ':' (scheme.takeWhile fun c => c ≠ Char.ofNat 0) [])
      { row := 0, col := 0, bank := 0, rank := 0, channel := 0, currentOrder := 5,
        output := output }
    refine ⟨hu, fun hlen => hi (by show (0 : Int) ≤ 5; decide) ?_⟩
    show (5 : Int) < _
    exact_mod_cast hlen

/-! ## The overload of FindStarvedRequests without predicate -/

/-- C35, at every input. The overload of `FindStarvedRequests` without a
predicate calls itself with the arguments it was given: to whatever depth the
calls are followed, none has returned, on any transaction queue and output
vector. The overload with a predicate, called with the always-true
`DummyPredicate` on the empty queue, returns false with the output vector and
the queue as they were. -/
theorem FindStarvedRequests_withoutPred_never_returns (m : MemoryController)
    (transactionQueue starvedRequests : List NVMainRequest) :
    (∀ fuel, FindStarvedRequests.withoutPred m fuel transactionQueue starvedRequests = none)
    ∧ FindStarvedRequests m [] starvedRequests DummyPredicate
        = FindAllOutcome.returned false starvedRequests [] := by
  refine ⟨fun fuel => ?_, rfl⟩
  induction fuel with
  | zero => rfl
  | succ n ih => exact ih

/-! ## SetConfig: how the first pulses are staggered -/

theorem stagger_index (ranks n i j : Nat) (hi : i < ranks) (hj : j < n) :
    i * n + j < ranks * n := by
  have h1 : i * n + j < (i + 1) * n := by
    rw [Nat.add_mul, Nat.one_mul]
    omega
  exact Nat.lt_of_lt_of_le h1 (Nat.mul_le_mul_right n hi)

theorem stagger_lex (n i1 j1 i2 j2 : Nat) (hj1 : j1 < n)
    (h : i1 < i2 ∨ (i1 = i2 ∧ j1 < j2)) : i1 * n + j1 < i2 * n + j2 := by
  rcases h with h | ⟨rfl, h⟩
  · have h1 : i1 * n + j1 < (i1 + 1) * n := by
      rw [Nat.add_mul, Nat.one_mul]
      omega
    have h2 : (i1 + 1) * n ≤ i2 * n := Nat.mul_le_mul_right n h
    omega
  · omega

theorem stagger_offset (tREFI ranks n i j : Nat) (ht : 0 < tREFI) (hi : i < ranks)
    (hj : j < n) : (i * n + j) * (tREFI / (ranks * n)) < tREFI := by
  have hk := stagger_index ranks n i j hi hj
  rcases Nat.eq_zero_or_pos (tREFI / (ranks * n)) with h0 | hpos
  · rw [h0, Nat.mul_zero]
    exact ht
  · exact Nat.lt_of_lt_of_le (Nat.mul_lt_mul_of_pos_right hk hpos)
      (Nat.mul_div_le tREFI (ranks * n))

/-- C39. The first refresh pulses are staggered inside one refresh interval.
After a `SetConfig` with refresh enabled, the events handed to the event
queue are, rank by rank and group by group, the pulses of ranks `i < RANKS`
and groups `j < m_refreshBankNum`; if `tREFI` is positive, the offset
`(i * m_refreshBankNum + j) * refreshSlice` of each, with
`refreshSlice = tREFI / (RANKS * m_refreshBankNum)` in integer division, is
below `tREFI`, so the pulse is due in `[now + tREFI, now + 2 * tREFI)`; and if
`refreshSlice` is positive, the pulse of `(i1, j1)` is due strictly before
that of `(i2, j2)` whenever `(i1, j1)` comes before `(i2, j2)` in
lexicographic order, so the times of distinct pairs are distinct. -/
theorem SetConfig_pulse_stagger (m : MemoryController) (conf : Params) (hasMATHeight : Bool)
    (init : MemoryController) (h : SetConfig m conf hasMATHeight = some init)
    (hu : conf.UseRefresh = true) (ht : 0 < init.m_tREFI) :
    init.eventQueue = m.eventQueue
        ++ (List.range init.p.RANKS).flatMap (fun i =>
            (List.range init.m_refreshBankNum).map (fun j => SetConfig.pulseEvent i j init))
    ∧ init.currentCycle = m.currentCycle
    ∧ (∀ i j, i < init.p.RANKS → j < init.m_refreshBankNum →
        (i * init.m_refreshBankNum + j)
            * (init.m_tREFI / (init.p.RANKS * init.m_refreshBankNum)) < init.m_tREFI
        ∧ (SetConfig.pulseEvent i j init).cycle
            = init.currentCycle + init.m_tREFI
              + (i * init.m_refreshBankNum + j)
                * (init.m_tREFI / (init.p.RANKS * init.m_refreshBankNum))
        ∧ init.currentCycle + init.m_tREFI ≤ (SetConfig.pulseEvent i j init).cycle
        ∧ (SetConfig.pulseEvent i j init).cycle < init.currentCycle + 2 * init.m_tREFI)
    ∧ (0 < init.m_tREFI / (init.p.RANKS * init.m_refreshBankNum) →
        (∀ i1 j1 i2 j2, j1 < init.m_refreshBankNum → j2 < init.m_refreshBankNum →
          (i1 < i2 ∨ (i1 = i2 ∧ j1 < j2)) →
          (SetConfig.pulseEvent i1 j1 init).cycle < (SetConfig.pulseEvent i2 j2 init).cycle)
        ∧ (∀ i1 j1 i2 j2, j1 < init.m_refreshBankNum → j2 < init.m_refreshBankNum →
          (i1, j1) ≠ (i2, j2) →
          (SetConfig.pulseEvent i1 j1 init).cycle ≠ (SetConfig.pulseEvent i2 j2 init).cycle)) := by
  have hev : init.eventQueue = m.eventQueue
        ++ (List.range init.p.RANKS).flatMap (fun i =>
            (List.range init.m_refreshBankNum).map (fun j => SetConfig.pulseEvent i j init))
      ∧ init.currentCycle = m.currentCycle := by
    unfold SetConfig at h
    have hu1 : (SetConfig.arrays m conf hasMATHeight).p.UseRefresh = true := hu
    rw [if_pos hu1] at h
    split at h
    · exact Option.noConfusion h
    · split at h
      · exact Option.noConfusion h
      · simp only [] at h
        rw [pulses_outer_exact] at h
        rw [← Option.some.inj h]
        exact ⟨rfl, rfl⟩
  have hlt : ∀ i1 j1 i2 j2, j1 < init.m_refreshBankNum →
      0 < init.m_tREFI / (init.p.RANKS * init.m_refreshBankNum) →
      (i1 < i2 ∨ (i1 = i2 ∧ j1 < j2)) →
      (SetConfig.pulseEvent i1 j1 init).cycle < (SetConfig.pulseEvent i2 j2 init).cycle := by
    intro i1 j1 i2 j2 hj1 hs hlex
    have hk := stagger_lex init.m_refreshBankNum i1 j1 i2 j2 hj1 hlex
    have := Nat.mul_lt_mul_of_pos_right hk hs
    show init.currentCycle + init.m_tREFI + _ < init.currentCycle + init.m_tREFI + _
    omega
  refine ⟨hev.1, hev.2, fun i j hi hj => ?_, fun hs => ⟨fun i1 j1 i2 j2 hj1 _ hlex =>
    hlt i1 j1 i2 j2 hj1 hs hlex, fun i1 j1 i2 j2 hj1 hj2 hne => ?_⟩⟩
  · have hoff := stagger_offset init.m_tREFI init.p.RANKS init.m_refreshBankNum i j ht hi hj
    refine ⟨hoff, rfl, ?_, ?_⟩
    · show init.currentCycle + init.m_tREFI ≤ init.currentCycle + init.m_tREFI + _
      omega
    · show init.currentCycle + init.m_tREFI + _ < _
      omega
  · have hcases : (i1 < i2 ∨ (i1 = i2 ∧ j1 < j2)) ∨ (i2 < i1 ∨ (i2 = i1 ∧ j2 < j1)) := by
      rcases Nat.lt_trichotomy i1 i2 with h1 | h1 | h1
      · exact Or.inl (Or.inl h1)
      · rcases Nat.lt_trichotomy j1 j2 with h2 | h2 | h2
        · exact Or.inl (Or.inr ⟨h1, h2⟩)
        · exact absurd (by rw [h1, h2]) hne
        · exact Or.inr (Or.inr ⟨h1.symm, h2⟩)
      · exact Or.inr (Or.inl h1)
    rcases hcases with hc | hc
    · exact Nat.ne_of_lt (hlt i1 j1 i2 j2 hj1 hs hc)
    · exact (Nat.ne_of_lt (hlt i2 j2 i1 j1 hj2 hs hc)).symm

theorem SetConfig_pulse_stagger_witness :
    ∃ init, SetConfig (closedController 1).construct (refreshParams 1) true = some init
      ∧ init.m_tREFI = 16
      ∧ (SetConfig.pulseEvent 0 0 init).cycle = 7 + 16
      ∧ (SetConfig.pulseEvent 1 3 init).cycle = 7 + 16 + 14
      ∧ (SetConfig.pulseEvent 1 3 init).cycle < 7 + 2 * 16
      ∧ (SetConfig.pulseEvent 0 3 init).cycle < (SetConfig.pulseEvent 1 0 init).cycle := by
  have h := SetConfig_pulse_stagger (closedController 1).construct (refreshParams 1) true _
    rfl rfl (by decide)
  exact ⟨_, rfl, rfl, rfl, rfl, (h.2.2.1 1 3 (by decide) (by decide)).2.2.2,
    (h.2.2.2 (by decide)).1 0 3 1 0 (by decide) (by decide) (Or.inl (by decide))⟩

/-! ## MoveRankBank: round-robin coverage -/

/-- One step of a two-digit counter with digits `a < R` (low) and `b < B`
(high): the number `b * R + a` goes up by 1 modulo `B * R`. -/
theorem odometer_step (R B a b : Nat) (ha : a < R) (hb : b < B) :
    (a + 1 = R → (b + 1) % B < B ∧ (b + 1) % B * R + 0 = (b * R + a + 1) % (B * R))
    ∧ (a + 1 ≠ R → a + 1 < R ∧ b * R + (a + 1) = (b * R + a + 1) % (B * R)) := by
  have hB : 0 < B := by omega
  constructor
  · intro h
    refine ⟨Nat.mod_lt _ hB, ?_⟩
    have e : b * R + a + 1 = (b + 1) * R := by
      rw [Nat.add_mul, Nat.one_mul]
      omega
    rw [e, Nat.mul_mod_mul_right, Nat.add_zero]
  · intro h
    have h1 : a + 1 < R := by omega
    refine ⟨h1, ?_⟩
    have h2 : b * R + a + 1 < B * R := by
      have : (b + 1) * R ≤ B * R := Nat.mul_le_mul_right R hb
      rw [Nat.add_mul, Nat.one_mul] at this
      omega
    rw [Nat.mod_eq_of_lt h2]
    omega

theorem digits_unique (R a1 b1 a2 b2 : Nat) (h1 : a1 < R) (h2 : a2 < R)
    (h : b1 * R + a1 = b2 * R + a2) : a1 = a2 ∧ b1 = b2 := by
  have ha : a1 = a2 := by
    have e1 : (b1 * R + a1) % R = a1 := by
      rw [Nat.add_comm, Nat.add_mul_mod_self_right, Nat.mod_eq_of_lt h1]
    have e2 : (b2 * R + a2) % R = a2 := by
      rw [Nat.add_comm, Nat.add_mul_mod_self_right, Nat.mod_eq_of_lt h2]
    rw [← e1, ← e2, h]
  refine ⟨ha, ?_⟩
  subst ha
  have hR : 0 < R := by omega
  have : b1 * R = b2 * R := by omega
  exact Nat.eq_of_mul_eq_mul_right hR this

theorem offset_unique (c n k1 k2 : Nat) (h1 : k1 < n) (h2 : k2 < n)
    (h : (c + k1) % n = (c + k2) % n) : k1 = k2 := by
  have hm : c + k1 ≡ c + k2 [MOD n] := h
  have := Nat.ModEq.add_left_cancel' c hm
  have e : k1 % n = k2 % n := this
  rwa [Nat.mod_eq_of_lt h1, Nat.mod_eq_of_lt h2] at e

/-- A two-digit counter that goes up by 1 modulo `B * R` at each step passes,
in `B * R` steps, through every pair of digits exactly once and is back where
it started. -/
theorem odometer_coverage (R B c : Nat) (a b : Nat → Nat)
    (ha : ∀ k, a k < R)
    (hidx : ∀ k, b k * R + a k = (c + k) % (B * R)) :
    (a (B * R) = a 0 ∧ b (B * R) = b 0)
    ∧ ∀ x y, x < R → y < B → ∃! k, k < B * R ∧ a k = x ∧ b k = y := by
  constructor
  · have h0 := hidx 0
    have hN := hidx (B * R)
    rw [Nat.add_mod_right] at hN
    rw [Nat.add_zero] at h0
    exact digits_unique R _ _ _ _ (ha _) (ha _) (hN.trans h0.symm)
  · intro x y hx hy
    have ht : y * R + x < B * R := stagger_index B R y x hy hx
    obtain ⟨k, hk, hkt⟩ := exists_offset c (y * R + x) (B * R) ht
    have hd := digits_unique R _ _ _ _ (ha k) hx ((hidx k).trans hkt)
    refine ⟨k, ⟨hk, hd.1, hd.2⟩, ?_⟩
    rintro k2 ⟨hk2, hx2, hy2⟩
    apply offset_unique c (B * R) k2 k hk2 hk
    rw [← hidx k2, ← hidx k, hx2, hy2, hd.1, hd.2]

/-- One call of `MoveRankBank` under rank-first round-robin. -/
theorem MoveRankBank_rankFirst (m : MemoryController) (hs : m.p.ScheduleScheme = 1)
    (hr : m.curRank < m.p.RANKS) (hb : m.curBank < m.p.BANKS) :
    (MoveRankBank m).p = m.p
    ∧ (MoveRankBank m).curRank < m.p.RANKS ∧ (MoveRankBank m).curBank < m.p.BANKS
    ∧ (MoveRankBank m).curBank * m.p.RANKS + (MoveRankBank m).curRank
        = (m.curBank * m.p.RANKS + m.curRank + 1) % (m.p.BANKS * m.p.RANKS) := by
  obtain ⟨h1, h2⟩ := odometer_step m.p.RANKS m.p.BANKS m.curRank m.curBank hr hb
  by_cases hw : m.curRank + 1 = m.p.RANKS
  · have e : (MoveRankBank m).p = m.p ∧ (MoveRankBank m).curRank = 0
        ∧ (MoveRankBank m).curBank = (m.curBank + 1) % m.p.BANKS := by
      simp [MoveRankBank, hs, hw]
    obtain ⟨e1, e2, e3⟩ := e
    rw [e2, e3]
    exact ⟨e1, by omega, (h1 hw).1, (h1 hw).2⟩
  · have e : (MoveRankBank m).p = m.p ∧ (MoveRankBank m).curRank = m.curRank + 1
        ∧ (MoveRankBank m).curBank = m.curBank := by
      simp [MoveRankBank, hs, hw]
    obtain ⟨e1, e2, e3⟩ := e
    rw [e2, e3]
    exact ⟨e1, (h2 hw).1, hb, (h2 hw).2⟩

/-- One call of `MoveRankBank` under bank-first round-robin. -/
theorem MoveRankBank_bankFirst (m : MemoryController) (hs : m.p.ScheduleScheme = 2)
    (hr : m.curRank < m.p.RANKS) (hb : m.curBank < m.p.BANKS) :
    (MoveRankBank m).p = m.p
    ∧ (MoveRankBank m).curRank < m.p.RANKS ∧ (MoveRankBank m).curBank < m.p.BANKS
    ∧ (MoveRankBank m).curRank * m.p.BANKS + (MoveRankBank m).curBank
        = (m.curRank * m.p.BANKS + m.curBank + 1) % (m.p.RANKS * m.p.BANKS) := by
  obtain ⟨h1, h2⟩ := odometer_step m.p.BANKS m.p.RANKS m.curBank m.curRank hb hr
  by_cases hw : m.curBank + 1 = m.p.BANKS
  · have e : (MoveRankBank m).p = m.p ∧ (MoveRankBank m).curBank = 0
        ∧ (MoveRankBank m).curRank = (m.curRank + 1) % m.p.RANKS := by
      simp [MoveRankBank, hs, hw]
    obtain ⟨e1, e2, e3⟩ := e
    rw [e2, e3]
    exact ⟨e1, (h1 hw).1, by omega, (h1 hw).2⟩
  · have e : (MoveRankBank m).p = m.p ∧ (MoveRankBank m).curBank = m.curBank + 1
        ∧ (MoveRankBank m).curRank = m.curRank := by
      simp [MoveRankBank, hs, hw]
    obtain ⟨e1, e2, e3⟩ := e
    rw [e2, e3]
    exact ⟨e1, hr, (h2 hw).1, (h2 hw).2⟩

/-- Any number of calls of `MoveRankBank` under rank-first round-robin. -/
theorem times_rankFirst (k : Nat) : ∀ m : MemoryController, m.p.ScheduleScheme = 1 →
    m.curRank < m.p.RANKS → m.curBank < m.p.BANKS →
    (MoveRankBank.times k m).p = m.p
    ∧ (MoveRankBank.times k m).curRank < m.p.RANKS
    ∧ (MoveRankBank.times k m).curBank < m.p.BANKS
    ∧ (MoveRankBank.times k m).curBank * m.p.RANKS + (MoveRankBank.times k m).curRank
        = (m.curBank * m.p.RANKS + m.curRank + k) % (m.p.BANKS * m.p.RANKS) := by
  induction k with
  | zero =>
    intro m _ hr hb
    refine ⟨rfl, hr, hb, ?_⟩
    rw [Nat.add_zero, Nat.mod_eq_of_lt (stagger_index _ _ _ _ hb hr)]
    rfl
  | succ k ih =>
    intro m hs hr hb
    obtain ⟨e1, e2, e3, e4⟩ := MoveRankBank_rankFirst m hs hr hb
    obtain ⟨f1, f2, f3, f4⟩ := ih (MoveRankBank m) (by rw [e1]; exact hs)
      (by rw [e1]; exact e2) (by rw [e1]; exact e3)
    rw [e1] at f1 f2 f3 f4
    refine ⟨f1, f2, f3, ?_⟩
    show (MoveRankBank.times k (MoveRankBank m)).curBank * m.p.RANKS
      + (MoveRankBank.times k (MoveRankBank m)).curRank = _
    rw [f4, e4, Nat.mod_add_mod]
    congr 1
    omega

/-- Any number of calls of `MoveRankBank` under bank-first round-robin. -/
theorem times_bankFirst (k : Nat) : ∀ m : MemoryController, m.p.ScheduleScheme = 2 →
    m.curRank < m.p.RANKS → m.curBank < m.p.BANKS →
    (MoveRankBank.times k m).p = m.p
    ∧ (MoveRankBank.times k m).curRank < m.p.RANKS
    ∧ (MoveRankBank.times k m).curBank < m.p.BANKS
    ∧ (MoveRankBank.times k m).curRank * m.p.BANKS + (MoveRankBank.times k m).curBank
        = (m.curRank * m.p.BANKS + m.curBank + k) % (m.p.RANKS * m.p.BANKS) := by
  induction k with
  | zero =>
    intro m _ hr hb
    refine ⟨rfl, hr, hb, ?_⟩
    rw [Nat.add_zero, Nat.mod_eq_of_lt (stagger_index _ _ _ _ hr hb)]
    rfl
  | succ k ih =>
    intro m hs hr hb
    obtain ⟨e1, e2, e3, e4⟩ := MoveRankBank_bankFirst m hs hr hb
    obtain ⟨f1, f2, f3, f4⟩ := ih (MoveRankBank m) (by rw [e1]; exact hs)
      (by rw [e1]; exact e2) (by rw [e1]; exact e3)
    rw [e1] at f1 f2 f3 f4
    refine ⟨f1, f2, f3, ?_⟩
    show (MoveRankBank.times k (MoveRankBank m)).curRank * m.p.BANKS
      + (MoveRankBank.times k (MoveRankBank m)).curBank = _
    rw [f4, e4, Nat.mod_add_mod]
    congr 1
    omega

/-- C40. Round-robin coverage of `MoveRankBank`. Under ScheduleScheme 1 or 2,
from a start with `curRank < RANKS` and `curBank < BANKS`: a call of
`MoveRankBank` keeps `curRank < RANKS` and `curBank < BANKS`, and so does any
number of calls; after `RANKS * BANKS` consecutive calls `(curRank, curBank)`
is the starting pair again; and on the way every pair `(r, b)` with
`r < RANKS` and `b < BANKS` is taken exactly once: there is exactly one
`k < RANKS * BANKS` such that the pair is `(r, b)` after `k` calls. -/
theorem MoveRankBank_coverage (m : MemoryController)
    (hs : m.p.ScheduleScheme = 1 ∨ m.p.ScheduleScheme = 2)
    (hr : m.curRank < m.p.RANKS) (hb : m.curBank < m.p.BANKS) :
    ((MoveRankBank m).curRank < m.p.RANKS ∧ (MoveRankBank m).curBank < m.p.BANKS)
    ∧ (∀ k, (MoveRankBank.times k m).curRank < m.p.RANKS
        ∧ (MoveRankBank.times k m).curBank < m.p.BANKS)
    ∧ ((MoveRankBank.times (m.p.RANKS * m.p.BANKS) m).curRank = m.curRank
        ∧ (MoveRankBank.times (m.p.RANKS * m.p.BANKS) m).curBank = m.curBank)
    ∧ (∀ r b, r < m.p.RANKS → b < m.p.BANKS →
        ∃! k, k < m.p.RANKS * m.p.BANKS
          ∧ (MoveRankBank.times k m).curRank = r ∧ (MoveRankBank.times k m).curBank = b) := by
  rcases hs with hs | hs
  · have ht := fun k => times_rankFirst k m hs hr hb
    obtain ⟨hret, hcov⟩ := odometer_coverage m.p.RANKS m.p.BANKS
      (m.curBank * m.p.RANKS + m.curRank)
      (fun k => (MoveRankBank.times k m).curRank) (fun k => (MoveRankBank.times k m).curBank)
      (fun k => (ht k).2.1) (fun k => (ht k).2.2.2)
    refine ⟨⟨(ht 1).2.1, (ht 1).2.2.1⟩, fun k => ⟨(ht k).2.1, (ht k).2.2.1⟩, ?_, ?_⟩
    · rw [Nat.mul_comm]
      exact hret
    · intro r b hr1 hb1
      rw [Nat.mul_comm]
      exact hcov r b hr1 hb1
  · have ht := fun k => times_bankFirst k m hs hr hb
    obtain ⟨hret, hcov⟩ := odometer_coverage m.p.BANKS m.p.RANKS
      (m.curRank * m.p.BANKS + m.curBank)
      (fun k => (MoveRankBank.times k m).curBank) (fun k => (MoveRankBank.times k m).curRank)
      (fun k => (ht k).2.2.1) (fun k => (ht k).2.2.2)
    refine ⟨⟨(ht 1).2.1, (ht 1).2.2.1⟩, fun k => ⟨(ht k).2.1, (ht k).2.2.1⟩,
      ⟨hret.2, hret.1⟩, ?_⟩
    intro r b hr1 hb1
    obtain ⟨k, ⟨h1, h2, h3⟩, hu⟩ := hcov b r hb1 hr1
    exact ⟨k, ⟨h1, h3, h2⟩, fun k2 ⟨g1, g2, g3⟩ => hu k2 ⟨g1, g3, g2⟩⟩

theorem MoveRankBank_coverage_witness :
    (MoveRankBank (roundRobinController 1)).curRank = 0
    ∧ (MoveRankBank (roundRobinController 1)).curBank = 3
    ∧ (MoveRankBank.times 8 (roundRobinController 1)).curRank = 1
    ∧ (MoveRankBank.times 8 (roundRobinController 1)).curBank = 2
    ∧ ∃! k, k < 8 ∧ (MoveRankBank.times k (roundRobinController 1)).curRank = 0
        ∧ (MoveRankBank.times k (roundRobinController 1)).curBank = 0 := by
  have h := MoveRankBank_coverage (roundRobinController 1) (Or.inl rfl) (by decide) (by decide)
  exact ⟨rfl, rfl, h.2.2.1.1, h.2.2.1.2, h.2.2.2 0 0 (by decide) (by decide)⟩

/-! ## Banks and their active sub-arrays -/

/-- In every state reached from a state with no sub-array active, through
scheduled requests whose sub-array is below `subArrayNum`, an active
sub-array is below `subArrayNum` and its bank has `activateQueued` set. -/
theorem activeSubArray_reachable (init : MemoryController)
    (h0 : ∀ r b s, init.activeSubArray r b s = false) (m : MemoryController)
    (hr : SchedReachable (fun m req => req.address.subarray < m.subArrayNum) init m) :
    ∀ r b s, m.activeSubArray r b s = true →
      m.activateQueued r b = true ∧ s < m.subArrayNum := by
  induction hr with
  | start =>
    intro r b s h
    rw [h0 r b s] at h
    exact Bool.noConfusion h
  | issue m req rv m1 req1 _ hall hissue ih =>
    obtain ⟨hs, _, _, hsub, haq, hcase⟩ := IssueMemoryCommands_effect m req rv m1 req1 hissue
    have hn : m1.subArrayNum = m.subArrayNum := hs.2.1
    intro r b s h
    rw [hn]
    by_cases hw : r = req.address.rank ∧ b = req.address.bank
    · obtain ⟨rfl, rfl⟩ := hw
      by_cases hk : s = req.address.subarray
      · subst hk
        refine ⟨?_, hall⟩
        rcases hcase with ⟨h1, _⟩ | ⟨_, _, h3, _⟩ | ⟨h1, h2, _⟩ | ⟨_, h2, _⟩
        · exact h1
        · rw [h3] at h
          exact Bool.noConfusion h
        · rw [h1]
          rw [h2] at h
          exact (ih _ _ _ h).1
        · rw [h2] at h
          exact Bool.noConfusion h
      · have hm : m.activeSubArray req.address.rank req.address.bank s = true := by
          rw [← (hsub _ _ s (fun hc => hk hc.2.2)).1]
          exact h
        obtain ⟨i1, i2⟩ := ih _ _ _ hm
        refine ⟨?_, i2⟩
        rcases hcase with ⟨h1, _⟩ | ⟨h1, _⟩ | ⟨h1, _⟩ | ⟨_, _, _, _, h5⟩
        · exact h1
        · rw [h1] at i1
          exact Bool.noConfusion i1
        · rw [h1]
          exact i1
        · rcases h5 with ⟨_, h6⟩ | ⟨h6, _⟩
          · rw [h6 s i2 hk] at hm
            exact Bool.noConfusion hm
          · exact h6
    · have hm : m.activeSubArray r b s = true := by
        rw [← (hsub r b s (fun hc => hw ⟨hc.1, hc.2.1⟩)).1]
        exact h
      rw [haq r b hw]
      exact ih r b s hm
  | refresh m _ ih =>
    obtain ⟨m0, hc, hsame⟩ := HandleRefresh_frame m
    obtain ⟨_, h2, h3, h4, _⟩ := sameButRefresh_sameActivation hsame
    have hn : m0.subArrayNum = m.subArrayNum := hc.1.2.1
    intro r b s h
    rw [h4] at h
    rw [h3, h2, hn]
    rcases hc.2.2 r b with hu | hcl
    · rw [(hu.2.2 s).1] at h
      rw [hu.2.1]
      exact ih r b s h
    · by_cases hk : s < m.subArrayNum
      · rw [((hcl.2.2.2.2 s).1 hk).1] at h
        exact Bool.noConfusion h
      · rw [((hcl.2.2.2.2 s).2 hk).1] at h
        exact absurd (ih r b s h).2 hk
  | other m m1 _ hsame ih =>
    obtain ⟨_, h2, h3, h4, _⟩ := hsame
    intro r b s h
    rw [h4] at h
    rw [h3, h2]
    exact ih r b s h

/-- C36. The converse of invariant 1. In every state reached from the state
that `SetConfig` sets up, through calls of `IssueMemoryCommands` on requests
whose sub-array is one of the `subArrayNum` sub-arrays of a bank, through calls
of `HandleRefresh` and through anything else that leaves the activation state
alone: whenever a sub-array of a bank has `activeSubArray` set, the bank has
`activateQueued` set; so `activateQueued` is set for a bank exactly when at
least one of its sub-arrays has `activeSubArray` set. -/
theorem activeSubArray_invariant (m0 : MemoryController) (conf : Params)
    (hasMATHeight : Bool) (init : MemoryController)
    (hinit : SetConfig m0 conf hasMATHeight = some init) :
    ∀ m, SchedReachable (fun m req => req.address.subarray < m.subArrayNum) init m →
      ∀ r b, (∀ s, m.activeSubArray r b s = true → m.activateQueued r b = true)
        ∧ (m.activateQueued r b = true ↔ ∃ s, m.activeSubArray r b s = true) := by
  obtain ⟨_, _, _, haq0, hsa0, _⟩ := SetConfig_spec m0 conf hasMATHeight init hinit
  intro m hr r b
  have hconv : ∀ s, m.activeSubArray r b s = true → m.activateQueued r b = true :=
    fun s h => (activeSubArray_reachable init (fun r b s => (hsa0 r b s).1) m hr r b s h).1
  refine ⟨hconv, ?_, fun ⟨s, h⟩ => hconv s h⟩
  intro h
  obtain ⟨s, _, hs⟩ := activateQueued_reachable (fun m s => s < m.subArrayNum)
    (fun m m1 s hn hq => by show s < m1.subArrayNum; rw [hn]; exact hq) (fun _ _ hs => hs)
    init haq0 m hr r b h
  exact ⟨s, hs⟩

theorem activeSubArray_invariant_witness :
    ∃ init m1 req1,
      SetConfig (closedController 1).construct (sampleParams 1) true = some init
      ∧ IssueMemoryCommands init (mkReq OpType.READ 5 2 1 0 0 7 0) = some (true, m1, req1)
      ∧ m1.activeSubArray 0 1 0 = true
      ∧ m1.activateQueued 0 1 = true
      ∧ (m1.activateQueued 0 2 = true ↔ ∃ s, m1.activeSubArray 0 2 s = true) :=
  ⟨_, _, _, rfl, rfl, rfl,
    ((activeSubArray_invariant (closedController 1).construct (sampleParams 1) true _ rfl _
      (SchedReachable.issue _ (mkReq OpType.READ 5 2 1 0 0 7 0) true _ _
        SchedReachable.start (by decide) rfl) 0 1).1 0 rfl),
    ((activeSubArray_invariant (closedController 1).construct (sampleParams 1) true _ rfl _
      (SchedReachable.issue _ (mkReq OpType.READ 5 2 1 0 0 7 0) true _ _
        SchedReachable.start (by decide) rfl) 0 2).2)⟩

/-! ## Restricted close-page -/

/-- `IssueMemoryCommands` on a request that carries FLAG_LAST_REQUEST, to a
bank that is not active: the call returns and leaves the bank not active. -/
theorem issue_last_closed (m : MemoryController) (req : NVMainRequest)
    (hq : m.activateQueued req.address.rank req.address.bank = false)
    (hl : CarriesLast m req) :
    ∃ rv m1 req1, IssueMemoryCommands m req = some (rv, m1, req1)
      ∧ m1.activateQueued req.address.rank req.address.bank = false := by
  have hh : ¬RowHit m req := fun h => by
    rw [h.1] at hq
    exact Bool.noConfusion hq
  by_cases he : m.bankQueues req.address.rank req.address.bank = []
  · obtain ⟨m2, _, c, hi, _, _, _, _, _, _, _, hlast⟩ := issue_closed m req hq he
    exact ⟨true, m2, c, hi, (hlast hl).2.1⟩
  · exact ⟨false, m, req, IssueMemoryCommands_uncovered m req he hh, hq⟩

/-- In every state reached from a state with no bank active, through
scheduled requests that carry FLAG_LAST_REQUEST, no bank is active. -/
theorem lastOnly_reachable (init : MemoryController)
    (h0 : ∀ r b, init.activateQueued r b = false) (m : MemoryController)
    (hr : SchedReachable (fun m req => CarriesLast m req) init m) :
    m.p = init.p ∧ ∀ r b, m.activateQueued r b = false := by
  induction hr with
  | start => exact ⟨rfl, h0⟩
  | issue m req rv m1 req1 _ hall hissue ih =>
    obtain ⟨hs, _, _, _, haq, _⟩ := IssueMemoryCommands_effect m req rv m1 req1 hissue
    refine ⟨hs.1.trans ih.1, fun r b => ?_⟩
    by_cases hw : r = req.address.rank ∧ b = req.address.bank
    · obtain ⟨rfl, rfl⟩ := hw
      obtain ⟨rv2, m2, req2, hi, hq⟩ := issue_last_closed m req (ih.2 _ _) hall
      rw [hi] at hissue
      simp only [Option.some.injEq, Prod.mk.injEq] at hissue
      rw [← hissue.2.1]
      exact hq
    · rw [haq r b hw]
      exact ih.2 r b
  | refresh m _ ih =>
    obtain ⟨m0, hc, hsame⟩ := HandleRefresh_frame m
    obtain ⟨h1, _, h3, _⟩ := sameButRefresh_sameActivation hsame
    refine ⟨(h1.trans hc.1.1).trans ih.1, fun r b => ?_⟩
    rw [h3]
    rcases hc.2.2 r b with hu | hcl
    · rw [hu.2.1]
      exact ih.2 r b
    · exact hcl.2.2.2.1
  | other m m1 _ hsame ih =>
    obtain ⟨h1, _, h3, _⟩ := hsame
    refine ⟨h1.trans ih.1, fun r b => ?_⟩
    rw [h3]
    exact ih.2 r b

/-- Under restricted close-page a request handed out by a primitive built on
`selectFirst` carries FLAG_LAST_REQUEST (for a flag constant that is not 0). -/
theorem selectFirst_restricted (m : MemoryController) (cond : NVMainRequest → Bool)
    (q : List NVMainRequest) (sel : NVMainRequest) (hc : m.p.ClosePage = 2)
    (hF : m.FLAG_LAST_REQUEST ≠ 0) (h : (selectFirst m cond q).request = some sel) :
    CarriesLast m sel := by
  obtain ⟨_, _, h3, h4⟩ := selectFirst_spec m cond q
  obtain ⟨pre, x, post, _, _, _, _, hreq⟩ := h3 (h4 (by rw [h]; simp))
  rw [h] at hreq
  rw [Option.some.inj hreq]
  exact (carriesLast_mark m _ x hF).2 (Or.inr (IsLastRequest_restricted m _ x hc))

/-- C34. Restricted close-page never reaches the hit path. With
`ClosePage == 2`, in every state reached from the state that `SetConfig` sets
up, through calls of `IssueMemoryCommands` on requests that carry
FLAG_LAST_REQUEST, through calls of `HandleRefresh` and through anything else
that leaves the activation state alone: `ClosePage` is still 2; every bank
has `activateQueued` false; no request is a row-buffer hit, so the hit branch
of `IssueMemoryCommands` is not entered; and `IssueMemoryCommands` returns on
every request that carries the flag, so the assertion `ClosePage != 2` does
not fail. The requests that the five singular selection primitives hand out
under `ClosePage == 2` all carry the flag (for a flag constant that is not
0). -/
theorem restricted_close_page_no_hit (m0 : MemoryController) (conf : Params)
    (hasMATHeight : Bool) (init : MemoryController)
    (hinit : SetConfig m0 conf hasMATHeight = some init) (hc : conf.ClosePage = 2) :
    (∀ m, SchedReachable (fun m req => CarriesLast m req) init m →
      m.p.ClosePage = 2
      ∧ (∀ r b, m.activateQueued r b = false)
      ∧ (∀ req, ¬RowHit m req)
      ∧ (∀ req, CarriesLast m req →
          ∃ rv m1 req1, IssueMemoryCommands m req = some (rv, m1, req1)
            ∧ ∀ r b, m1.activateQueued r b = false)
      ∧ (∀ (q : List NVMainRequest) (pred : NVMainRequest → Bool) (res : FindResult)
          (sel : NVMainRequest),
          (res = FindRowBufferHit m q pred ∨ res = FindWriteStalledRead m q pred
            ∨ res = FindStarvedRequest m q pred ∨ res = FindOldestReadyRequest m q pred
            ∨ res = FindClosedBankRequest m q pred) →
          m.FLAG_LAST_REQUEST ≠ 0 → res.request = some sel → CarriesLast m sel)) := by
  obtain ⟨hp, _, _, haq0, _⟩ := SetConfig_spec m0 conf hasMATHeight init hinit
  intro m hr
  obtain ⟨hpm, haq⟩ := lastOnly_reachable init haq0 m hr
  have hcp : m.p.ClosePage = 2 := by rw [hpm, hp]; exact hc
  refine ⟨hcp, haq, fun req hh => ?_, fun req hl => ?_, ?_⟩
  · have := haq req.address.rank req.address.bank
    rw [hh.1] at this
    exact Bool.noConfusion this
  · obtain ⟨rv, m1, req1, hi, _⟩ := issue_last_closed m req (haq _ _) hl
    exact ⟨rv, m1, req1, hi,
      (lastOnly_reachable init haq0 m1 (SchedReachable.issue m req rv m1 req1 hr hl hi)).2⟩
  · intro q pred res sel hres hF hsel
    rcases hres with rfl | rfl | rfl | rfl | rfl
    · exact selectFirst_restricted m _ q sel hcp hF hsel
    · unfold FindWriteStalledRead at hsel
      split at hsel
      · exact absurd hsel (by simp)
      · exact selectFirst_restricted m _ q sel hcp hF hsel
    · exact selectFirst_restricted m _ q sel hcp hF hsel
    · exact selectFirst_restricted m _ q sel hcp hF hsel
    · exact selectFirst_restricted m _ q sel hcp hF hsel

theorem restricted_close_page_no_hit_witness :
    ∃ init m1 req1,
      SetConfig (closedController 2).construct (sampleParams 2) true = some init
      ∧ (FindClosedBankRequest init [mkReq OpType.READ 5 2 1 0 0 7 0] (fun _ => true)).request
          = some (mkReq OpType.READ 5 2 1 0 0 7 1)
      ∧ IssueMemoryCommands init (mkReq OpType.READ 5 2 1 0 0 7 1) = some (true, m1, req1)
      ∧ (∀ r b, m1.activateQueued r b = false)
      ∧ ¬RowHit m1 (mkReq OpType.READ 5 2 1 0 0 7 1) := by
  have h := restricted_close_page_no_hit (closedController 2).construct (sampleParams 2) true
    _ rfl rfl _
    (SchedReachable.issue _ (mkReq OpType.READ 5 2 1 0 0 7 1) true _ _
      SchedReachable.start (by decide) rfl)
  exact ⟨_, _, _, rfl, rfl, rfl, h.2.1, h.2.2.1 _⟩

/-! ## The refresh flags and the delayed-refresh counters -/

theorem group_range (bpr g b : Nat) (h : 0 < bpr) :
    (g * bpr ≤ b ∧ b < g * bpr + bpr) ↔ b / bpr = g := by
  constructor
  · rintro ⟨h1, h2⟩
    apply Nat.div_eq_of_lt_le
    · exact h1
    · rw [Nat.succ_mul]
      exact h2
  · intro hg
    subst hg
    refine ⟨Nat.div_mul_le_self b bpr, ?_⟩
    have := Nat.lt_div_mul_add (a := b) h
    exact this

/-- In every state reached from a state with all counters at 0 and no flag
set, with refresh enabled and a threshold of at least 1, after fewer than
`2 ^ 64` pulses: the configuration is that of the start, every counter is at
most the number of pulses, and a bank is flagged exactly when the counter of
its group has reached the threshold. -/
theorem refreshFlags_reachable (init : MemoryController) (hu : init.p.UseRefresh = true)
    (ht : 1 ≤ init.p.DelayedRefreshThreshold) (hb : 0 < init.p.BanksPerRefresh)
    (hc0 : ∀ r g, init.delayedRefreshCounter r g = 0)
    (hf0 : ∀ r b, init.bankNeedRefresh r b = false)
    (n : Nat) (m : MemoryController) (hr : RefreshFlagReachable init n m) :
    n < 2 ^ 64 →
    m.p = init.p ∧ (∀ r g, m.delayedRefreshCounter r g ≤ n)
    ∧ ∀ r b, (m.bankNeedRefresh r b = true ↔
        init.p.DelayedRefreshThreshold
          ≤ m.delayedRefreshCounter r (b / init.p.BanksPerRefresh)) := by
  induction hr with
  | start =>
    intro _
    refine ⟨rfl, fun r g => by rw [hc0 r g], fun r b => ?_⟩
    rw [hf0 r b, hc0]
    constructor
    · intro h
      exact Bool.noConfusion h
    · intro h
      omega
  | pulse n m refresh m1 _ hp ih =>
    intro hn
    obtain ⟨hpm, hle, hiff⟩ := ih (by omega)
    obtain ⟨_, f, hm1, hf⟩ := ProcessRefreshPulse_spec m refresh m1 hp
    have e1 : m1.p = m.p := by rw [hm1]
    have e2 : m1.delayedRefreshCounter = set2 m.delayedRefreshCounter refresh.address.rank
        (refresh.address.bank / m.p.BanksPerRefresh)
        ((m.delayedRefreshCounter refresh.address.rank
          (refresh.address.bank / m.p.BanksPerRefresh) + 1) % 2 ^ 64) := by rw [hm1]
    have e3 : m1.bankNeedRefresh = f := by rw [hm1]
    rw [hpm] at e2 hf
    have hc := hle refresh.address.rank (refresh.address.bank / init.p.BanksPerRefresh)
    have hmod : (m.delayedRefreshCounter refresh.address.rank
        (refresh.address.bank / init.p.BanksPerRefresh) + 1) % 2 ^ 64
        = m.delayedRefreshCounter refresh.address.rank
            (refresh.address.bank / init.p.BanksPerRefresh) + 1 :=
      Nat.mod_eq_of_lt (by omega)
    rw [hmod] at e2 hf
    refine ⟨e1.trans hpm, fun r g => ?_, fun r b => ?_⟩
    · rw [e2]
      by_cases hw : r = refresh.address.rank ∧ g = refresh.address.bank / init.p.BanksPerRefresh
      · obtain ⟨rfl, rfl⟩ := hw
        rw [set2_same]
        omega
      · rw [set2_other _ _ _ _ _ _ hw]
        have := hle r g
        omega
    · rw [e3, hf r b, e2]
      by_cases hw : r = refresh.address.rank
          ∧ b / init.p.BanksPerRefresh = refresh.address.bank / init.p.BanksPerRefresh
      · obtain ⟨rfl, hg⟩ := hw
        have hrange := (group_range init.p.BanksPerRefresh
          (refresh.address.bank / init.p.BanksPerRefresh) b hb).2 hg
        rw [hg, set2_same]
        by_cases hthr : init.p.DelayedRefreshThreshold
            ≤ m.delayedRefreshCounter refresh.address.rank
                (refresh.address.bank / init.p.BanksPerRefresh) + 1
        · rw [if_pos ⟨⟨hu, hthr⟩, rfl, hrange.1, hrange.2⟩]
          exact ⟨fun _ => hthr, fun _ => rfl⟩
        · rw [if_neg (fun hc => hthr hc.1.2)]
          have := hiff refresh.address.rank b
          rw [hg] at this
          constructor
          · intro h
            have := this.1 h
            omega
          · intro h
            exact absurd h hthr
      · have hne : ¬(r = refresh.address.rank
            ∧ b / init.p.BanksPerRefresh = refresh.address.bank / init.p.BanksPerRefresh) := hw
        rw [set2_other _ _ _ _ _ _ hne, if_neg]
        · exact hiff r b
        · rintro ⟨_, h1, h2, h3⟩
          exact hw ⟨h1, (group_range _ _ _ hb).1 ⟨h2, h3⟩⟩
  | refresh n m _ ih =>
    intro hn
    obtain ⟨hpm, hle, hiff⟩ := ih hn
    rcases hrv : (HandleRefresh m).1 with _ | _
    · obtain ⟨hs, _⟩ := (HandleRefresh_cases m).1 hrv
      obtain ⟨f1, _, _, f4, f5, _⟩ := hs
      rw [f1, f4, f5]
      exact ⟨hpm, hle, hiff⟩
    · obtain ⟨i, j, m0, hc, hneed, _, _, he⟩ := (HandleRefresh_cases m).2 hrv
      obtain ⟨f1, _, _, f4, f5, _⟩ := hc.1
      obtain ⟨g1, _, g3, g4, g5, _⟩ := issue_spec i j m0
      have hp0 : m0.p = init.p := f1.trans hpm
      rw [he]
      rw [hp0, f5] at g3 g4 g5
      rw [f4] at g4 g5
      rw [NeedRefresh_iff, hp0, f5] at hneed
      have hc1 := hle i (j / init.p.BanksPerRefresh)
      have hmod : (m.delayedRefreshCounter i (j / init.p.BanksPerRefresh) + (2 ^ 64 - 1)) % 2 ^ 64
          = m.delayedRefreshCounter i (j / init.p.BanksPerRefresh) - 1 := by
        have e : m.delayedRefreshCounter i (j / init.p.BanksPerRefresh) + (2 ^ 64 - 1)
            = (m.delayedRefreshCounter i (j / init.p.BanksPerRefresh) - 1) + 2 ^ 64 := by
          omega
        rw [e, Nat.add_mod_right, Nat.mod_eq_of_lt (by omega)]
      rw [hmod] at g3 g4 g5
      refine ⟨g1.1.trans hp0, fun r g => ?_, fun r b => ?_⟩
      · rw [g3]
        by_cases hw : r = i ∧ g = j / init.p.BanksPerRefresh
        · obtain ⟨rfl, rfl⟩ := hw
          rw [set2_same]
          omega
        · rw [set2_other _ _ _ _ _ _ hw]
          exact hle r g
      · rw [g3]
        by_cases hw : r = i ∧ b / init.p.BanksPerRefresh = j / init.p.BanksPerRefresh
        · obtain ⟨rfl, hg⟩ := hw
          have hrange := (group_range init.p.BanksPerRefresh
            (j / init.p.BanksPerRefresh) b hb).2 hg
          rw [hg, set2_same]
          by_cases hthr : init.p.DelayedRefreshThreshold
              ≤ m.delayedRefreshCounter r (j / init.p.BanksPerRefresh) - 1
          · rw [g5 ⟨hu, hthr⟩]
            have := hiff r b
            rw [hg] at this
            exact ⟨fun _ => hthr, fun _ => this.2 hneed.2⟩
          · rw [g4 (fun hc => hthr hc.2) r b, if_pos ⟨rfl, hrange.1, hrange.2⟩]
            exact ⟨fun h => Bool.noConfusion h, fun h => absurd h hthr⟩
        · have hne : ¬(r = i ∧ b / init.p.BanksPerRefresh = j / init.p.BanksPerRefresh) := hw
          rw [set2_other _ _ _ _ _ _ hne]
          by_cases hthr : init.p.DelayedRefreshThreshold
              ≤ m.delayedRefreshCounter i (j / init.p.BanksPerRefresh) - 1
          · rw [g5 ⟨hu, hthr⟩]
            exact hiff r b
          · rw [g4 (fun hc => hthr hc.2) r b, if_neg]
            · exact hiff r b
            · rintro ⟨h1, h2, h3⟩
              exact hw ⟨h1, (group_range _ _ _ hb).1 ⟨h2, h3⟩⟩
  | other n m m1 _ hp hcnt hfl ih =>
    intro hn
    obtain ⟨hpm, hle, hiff⟩ := ih hn
    rw [hp, hcnt, hfl]
    exact ⟨hpm, hle, hiff⟩

/-- C38. Refresh flag consistency. With refresh enabled and
`DelayedRefreshThreshold` at least 1, in every state reached from the state
that `SetConfig` sets up, through calls of `ProcessRefreshPulse`, through
calls of `HandleRefresh` and through anything else that leaves the
configuration, the counters and the flags alone, in a run of the length the
simulator can hold (fewer than `2 ^ 64` pulses processed): for every rank `r`
and bank `b`, `bankNeedRefresh[r][b]` is set if and only if the
delayed-refresh counter of the bank's group has reached the threshold, which
is if and only if `NeedRefresh( b, r )`; so all banks of one group carry the
same flag. This holds whether or not `BANKS` is a multiple of
`BanksPerRefresh`. -/
theorem refresh_flag_consistency (m0 : MemoryController) (conf : Params)
    (hasMATHeight : Bool) (init : MemoryController)
    (hinit : SetConfig m0 conf hasMATHeight = some init)
    (hu : conf.UseRefresh = true) (ht : 1 ≤ conf.DelayedRefreshThreshold)
    (n : Nat) (m : MemoryController) (hr : RefreshFlagReachable init n m)
    (hn : n < 2 ^ 64) :
    (∀ r b, m.bankNeedRefresh r b = true ↔
      m.p.DelayedRefreshThreshold ≤ m.delayedRefreshCounter r (b / m.p.BanksPerRefresh))
    ∧ (∀ r b, m.bankNeedRefresh r b = NeedRefresh m b r)
    ∧ (∀ r b b1, b / m.p.BanksPerRefresh = b1 / m.p.BanksPerRefresh →
        m.bankNeedRefresh r b = m.bankNeedRefresh r b1) := by
  obtain ⟨hp, _, _, _, _, hf0, _, _, href⟩ := SetConfig_spec m0 conf hasMATHeight init hinit
  obtain ⟨hc0, hbne, _, _, _⟩ := href hu
  obtain ⟨hpm, _, hiff⟩ := refreshFlags_reachable init (by rw [hp]; exact hu)
    (by rw [hp]; exact ht) (by rw [hp]; omega) hc0 hf0 n m hr hn
  rw [hpm]
  have hflag : ∀ r b, m.bankNeedRefresh r b = NeedRefresh m b r := by
    intro r b
    rcases hN : NeedRefresh m b r with _ | _
    · rcases hfl : m.bankNeedRefresh r b with _ | _
      · rfl
      · have h1 := (hiff r b).1 hfl
        have h2 := (NeedRefresh_iff m b r).2 ⟨by rw [hpm, hp]; exact hu, by rw [hpm]; exact h1⟩
        rw [hN] at h2
        exact Bool.noConfusion h2
    · have h1 := (NeedRefresh_iff m b r).1 hN
      rw [hpm] at h1
      exact (hiff r b).2 h1.2
  refine ⟨hiff, hflag, fun r b b1 hg => ?_⟩
  rcases hfl : m.bankNeedRefresh r b1 with _ | _
  · rcases hfl2 : m.bankNeedRefresh r b with _ | _
    · rfl
    · have h1 := (hiff r b).1 hfl2
      rw [hg] at h1
      rw [(hiff r b1).2 h1] at hfl
      exact Bool.noConfusion hfl
  · have h1 := (hiff r b1).1 hfl
    rw [← hg] at h1
    exact (hiff r b).2 h1

theorem refresh_flag_consistency_witness :
    ∃ init m1, SetConfig (closedController 1).construct (refreshParams 1) true = some init
      ∧ ProcessRefreshPulse init samplePulse = some m1
      ∧ m1.bankNeedRefresh 0 0 = true
      ∧ 1 ≤ m1.delayedRefreshCounter 0 0
      ∧ (HandleRefresh m1).2.bankNeedRefresh 0 0 = NeedRefresh (HandleRefresh m1).2 0 0 := by
  have h1 := refresh_flag_consistency (closedController 1).construct (refreshParams 1) true _
    rfl rfl (by decide) 1 _
    (RefreshFlagReachable.pulse _ _ samplePulse _ RefreshFlagReachable.start rfl) (by decide)
  have h2 := refresh_flag_consistency (closedController 1).construct (refreshParams 1) true _
    rfl rfl (by decide) 1 _
    (RefreshFlagReachable.refresh _ _
      (RefreshFlagReachable.pulse _ _ samplePulse _ RefreshFlagReachable.start rfl)) (by decide)
  exact ⟨_, _, rfl, rfl, rfl, (h1.1 0 0).1 rfl, h2.2.1 0 0⟩

/-! ## HandleRefresh: the banks it indexes -/

theorem refreshClosed_position {m m1 : MemoryController} (h : RefreshClosed m m1) :
    m1.p = m.p ∧ m1.m_refreshBankNum = m.m_refreshBankNum
    ∧ m1.nextRefreshRank = m.nextRefreshRank ∧ m1.nextRefreshBank = m.nextRefreshBank := by
  obtain ⟨h1, _, _, _, _, _, h7, _, _, _, h11, h12, _⟩ := h.1
  exact ⟨h1, h7, h11, h12⟩

/-- The banks the inner loop of `HandleRefresh` passes on: each is the bank
`(nextRefreshBank + bankIdx * BanksPerRefresh) % BANKS` of one of the values
of `bankIdx`, with `nextRefreshBank` as it is when the loop starts. -/
theorem bankTrace_mem (i : Nat) (l : List Nat) :
    ∀ (m : MemoryController) (x : Nat × Nat), x ∈ HandleRefresh.bankTrace i l m →
      x.1 = i ∧ ∃ bankIdx ∈ l,
        x.2 = (m.nextRefreshBank + bankIdx * m.p.BanksPerRefresh) % m.p.BANKS := by
  induction l with
  | nil =>
    intro m x hx
    exact absurd hx (List.not_mem_nil _)
  | cons bankIdx rest ih =>
    intro m x hx
    unfold HandleRefresh.bankTrace at hx
    simp only [] at hx
    rcases List.mem_cons.1 hx with h | h
    · rw [h]
      exact ⟨rfl, bankIdx, by simp, rfl⟩
    · rcases hg : HandleRefresh.group i
          ((m.nextRefreshBank + bankIdx * m.p.BanksPerRefresh) % m.p.BANKS) m with ⟨_ | _, m1⟩
      · rw [hg] at h
        have hc := (group_cases i _ m).1 (by rw [hg])
        rw [hg] at hc
        obtain ⟨f1, _, _, f4⟩ := refreshClosed_position hc
        obtain ⟨a1, idx, a2, a3⟩ := ih m1 x h
        rw [f1, f4] at a3
        exact ⟨a1, idx, by simp [a2], a3⟩
      · rw [hg] at h
        exact absurd h (List.not_mem_nil _)

/-- The ranks and banks `HandleRefresh` passes on, from the loop positions. -/
theorem rankTrace_mem (l : List Nat) :
    ∀ (m : MemoryController) (x : Nat × Nat), x ∈ HandleRefresh.rankTrace l m →
      (∃ rankIdx ∈ l, x.1 = (m.nextRefreshRank + rankIdx) % m.p.RANKS)
      ∧ ∃ bankIdx, bankIdx < m.m_refreshBankNum
        ∧ x.2 = (m.nextRefreshBank + bankIdx * m.p.BanksPerRefresh) % m.p.BANKS := by
  induction l with
  | nil =>
    intro m x hx
    exact absurd hx (List.not_mem_nil _)
  | cons rankIdx rest ih =>
    intro m x hx
    unfold HandleRefresh.rankTrace at hx
    simp only [] at hx
    rcases List.mem_append.1 hx with h | h
    · obtain ⟨a1, idx, a2, a3⟩ := bankTrace_mem _ _ m x h
      exact ⟨⟨rankIdx, by simp, a1⟩, idx, List.mem_range.1 a2, a3⟩
    · rcases hg : HandleRefresh.bankLoop ((m.nextRefreshRank + rankIdx) % m.p.RANKS)
          (List.range m.m_refreshBankNum) m with ⟨_ | _, m1⟩
      · rw [hg] at h
        have hc := (bankLoop_cases _ (List.range m.m_refreshBankNum) m).1 (by rw [hg])
        rw [hg] at hc
        obtain ⟨f1, f2, f3, f4⟩ := refreshClosed_position hc
        obtain ⟨⟨ridx, b1, b2⟩, idx, a2, a3⟩ := ih m1 x h
        rw [f1, f3] at b2
        rw [f1, f4] at a3
        rw [f2] at a2
        exact ⟨⟨ridx, by simp [b1], b2⟩, idx, a2, a3⟩
      · rw [hg] at h
        exact absurd h (List.not_mem_nil _)

/-- A bank `(nb + idx * bpr) % banks`, for `banks` a multiple of `bpr` and
`nb` a multiple of `bpr`, is the head of a group that lies inside the banks. -/
theorem aligned_bank (banks bpr nb idx : Nat) (hb : 0 < bpr) (hB : 0 < banks)
    (hd : bpr ∣ banks) (hn : bpr ∣ nb) :
    (nb + idx * bpr) % banks / bpr < banks / bpr
    ∧ ∀ k, k < bpr → (nb + idx * bpr) % banks / bpr * bpr + k < banks := by
  obtain ⟨q, rfl⟩ := hd
  obtain ⟨t, rfl⟩ := hn
  have hq : 0 < q := by
    rcases Nat.eq_zero_or_pos q with h | h
    · rw [h, Nat.mul_zero] at hB
      exact absurd hB (by decide)
    · exact h
  have e : bpr * t + idx * bpr = bpr * (t + idx) := by ring
  rw [e, Nat.mul_mod_mul_left, Nat.mul_div_cancel_left _ hb, Nat.mul_div_cancel_left _ hb]
  have hlt : (t + idx) % q < q := Nat.mod_lt _ hq
  refine ⟨hlt, fun k hk => ?_⟩
  have h1 : ((t + idx) % q + 1) * bpr ≤ q * bpr := Nat.mul_le_mul_right bpr hlt
  rw [Nat.add_mul, Nat.one_mul] at h1
  rw [Nat.mul_comm bpr q]
  omega

/-- C37, at a failing input and beside what holds. The configuration has
refresh enabled, 4 banks and groups of 3 banks; `SetConfig` accepts it and
sets `m_refreshBankNum` to 1, so that `delayedRefreshCounter[rank]` has one
entry. After one pulse for bank 0 of rank 0, `HandleRefresh` issues the
REFRESH of that group and moves `nextRefreshBank` to 3. The next call of
`HandleRefresh` passes bank 3 to `NeedRefresh`, for rank 0 and for rank 1:
the group of bank 3 is `3 / 3 = 1`, which is not below `m_refreshBankNum`,
and the banks `bankHead + i` of that group go up to 5, which is not below
`BANKS`. What holds: when `BANKS` is a multiple of `BanksPerRefresh` and
`nextRefreshBank` a multiple of it too, every bank `j` that a call of
`HandleRefresh` passes on has `j / BanksPerRefresh < m_refreshBankNum` and
every `bankHead + i` of its group below `BANKS`, and the call leaves
`nextRefreshBank` a multiple of `BanksPerRefresh`. -/
theorem HandleRefresh_indexes_past_last_group :
    (∃ init m1,
      SetConfig (closedController 1).construct unevenRefreshParams true = some init
      ∧ init.p.BanksPerRefresh ≤ init.p.BANKS ∧ 0 < init.p.BanksPerRefresh
      ∧ init.m_refreshBankNum = 1
      ∧ ProcessRefreshPulse init samplePulse = some m1
      ∧ (HandleRefresh m1).1 = true
      ∧ (HandleRefresh m1).2.nextRefreshBank = 3
      ∧ HandleRefresh.trace (HandleRefresh m1).2 = [(0, 3), (1, 3)]
      ∧ ¬(3 / (HandleRefresh m1).2.p.BanksPerRefresh < (HandleRefresh m1).2.m_refreshBankNum)
      ∧ ¬(3 / (HandleRefresh m1).2.p.BanksPerRefresh * (HandleRefresh m1).2.p.BanksPerRefresh
            + 2 < (HandleRefresh m1).2.p.BANKS))
    ∧ (∀ m : MemoryController, 0 < m.p.BanksPerRefresh →
        m.p.BanksPerRefresh ≤ m.p.BANKS → m.p.BanksPerRefresh ∣ m.p.BANKS →
        m.m_refreshBankNum = m.p.BANKS / m.p.BanksPerRefresh →
        m.p.BanksPerRefresh ∣ m.nextRefreshBank →
        (∀ x ∈ HandleRefresh.trace m,
          x.2 / m.p.BanksPerRefresh < m.m_refreshBankNum
          ∧ ∀ k, k < m.p.BanksPerRefresh →
              x.2 / m.p.BanksPerRefresh * m.p.BanksPerRefresh + k < m.p.BANKS)
        ∧ (HandleRefresh m).2.p = m.p
        ∧ (HandleRefresh m).2.m_refreshBankNum = m.m_refreshBankNum
        ∧ m.p.BanksPerRefresh ∣ (HandleRefresh m).2.nextRefreshBank) := by
  refine ⟨⟨_, _, rfl, by decide, by decide, rfl, rfl, rfl, rfl, rfl, by decide, by decide⟩,
    fun m hb hle hd hnum hnb => ⟨fun x hx => ?_, ?_⟩⟩
  · obtain ⟨_, idx, _, hj⟩ := rankTrace_mem _ m x hx
    rw [hj, hnum]
    exact aligned_bank m.p.BANKS m.p.BanksPerRefresh m.nextRefreshBank idx hb (by omega) hd hnb
  · rcases hrv : (HandleRefresh m).1 with _ | _
    · obtain ⟨f1, f2, _, f4⟩ := refreshClosed_position ((HandleRefresh_cases m).1 hrv)
      rw [f4]
      exact ⟨f1, f2, hnb⟩
    · obtain ⟨i, j, m0, hc, _, _, _, he⟩ := (HandleRefresh_cases m).2 hrv
      obtain ⟨f1, f2, _, f4⟩ := refreshClosed_position hc
      obtain ⟨g1, _, _, _, _, g6, g7⟩ := issue_spec i j m0
      rw [he]
      refine ⟨g1.1.trans f1, ?_, ?_⟩
      · exact (g1.2.2.2.2.2.2.2.2.2.2.1).trans f2
      · by_cases hw : m0.p.BANKS ≤ m0.nextRefreshBank + m0.p.BanksPerRefresh
        · rw [(g6 hw).1]
          exact Nat.dvd_zero _
        · rw [(g7 (by omega)).1, f4, f1]
          exact Nat.dvd_add hnb (Nat.dvd_refl _)

/-! ## Selection followed by issue, in the states the controller can reach -/

/-- The configuration stays as it is along every run of the scheduler. -/
theorem schedReachable_config (allowed : MemoryController → NVMainRequest → Prop)
    (init m : MemoryController) (hr : SchedReachable allowed init m) : m.p = init.p := by
  induction hr with
  | start => rfl
  | issue m req rv m1 req1 _ _ hissue ih =>
    exact (IssueMemoryCommands_effect m req rv m1 req1 hissue).1.1.trans ih
  | refresh m _ ih =>
    obtain ⟨m0, hcl, hsame⟩ := HandleRefresh_frame m
    exact (hsame.1.trans hcl.1.1).trans ih
  | other m m1 _ hsame ih => exact hsame.1.trans ih

/-- In every state reached from a state under restricted close-page with no
bank active, through scheduled requests that carry FLAG_LAST_REQUEST, the
configuration is that of the start and no bank is active. -/
theorem restricted_reachable (init : MemoryController)
    (h0 : ∀ r b, init.activateQueued r b = false) (hc : init.p.ClosePage = 2)
    (m : MemoryController)
    (hr : SchedReachable (fun m req => m.p.ClosePage = 2 → CarriesLast m req) init m) :
    m.p = init.p ∧ ∀ r b, m.activateQueued r b = false := by
  induction hr with
  | start => exact ⟨rfl, h0⟩
  | issue m req rv m1 req1 _ hall hissue ih =>
    obtain ⟨hs, _, _, _, haq, _⟩ := IssueMemoryCommands_effect m req rv m1 req1 hissue
    refine ⟨hs.1.trans ih.1, fun r b => ?_⟩
    by_cases hw : r = req.address.rank ∧ b = req.address.bank
    · obtain ⟨rfl, rfl⟩ := hw
      obtain ⟨rv2, m2, req2, hi, hq⟩ := issue_last_closed m req (ih.2 _ _)
        (hall (by rw [ih.1]; exact hc))
      rw [hi] at hissue
      simp only [Option.some.injEq, Prod.mk.injEq] at hissue
      rw [← hissue.2.1]
      exact hq
    · rw [haq r b hw]
      exact ih.2 r b
  | refresh m _ ih =>
    obtain ⟨m0, hcl, hsame⟩ := HandleRefresh_frame m
    obtain ⟨h1, _, h3, _⟩ := sameButRefresh_sameActivation hsame
    refine ⟨(h1.trans hcl.1.1).trans ih.1, fun r b => ?_⟩
    rw [h3]
    rcases hcl.2.2 r b with hu | hcb
    · rw [hu.2.1]
      exact ih.2 r b
    · exact hcb.2.2.2.1
  | other m m1 _ hsame ih =>
    obtain ⟨h1, _, h3, _⟩ := hsame
    refine ⟨h1.trans ih.1, fun r b => ?_⟩
    rw [h3]
    exact ih.2 r b

/-- C5. In every state the controller reaches from the state that `SetConfig`
sets up, through calls of `IssueMemoryCommands` (under `ClosePage == 2` on
requests that carry FLAG_LAST_REQUEST, as all requests do that the selection
primitives hand out then), through calls of `HandleRefresh` and through
anything else that leaves the activation state alone, and for every
transaction queue and predicate: if one of the five singular selection
primitives hands out a request, `IssueMemoryCommands` called on that request
in the same controller state returns true. The request handed out carries
FLAG_LAST_REQUEST under `ClosePage == 2` (for a flag constant that is not
0). -/
theorem IssueMemoryCommands_after_selection (m0 : MemoryController) (conf : Params)
    (hasMATHeight : Bool) (init : MemoryController)
    (hinit : SetConfig m0 conf hasMATHeight = some init) (m : MemoryController)
    (hr : SchedReachable (fun m req => m.p.ClosePage = 2 → CarriesLast m req) init m)
    (q : List NVMainRequest) (pred : NVMainRequest → Bool) (sel : NVMainRequest)
    (hsel : (FindRowBufferHit m q pred).request = some sel
      ∨ (FindWriteStalledRead m q pred).request = some sel
      ∨ (FindStarvedRequest m q pred).request = some sel
      ∨ (FindOldestReadyRequest m q pred).request = some sel
      ∨ (FindClosedBankRequest m q pred).request = some sel) :
    (∃ m1 req1, IssueMemoryCommands m sel = some (true, m1, req1))
    ∧ (m.FLAG_LAST_REQUEST ≠ 0 → m.p.ClosePage = 2 → CarriesLast m sel) := by
  constructor
  · by_cases hp : m.p.ClosePage = 2
    · obtain ⟨_, _, _, haq0, _⟩ := SetConfig_spec m0 conf hasMATHeight init hinit
      have hpm : m.p = init.p := schedReachable_config _ init m hr
      obtain ⟨_, haq⟩ := restricted_reachable init haq0 (by rw [← hpm]; exact hp) m hr
      have hh : ¬RowHit m sel := fun h => by
        have := haq sel.address.rank sel.address.bank
        rw [h.1] at this
        exact Bool.noConfusion this
      obtain ⟨hst, hcl, hrb, hws, hor⟩ := selected_state m q pred sel
      have he : m.bankQueues sel.address.rank sel.address.bank = [] := by
        rcases hsel with h | h | h | h | h
        · exact absurd (hrb h) hh
        · exact absurd (hws h) hh
        · exact (hst h).1
        · exact hor h
        · exact (hcl h).1
      exact IssueMemoryCommands_result_empty m sel he hh
    · exact (IssueMemoryCommands_selected m q pred sel hsel).2.1 hp
  · intro hF hp
    rcases hsel with h | h | h | h | h
    · exact selectFirst_restricted m _ q sel hp hF h
    · unfold FindWriteStalledRead at h
      split at h
      · exact absurd h (by simp)
      · exact selectFirst_restricted m _ q sel hp hF h
    · exact selectFirst_restricted m _ q sel hp hF h
    · exact selectFirst_restricted m _ q sel hp hF h
    · exact selectFirst_restricted m _ q sel hp hF h

theorem IssueMemoryCommands_after_selection_witness :
    ∃ init m1 req1 m2 req2,
      SetConfig (closedController 2).construct (sampleParams 2) true = some init
      ∧ IssueMemoryCommands init (mkReq OpType.READ 5 2 1 0 0 7 1) = some (true, m1, req1)
      ∧ (FindClosedBankRequest m1
          [mkReq OpType.READ 6 0 1 0 0 7 0, mkReq OpType.READ 4 2 2 0 0 3 0]
          (fun _ => true)).request = some (mkReq OpType.READ 4 2 2 0 0 3 1)
      ∧ IssueMemoryCommands m1 (mkReq OpType.READ 4 2 2 0 0 3 1) = some (true, m2, req2) := by
  obtain ⟨⟨m2, req2, h⟩, _⟩ := IssueMemoryCommands_after_selection
    (closedController 2).construct (sampleParams 2) true _ rfl _
    (SchedReachable.issue _ (mkReq OpType.READ 5 2 1 0 0 7 1) true _ _
      SchedReachable.start (fun _ => by decide) rfl)
    [mkReq OpType.READ 6 0 1 0 0 7 0, mkReq OpType.READ 4 2 2 0 0 3 0] (fun _ => true)
    (mkReq OpType.READ 4 2 2 0 0 3 1) (Or.inr (Or.inr (Or.inr (Or.inr rfl))))
  exact ⟨_, _, _, m2, req2, rfl, rfl, rfl, h⟩

/-! ## HandleRefresh: the blocked path within a call -/

end NVM
